import Mathlib

/-!
# 5-axis RTCP kinematics (`src/grbl/kinematics/rtcp.c`): embedding and properties

The C module is embedded function by function, and so are the segmenters of the two
Cartesian modules (`carteciano2.c`, `carteciana.c`).  Conventions:

* `float` is idealised as an ordered field `α`; rounding is not modelled.
  `fabsf`, `fmaxf` and `ceilf` are `|·|`, `max` and `Int.ceil`; `lroundf` rounds to the
  nearest integer, halfway cases away from zero.
* `sinf`, `cosf`, `sqrtf` and `M_PI` come from a `Libm` record, so that every
  definition stays executable.  The closed statements take `α = ℝ` and the
  record of the real functions `⟨Real.sin, Real.cos, Real.sqrt, Real.pi⟩`.
* A `float[N_AXIS]` array is a function `Nat → α`; only the indices below
  `N_AXIS` are part of the array.  A C function that writes into a caller
  buffer takes the old buffer and returns the new one.
* File-scope and function-scope `static` variables are fields of explicit
  state records that each operation takes and returns.
-/

namespace Rtcp

/-! ## Host constants and library -/

/-- Functions and constant of `<math.h>` used by rtcp.c. -/
structure Libm (α : Type) where
  sinf : α → α
  cosf : α → α
  sqrtf : α → α
  M_PI : α

/-- Modelled from the spec: the axis-index constants `N_AXIS`, `A_AXIS`, `C_AXIS` of grbl's
headers, which are not part of the sources.  The spec (section 3) fixes `X, Y, Z` as the
three linear joints, followed by the rotary axes `A` and `C` and possibly further axes. -/
structure Axes where
  N_AXIS : Nat
  A_AXIS : Nat
  C_AXIS : Nat
  hA : 2 < A_AXIS ∧ A_AXIS < N_AXIS
  hC : 2 < C_AXIS ∧ C_AXIS < N_AXIS
  hAC : A_AXIS ≠ C_AXIS

/-- The layout named in the comment of `rtcp_limits_get_axis_mask`: 0=X, 1=Y, 2=Z, 3=A, 4=C. -/
def axes5 : Axes := ⟨5, 3, 4, by decide, by decide, by decide⟩

def X_AXIS : Nat := 0
def Y_AXIS : Nat := 1
def Z_AXIS : Nat := 2

/-- A `float[N_AXIS]` array. -/
abbrev Vec (α : Type) := Nat → α

/-- The array literal `{x, y, z, a, c}` for the five-axis layout. -/
def vec5 {α : Type} [Zero α] (x y z a c : α) : Vec α :=
  fun i => match i with
    | 0 => x
    | 1 => y
    | 2 => z
    | 3 => a
    | 4 => c
    | _ => 0

/-- `memcpy(dst, src, sizeof(float) * n)`. -/
def memcpy {α : Type} (n : Nat) (dst src : Vec α) : Vec α :=
  fun i => if i < n then src i else dst i

/-- `dst[idx] = v`. -/
def store {α : Type} (dst : Vec α) (idx : Nat) (v : α) : Vec α :=
  fun i => if i = idx then v else dst i

/-! ## Data structures (section 2 of rtcp.c) -/

structure rtcp_settings_t (α : Type) where
  pivot_x : α
  pivot_y : α
  pivot_z : α
  axis_offset_y : α
  axis_offset_z : α

structure rtcp_state_t (α : Type) where
  cfg : rtcp_settings_t α
  last_a : α
  last_c : α
  sin_a : α
  cos_a : α
  sin_c : α
  cos_c : α
  cache_valid : Bool
  trig_cache_tol : α

variable {α : Type} [LinearOrderedField α]

/-- `#define DEG_TO_RAD(d) ((d) * (M_PI / 180.0f))`. -/
def DEG_TO_RAD (L : Libm α) (d : α) : α := d * (L.M_PI / 180)

/-- `#define RAD_TO_DEG(r) ((r) * (180.0f / M_PI))`. -/
def RAD_TO_DEG (L : Libm α) (r : α) : α := r * (180 / L.M_PI)

def MAX_CHORD_ERROR_MM : α := 0.01
def MAX_CHORD_ERROR_G0_MM : α := 0.5
def MAX_ARM_LENGTH_MM : α := 500

/-! ## Trig cache (section 4) -/

def update_trig_cache (L : Libm α) (rtcp : rtcp_state_t α) (a_deg c_deg : α) :
    rtcp_state_t α :=
  if rtcp.cache_valid = false ∨
      |a_deg - rtcp.last_a| > rtcp.trig_cache_tol ∨
      |c_deg - rtcp.last_c| > rtcp.trig_cache_tol then
    let ar := DEG_TO_RAD L a_deg
    let cr := DEG_TO_RAD L c_deg
    { rtcp with
      sin_a := L.sinf ar
      cos_a := L.cosf ar
      sin_c := L.sinf cr
      cos_c := L.cosf cr
      last_a := a_deg
      last_c := c_deg
      cache_valid := true }
  else rtcp

def invalidate_cache (rtcp : rtcp_state_t α) : rtcp_state_t α :=
  { rtcp with cache_valid := false }

/-! ## Kinematic transforms (section 5) -/

/-- The loop `do { idx--; if (idx > Z_AXIS) target[idx] = position[idx]; } while (idx > Z_AXIS);`
entered with the given `idx` (the callers enter it with `N_AXIS`, which is positive). -/
def copy_above_Z : Nat → Vec α → Vec α → Vec α
  | 0, target, _ => target
  | idx + 1, target, position =>
    if idx > Z_AXIS then copy_above_Z idx (store target idx (position idx)) position
    else target

/-- Inverse kinematics, TCP to motor: `transform_from_cartesian(target, position)`.
Returns the module state (the trig cache may be refreshed) and the written `target`. -/
def transform_from_cartesian (ax : Axes) (L : Libm α) (tlo_z : α) (rtcp : rtcp_state_t α)
    (target position : Vec α) : rtcp_state_t α × Vec α :=
  let a_deg := position ax.A_AXIS
  let c_deg := position ax.C_AXIS
  if |a_deg| < 0.001 ∧ |c_deg| < 0.001 then
    (rtcp, memcpy ax.N_AXIS target position)
  else
    let rtcp := update_trig_cache L rtcp a_deg c_deg
    let dy := rtcp.cfg.axis_offset_y
    let dz := rtcp.cfg.axis_offset_z + tlo_z
    let px := position X_AXIS - rtcp.cfg.pivot_x
    let py := position Y_AXIS - rtcp.cfg.pivot_y
    let pz := (position Z_AXIS - tlo_z) - rtcp.cfg.pivot_z
    let xc := px * rtcp.cos_c - py * rtcp.sin_c
    let yc := px * rtcp.sin_c + py * rtcp.cos_c
    let y_rot := yc * rtcp.cos_a - pz * rtcp.sin_a - rtcp.cos_a * dy + rtcp.sin_a * dz + dy
    let z_rot := yc * rtcp.sin_a + pz * rtcp.cos_a - rtcp.sin_a * dy - rtcp.cos_a * dz + dz
    let target := store target X_AXIS (xc + rtcp.cfg.pivot_x)
    let target := store target Y_AXIS (y_rot + rtcp.cfg.pivot_y)
    let target := store target Z_AXIS (z_rot + rtcp.cfg.pivot_z)
    (rtcp, copy_above_Z ax.N_AXIS target position)

/-- Forward kinematics, motor to TCP: `transform_to_cartesian(target, motor_pos)`.
It reads the geometry of the module state and writes no module state. -/
def transform_to_cartesian (ax : Axes) (L : Libm α) (tlo_z : α) (rtcp : rtcp_state_t α)
    (target motor_pos : Vec α) : Vec α :=
  let a_deg := motor_pos ax.A_AXIS
  let c_deg := motor_pos ax.C_AXIS
  if |a_deg| < 0.001 ∧ |c_deg| < 0.001 then
    memcpy ax.N_AXIS target motor_pos
  else
    let ar := DEG_TO_RAD L a_deg
    let cr := DEG_TO_RAD L c_deg
    let sa := L.sinf ar
    let ca := L.cosf ar
    let sc := L.sinf cr
    let cc := L.cosf cr
    let dy := rtcp.cfg.axis_offset_y
    let dz := rtcp.cfg.axis_offset_z + tlo_z
    let px := motor_pos X_AXIS - rtcp.cfg.pivot_x
    let py := motor_pos Y_AXIS - dy - rtcp.cfg.pivot_y
    let pz := motor_pos Z_AXIS - dz - rtcp.cfg.pivot_z
    let yt := ca * py + sa * pz + dy
    let zi := -sa * py + ca * pz + dz
    let xi := cc * px + sc * yt
    let yi := -sc * px + cc * yt
    let target := store target X_AXIS (xi + rtcp.cfg.pivot_x)
    let target := store target Y_AXIS (yi + rtcp.cfg.pivot_y)
    let target := store target Z_AXIS (zi + rtcp.cfg.pivot_z + tlo_z)
    copy_above_Z ax.N_AXIS target motor_pos

/-! ## Geometry helper (section 8) -/

/-- The loop of `get_distance`: `do { idx--; distance += (p0[idx] - p1[idx])^2; } while (idx);`. -/
def get_distance_loop (p0 p1 : Vec α) : Nat → α → α
  | 0, distance => distance
  | idx + 1, distance =>
    get_distance_loop p0 p1 idx (distance + (p0 idx - p1 idx) * (p0 idx - p1 idx))

def get_distance (ax : Axes) (L : Libm α) (p0 p1 : Vec α) : α :=
  L.sqrtf (get_distance_loop p0 p1 ax.N_AXIS 0)

/-! ## Line segmentation (section 9) -/

/-- The bits of `pl_data->condition` that `rtcp_segment_line` uses. -/
structure planner_cond_t where
  target_validated : Bool
  target_valid : Bool
  rapid_motion : Bool

/-- The fields of `plan_line_data_t` that `rtcp_segment_line` uses. -/
structure plan_line_data_t (α : Type) where
  feed_rate : α
  rate_multiplier : α
  condition : planner_cond_t

/-- Host state and host entry points read by the module: the active tool-length offset
`gc_state.modal.tool_length_offset[Z_AXIS]`, and the function pointer
`grbl.check_travel_limits` applied to `sys.soft_limits` and `&sys.work_envelope`
(arguments: the point and `is_cartesian`). -/
structure Host (α : Type) where
  tlo_z : α
  check_travel_limits : Vec α → Bool → Bool

/-- The statics of rtcp.c: the file-scope variables `rtcp`, `rtcp_settings_storage`,
`jog_cancel`, `rtcp_enabled`, and the function-scope statics of `rtcp_segment_line`. -/
structure Module (α : Type) where
  rtcp : rtcp_state_t α
  rtcp_settings_storage : rtcp_settings_t α
  jog_cancel : Bool
  rtcp_enabled : Bool
  iterations : Nat
  segmented : Bool
  distance : α
  delta : Vec α
  segment_target : Vec α
  final_target : Vec α
  mpos : Vec α
  last_motors : Vec α

/-- Number of values of `uint_fast16_t` on the target named in the file header (RP2350,
a 32-bit core, where the type is `unsigned int`). -/
def UINT_FAST16_RANGE : Nat := 2 ^ 32

/-- `iterations--` on a `uint_fast16_t`. -/
def dec_u16 (n : Nat) : Nat := (n + (UINT_FAST16_RANGE - 1)) % UINT_FAST16_RANGE

/-- Locals of the first loop of the init phase. -/
structure delta_acc (α : Type) where
  delta : Vec α
  dist_sq : α
  rot_delta_a : α
  rot_delta_c : α

/-- The loop at lines 1134-1149: per-axis delta, squared linear distance, rotary deltas. -/
def delta_loop (ax : Axes) (target segment_target : Vec α) : Nat → delta_acc α → delta_acc α
  | 0, s => s
  | idx + 1, s =>
    let d := target idx - segment_target idx
    let s := { s with delta := store s.delta idx d }
    let s :=
      if idx ≤ Z_AXIS then { s with dist_sq := s.dist_sq + d * d }
      else if idx = ax.A_AXIS then { s with rot_delta_a := |d| }
      else if idx = ax.C_AXIS then { s with rot_delta_c := |d| }
      else s
    delta_loop ax target segment_target idx s

/-- A loop `idx = n; do { idx--; v[idx] = f idx; } while (idx);`. -/
def fill_down (f : Nat → α) : Nat → Vec α → Vec α
  | 0, v => v
  | idx + 1, v => fill_down f idx (store v idx (f idx))

/-- The loop `for (idx = 0; idx < 3; idx++)` at lines 1188-1192, entered at `idx`. -/
def err_sq_loop (position mpos motor_mid_real : Vec α) (idx : Nat) (err_sq : α) : α :=
  if _h : idx < 3 then
    let motor_mid_interp := (position idx + mpos idx) * 0.5
    let d := motor_mid_real idx - motor_mid_interp
    err_sq_loop position mpos motor_mid_real (idx + 1) (err_sq + d * d)
  else err_sq
termination_by 3 - idx

variable [FloorRing α]

/-- The conversion `(uint_fast16_t)(ceilf(x) * 2.0f)`.  The product is an integer; the
conversion keeps it when it is in range.  (Out of range the C conversion is undefined;
the value kept here is then cut to 2000 by the clamp that follows it.) -/
def cast_ceil_times_two (x : α) : Nat := Int.toNat (Int.ceil x * 2)

/-- Lines 1194-1207 of the init phase: the segment count chosen from the squared midpoint
error `err_sq`, with the safety clamp to `[1, 2000]`. -/
def plan_iterations (L : Libm α) (rapid_motion : Bool) (err_sq : α) : Nat :=
  let tol : α := if rapid_motion then MAX_CHORD_ERROR_G0_MM else MAX_CHORD_ERROR_MM
  let iterations :=
    if err_sq > tol * tol then
      let err := L.sqrtf err_sq
      cast_ceil_times_two (L.sqrtf (err / tol))
    else 1
  let iterations := if iterations < 1 then 1 else iterations
  if iterations > 2000 then 2000 else iterations

/-- Init phase of `rtcp_segment_line` (`init == true`). -/
def segment_init (ax : Axes) (L : Libm α) (H : Host α) (m : Module α)
    (target position : Vec α) (pl_data : plan_line_data_t α) :
    Module α × plan_line_data_t α × Option (Vec α) :=
  let m := { m with jog_cancel := false }
  if m.rtcp_enabled = false then
    let m := { m with mpos := memcpy ax.N_AXIS m.mpos target, iterations := 2, segmented := false }
    let pl_data :=
      if pl_data.condition.target_validated = false then
        { pl_data with condition := { pl_data.condition with
            target_validated := true
            target_valid := H.check_travel_limits target true } }
      else pl_data
    (m, pl_data, some m.mpos)
  else
    let m := { m with final_target := memcpy ax.N_AXIS m.final_target target }
    let r := transform_from_cartesian ax L H.tlo_z m.rtcp m.mpos target
    let m := { m with rtcp := r.1, mpos := r.2 }
    let pl_data :=
      if pl_data.condition.target_validated = false then
        { pl_data with condition := { pl_data.condition with
            target_validated := true
            target_valid := H.check_travel_limits m.mpos false } }
      else pl_data
    let m := { m with
      segment_target := transform_to_cartesian ax L H.tlo_z m.rtcp m.segment_target position }
    let m := { m with last_motors := memcpy ax.N_AXIS m.last_motors position }
    let acc := delta_loop ax target m.segment_target ax.N_AXIS ⟨m.delta, 0, 0, 0⟩
    let m := { m with delta := acc.delta, distance := L.sqrtf acc.dist_sq }
    let max_rot := max acc.rot_delta_a acc.rot_delta_c
    let m := { m with segmented := decide (max_rot > 0.001) }
    let m :=
      if m.segmented then
        let tcp_mid := fill_down (fun idx => (m.segment_target idx + m.final_target idx) * 0.5)
          ax.N_AXIS (fun _ => 0)
        let r := transform_from_cartesian ax L H.tlo_z m.rtcp (fun _ => 0) tcp_mid
        let m := { m with rtcp := r.1 }
        let motor_mid_real := r.2
        let err_sq := err_sq_loop position m.mpos motor_mid_real 0 0
        let iterations := plan_iterations L pl_data.condition.rapid_motion err_sq
        { m with
          iterations := iterations
          delta := fill_down (fun idx => m.delta idx / (iterations : α)) ax.N_AXIS m.delta }
      else
        { m with iterations := 1, segment_target := memcpy ax.N_AXIS m.segment_target m.final_target }
    let m := { m with distance := m.distance / (m.iterations : α) }
    let m := { m with iterations := m.iterations + 1 }
    (m, pl_data, if m.iterations = 0 ∨ m.jog_cancel then none else some m.mpos)

/-- Lines 1274-1275 of the loop phase:
`if (rate_multiplier < 0.5f) rate_multiplier = 0.5f; else if (rate_multiplier > 2.0f) rate_multiplier = 2.0f;`. -/
def clamp_rate_multiplier (rate_multiplier : α) : α :=
  if rate_multiplier < 0.5 then 0.5
  else if rate_multiplier > 2.0 then 2.0
  else rate_multiplier

/-- Loop phase of `rtcp_segment_line` (`init == false`); `target` and `position` are not read. -/
def segment_produce (ax : Axes) (L : Libm α) (H : Host α) (m : Module α)
    (pl_data : plan_line_data_t α) : Module α × plan_line_data_t α × Option (Vec α) :=
  let m := { m with iterations := dec_u16 m.iterations }
  let m :=
    if m.segmented ∧ m.iterations > 1 then
      { m with segment_target :=
          fill_down (fun idx => m.segment_target idx + m.delta idx) ax.N_AXIS m.segment_target }
    else
      { m with segment_target := memcpy ax.N_AXIS m.segment_target m.final_target }
  let r := transform_from_cartesian ax L H.tlo_z m.rtcp m.mpos m.segment_target
  let m := { m with rtcp := r.1, mpos := r.2 }
  let pl_data :=
    if pl_data.condition.rapid_motion = false ∧ m.distance > 0.0001 then
      let motor_distance := get_distance ax L m.mpos m.last_motors
      let rate_multiplier := motor_distance / m.distance
      let rate_multiplier := clamp_rate_multiplier rate_multiplier
      { pl_data with
        feed_rate := pl_data.feed_rate * rate_multiplier
        rate_multiplier := 1.0 / rate_multiplier }
    else pl_data
  let m := { m with last_motors := memcpy ax.N_AXIS m.last_motors m.mpos }
  (m, pl_data, if m.iterations = 0 ∨ m.jog_cancel then none else some m.mpos)

/-- `rtcp_segment_line(target, position, pl_data, init)`: the new statics, the new
`*pl_data`, and the returned pointer (`none` for `NULL`, `some mpos.values` otherwise). -/
def rtcp_segment_line (ax : Axes) (L : Libm α) (H : Host α) (m : Module α)
    (target position : Vec α) (pl_data : plan_line_data_t α) (init : Bool) :
    Module α × plan_line_data_t α × Option (Vec α) :=
  if init then segment_init ax L H m target position pl_data
  else segment_produce ax L H m pl_data

/-- `on_jog_cancel_handler`: sets the flag (the chained handler is host code). -/
def on_jog_cancel_handler (m : Module α) : Module α := { m with jog_cancel := true }

/-! ## Settings and mode control (sections 10 and 11.1) -/

/-- `rtcp_kinematics_settings_changed`: reload the geometry, recompute the cache tolerance
from the pivot distance, invalidate the cache. -/
def rtcp_kinematics_settings_changed (L : Libm α) (m : Module α) : Module α :=
  let rtcp := { m.rtcp with cfg := m.rtcp_settings_storage }
  let arm := L.sqrtf (rtcp.cfg.pivot_x * rtcp.cfg.pivot_x +
                      rtcp.cfg.pivot_y * rtcp.cfg.pivot_y +
                      rtcp.cfg.pivot_z * rtcp.cfg.pivot_z)
  let arm := if arm < MAX_ARM_LENGTH_MM then MAX_ARM_LENGTH_MM else arm
  let rtcp := { rtcp with trig_cache_tol := RAD_TO_DEG L (MAX_CHORD_ERROR_MM / arm) }
  { m with rtcp := invalidate_cache rtcp }

/-- What `rtcp_mcode_execute` does to the statics for the M-code `user_mcode`, and whether
it writes the warning message.  `pos_a`, `pos_c` are `sys.position[A_AXIS]`,
`sys.position[C_AXIS]`; `spm_a`, `spm_c` the `steps_per_mm` settings of those axes.
An M-code other than 450 and 451 goes to the chained handler, which is host code. -/
def rtcp_mcode_execute (m : Module α) (user_mcode : Nat) (pos_a pos_c : Int)
    (spm_a spm_c : α) : Module α × Bool :=
  if user_mcode = 450 ∧ m.rtcp_enabled = true then
    let a_pos := (pos_a : α) / spm_a
    let warn := decide (|a_pos| > 0.1)
    let c_pos := (pos_c : α) / spm_c
    let warn := warn || decide (|c_pos| > 0.1)
    ({ m with rtcp_enabled := false, rtcp := invalidate_cache m.rtcp }, warn)
  else if user_mcode = 450 then (m, false)
  else if user_mcode = 451 then
    ({ m with rtcp_enabled := true, rtcp := invalidate_cache m.rtcp }, false)
  else (m, false)

/-- The statics at program start: `rtcp = {0}`, `jog_cancel = false`,
`rtcp_enabled = false`, and the zero-initialised remaining statics. -/
def module_boot : Module α :=
  { rtcp := ⟨⟨0, 0, 0, 0, 0⟩, 0, 0, 0, 0, 0, 0, false, 0⟩
    rtcp_settings_storage := ⟨0, 0, 0, 0, 0⟩
    jog_cancel := false
    rtcp_enabled := false
    iterations := 0
    segmented := false
    distance := 0
    delta := fun _ => 0
    segment_target := fun _ => 0
    final_target := fun _ => 0
    mpos := fun _ => 0
    last_motors := fun _ => 0 }

/-! ## Steps to TCP (section 5, `transform_steps_to_cartesian`) -/

/-- `transform_steps_to_cartesian(position, steps)`: the step counters divided by
`settings.axis[idx].steps_per_mm` (the array `steps_per_mm` here), then the forward
transform, or a plain copy when RTCP is off. -/
def transform_steps_to_cartesian (ax : Axes) (L : Libm α) (tlo_z : α) (m : Module α)
    (steps_per_mm : Vec α) (position : Vec α) (steps : Nat → Int) : Vec α :=
  let mpos := fill_down (fun idx => (steps idx : α) / steps_per_mm idx) ax.N_AXIS (fun _ => 0)
  if m.rtcp_enabled = false then memcpy ax.N_AXIS position mpos
  else transform_to_cartesian ax L tlo_z m.rtcp position mpos

/-! ## Travel limits (section 7) -/

/-- Modelled from the spec: the host macro `bit(n)`, which the spec (section 4.6) gives as
`1 << idx`. -/
def bit (n : Nat) : Nat := 1 <<< n

/-- Modelled from the spec: the host macro `bit_istrue(x, mask)`, the test that an axis
"is homed" or "is in the mask" (section 4.5): `(x & mask) != 0`. -/
def bit_istrue (x mask : Nat) : Bool := decide (x &&& mask ≠ 0)

/-- The fields `min.values` and `max.values` of `work_envelope_t`. -/
structure work_envelope_t (α : Type) where
  min : Vec α
  max : Vec α

/-- The fields of `sys` read by the limit hooks: `sys.homed.mask` and the mask of
`sys.soft_limits`. -/
structure system_t where
  homed_mask : Nat
  soft_limits : Nat

/-- Type of the saved pointer `orig_check_travel_limits`
(`target`, `axes.mask`, `is_cartesian`, `envelope`). -/
abbrev check_travel_limits_ptr (α : Type) := Vec α → Nat → Bool → work_envelope_t α → Bool

/-- The loop of `rtcp_check_travel_limits` entered with `idx`:
`do { idx--; if (homed and masked) if (out of range) return false; } while (idx);`
with `true` standing for "fell through". -/
def limits_loop (homed_mask axes_mask : Nat) (motors : Vec α) (envelope : work_envelope_t α) :
    Nat → Bool
  | 0 => true
  | idx + 1 =>
    if bit_istrue homed_mask (bit idx) = true ∧ bit_istrue axes_mask (bit idx) = true then
      if motors idx < envelope.min idx ∨ motors idx > envelope.max idx then false
      else limits_loop homed_mask axes_mask motors envelope idx
    else limits_loop homed_mask axes_mask motors envelope idx

/-- `rtcp_check_travel_limits(target, axes, is_cartesian, envelope)`: the new statics (the
inverse transform may refresh the trig cache) and the returned flag. -/
def rtcp_check_travel_limits (ax : Axes) (L : Libm α) (tlo_z : α) (sys : system_t)
    (orig_check_travel_limits : Option (check_travel_limits_ptr α)) (m : Module α)
    (target : Vec α) (axes : Nat) (is_cartesian : Bool) (envelope : work_envelope_t α) :
    Module α × Bool :=
  if m.rtcp_enabled = false then
    (m, match orig_check_travel_limits with
        | some f => f target axes is_cartesian envelope
        | none => is_cartesian)
  else
    let r :=
      if is_cartesian = true then
        transform_from_cartesian ax L tlo_z m.rtcp (fun _ => 0) target
      else (m.rtcp, memcpy ax.N_AXIS (fun _ => 0) target)
    let m := { m with rtcp := r.1 }
    let motors := r.2
    if sys.homed_mask ≠ 0 ∧
        limits_loop sys.homed_mask axes motors envelope ax.N_AXIS = false then (m, false)
    else
      match orig_check_travel_limits with
      | some f =>
        if is_cartesian = true ∧ f target axes true envelope = false then (m, false)
        else (m, true)
      | none => (m, true)

/-- `BISECTION_ITERATIONS`. -/
def BISECTION_ITERATIONS : Nat := 16

/-- The statics and the locals `start`, `end`, `mid`, `best` of `rtcp_apply_travel_limits`. -/
structure bisect_state (α : Type) where
  m : Module α
  start : Vec α
  end_ : Vec α
  mid : Vec α
  best : Vec α

/-- One pass of the body of the `for` loop of `rtcp_apply_travel_limits`. -/
def bisection_step (ax : Axes) (L : Libm α) (tlo_z : α) (sys : system_t)
    (orig_check_travel_limits : Option (check_travel_limits_ptr α))
    (envelope : work_envelope_t α) (s : bisect_state α) : bisect_state α :=
  let mid := fill_down (fun i => 0.5 * (s.start i + s.end_ i)) ax.N_AXIS s.mid
  let r := rtcp_check_travel_limits ax L tlo_z sys orig_check_travel_limits s.m mid
    sys.soft_limits true envelope
  if r.2 = true then
    { m := r.1, start := memcpy ax.N_AXIS s.start mid, end_ := s.end_, mid := mid,
      best := memcpy ax.N_AXIS s.best mid }
  else
    { m := r.1, start := s.start, end_ := memcpy ax.N_AXIS s.end_ mid, mid := mid,
      best := s.best }

/-- The `for` loop of `rtcp_apply_travel_limits` with `n` passes left. -/
def bisection_loop (ax : Axes) (L : Libm α) (tlo_z : α) (sys : system_t)
    (orig_check_travel_limits : Option (check_travel_limits_ptr α))
    (envelope : work_envelope_t α) : Nat → bisect_state α → bisect_state α
  | 0, s => s
  | n + 1, s =>
    bisection_loop ax L tlo_z sys orig_check_travel_limits envelope n
      (bisection_step ax L tlo_z sys orig_check_travel_limits envelope s)

/-- `rtcp_apply_travel_limits(target, position, envelope)`; `position = none` is the `NULL`
pointer.  Returns the new statics and the written `target`. -/
def rtcp_apply_travel_limits (ax : Axes) (L : Libm α) (tlo_z : α) (sys : system_t)
    (orig_check_travel_limits : Option (check_travel_limits_ptr α)) (m : Module α)
    (target : Vec α) (position : Option (Vec α)) (envelope : work_envelope_t α) :
    Module α × Vec α :=
  match position with
  | none => (m, target)
  | some position =>
    if sys.homed_mask = 0 then (m, target)
    else
      let r := rtcp_check_travel_limits ax L tlo_z sys orig_check_travel_limits m target
        sys.soft_limits true envelope
      if r.2 = true then (r.1, target)
      else
        let start := memcpy ax.N_AXIS (fun _ => 0) position
        let s := bisection_loop ax L tlo_z sys orig_check_travel_limits envelope
          BISECTION_ITERATIONS
          { m := r.1, start := start, end_ := memcpy ax.N_AXIS (fun _ => 0) target,
            mid := fun _ => 0, best := memcpy ax.N_AXIS (fun _ => 0) start }
        (s.m, memcpy ax.N_AXIS target s.best)

/-- The cached sines and cosines are those of the cached angles (stated in section 3 of
the spec as the invariant of a valid cache). -/
def CacheInv (L : Libm α) (rtcp : rtcp_state_t α) : Prop :=
  rtcp.cache_valid = true →
    rtcp.sin_a = L.sinf (DEG_TO_RAD L rtcp.last_a) ∧
    rtcp.cos_a = L.cosf (DEG_TO_RAD L rtcp.last_a) ∧
    rtcp.sin_c = L.sinf (DEG_TO_RAD L rtcp.last_c) ∧
    rtcp.cos_c = L.cosf (DEG_TO_RAD L rtcp.last_c)

/-- A request to the trig cache at the angles `(a, c)` will end with the sines and cosines
of `(a, c)`: the cache is consistent and, when valid, its sample is `(a, c)` itself or
farther than the tolerance from it on one of the two angles. -/
def FreshAt (L : Libm α) (rtcp : rtcp_state_t α) (a c : α) : Prop :=
  CacheInv L rtcp ∧
  (rtcp.cache_valid = true →
    (rtcp.last_a = a ∧ rtcp.last_c = c) ∨
    |a - rtcp.last_a| > rtcp.trig_cache_tol ∨ |c - rtcp.last_c| > rtcp.trig_cache_tol)

/-- Modelled from the spec (section 4.1): the inverse transform without the cache, with
the sines and cosines of the angles `a_deg`, `c_deg` (degrees, converted to radians); the
axes beyond `Z` pass through. -/
def spec_uncached_inverse (L : Libm α) (cfg : rtcp_settings_t α) (tlo_z : α)
    (a_deg c_deg : α) (P : Vec α) : Vec α :=
  let a := DEG_TO_RAD L a_deg
  let c := DEG_TO_RAD L c_deg
  let dy := cfg.axis_offset_y
  let dz := cfg.axis_offset_z + tlo_z
  let px := P X_AXIS - cfg.pivot_x
  let py := P Y_AXIS - cfg.pivot_y
  let pz := (P Z_AXIS - tlo_z) - cfg.pivot_z
  let xc := px * L.cosf c - py * L.sinf c
  let yc := px * L.sinf c + py * L.cosf c
  let zc := pz
  let y' := yc * L.cosf a - zc * L.sinf a - L.cosf a * dy + L.sinf a * dz + dy
  let z' := yc * L.sinf a + zc * L.cosf a - L.sinf a * dy - L.cosf a * dz + dz
  fun i =>
    if i = X_AXIS then xc + cfg.pivot_x
    else if i = Y_AXIS then y' + cfg.pivot_y
    else if i = Z_AXIS then z' + cfg.pivot_z
    else P i

/-- One call of the inverse transform: the tool-length offset active at the call, the
output buffer and the point. -/
structure inverse_call (α : Type) where
  tlo_z : α
  target : Vec α
  position : Vec α

/-- The trig cache after a sequence of calls of the inverse transform. -/
def run_inverse_calls (ax : Axes) (L : Libm α) (rtcp : rtcp_state_t α)
    (calls : List (inverse_call α)) : rtcp_state_t α :=
  calls.foldl (fun r c => (transform_from_cartesian ax L c.tlo_z r c.target c.position).1) rtcp

/-- The point `P` lies on the segment from `pos` to `tgt` (indices below `N_AXIS`). -/
def OnSeg (ax : Axes) (pos tgt P : Vec α) : Prop :=
  ∃ t : α, 0 ≤ t ∧ t ≤ 1 ∧ ∀ i, i < ax.N_AXIS → P i = pos i + t * (tgt i - pos i)

/-- Invariant of the bisection after `j` passes, for the segment from `pos` to `tgt` and a
property `Q` of the statics: `start` and `end` are the points at the parameters `k / 2^j`
and `(k + 1) / 2^j`, `best` is `start`; unless `k = 0`, `best` passed the check in some
statics with `Q`; unless `k + 1 = 2^j`, `end` failed it in some statics with `Q`. -/
def BInv (ax : Axes) (L : Libm α) (tlo_z : α) (sys : system_t)
    (orig : Option (check_travel_limits_ptr α)) (envelope : work_envelope_t α)
    (Q : Module α → Prop) (pos tgt : Vec α) (j : Nat) (s : bisect_state α) : Prop :=
  Q s.m ∧ ∃ k : Nat, k < 2 ^ j ∧
    (∀ i, i < ax.N_AXIS → s.start i = pos i + (k : α) / 2 ^ j * (tgt i - pos i)) ∧
    (∀ i, i < ax.N_AXIS → s.end_ i = pos i + ((k : α) + 1) / 2 ^ j * (tgt i - pos i)) ∧
    (∀ i, i < ax.N_AXIS → s.best i = s.start i) ∧
    (k = 0 ∨ ∃ m' P, Q m' ∧ (∀ i, i < ax.N_AXIS → P i = s.best i) ∧
      (rtcp_check_travel_limits ax L tlo_z sys orig m' P sys.soft_limits true envelope).2
        = true) ∧
    (k + 1 = 2 ^ j ∨ ∃ m' P, Q m' ∧ (∀ i, i < ax.N_AXIS → P i = s.end_ i) ∧
      (rtcp_check_travel_limits ax L tlo_z sys orig m' P sys.soft_limits true envelope).2
        = false)

/-! ## Calling sequence of the segmenter -/

/-- The produce calls that follow an init call, as the comment of `rtcp_segment_line`
shows them in `mc_line`: `while (segment_line(target, NULL, pl_data, false)) { ... }`.
The call number `k` finds `pls k` in `*pl_data` (whatever the host left there), and
`cancel k` tells whether `on_jog_cancel_handler` ran since the previous call.
With enough fuel the result is the list of points returned before the first `NULL`
and the statics after the call that returned `NULL`; `none` means the fuel ran out. -/
def produce_until_null (ax : Axes) (L : Libm α) (H : Host α)
    (pls : Nat → plan_line_data_t α) (cancel : Nat → Bool) :
    Nat → Nat → Module α → Option (List (Vec α) × Module α)
  | 0, _, _ => none
  | fuel + 1, k, m =>
    let m := if cancel k then on_jog_cancel_handler m else m
    let r := rtcp_segment_line ax L H m (fun _ => 0) (fun _ => 0) (pls k) false
    match r.2.2 with
    | none => some ([], r.1)
    | some p =>
      (produce_until_null ax L H pls cancel fuel (k + 1) r.1).map (fun t => (p :: t.1, t.2))

/-- One move: the init call for `target` from the joint position `position`, then the
produce calls until the first `NULL`. -/
def segment_move (ax : Axes) (L : Libm α) (H : Host α) (pl_init : plan_line_data_t α)
    (pls : Nat → plan_line_data_t α) (cancel : Nat → Bool) (fuel : Nat) (m : Module α)
    (target position : Vec α) : Option (List (Vec α) × Module α) :=
  produce_until_null ax L H pls cancel fuel 0
    (rtcp_segment_line ax L H m target position pl_init true).1

/-! ## Homing hooks (section 6) -/

/-- The fields of `sys` written by the homing hooks: the joint counters `sys.position`
(`int32_t` steps) and `sys.home_position`. -/
structure sys_position_t (α : Type) where
  position : Nat → Int
  home_position : Vec α

/-- The host settings read by the homing hook: `settings.homing.flags.force_set_origin`,
`settings.homing.dir_mask.value`, `settings.axis[idx].max_travel` and
`settings.axis[idx].steps_per_mm`. -/
structure settings_t (α : Type) where
  force_set_origin : Bool
  dir_mask : Nat
  max_travel : Vec α
  steps_per_mm : Vec α

/-- The `float` sum and product as the target computes them (the exact result rounded to
`float`), for the one function of the module that rounds a `float` result to an integer
counter, where the rounding of the operands shows in the count.  Under the idealisation
of the header they are the sum and the product of `α`. -/
structure float_ops (α : Type) where
  add : α → α → α
  mul : α → α → α

/-- The nearest integer to `x`, halfway cases away from zero: the value of `lroundf` of
`<math.h>` before it is returned as a `long`. -/
def lroundf (x : α) : Int :=
  if 0 ≤ x then Int.floor (x + 1 / 2) else Int.ceil (x - 1 / 2)

/-- The integer `z` as a 32-bit signed counter (`long` and `int32_t` on the target): `z`
itself when `-2^31 ≤ z < 2^31`, wrapped modulo `2^32` otherwise.  (For a rounded value out
of the range of `long` C leaves the result of `lroundf` unspecified; whatever it is, it
lies in the 32-bit range.) -/
def to_int32 (z : Int) : Int := (z + 2 ^ 31) % 2 ^ 32 - 2 ^ 31

/-- `rtcp_limits_get_axis_mask(idx)`. -/
def rtcp_limits_get_axis_mask (idx : Nat) : Nat := bit idx

/-- `rtcp_limits_set_target_pos(idx)`: `sys.position[idx] = 0`. -/
def rtcp_limits_set_target_pos (sys : sys_position_t α) (idx : Nat) : sys_position_t α :=
  { sys with position := store sys.position idx 0 }

/-- The loop of the branch `force_set_origin` of `rtcp_limits_set_machine_positions`,
entered with `idx`: `do { if (cycle.mask & bit(--idx)) { ... = 0; ... = 0.0f; } } while(idx);`. -/
def set_origin_loop (cycle : Nat) : Nat → sys_position_t α → sys_position_t α
  | 0, sys => sys
  | idx + 1, sys =>
    if cycle &&& bit idx ≠ 0 then
      set_origin_loop cycle idx
        { position := store sys.position idx 0
          home_position := store sys.home_position idx 0 }
    else set_origin_loop cycle idx sys

/-- The loop of the other branch of `rtcp_limits_set_machine_positions`, entered with
`idx`; `pulloff` is the array returned by the host function `limits_homing_pulloff(NULL)`. -/
def set_home_loop (fp : float_ops α) (settings : settings_t α) (pulloff : Vec α)
    (cycle : Nat) : Nat → sys_position_t α → sys_position_t α
  | 0, sys => sys
  | idx + 1, sys =>
    if cycle &&& bit idx ≠ 0 then
      let home_position := store sys.home_position idx
        (if bit_istrue settings.dir_mask (bit idx) = true then
          fp.add (settings.max_travel idx) (pulloff idx)
        else -pulloff idx)
      set_home_loop fp settings pulloff cycle idx
        { position := store sys.position idx
            (to_int32 (lroundf (fp.mul (home_position idx) (settings.steps_per_mm idx))))
          home_position := home_position }
    else set_home_loop fp settings pulloff cycle idx sys

/-- `rtcp_limits_set_machine_positions(cycle)`: the new statics of the module (the cache is
invalidated) and the new counters and home positions. -/
def rtcp_limits_set_machine_positions (ax : Axes) (fp : float_ops α) (settings : settings_t α)
    (pulloff : Vec α) (m : Module α) (sys : sys_position_t α) (cycle : Nat) :
    Module α × sys_position_t α :=
  let sys :=
    if settings.force_set_origin = true then set_origin_loop cycle ax.N_AXIS sys
    else set_home_loop fp settings pulloff cycle ax.N_AXIS sys
  ({ m with rtcp := invalidate_cache m.rtcp }, sys)

/-! ## Settings storage and start-up (sections 10 and 13) -/

/-- `rtcp_settings_restore`: the stored geometry becomes zero (it is then written to the
non-volatile memory, which is host state). -/
def rtcp_settings_restore (m : Module α) : Module α :=
  { m with rtcp_settings_storage := ⟨0, 0, 0, 0, 0⟩ }

/-- `rtcp_settings_load`; `nvs` is the record that `hal.nvs.memcpy_from_nvs` delivers,
`none` when the transfer does not end with `NVS_TransferResult_OK`. -/
def rtcp_settings_load (L : Libm α) (nvs : Option (rtcp_settings_t α)) (m : Module α) :
    Module α :=
  let m :=
    match nvs with
    | some s => { m with rtcp_settings_storage := s }
    | none => rtcp_settings_restore m
  rtcp_kinematics_settings_changed L m

/-- `rtcp_5axis_init`, as far as the statics of the module go; `nvs_alloc_ok` tells whether
`nvs_alloc` returned an address. -/
def rtcp_5axis_init (L : Libm α) (nvs_alloc_ok : Bool) (nvs : Option (rtcp_settings_t α))
    (m : Module α) : Module α :=
  if nvs_alloc_ok = true then rtcp_settings_load L nvs m else m

/-! ## The entry points of the module as seen by the host -/

/-- One call of the host into the module, with the arguments and the host data that the
called function reads.  `setting_write` is the settings system storing values through the
pointers of `kinematics_settings` into `rtcp_settings_storage`; the remaining constructors
carry the name of the function of rtcp.c they stand for. -/
inductive module_call (α : Type) where
  | transform_from_cartesian (tlo_z : α) (target position : Vec α)
  | transform_steps_to_cartesian (tlo_z : α) (steps_per_mm position : Vec α)
      (steps : Nat → Int)
  | rtcp_segment_line (H : Host α) (target position : Vec α) (pl_data : plan_line_data_t α)
      (init : Bool)
  | rtcp_limits_get_axis_mask (idx : Nat)
  | rtcp_limits_set_target_pos (sys : sys_position_t α) (idx : Nat)
  | rtcp_limits_set_machine_positions (fp : float_ops α) (settings : settings_t α)
      (pulloff : Vec α) (sys : sys_position_t α) (cycle : Nat)
  | rtcp_check_travel_limits (tlo_z : α) (sys : system_t)
      (orig : Option (check_travel_limits_ptr α)) (target : Vec α) (axes : Nat)
      (is_cartesian : Bool) (envelope : work_envelope_t α)
  | rtcp_apply_travel_limits (tlo_z : α) (sys : system_t)
      (orig : Option (check_travel_limits_ptr α)) (target : Vec α)
      (position : Option (Vec α)) (envelope : work_envelope_t α)
  | on_jog_cancel_handler
  | setting_write (s : rtcp_settings_t α)
  | rtcp_kinematics_settings_changed
  | rtcp_core_settings_changed
  | rtcp_settings_save
  | rtcp_settings_restore
  | rtcp_settings_load (nvs : Option (rtcp_settings_t α))
  | report_options
  | rtcp_realtime_report
  | rtcp_mcode_check
  | rtcp_mcode_validate
  | rtcp_mcode_execute (user_mcode : Nat) (pos_a pos_c : Int) (spm_a spm_c : α)
  | rtcp_info (tlo_z : α) (steps_per_mm : Vec α) (steps : Nat → Int)

/-- The statics of the module after the call `c` made in the statics `m`.  The functions
that only read the statics (`transform_steps_to_cartesian` and `rtcp_info`, which run the
forward transform, the reports, the M-code check and validation, the two homing hooks that
write `sys.position` only, and the chaining functions) leave them as they are. -/
def run_call (ax : Axes) (L : Libm α) (m : Module α) : module_call α → Module α
  | .transform_from_cartesian tlo_z target position =>
    { m with rtcp := (transform_from_cartesian ax L tlo_z m.rtcp target position).1 }
  | .transform_steps_to_cartesian _ _ _ _ => m
  | .rtcp_segment_line H target position pl_data init =>
    (rtcp_segment_line ax L H m target position pl_data init).1
  | .rtcp_limits_get_axis_mask _ => m
  | .rtcp_limits_set_target_pos _ _ => m
  | .rtcp_limits_set_machine_positions fp settings pulloff sys cycle =>
    (rtcp_limits_set_machine_positions ax fp settings pulloff m sys cycle).1
  | .rtcp_check_travel_limits tlo_z sys orig target axes is_cartesian envelope =>
    (rtcp_check_travel_limits ax L tlo_z sys orig m target axes is_cartesian envelope).1
  | .rtcp_apply_travel_limits tlo_z sys orig target position envelope =>
    (rtcp_apply_travel_limits ax L tlo_z sys orig m target position envelope).1
  | .on_jog_cancel_handler => on_jog_cancel_handler m
  | .setting_write s => { m with rtcp_settings_storage := s }
  | .rtcp_kinematics_settings_changed => rtcp_kinematics_settings_changed L m
  | .rtcp_core_settings_changed => m
  | .rtcp_settings_save => m
  | .rtcp_settings_restore => rtcp_settings_restore m
  | .rtcp_settings_load nvs => rtcp_settings_load L nvs m
  | .report_options => m
  | .rtcp_realtime_report => m
  | .rtcp_mcode_check => m
  | .rtcp_mcode_validate => m
  | .rtcp_mcode_execute user_mcode pos_a pos_c spm_a spm_c =>
    (rtcp_mcode_execute m user_mcode pos_a pos_c spm_a spm_c).1
  | .rtcp_info _ _ _ => m

/-! ## The Cartesian modules (carteciano2.c and carteciana.c) -/

/-- The function-scope statics `iterations` and `trsf` of `cartesian2_segment_line`
(carteciano2.c) and of `kinematics_segment_line` (carteciana.c). -/
structure cartesian_statics (α : Type) where
  iterations : Nat
  trsf : Vec α

/-- `iterations--` on a `uint_fast8_t` with `range` values (256 or more, depending on the
platform). -/
def dec_u8 (range : Nat) (n : Nat) : Nat := (n + (range - 1)) % range

/-- `cartesian2_transform_from_cartesian(target, position)` of carteciano2.c:
`do { idx--; target[idx] = position[idx]; } while(idx);`. -/
def cartesian2_transform_from_cartesian (ax : Axes) (target position : Vec α) : Vec α :=
  fill_down (fun idx => position idx) ax.N_AXIS target

/-- `cartesian2_segment_line(target, position, pl_data, init)` of carteciano2.c: the new
statics and the returned pointer (`none` for `NULL`, `some trsf` otherwise).  `position`
and `pl_data` are not used by the function. -/
def cartesian2_segment_line (ax : Axes) (range : Nat) (s : cartesian_statics α)
    (target : Vec α) (init : Bool) : cartesian_statics α × Option (Vec α) :=
  let s :=
    if init = true then
      { iterations := 2, trsf := cartesian2_transform_from_cartesian ax s.trsf target }
    else s
  ({ s with iterations := dec_u8 range s.iterations },
    if s.iterations = 0 then none else some s.trsf)

/-- The loop `for(idx = X_AXIS; idx < N_AXIS; idx++) target[idx] = position[idx];` of
carteciana.c, entered at `idx`. -/
def copy_up (n : Nat) (position : Vec α) (idx : Nat) (target : Vec α) : Vec α :=
  if _h : idx < n then copy_up n position (idx + 1) (store target idx (position idx))
  else target
termination_by n - idx

/-- `transform_from_cartesian(target, position)` of carteciana.c. -/
def Carteciana.transform_from_cartesian (ax : Axes) (target position : Vec α) : Vec α :=
  copy_up ax.N_AXIS position X_AXIS target

/-- `kinematics_segment_line(target, position, pl_data, init)` of carteciana.c. -/
def Carteciana.kinematics_segment_line (ax : Axes) (range : Nat) (s : cartesian_statics α)
    (target : Vec α) (init : Bool) : cartesian_statics α × Option (Vec α) :=
  let s :=
    if init = true then
      { iterations := 2, trsf := Carteciana.transform_from_cartesian ax s.trsf target }
    else s
  ({ s with iterations := dec_u8 range s.iterations },
    if s.iterations = 0 then none else some s.trsf)

/-! ## Distances used by the statements on the cache error -/

/-- Squared Euclidean distance over X, Y, Z of two points. -/
def xyz_dist_sq (P Q : Vec α) : α :=
  (P X_AXIS - Q X_AXIS) ^ 2 + (P Y_AXIS - Q Y_AXIS) ^ 2 + (P Z_AXIS - Q Z_AXIS) ^ 2

/-- The joint X of the Cartesian point `P` as the inverse transform computes it in the
cache state `rtcp` (on the fast path it is the X of `P`). -/
def joint_x (ax : Axes) (L : Libm α) (tlo_z : α) (rtcp : rtcp_state_t α) (P : Vec α) : α :=
  (transform_from_cartesian ax L tlo_z rtcp (fun _ => 0) P).2 X_AXIS

/-! ## The passes of the bisection -/

/-- The statics and the locals of `rtcp_apply_travel_limits` when its `for` loop is
entered: the statics left by the check of the destination, `start` and `best` the
position, `end` the destination. -/
def bisection_entry (ax : Axes) (L : Libm α) (tlo_z : α) (sys : system_t)
    (orig_check_travel_limits : Option (check_travel_limits_ptr α)) (m : Module α)
    (target position : Vec α) (envelope : work_envelope_t α) : bisect_state α :=
  { m := (rtcp_check_travel_limits ax L tlo_z sys orig_check_travel_limits m target
      sys.soft_limits true envelope).1
    start := memcpy ax.N_AXIS (fun _ => 0) position
    end_ := memcpy ax.N_AXIS (fun _ => 0) target
    mid := fun _ => 0
    best := memcpy ax.N_AXIS (fun _ => 0) (memcpy ax.N_AXIS (fun _ => 0) position) }

/-- The midpoint that the pass of the loop entered with the locals `s` computes and hands
to `rtcp_check_travel_limits` (in the statics `s.m`). -/
def bisection_mid (ax : Axes) (s : bisect_state α) : Vec α :=
  fill_down (fun i => 0.5 * (s.start i + s.end_ i)) ax.N_AXIS s.mid

/-! ## Rounding to `float` -/

/-- The integer nearest to `q`, halfway cases to the even one. -/
def round_half_even (q : α) : Int :=
  if q - (Int.floor q : α) < 1 / 2 then Int.floor q
  else if 1 / 2 < q - (Int.floor q : α) then Int.floor q + 1
  else if Int.floor q % 2 = 0 then Int.floor q
  else Int.floor q + 1

/-- The `float` (IEEE 754 binary32, round to nearest, ties to even) nearest to a positive
`x` in the normal range: with `2^e ≤ x < 2^(e+1)`, the multiple of `2^(e-23)` nearest to
`x`.  Zero for `x ≤ 0` (the values rounded below are square roots); the subnormal range
and overflow are not modelled. -/
def round_binary32 (x : α) : α :=
  if x ≤ 0 then 0
  else (round_half_even (x / 2 ^ (Int.log 2 x - 23)) : α) * 2 ^ (Int.log 2 x - 23)

/-! ## Sequences of calls -/

/-- The statics after the calls `cs` of the host into the module, made one after the
other from the statics `m`. -/
def run_calls (ax : Axes) (L : Libm α) (m : Module α) (cs : List (module_call α)) : Module α :=
  cs.foldl (run_call ax L) m

/-- The statics after `k` produce calls in a row with no jog cancel in between; the call
number `j` (counted from 0) finds `pls j` in `*pl_data`. -/
def after_produce_calls (ax : Axes) (L : Libm α) (H : Host α)
    (pls : Nat → plan_line_data_t α) (m : Module α) : Nat → Module α
  | 0 => m
  | k + 1 =>
    (rtcp_segment_line ax L H (after_produce_calls ax L H pls m k) (fun _ => 0) (fun _ => 0)
      (pls k) false).1

/-! ## Scenarios used by the closed statements below -/

/-- Default geometry loaded (`rtcp_settings_load` at start-up), then one inverse
transform at `A = 90`, `C = 0`: the cache holds the sample `(90, 0)`. -/
def c1_state (L : Libm α) : rtcp_state_t α :=
  (transform_from_cartesian axes5 L 0 (rtcp_kinematics_settings_changed L module_boot).rtcp
    (fun _ => 0) (vec5 0 0 0 90 0)).1

/-- In the state `c1_state`: inverse then forward transform of `(0, 100, 0, 90.001, 0)`. -/
def c1_round_trip (L : Libm α) : Vec α :=
  let r := transform_from_cartesian axes5 L 0 (c1_state L) (fun _ => 0) (vec5 0 100 0 90.001 0)
  transform_to_cartesian axes5 L 0 r.1 (fun _ => 0) r.2

/-- Geometry of the concrete scenarios of the spec (section 8): pivot (100, 100, 100),
axis offsets zero. -/
def scenario_cfg : rtcp_settings_t α := ⟨100, 100, 100, 0, 0⟩

/-- The statics after start-up with the scenario geometry stored in the settings
(`rtcp_settings_load` runs `rtcp_kinematics_settings_changed`). -/
def scenario_module (L : Libm α) : Module α :=
  rtcp_kinematics_settings_changed L { module_boot with rtcp_settings_storage := scenario_cfg }

/-- Start-up with the default (all zero) geometry, then M451: RTCP on, cache invalid. -/
def module_on (L : Libm α) : Module α :=
  (rtcp_mcode_execute (rtcp_kinematics_settings_changed L module_boot) 451 0 0 1 1).1

/-- Start-up with the scenario geometry, then M451. -/
def scenario_module_on (L : Libm α) : Module α :=
  (rtcp_mcode_execute (scenario_module L) 451 0 0 1 1).1

/-- `module_on` after one inverse transform at `A = 90`, `C = 0` (for instance a
travel-limit check of a Cartesian point): the cache holds the sample `(90, 0)`. -/
def c9_module (L : Libm α) : Module α :=
  { module_on L with
    rtcp := (transform_from_cartesian axes5 L 0 (module_on L).rtcp (fun _ => 0)
      (vec5 0 0 0 90 0)).1 }

/-- `module_on` after one inverse transform at `A = a`, `C = 0`: when `a` is off the fast
path the cache holds the sample `(a, 0)`. -/
def sample_module (L : Libm α) (a : α) : Module α :=
  { module_on L with
    rtcp := (transform_from_cartesian axes5 L 0 (module_on L).rtcp (fun _ => 0)
      (vec5 0 0 0 a 0)).1 }

/-- Host data of the travel-limit scenarios: only Y is homed and in the soft-limit mask. -/
def sys_y : system_t := ⟨2, 2⟩

/-- Envelope of the travel-limit scenarios: `-0.001 ≤ Y ≤ 200`. -/
def envelope_y : work_envelope_t α := ⟨vec5 0 (-0.001) 0 0 0, vec5 0 200 0 0 0⟩

/-- Host data of the scenario of a jog along X: only X is homed and in the mask. -/
def sys_x : system_t := ⟨1, 1⟩

/-- Envelope of the scenario of a jog along X: `-5 ≤ X ≤ 5`. -/
def envelope_x : work_envelope_t α := ⟨vec5 (-5) 0 0 0 0, vec5 5 0 0 0 0⟩

/-- The check of section 8, property 5 of the spec, for one pair of consecutive points:
the squared distance over X, Y, Z between the inverse transform (sines and cosines computed
afresh) of the TCP midpoint `(T0 + T1) / 2` and the joint midpoint `(J0 + J1) / 2`. -/
def chord_midpoint_err_sq (ax : Axes) (L : Libm α) (tlo_z : α) (rtcp : rtcp_state_t α)
    (T0 T1 J0 J1 : Vec α) : α :=
  let M := (transform_from_cartesian ax L tlo_z (invalidate_cache rtcp) (fun _ => 0)
    (fun i => (T0 i + T1 i) / 2)).2
  (M X_AXIS - (J0 X_AXIS + J1 X_AXIS) / 2) ^ 2 + (M Y_AXIS - (J0 Y_AXIS + J1 Y_AXIS) / 2) ^ 2
    + (M Z_AXIS - (J0 Z_AXIS + J1 Z_AXIS) / 2) ^ 2

/-- Default geometry, no tool offset, RTCP on: the statics after the init call of the
non-rapid move from the joint position `(100, 0, 0, 0, 0)` to the TCP target
`(100, 0, 0, 0, 900)` (two and a half turns of C). -/
def c8_init (L : Libm α) : Module α :=
  (rtcp_segment_line axes5 L ⟨0, fun _ _ => true⟩ (module_on L) (vec5 100 0 0 0 900)
    (vec5 100 0 0 0 0) ⟨1000, 1, ⟨false, false, false⟩⟩ true).1

/-- The first produce call after `c8_init`. -/
def c8_first (L : Libm α) : Module α × plan_line_data_t α × Option (Vec α) :=
  rtcp_segment_line axes5 L ⟨0, fun _ _ => true⟩ (c8_init L) (fun _ => 0) (fun _ => 0)
    ⟨1000, 1, ⟨false, false, false⟩⟩ false

/-! ## Properties -/

section Lemmas

theorem copy_above_Z_apply {α : Type} (n : Nat) (target position : Vec α) (i : Nat) :
    copy_above_Z n target position i = if Z_AXIS < i ∧ i < n then position i else target i := by
  induction n generalizing target with
  | zero => simp [copy_above_Z]
  | succ k ih =>
    unfold copy_above_Z
    by_cases hk : k > Z_AXIS
    · rw [if_pos hk, ih]
      by_cases hi : i = k
      · subst hi
        simp [store, hk]
      · have h1 : (Z_AXIS < i ∧ i < k + 1) ↔ (Z_AXIS < i ∧ i < k) := by omega
        simp only [h1, store, if_neg hi]
    · rw [if_neg hk]
      have h1 : ¬ (Z_AXIS < i ∧ i < k + 1) := by omega
      rw [if_neg h1]

theorem fill_down_apply {α : Type} (f : Nat → α) (n : Nat) (v : Vec α) (i : Nat) :
    fill_down f n v i = if i < n then f i else v i := by
  induction n generalizing v with
  | zero => simp [fill_down]
  | succ k ih =>
    unfold fill_down
    rw [ih]
    by_cases hi : i = k
    · subst hi
      simp [store]
    · by_cases h2 : i < k
      · have h3 : i < k + 1 := by omega
        simp [h2, h3]
      · have h3 : ¬ i < k + 1 := by omega
        simp [h2, h3, store, hi]

variable {α : Type} [LinearOrderedField α]

/-- The value written by the general (trigonometric) path of `transform_from_cartesian`
for given sine and cosine values. -/
theorem transform_from_cartesian_general (ax : Axes) (L : Libm α) (tlo_z : α)
    (rtcp : rtcp_state_t α) (target position : Vec α)
    (h : ¬ (|position ax.A_AXIS| < 0.001 ∧ |position ax.C_AXIS| < 0.001)) :
    transform_from_cartesian ax L tlo_z rtcp target position =
      (let rtcp := update_trig_cache L rtcp (position ax.A_AXIS) (position ax.C_AXIS)
       let dy := rtcp.cfg.axis_offset_y
       let dz := rtcp.cfg.axis_offset_z + tlo_z
       let px := position X_AXIS - rtcp.cfg.pivot_x
       let py := position Y_AXIS - rtcp.cfg.pivot_y
       let pz := (position Z_AXIS - tlo_z) - rtcp.cfg.pivot_z
       let xc := px * rtcp.cos_c - py * rtcp.sin_c
       let yc := px * rtcp.sin_c + py * rtcp.cos_c
       let y_rot := yc * rtcp.cos_a - pz * rtcp.sin_a - rtcp.cos_a * dy + rtcp.sin_a * dz + dy
       let z_rot := yc * rtcp.sin_a + pz * rtcp.cos_a - rtcp.sin_a * dy - rtcp.cos_a * dz + dz
       (rtcp, fun i =>
          if Z_AXIS < i ∧ i < ax.N_AXIS then position i
          else if i = Z_AXIS then z_rot + rtcp.cfg.pivot_z
          else if i = Y_AXIS then y_rot + rtcp.cfg.pivot_y
          else if i = X_AXIS then xc + rtcp.cfg.pivot_x
          else target i)) := by
  unfold transform_from_cartesian
  simp only [if_neg h]
  refine Prod.ext rfl ?_
  funext i
  simp only [copy_above_Z_apply, store]

theorem update_trig_cache_cfg (L : Libm α) (rtcp : rtcp_state_t α) (a c : α) :
    (update_trig_cache L rtcp a c).cfg = rtcp.cfg := by
  unfold update_trig_cache
  split <;> rfl

theorem update_trig_cache_fresh (L : Libm α) (rtcp : rtcp_state_t α) (a c : α)
    (h : rtcp.cache_valid = false) :
    update_trig_cache L rtcp a c =
      { rtcp with
        sin_a := L.sinf (DEG_TO_RAD L a)
        cos_a := L.cosf (DEG_TO_RAD L a)
        sin_c := L.sinf (DEG_TO_RAD L c)
        cos_c := L.cosf (DEG_TO_RAD L c)
        last_a := a
        last_c := c
        cache_valid := true } := by
  unfold update_trig_cache
  rw [if_pos (Or.inl h)]

theorem transform_to_cartesian_general (ax : Axes) (L : Libm α) (tlo_z : α)
    (rtcp : rtcp_state_t α) (target motor_pos : Vec α)
    (h : ¬ (|motor_pos ax.A_AXIS| < 0.001 ∧ |motor_pos ax.C_AXIS| < 0.001)) :
    transform_to_cartesian ax L tlo_z rtcp target motor_pos =
      (let sa := L.sinf (DEG_TO_RAD L (motor_pos ax.A_AXIS))
       let ca := L.cosf (DEG_TO_RAD L (motor_pos ax.A_AXIS))
       let sc := L.sinf (DEG_TO_RAD L (motor_pos ax.C_AXIS))
       let cc := L.cosf (DEG_TO_RAD L (motor_pos ax.C_AXIS))
       let dy := rtcp.cfg.axis_offset_y
       let dz := rtcp.cfg.axis_offset_z + tlo_z
       let px := motor_pos X_AXIS - rtcp.cfg.pivot_x
       let py := motor_pos Y_AXIS - dy - rtcp.cfg.pivot_y
       let pz := motor_pos Z_AXIS - dz - rtcp.cfg.pivot_z
       let yt := ca * py + sa * pz + dy
       let zi := -sa * py + ca * pz + dz
       let xi := cc * px + sc * yt
       let yi := -sc * px + cc * yt
       fun i =>
          if Z_AXIS < i ∧ i < ax.N_AXIS then motor_pos i
          else if i = Z_AXIS then zi + rtcp.cfg.pivot_z + tlo_z
          else if i = Y_AXIS then yi + rtcp.cfg.pivot_y
          else if i = X_AXIS then xi + rtcp.cfg.pivot_x
          else target i) := by
  unfold transform_to_cartesian
  simp only [if_neg h]
  funext i
  simp only [copy_above_Z_apply, store]

/-- Rotating into the joint frame and back with the same sines and cosines is the
identity on X, Y, Z. -/
theorem roundtrip_algebra (sa ca sc cc x y z tlo pvx pvy pvz dy dz0 : α)
    (hA : sa ^ 2 + ca ^ 2 = 1) (hC : sc ^ 2 + cc ^ 2 = 1) :
    let dz := dz0 + tlo
    let px := x - pvx
    let py := y - pvy
    let pz := (z - tlo) - pvz
    let xc := px * cc - py * sc
    let yc := px * sc + py * cc
    let y_rot := yc * ca - pz * sa - ca * dy + sa * dz + dy
    let z_rot := yc * sa + pz * ca - sa * dy - ca * dz + dz
    let px' := (xc + pvx) - pvx
    let py' := (y_rot + pvy) - dy - pvy
    let pz' := (z_rot + pvz) - dz - pvz
    let yt := ca * py' + sa * pz' + dy
    let zi := -sa * py' + ca * pz' + dz
    let xi := cc * px' + sc * yt
    let yi := -sc * px' + cc * yt
    xi + pvx = x ∧ yi + pvy = y ∧ zi + pvz + tlo = z := by
  intro dz px py pz xc yc y_rot z_rot px' py' pz' yt zi xi yi
  have hyt : yt = yc := by
    simp only [yt, py', pz', y_rot, z_rot]
    linear_combination (yc - dy) * hA
  have hzi : zi = pz := by
    simp only [zi, py', pz', y_rot, z_rot]
    linear_combination (pz - dz) * hA
  refine ⟨?_, ?_, ?_⟩
  · simp only [xi, hyt, px', xc, yc, px]
    linear_combination (x - pvx) * hC
  · simp only [yi, hyt, px', xc, yc, py]
    linear_combination (y - pvy) * hC
  · rw [hzi]
    simp only [pz]
    ring

/-- With an invalid cache, or a consistent sample taken at the very angles asked for, the
cache holds the sines and cosines of those angles after `update_trig_cache`. -/
theorem update_trig_cache_exact (L : Libm α) (rtcp : rtcp_state_t α) (a c : α)
    (h : rtcp.cache_valid = false ∨ (rtcp.last_a = a ∧ rtcp.last_c = c ∧ CacheInv L rtcp)) :
    (update_trig_cache L rtcp a c).sin_a = L.sinf (DEG_TO_RAD L a) ∧
    (update_trig_cache L rtcp a c).cos_a = L.cosf (DEG_TO_RAD L a) ∧
    (update_trig_cache L rtcp a c).sin_c = L.sinf (DEG_TO_RAD L c) ∧
    (update_trig_cache L rtcp a c).cos_c = L.cosf (DEG_TO_RAD L c) := by
  unfold update_trig_cache
  split
  · exact ⟨rfl, rfl, rfl, rfl⟩
  · rename_i hn
    rcases h with h | ⟨ha, hc, hinv⟩
    · exact absurd (Or.inl h) hn
    · have hv : rtcp.cache_valid = true := by
        cases hcv : rtcp.cache_valid
        · exact absurd (Or.inl hcv) hn
        · rfl
      rw [← ha, ← hc]
      exact hinv hv

theorem transform_from_cartesian_fast (ax : Axes) (L : Libm α) (tlo_z : α)
    (rtcp : rtcp_state_t α) (target position : Vec α)
    (h : |position ax.A_AXIS| < 0.001 ∧ |position ax.C_AXIS| < 0.001) :
    transform_from_cartesian ax L tlo_z rtcp target position =
      (rtcp, memcpy ax.N_AXIS target position) := by
  unfold transform_from_cartesian
  simp only [if_pos h]

theorem transform_to_cartesian_fast (ax : Axes) (L : Libm α) (tlo_z : α)
    (rtcp : rtcp_state_t α) (target motor_pos : Vec α)
    (h : |motor_pos ax.A_AXIS| < 0.001 ∧ |motor_pos ax.C_AXIS| < 0.001) :
    transform_to_cartesian ax L tlo_z rtcp target motor_pos =
      memcpy ax.N_AXIS target motor_pos := by
  unfold transform_to_cartesian
  simp only [if_pos h]

theorem transform_from_cartesian_above_Z (ax : Axes) (L : Libm α) (tlo_z : α)
    (rtcp : rtcp_state_t α) (target position : Vec α) (i : Nat)
    (h1 : Z_AXIS < i) (h2 : i < ax.N_AXIS) :
    (transform_from_cartesian ax L tlo_z rtcp target position).2 i = position i := by
  by_cases h : |position ax.A_AXIS| < 0.001 ∧ |position ax.C_AXIS| < 0.001
  · rw [transform_from_cartesian_fast ax L tlo_z rtcp target position h]
    simp [memcpy, h2]
  · rw [transform_from_cartesian_general ax L tlo_z rtcp target position h]
    simp [h1, h2]

theorem transform_from_cartesian_cfg (ax : Axes) (L : Libm α) (tlo_z : α)
    (rtcp : rtcp_state_t α) (target position : Vec α) :
    (transform_from_cartesian ax L tlo_z rtcp target position).1.cfg = rtcp.cfg := by
  by_cases h : |position ax.A_AXIS| < 0.001 ∧ |position ax.C_AXIS| < 0.001
  · rw [transform_from_cartesian_fast ax L tlo_z rtcp target position h]
  · rw [transform_from_cartesian_general ax L tlo_z rtcp target position h]
    exact update_trig_cache_cfg L rtcp _ _

/-- Round trip through the inverse and the forward transform when the inverse ends up
using the sines and cosines of the point's own angles; the forward transform may read the
geometry from any state `rr` with the same `cfg`. -/
theorem round_trip_of_exact (ax : Axes) (L : Libm α) (tlo_z : α) (rtcp rr : rtcp_state_t α)
    (t1 t2 P : Vec α) (hpyth : ∀ x, L.sinf x ^ 2 + L.cosf x ^ 2 = 1) (hcfg : rr.cfg = rtcp.cfg)
    (hex : (|P ax.A_AXIS| < 0.001 ∧ |P ax.C_AXIS| < 0.001) ∨
      ((update_trig_cache L rtcp (P ax.A_AXIS) (P ax.C_AXIS)).sin_a
          = L.sinf (DEG_TO_RAD L (P ax.A_AXIS)) ∧
       (update_trig_cache L rtcp (P ax.A_AXIS) (P ax.C_AXIS)).cos_a
          = L.cosf (DEG_TO_RAD L (P ax.A_AXIS)) ∧
       (update_trig_cache L rtcp (P ax.A_AXIS) (P ax.C_AXIS)).sin_c
          = L.sinf (DEG_TO_RAD L (P ax.C_AXIS)) ∧
       (update_trig_cache L rtcp (P ax.A_AXIS) (P ax.C_AXIS)).cos_c
          = L.cosf (DEG_TO_RAD L (P ax.C_AXIS)))) :
    ∀ i, i < ax.N_AXIS →
      transform_to_cartesian ax L tlo_z rr t2
          (transform_from_cartesian ax L tlo_z rtcp t1 P).2 i = P i := by
  intro i hi
  have hQA := transform_from_cartesian_above_Z ax L tlo_z rtcp t1 P ax.A_AXIS ax.hA.1 ax.hA.2
  have hQC := transform_from_cartesian_above_Z ax L tlo_z rtcp t1 P ax.C_AXIS ax.hC.1 ax.hC.2
  by_cases hf : |P ax.A_AXIS| < 0.001 ∧ |P ax.C_AXIS| < 0.001
  · have hf2 : |(transform_from_cartesian ax L tlo_z rtcp t1 P).2 ax.A_AXIS| < 0.001 ∧
        |(transform_from_cartesian ax L tlo_z rtcp t1 P).2 ax.C_AXIS| < 0.001 := by
      rw [hQA, hQC]
      exact hf
    rw [transform_to_cartesian_fast ax L tlo_z _ t2 _ hf2,
      transform_from_cartesian_fast ax L tlo_z rtcp t1 P hf]
    simp [memcpy, hi]
  · have hf2 : ¬ (|(transform_from_cartesian ax L tlo_z rtcp t1 P).2 ax.A_AXIS| < 0.001 ∧
        |(transform_from_cartesian ax L tlo_z rtcp t1 P).2 ax.C_AXIS| < 0.001) := by
      rw [hQA, hQC]
      exact hf
    rw [transform_to_cartesian_general ax L tlo_z _ t2 _ hf2, hQA, hQC, hcfg]
    obtain ⟨e1, e2, e3, e4⟩ := hex.resolve_left hf
    have hcfg2 := update_trig_cache_cfg L rtcp (P ax.A_AXIS) (P ax.C_AXIS)
    have hq : ∀ j, (transform_from_cartesian ax L tlo_z rtcp t1 P).2 j = _ :=
      fun j => congrFun (congrArg Prod.snd (transform_from_cartesian_general ax L tlo_z rtcp t1 P hf)) j
    have hX := hq X_AXIS
    have hY := hq Y_AXIS
    have hZ := hq Z_AXIS
    simp only [X_AXIS, Y_AXIS, Z_AXIS, e1, e2, e3, e4, hcfg2] at hX hY hZ
    norm_num at hX hY hZ
    obtain ⟨r1, r2, r3⟩ := roundtrip_algebra (L.sinf (DEG_TO_RAD L (P ax.A_AXIS)))
      (L.cosf (DEG_TO_RAD L (P ax.A_AXIS))) (L.sinf (DEG_TO_RAD L (P ax.C_AXIS)))
      (L.cosf (DEG_TO_RAD L (P ax.C_AXIS))) (P 0) (P 1) (P 2) tlo_z rtcp.cfg.pivot_x
      rtcp.cfg.pivot_y rtcp.cfg.pivot_z rtcp.cfg.axis_offset_y rtcp.cfg.axis_offset_z
      (hpyth _) (hpyth _)
    simp only [X_AXIS, Y_AXIS, Z_AXIS, hX, hY, hZ]
    by_cases h3 : 2 < i ∧ i < ax.N_AXIS
    · rw [if_pos h3]
      exact transform_from_cartesian_above_Z ax L tlo_z rtcp t1 P i h3.1 h3.2
    · rw [if_neg h3]
      have hi2 : i = 2 ∨ i = 1 ∨ i = 0 := by omega
      rcases hi2 with h | h | h
      · subst h
        simpa using r3
      · subst h
        simpa using r2
      · subst h
        simpa using r1

/-- The cached sines and cosines stay those of the cached angles. -/
theorem update_trig_cache_inv (L : Libm α) (rtcp : rtcp_state_t α) (a c : α)
    (h : CacheInv L rtcp) : CacheInv L (update_trig_cache L rtcp a c) := by
  unfold update_trig_cache
  split
  · intro _
    exact ⟨rfl, rfl, rfl, rfl⟩
  · exact h

theorem transform_from_cartesian_inv (ax : Axes) (L : Libm α) (tlo_z : α)
    (rtcp : rtcp_state_t α) (target position : Vec α) (h : CacheInv L rtcp) :
    CacheInv L (transform_from_cartesian ax L tlo_z rtcp target position).1 := by
  by_cases hf : |position ax.A_AXIS| < 0.001 ∧ |position ax.C_AXIS| < 0.001
  · rw [transform_from_cartesian_fast ax L tlo_z rtcp target position hf]
    exact h
  · rw [transform_from_cartesian_general ax L tlo_z rtcp target position hf]
    exact update_trig_cache_inv L rtcp _ _ h

/-- Asking the cache twice for the same angles changes nothing the second time. -/
theorem update_trig_cache_idem (L : Libm α) (rtcp : rtcp_state_t α) (a c : α) :
    update_trig_cache L (update_trig_cache L rtcp a c) a c = update_trig_cache L rtcp a c := by
  by_cases h : rtcp.cache_valid = false ∨ |a - rtcp.last_a| > rtcp.trig_cache_tol ∨
      |c - rtcp.last_c| > rtcp.trig_cache_tol
  · have e : update_trig_cache L rtcp a c =
        { rtcp with
          sin_a := L.sinf (DEG_TO_RAD L a)
          cos_a := L.cosf (DEG_TO_RAD L a)
          sin_c := L.sinf (DEG_TO_RAD L c)
          cos_c := L.cosf (DEG_TO_RAD L c)
          last_a := a
          last_c := c
          cache_valid := true } := by
      unfold update_trig_cache
      rw [if_pos h]
    rw [e]
    unfold update_trig_cache
    split <;> rfl
  · have e : update_trig_cache L rtcp a c = rtcp := by
      unfold update_trig_cache
      rw [if_neg h]
    rw [e, e]

/-- A second inverse transform of the same point, started in the state the first one left,
is the inverse transform started in the original state. -/
theorem transform_from_cartesian_again (ax : Axes) (L : Libm α) (tlo_z : α)
    (rtcp : rtcp_state_t α) (t t' P : Vec α) :
    transform_from_cartesian ax L tlo_z (transform_from_cartesian ax L tlo_z rtcp t P).1 t' P =
      transform_from_cartesian ax L tlo_z rtcp t' P := by
  by_cases hf : |P ax.A_AXIS| < 0.001 ∧ |P ax.C_AXIS| < 0.001
  · simp only [transform_from_cartesian_fast ax L tlo_z _ _ P hf]
  · simp only [transform_from_cartesian_general ax L tlo_z _ _ P hf, update_trig_cache_idem]

/-- Writing the inverse transform over its own result leaves that result. -/
theorem transform_from_cartesian_over (ax : Axes) (L : Libm α) (tlo_z : α)
    (rtcp : rtcp_state_t α) (t P : Vec α) :
    (transform_from_cartesian ax L tlo_z rtcp
      (transform_from_cartesian ax L tlo_z rtcp t P).2 P).2 =
    (transform_from_cartesian ax L tlo_z rtcp t P).2 := by
  by_cases hf : |P ax.A_AXIS| < 0.001 ∧ |P ax.C_AXIS| < 0.001
  · simp only [transform_from_cartesian_fast ax L tlo_z _ _ P hf]
    funext i
    simp only [memcpy]
    split_ifs <;> rfl
  · simp only [transform_from_cartesian_general ax L tlo_z _ _ P hf]
    funext i
    split_ifs <;> rfl

/-- The state an inverse transform leaves does not depend on the output buffer. -/
theorem transform_from_cartesian_fst_indep (ax : Axes) (L : Libm α) (tlo_z : α)
    (rtcp : rtcp_state_t α) (t t' P : Vec α) :
    (transform_from_cartesian ax L tlo_z rtcp t P).1 =
      (transform_from_cartesian ax L tlo_z rtcp t' P).1 := by
  by_cases hf : |P ax.A_AXIS| < 0.001 ∧ |P ax.C_AXIS| < 0.001
  · simp only [transform_from_cartesian_fast ax L tlo_z _ _ P hf]
  · simp only [transform_from_cartesian_general ax L tlo_z _ _ P hf]

theorem memcpy_memcpy {β : Type} (n : Nat) (s F : Vec β) :
    memcpy n (memcpy n s F) F = memcpy n s F := by
  funext i
  simp only [memcpy]
  split_ifs <;> rfl

/-- The cache state reached in the scenario `c1_state`. -/
theorem c1_state_eq :
    c1_state (⟨Real.sin, Real.cos, Real.sqrt, Real.pi⟩ : Libm ℝ) =
      ⟨⟨0, 0, 0, 0, 0⟩, 90, 0, 1, 0, 0, 1, true, 0.01 / 500 * (180 / Real.pi)⟩ := by
  have h90 : (90:ℝ) * (Real.pi / 180) = Real.pi / 2 := by ring
  unfold c1_state
  rw [transform_from_cartesian_general]
  · simp [update_trig_cache, rtcp_kinematics_settings_changed, module_boot, invalidate_cache, axes5, vec5, DEG_TO_RAD, RAD_TO_DEG, MAX_ARM_LENGTH_MM, MAX_CHORD_ERROR_MM, h90]
  · simp [axes5, vec5]
    norm_num

theorem sin_deg_90 : Real.sin (90 * (Real.pi / 180)) = 1 := by
  rw [show (90:ℝ) * (Real.pi / 180) = Real.pi / 2 by ring]
  exact Real.sin_pi_div_two

theorem cos_deg_90 : Real.cos (90 * (Real.pi / 180)) = 0 := by
  rw [show (90:ℝ) * (Real.pi / 180) = Real.pi / 2 by ring]
  exact Real.cos_pi_div_two

theorem scenario_module_cfg (L : Libm α) : (scenario_module L).rtcp.cfg = scenario_cfg := rfl

theorem scenario_module_cache_valid (L : Libm α) :
    (scenario_module L).rtcp.cache_valid = false := rfl

/-- In the state `c1_state` (sample `(90, 0)` cached) an inverse transform at `A = 90 + x`
with `0 ≤ x ≤ 0.001` reuses the cached sines and cosines. -/
theorem stale_inverse_near_90 (x : ℝ) (hx0 : 0 ≤ x) (hx1 : x ≤ 0.001) :
    transform_from_cartesian axes5 (⟨Real.sin, Real.cos, Real.sqrt, Real.pi⟩ : Libm ℝ) 0
      (c1_state ⟨Real.sin, Real.cos, Real.sqrt, Real.pi⟩) (fun _ => 0) (vec5 0 100 0 (90 + x) 0)
      = (⟨⟨0, 0, 0, 0, 0⟩, 90, 0, 1, 0, 0, 1, true, 0.01 / 500 * (180 / Real.pi)⟩,
         vec5 0 0 100 (90 + x) 0) := by
  have hpi : Real.pi < 3.15 := Real.pi_lt_d2
  have hpos : 0 < Real.pi := Real.pi_pos
  have htol : ¬ (|(90 + x) - 90| > 0.01 / 500 * (180 / Real.pi)) := by
    have e : (0.01:ℝ) / 500 * (180 / Real.pi) = 0.0036 / Real.pi := by
      field_simp
      norm_num
      ring
    rw [not_lt, add_sub_cancel_left, abs_of_nonneg hx0, e, le_div_iff₀ hpos]
    have : x * Real.pi ≤ 0.001 * 3.15 := by
      apply mul_le_mul hx1 hpi.le hpos.le
      norm_num
    norm_num at this ⊢
    linarith
  have hnf : ¬ (|vec5 (0:ℝ) 100 0 (90 + x) 0 axes5.A_AXIS| < 0.001 ∧
      |vec5 (0:ℝ) 100 0 (90 + x) 0 axes5.C_AXIS| < 0.001) := by
    refine not_and_of_not_left _ (not_lt.mpr ?_)
    simp only [vec5, axes5]
    rw [abs_of_pos (by linarith)]
    linarith
  rw [c1_state_eq, transform_from_cartesian_general _ _ _ _ _ _ hnf]
  have hu : update_trig_cache (⟨Real.sin, Real.cos, Real.sqrt, Real.pi⟩ : Libm ℝ)
      ⟨⟨0, 0, 0, 0, 0⟩, 90, 0, 1, 0, 0, 1, true, 0.01 / 500 * (180 / Real.pi)⟩
      (vec5 0 100 0 (90 + x) 0 axes5.A_AXIS) (vec5 0 100 0 (90 + x) 0 axes5.C_AXIS)
      = ⟨⟨0, 0, 0, 0, 0⟩, 90, 0, 1, 0, 0, 1, true, 0.01 / 500 * (180 / Real.pi)⟩ := by
    have h0 : ¬ ((0.01:ℝ) / 500 * (180 / Real.pi) < 0) := not_lt.mpr (by positivity)
    have htol2 : ¬ ((0.01:ℝ) / 500 * (180 / Real.pi) < |x|) := by
      rw [add_sub_cancel_left] at htol
      exact htol
    simp [update_trig_cache, axes5, vec5, htol2, h0]
  simp only [hu]
  refine Prod.ext rfl ?_
  funext i
  rcases i with _ | _ | _ | _ | _ | i <;> simp [vec5, axes5, X_AXIS, Y_AXIS, Z_AXIS]

/-- Forward transform of the joint point `(0, 0, 100, a, 0)` with zero geometry and no tool
offset: `Z = 100 cos a`. -/
theorem forward_Z_of_joint (rr : rtcp_state_t ℝ) (a : ℝ) (hcfg : rr.cfg = ⟨0, 0, 0, 0, 0⟩)
    (ha : 0.001 ≤ a) :
    transform_to_cartesian axes5 (⟨Real.sin, Real.cos, Real.sqrt, Real.pi⟩ : Libm ℝ) 0 rr
      (fun _ => 0) (vec5 0 0 100 a 0) Z_AXIS = 100 * Real.cos (a * (Real.pi / 180)) := by
  have hnf : ¬ (|vec5 (0:ℝ) 0 100 a 0 axes5.A_AXIS| < 0.001 ∧
      |vec5 (0:ℝ) 0 100 a 0 axes5.C_AXIS| < 0.001) := by
    refine not_and_of_not_left _ (not_lt.mpr ?_)
    simp only [vec5, axes5]
    rw [abs_of_pos (by linarith)]
    exact ha
  rw [transform_to_cartesian_general _ _ _ _ _ _ hnf, hcfg]
  simp [axes5, vec5, DEG_TO_RAD, Z_AXIS, X_AXIS, Y_AXIS]
  ring

/-- `100 cos (90° + x°)` is more than 1e-4 away from zero for `1/2048 ≤ x ≤ 1`. -/
theorem forward_Z_off (x : ℝ) (hx0 : 1 / 2048 ≤ x) (hx1 : x ≤ 1) :
    ¬ (|100 * Real.cos ((90 + x) * (Real.pi / 180)) - vec5 0 100 0 (90 + x) 0 Z_AXIS| ≤ 0.0001) := by
  have hpi : Real.pi < 3.15 := Real.pi_lt_d2
  have hpos : 0 < Real.pi := Real.pi_pos
  have hx : (90 + x) * (Real.pi / 180) = Real.pi / 2 + x * (Real.pi / 180) := by ring
  have hxpos : 0 < x := lt_of_lt_of_le (by norm_num) hx0
  rw [hx, Real.cos_add, Real.cos_pi_div_two, Real.sin_pi_div_two]
  have hs := Real.mul_le_sin (x := x * (Real.pi / 180)) (by positivity)
    (by nlinarith)
  have e2 : 2 / Real.pi * (x * (Real.pi / 180)) = x / 90 := by
    field_simp
    ring
  rw [e2] at hs
  simp only [vec5, Z_AXIS]
  rw [not_le, sub_zero, zero_mul, one_mul, zero_sub, mul_neg, abs_neg, abs_of_nonneg]
  · have : (1 / 2048 : ℝ) / 90 ≤ x / 90 := by
      apply div_le_div_of_nonneg_right hx0
      norm_num
    norm_num at this ⊢
    linarith
  · have : 0 ≤ Real.sin (x * (Real.pi / 180)) := le_trans (by positivity) hs
    positivity

theorem scenario_module_on_enabled (L : Libm α) : (scenario_module_on L).rtcp_enabled = true := rfl

theorem scenario_module_on_cache (L : Libm α) :
    (scenario_module_on L).rtcp.cache_valid = false := rfl

theorem scenario_module_on_cfg (L : Libm α) : (scenario_module_on L).rtcp.cfg = scenario_cfg := rfl

theorem sin_deg_900 : Real.sin (900 * (Real.pi / 180)) = 0 := by
  rw [show (900:ℝ) * (Real.pi / 180) = Real.pi + (2:ℕ) * (2 * Real.pi) by push_cast; ring,
    Real.sin_add_nat_mul_two_pi]
  exact Real.sin_pi

theorem cos_deg_900 : Real.cos (900 * (Real.pi / 180)) = -1 := by
  rw [show (900:ℝ) * (Real.pi / 180) = Real.pi + (2:ℕ) * (2 * Real.pi) by push_cast; ring,
    Real.cos_add_nat_mul_two_pi]
  exact Real.cos_pi

theorem sin_deg_450 : Real.sin (450 * (Real.pi / 180)) = 1 := by
  rw [show (450:ℝ) * (Real.pi / 180) = Real.pi / 2 + (1:ℕ) * (2 * Real.pi) by push_cast; ring,
    Real.sin_add_nat_mul_two_pi]
  exact Real.sin_pi_div_two

theorem cos_deg_450 : Real.cos (450 * (Real.pi / 180)) = 0 := by
  rw [show (450:ℝ) * (Real.pi / 180) = Real.pi / 2 + (1:ℕ) * (2 * Real.pi) by push_cast; ring,
    Real.cos_add_nat_mul_two_pi]
  exact Real.cos_pi_div_two

/-- Zero geometry, no tool offset, `A = 0`: the inverse transform of `(x, 0, 0, 0, c)` with
freshly computed sines and cosines is the rotation of `x` by `c` about Z. -/
theorem inverse_pure_C (rr : rtcp_state_t ℝ) (t P : Vec ℝ) (x c : ℝ)
    (hcfg : rr.cfg = ⟨0, 0, 0, 0, 0⟩) (h0 : P 0 = x) (h1 : P 1 = 0) (h2 : P 2 = 0)
    (h3 : P 3 = 0) (h4 : P 4 = c) (hc : 0.001 ≤ |c|)
    (hre : rr.cache_valid = false ∨ |c - rr.last_c| > rr.trig_cache_tol) :
    (transform_from_cartesian axes5 (⟨Real.sin, Real.cos, Real.sqrt, Real.pi⟩ : Libm ℝ) 0 rr
      t P).1.cfg = ⟨0, 0, 0, 0, 0⟩ ∧
    (transform_from_cartesian axes5 (⟨Real.sin, Real.cos, Real.sqrt, Real.pi⟩ : Libm ℝ) 0 rr
      t P).1.last_c = c ∧
    (transform_from_cartesian axes5 (⟨Real.sin, Real.cos, Real.sqrt, Real.pi⟩ : Libm ℝ) 0 rr
      t P).1.cache_valid = true ∧
    (transform_from_cartesian axes5 (⟨Real.sin, Real.cos, Real.sqrt, Real.pi⟩ : Libm ℝ) 0 rr
      t P).1.trig_cache_tol = rr.trig_cache_tol ∧
    (transform_from_cartesian axes5 (⟨Real.sin, Real.cos, Real.sqrt, Real.pi⟩ : Libm ℝ) 0 rr
      t P).2 0 = x * Real.cos (c * (Real.pi / 180)) ∧
    (transform_from_cartesian axes5 (⟨Real.sin, Real.cos, Real.sqrt, Real.pi⟩ : Libm ℝ) 0 rr
      t P).2 1 = x * Real.sin (c * (Real.pi / 180)) ∧
    (transform_from_cartesian axes5 (⟨Real.sin, Real.cos, Real.sqrt, Real.pi⟩ : Libm ℝ) 0 rr
      t P).2 2 = 0 := by
  have hnf : ¬ (|P axes5.A_AXIS| < 0.001 ∧ |P axes5.C_AXIS| < 0.001) := by
    refine not_and_of_not_right _ (not_lt.mpr ?_)
    show 0.001 ≤ |P 4|
    rw [h4]
    exact hc
  have hu : update_trig_cache (⟨Real.sin, Real.cos, Real.sqrt, Real.pi⟩ : Libm ℝ) rr
      (P axes5.A_AXIS) (P axes5.C_AXIS) =
      { rr with
        sin_a := 0
        cos_a := 1
        sin_c := Real.sin (c * (Real.pi / 180))
        cos_c := Real.cos (c * (Real.pi / 180))
        last_a := 0
        last_c := c
        cache_valid := true } := by
    have hcond : rr.cache_valid = false ∨ |P axes5.A_AXIS - rr.last_a| > rr.trig_cache_tol ∨
        |P axes5.C_AXIS - rr.last_c| > rr.trig_cache_tol := by
      rcases hre with h | h
      · exact Or.inl h
      · right
        right
        show |P 4 - rr.last_c| > rr.trig_cache_tol
        rw [h4]
        exact h
    unfold update_trig_cache
    rw [if_pos hcond]
    show ({ rr with
        sin_a := Real.sin (P 3 * (Real.pi / 180))
        cos_a := Real.cos (P 3 * (Real.pi / 180))
        sin_c := Real.sin (P 4 * (Real.pi / 180))
        cos_c := Real.cos (P 4 * (Real.pi / 180))
        last_a := P 3
        last_c := P 4
        cache_valid := true } : rtcp_state_t ℝ) = _
    rw [h3, h4]
    simp
  rw [transform_from_cartesian_general _ _ _ _ _ _ hnf]
  simp only [hu, hcfg, X_AXIS, Y_AXIS, Z_AXIS, h0, h1, h2]
  refine ⟨trivial, trivial, trivial, trivial, ?_, ?_, ?_⟩ <;> simp [axes5, Z_AXIS]

theorem module_on_rtcp :
    (module_on (⟨Real.sin, Real.cos, Real.sqrt, Real.pi⟩ : Libm ℝ)).rtcp =
      ⟨⟨0, 0, 0, 0, 0⟩, 0, 0, 0, 0, 0, 0, false, 0.01 / 500 * (180 / Real.pi)⟩ := by
  simp [module_on, rtcp_mcode_execute, rtcp_kinematics_settings_changed, module_boot,
    invalidate_cache, RAD_TO_DEG, MAX_ARM_LENGTH_MM, MAX_CHORD_ERROR_MM]

theorem default_tol_lt_one : (0.01 : ℝ) / 500 * (180 / Real.pi) < 1 := by
  have hpi : 3 < Real.pi := Real.pi_gt_three
  have hpos : 0 < Real.pi := Real.pi_pos
  have e : (0.01:ℝ) / 500 * (180 / Real.pi) = 0.0036 / Real.pi := by
    field_simp
    norm_num
    ring
  rw [e, div_lt_one hpos]
  linarith

theorem err_sq_loop_eq (position mpos motor_mid_real : Vec ℝ) :
    err_sq_loop position mpos motor_mid_real 0 0 =
      0 + (motor_mid_real 0 - (position 0 + mpos 0) * 0.5)
            * (motor_mid_real 0 - (position 0 + mpos 0) * 0.5)
        + (motor_mid_real 1 - (position 1 + mpos 1) * 0.5)
            * (motor_mid_real 1 - (position 1 + mpos 1) * 0.5)
        + (motor_mid_real 2 - (position 2 + mpos 2) * 0.5)
            * (motor_mid_real 2 - (position 2 + mpos 2) * 0.5) := by
  rw [err_sq_loop, dif_pos (by norm_num), err_sq_loop, dif_pos (by norm_num), err_sq_loop,
    dif_pos (by norm_num), err_sq_loop, dif_neg (by norm_num)]

theorem plan_iterations_10000 :
    plan_iterations (⟨Real.sin, Real.cos, Real.sqrt, Real.pi⟩ : Libm ℝ) false 10000 = 200 := by
  have h1 : Real.sqrt 10000 = 100 := by
    rw [show (10000:ℝ) = 100 ^ 2 by norm_num]
    exact Real.sqrt_sq (by norm_num)
  have h2 : (100 : ℝ) / 0.01 = 10000 := by norm_num
  have h3 : Int.toNat (Int.ceil (100:ℝ) * 2) = 200 := by
    rw [show (100:ℝ) = ((100:ℤ):ℝ) by norm_num, Int.ceil_intCast]
    rfl
  have h4 : (10000 : ℝ) > 0.01 * 0.01 := by norm_num
  simp only [plan_iterations, MAX_CHORD_ERROR_MM, Bool.false_eq_true, if_false, if_pos h4, h1, h2,
    cast_ceil_times_two, h3]
  norm_num

theorem scenario_module_on_tol :
    (scenario_module_on (⟨Real.sin, Real.cos, Real.sqrt, Real.pi⟩ : Libm ℝ)).rtcp.trig_cache_tol
      = 0.01 / 500 * (180 / Real.pi) := by
  have h : Real.sqrt (100 * 100 + 100 * 100 + 100 * 100) < 500 := by
    rw [Real.sqrt_lt' (by norm_num)]
    norm_num
  simp [scenario_module_on, rtcp_mcode_execute, scenario_module, rtcp_kinematics_settings_changed,
    module_boot, invalidate_cache, RAD_TO_DEG, MAX_ARM_LENGTH_MM, MAX_CHORD_ERROR_MM, scenario_cfg,
    h]

/-- Scenario geometry, tool offset 50: the inverse transform of `(100, 100, 100, a, 0)` with
freshly computed sines and cosines has `Z = 150 - 100·cos a`. -/
theorem inverse_scenario_A (rr : rtcp_state_t ℝ) (t P : Vec ℝ) (a : ℝ)
    (hcfg : rr.cfg = scenario_cfg) (h0 : P 0 = 100) (h1 : P 1 = 100) (h2 : P 2 = 100)
    (h3 : P 3 = a) (h4 : P 4 = 0) (ha : 0.001 ≤ |a|)
    (hre : rr.cache_valid = false ∨ |a - rr.last_a| > rr.trig_cache_tol) :
    (transform_from_cartesian axes5 (⟨Real.sin, Real.cos, Real.sqrt, Real.pi⟩ : Libm ℝ) 50 rr
      t P).1.cfg = scenario_cfg ∧
    (transform_from_cartesian axes5 (⟨Real.sin, Real.cos, Real.sqrt, Real.pi⟩ : Libm ℝ) 50 rr
      t P).1.last_a = a ∧
    (transform_from_cartesian axes5 (⟨Real.sin, Real.cos, Real.sqrt, Real.pi⟩ : Libm ℝ) 50 rr
      t P).1.cache_valid = true ∧
    (transform_from_cartesian axes5 (⟨Real.sin, Real.cos, Real.sqrt, Real.pi⟩ : Libm ℝ) 50 rr
      t P).1.trig_cache_tol = rr.trig_cache_tol ∧
    (transform_from_cartesian axes5 (⟨Real.sin, Real.cos, Real.sqrt, Real.pi⟩ : Libm ℝ) 50 rr
      t P).2 2 = 150 - 100 * Real.cos (a * (Real.pi / 180)) := by
  have hnf : ¬ (|P axes5.A_AXIS| < 0.001 ∧ |P axes5.C_AXIS| < 0.001) := by
    refine not_and_of_not_left _ (not_lt.mpr ?_)
    show 0.001 ≤ |P 3|
    rw [h3]
    exact ha
  have hu : update_trig_cache (⟨Real.sin, Real.cos, Real.sqrt, Real.pi⟩ : Libm ℝ) rr
      (P axes5.A_AXIS) (P axes5.C_AXIS) =
      { rr with
        sin_a := Real.sin (a * (Real.pi / 180))
        cos_a := Real.cos (a * (Real.pi / 180))
        sin_c := 0
        cos_c := 1
        last_a := a
        last_c := 0
        cache_valid := true } := by
    have hcond : rr.cache_valid = false ∨ |P axes5.A_AXIS - rr.last_a| > rr.trig_cache_tol ∨
        |P axes5.C_AXIS - rr.last_c| > rr.trig_cache_tol := by
      rcases hre with h | h
      · exact Or.inl h
      · right
        left
        show |P 3 - rr.last_a| > rr.trig_cache_tol
        rw [h3]
        exact h
    unfold update_trig_cache
    rw [if_pos hcond]
    show ({ rr with
        sin_a := Real.sin (P 3 * (Real.pi / 180))
        cos_a := Real.cos (P 3 * (Real.pi / 180))
        sin_c := Real.sin (P 4 * (Real.pi / 180))
        cos_c := Real.cos (P 4 * (Real.pi / 180))
        last_a := P 3
        last_c := P 4
        cache_valid := true } : rtcp_state_t ℝ) = _
    rw [h3, h4]
    simp
  rw [transform_from_cartesian_general _ _ _ _ _ _ hnf]
  simp only [hu, hcfg, scenario_cfg, X_AXIS, Y_AXIS, Z_AXIS, h0, h1, h2]
  refine ⟨trivial, trivial, trivial, trivial, ?_⟩
  simp [axes5, Z_AXIS]
  ring

theorem cos_deg_45_ge : (1 : ℝ) / 2 ≤ Real.cos (45 * (Real.pi / 180)) := by
  rw [show (45 : ℝ) * (Real.pi / 180) = Real.pi / 4 by ring, Real.cos_pi_div_four]
  have h : (1 : ℝ) ≤ Real.sqrt 2 := by
    rw [Real.one_le_sqrt]
    norm_num
  linarith

/-- A squared midpoint error above the non-rapid budget makes the planner ask for at
least two segments. -/
theorem plan_iterations_ge_two (err_sq : ℝ) (h : 0.01 * 0.01 < err_sq) :
    2 ≤ plan_iterations (⟨Real.sin, Real.cos, Real.sqrt, Real.pi⟩ : Libm ℝ) false err_sq := by
  have h1 : (0.01 : ℝ) < Real.sqrt err_sq := by
    rw [Real.lt_sqrt (by norm_num)]
    linarith
  have h2 : (1 : ℝ) < Real.sqrt err_sq / 0.01 := by
    rw [lt_div_iff₀ (by norm_num)]
    linarith
  have h3 : (0 : ℝ) < Real.sqrt (Real.sqrt err_sq / 0.01) := by
    rw [Real.sqrt_pos]
    linarith
  have h4 : 1 ≤ Int.ceil (Real.sqrt (Real.sqrt err_sq / 0.01)) := Int.one_le_ceil_iff.mpr h3
  have h5 : 2 ≤ Int.toNat (Int.ceil (Real.sqrt (Real.sqrt err_sq / 0.01)) * 2) := by
    omega
  simp only [plan_iterations, MAX_CHORD_ERROR_MM, Bool.false_eq_true, if_false,
    if_pos (show err_sq > 0.01 * 0.01 from h), cast_ceil_times_two]
  split_ifs <;> omega

theorem update_trig_cache_tol (L : Libm α) (rtcp : rtcp_state_t α) (a c : α) :
    (update_trig_cache L rtcp a c).trig_cache_tol = rtcp.trig_cache_tol := by
  unfold update_trig_cache
  split <;> rfl

theorem transform_from_cartesian_tol (ax : Axes) (L : Libm α) (tlo_z : α)
    (rtcp : rtcp_state_t α) (target position : Vec α) :
    (transform_from_cartesian ax L tlo_z rtcp target position).1.trig_cache_tol
      = rtcp.trig_cache_tol := by
  by_cases h : |position ax.A_AXIS| < 0.001 ∧ |position ax.C_AXIS| < 0.001
  · rw [transform_from_cartesian_fast ax L tlo_z rtcp target position h]
  · rw [transform_from_cartesian_general ax L tlo_z rtcp target position h]
    exact update_trig_cache_tol L rtcp _ _

/-- After a request at `(a', c')` the cache is still fresh at `(a, c)`, provided `(a', c')`
is `(a, c)` itself or farther than the tolerance from it. -/
theorem update_trig_cache_fresh_at (L : Libm α) (rtcp : rtcp_state_t α) (a c a' c' : α)
    (h : FreshAt L rtcp a c)
    (hfar : (a' = a ∧ c' = c) ∨ |a - a'| > rtcp.trig_cache_tol ∨
      |c - c'| > rtcp.trig_cache_tol) :
    FreshAt L (update_trig_cache L rtcp a' c') a c := by
  refine ⟨update_trig_cache_inv L rtcp a' c' h.1, ?_⟩
  unfold update_trig_cache
  split
  · intro _
    exact hfar
  · exact h.2

/-- A request at the angles the cache is fresh at leaves the sample at those angles. -/
theorem update_trig_cache_at (L : Libm α) (rtcp : rtcp_state_t α) (a c : α)
    (h : FreshAt L rtcp a c) :
    (update_trig_cache L rtcp a c).cache_valid = true ∧
    (update_trig_cache L rtcp a c).last_a = a ∧ (update_trig_cache L rtcp a c).last_c = c := by
  by_cases hc : rtcp.cache_valid = false ∨ |a - rtcp.last_a| > rtcp.trig_cache_tol ∨
      |c - rtcp.last_c| > rtcp.trig_cache_tol
  · unfold update_trig_cache
    rw [if_pos hc]
    exact ⟨rfl, rfl, rfl⟩
  · have e : update_trig_cache L rtcp a c = rtcp := by
      unfold update_trig_cache
      rw [if_neg hc]
    rw [e]
    have hv : rtcp.cache_valid = true := by
      cases hcv : rtcp.cache_valid
      · exact absurd (Or.inl hcv) hc
      · rfl
    rcases h.2 hv with h1 | h1
    · exact ⟨hv, h1.1, h1.2⟩
    · exact absurd (Or.inr h1) hc

/-- The inverse transform of a point keeps the cache fresh at `(a, c)` when the point's
angles are `(a, c)` or farther than the tolerance from them. -/
theorem transform_from_cartesian_fresh_at (ax : Axes) (L : Libm α) (tlo_z : α)
    (rtcp : rtcp_state_t α) (t P : Vec α) (a c : α) (h : FreshAt L rtcp a c)
    (hfar : (P ax.A_AXIS = a ∧ P ax.C_AXIS = c) ∨ |a - P ax.A_AXIS| > rtcp.trig_cache_tol ∨
      |c - P ax.C_AXIS| > rtcp.trig_cache_tol) :
    FreshAt L (transform_from_cartesian ax L tlo_z rtcp t P).1 a c := by
  by_cases hf : |P ax.A_AXIS| < 0.001 ∧ |P ax.C_AXIS| < 0.001
  · rw [transform_from_cartesian_fast ax L tlo_z rtcp t P hf]
    exact h
  · rw [transform_from_cartesian_general ax L tlo_z rtcp t P hf]
    exact update_trig_cache_fresh_at L rtcp a c _ _ h hfar

/-- The inverse transform of a point off the fast path leaves the cache sample at the
point's angles when the cache was fresh at them. -/
theorem transform_from_cartesian_at (ax : Axes) (L : Libm α) (tlo_z : α)
    (rtcp : rtcp_state_t α) (t P : Vec α)
    (hf : ¬ (|P ax.A_AXIS| < 0.001 ∧ |P ax.C_AXIS| < 0.001))
    (h : FreshAt L rtcp (P ax.A_AXIS) (P ax.C_AXIS)) :
    (transform_from_cartesian ax L tlo_z rtcp t P).1.cache_valid = true ∧
    (transform_from_cartesian ax L tlo_z rtcp t P).1.last_a = P ax.A_AXIS ∧
    (transform_from_cartesian ax L tlo_z rtcp t P).1.last_c = P ax.C_AXIS := by
  rw [transform_from_cartesian_general ax L tlo_z rtcp t P hf]
  exact update_trig_cache_at L rtcp _ _ h

/-- The inverse transform of any point started with a valid sample at `(a, c)` keeps the
cache fresh at `(a, c)`: the sample moves only when the point's angles are out of
tolerance. -/
theorem transform_from_cartesian_fresh_of_at (ax : Axes) (L : Libm α) (tlo_z : α)
    (rtcp : rtcp_state_t α) (t P : Vec α) (a c : α) (hinv : CacheInv L rtcp)
    (hat : rtcp.cache_valid = true ∧ rtcp.last_a = a ∧ rtcp.last_c = c) :
    FreshAt L (transform_from_cartesian ax L tlo_z rtcp t P).1 a c := by
  by_cases hf : |P ax.A_AXIS| < 0.001 ∧ |P ax.C_AXIS| < 0.001
  · rw [transform_from_cartesian_fast ax L tlo_z rtcp t P hf]
    exact ⟨hinv, fun _ => Or.inl hat.2⟩
  · rw [transform_from_cartesian_general ax L tlo_z rtcp t P hf]
    refine ⟨update_trig_cache_inv L rtcp _ _ hinv, ?_⟩
    unfold update_trig_cache
    split
    · rename_i hc
      intro _
      rcases hc with hc | hc | hc
      · rw [hat.1] at hc
        exact absurd hc (by decide)
      · rw [hat.2.1, abs_sub_comm] at hc
        exact Or.inr (Or.inl hc)
      · rw [hat.2.2, abs_sub_comm] at hc
        exact Or.inr (Or.inr hc)
    · intro _
      exact Or.inl hat.2

end Lemmas

section SegLemmas
variable {α : Type} [LinearOrderedField α]

theorem dec_u16_succ (n : Nat) (h : n + 1 < UINT_FAST16_RANGE) : dec_u16 (n + 1) = n := by
  unfold dec_u16 UINT_FAST16_RANGE at *
  omega

theorem segment_produce_iterations (ax : Axes) (L : Libm α) (H : Host α) (m : Module α)
    (pl : plan_line_data_t α) :
    (segment_produce ax L H m pl).1.iterations = dec_u16 m.iterations := by
  simp only [segment_produce]
  split_ifs <;> rfl

theorem segment_produce_jog_cancel (ax : Axes) (L : Libm α) (H : Host α) (m : Module α)
    (pl : plan_line_data_t α) :
    (segment_produce ax L H m pl).1.jog_cancel = m.jog_cancel := by
  simp only [segment_produce]
  split_ifs <;> rfl

theorem segment_produce_result (ax : Axes) (L : Libm α) (H : Host α) (m : Module α)
    (pl : plan_line_data_t α) :
    (segment_produce ax L H m pl).2.2 =
      if dec_u16 m.iterations = 0 ∨ m.jog_cancel = true then none
      else some (segment_produce ax L H m pl).1.mpos := by
  simp only [segment_produce]
  split_ifs <;> rfl

theorem clamp_rate_multiplier_bounds (x : α) :
    0.5 ≤ clamp_rate_multiplier x ∧ clamp_rate_multiplier x ≤ 2 := by
  unfold clamp_rate_multiplier
  split_ifs with h1 h2
  · constructor <;> norm_num
  · constructor <;> norm_num
  · refine ⟨not_lt.mp h1, ?_⟩
    have := not_lt.mp h2
    norm_num at this
    exact this

theorem segment_produce_pl_data (ax : Axes) (L : Libm α) (H : Host α) (m : Module α)
    (pl : plan_line_data_t α)
    (h : pl.condition.rapid_motion = false ∧ m.distance > 0.0001) :
    ∃ d : α, (segment_produce ax L H m pl).2.1 =
      { pl with
        feed_rate := pl.feed_rate * clamp_rate_multiplier d
        rate_multiplier := 1.0 / clamp_rate_multiplier d } := by
  simp only [segment_produce]
  split_ifs
  · exact ⟨_, rfl⟩
  · exact ⟨_, rfl⟩

theorem segment_produce_state (ax : Axes) (L : Libm α) (H : Host α) (m : Module α)
    (pl : plan_line_data_t α) :
    (segment_produce ax L H m pl).1.final_target = m.final_target ∧
    (segment_produce ax L H m pl).1.rtcp =
      (transform_from_cartesian ax L H.tlo_z m.rtcp m.mpos
        (if m.segmented = true ∧ dec_u16 m.iterations > 1 then
          fill_down (fun idx => m.segment_target idx + m.delta idx) ax.N_AXIS m.segment_target
         else memcpy ax.N_AXIS m.segment_target m.final_target)).1 ∧
    (segment_produce ax L H m pl).1.mpos =
      (transform_from_cartesian ax L H.tlo_z m.rtcp m.mpos
        (if m.segmented = true ∧ dec_u16 m.iterations > 1 then
          fill_down (fun idx => m.segment_target idx + m.delta idx) ax.N_AXIS m.segment_target
         else memcpy ax.N_AXIS m.segment_target m.final_target)).2 ∧
    (segment_produce ax L H m pl).1.segment_target =
        (if m.segmented = true ∧ dec_u16 m.iterations > 1 then
          fill_down (fun idx => m.segment_target idx + m.delta idx) ax.N_AXIS m.segment_target
         else memcpy ax.N_AXIS m.segment_target m.final_target) := by
  simp only [segment_produce]
  split_ifs <;> exact ⟨rfl, rfl, rfl, rfl⟩

theorem segment_produce_keeps (ax : Axes) (L : Libm α) (H : Host α) (m : Module α)
    (pl : plan_line_data_t α) :
    (segment_produce ax L H m pl).1.delta = m.delta ∧
    (segment_produce ax L H m pl).1.segmented = m.segmented := by
  simp only [segment_produce]
  split_ifs <;> exact ⟨rfl, rfl⟩

theorem delta_loop_step (ax : Axes) (target seg : Vec α) (n : Nat) (s : delta_acc α) :
    delta_loop ax target seg (n + 1) s =
      delta_loop ax target seg n
        (if n ≤ Z_AXIS then
          { s with delta := store s.delta n (target n - seg n)
                   dist_sq := s.dist_sq + (target n - seg n) * (target n - seg n) }
         else if n = ax.A_AXIS then
          { s with delta := store s.delta n (target n - seg n)
                   rot_delta_a := |target n - seg n| }
         else if n = ax.C_AXIS then
          { s with delta := store s.delta n (target n - seg n)
                   rot_delta_c := |target n - seg n| }
         else { s with delta := store s.delta n (target n - seg n) }) := by
  rw [delta_loop]

theorem delta_loop_spec (ax : Axes) (target seg : Vec α) (n : Nat) :
    ∀ s : delta_acc α,
      (∀ i, (delta_loop ax target seg n s).delta i =
        if i < n then target i - seg i else s.delta i) ∧
      (delta_loop ax target seg n s).rot_delta_a =
        (if ax.A_AXIS < n then |target ax.A_AXIS - seg ax.A_AXIS| else s.rot_delta_a) ∧
      (delta_loop ax target seg n s).rot_delta_c =
        (if ax.C_AXIS < n then |target ax.C_AXIS - seg ax.C_AXIS| else s.rot_delta_c) := by
  have hA := ax.hA
  have hC := ax.hC
  have hAC := ax.hAC
  induction n with
  | zero =>
    intro s
    simp [delta_loop]
  | succ n ih =>
    intro s
    rw [delta_loop_step]
    obtain ⟨h1, h2, h3⟩ := ih (if n ≤ Z_AXIS then
          { s with delta := store s.delta n (target n - seg n)
                   dist_sq := s.dist_sq + (target n - seg n) * (target n - seg n) }
         else if n = ax.A_AXIS then
          { s with delta := store s.delta n (target n - seg n)
                   rot_delta_a := |target n - seg n| }
         else if n = ax.C_AXIS then
          { s with delta := store s.delta n (target n - seg n)
                   rot_delta_c := |target n - seg n| }
         else { s with delta := store s.delta n (target n - seg n) })
    refine ⟨?_, ?_, ?_⟩
    · intro i
      rw [h1]
      by_cases hi : i < n
      · have : i < n + 1 := by omega
        simp [hi, this]
      · rw [if_neg hi]
        by_cases hi2 : i = n
        · subst hi2
          split_ifs <;> simp [store] <;> omega
        · have : ¬ i < n + 1 := by omega
          rw [if_neg this]
          split_ifs <;> simp [store, hi2]
    · rw [h2]
      unfold Z_AXIS at *
      by_cases hn : ax.A_AXIS < n
      · have : ax.A_AXIS < n + 1 := by omega
        simp [hn, this]
      · rw [if_neg hn]
        by_cases hn2 : n = ax.A_AXIS
        · subst hn2
          have h4 : ¬ (ax.A_AXIS ≤ 2) := by omega
          simp [h4]
        · have : ¬ ax.A_AXIS < n + 1 := by omega
          rw [if_neg this]
          split_ifs <;> rfl
    · rw [h3]
      unfold Z_AXIS at *
      by_cases hn : ax.C_AXIS < n
      · have : ax.C_AXIS < n + 1 := by omega
        simp [hn, this]
      · rw [if_neg hn]
        by_cases hn2 : n = ax.C_AXIS
        · subst hn2
          have h4 : ¬ (ax.C_AXIS ≤ 2) := by omega
          have h5 : ¬ (ax.C_AXIS = ax.A_AXIS) := fun h => hAC h.symm
          simp [h4, h5]
        · have : ¬ ax.C_AXIS < n + 1 := by omega
          rw [if_neg this]
          split_ifs <;> rfl

theorem delta_loop_dist_sq (ax : Axes) (target seg : Vec α) (k : Nat) :
    ∀ s : delta_acc α,
      (delta_loop ax target seg (k + 3) s).dist_sq =
        s.dist_sq + (target 2 - seg 2) * (target 2 - seg 2)
          + (target 1 - seg 1) * (target 1 - seg 1)
          + (target 0 - seg 0) * (target 0 - seg 0) := by
  induction k with
  | zero =>
    intro s
    simp [delta_loop, Z_AXIS]
  | succ k ih =>
    intro s
    rw [delta_loop_step, ih]
    have h : ¬ (k + 3 ≤ Z_AXIS) := by
      unfold Z_AXIS
      omega
    rw [if_neg h]
    split_ifs <;> rfl

theorem transform_to_cartesian_above_Z (ax : Axes) (L : Libm α) (tlo_z : α)
    (rtcp : rtcp_state_t α) (target motor_pos : Vec α) (i : Nat)
    (h1 : Z_AXIS < i) (h2 : i < ax.N_AXIS) :
    transform_to_cartesian ax L tlo_z rtcp target motor_pos i = motor_pos i := by
  by_cases h : |motor_pos ax.A_AXIS| < 0.001 ∧ |motor_pos ax.C_AXIS| < 0.001
  · rw [transform_to_cartesian_fast ax L tlo_z rtcp target motor_pos h]
    simp [memcpy, h2]
  · rw [transform_to_cartesian_general ax L tlo_z rtcp target motor_pos h]
    simp [h1, h2]

/-- The inverse transform reads its input only at the indices below `N_AXIS`. -/
theorem transform_from_cartesian_congr (ax : Axes) (L : Libm α) (tlo_z : α)
    (rtcp : rtcp_state_t α) (t P P' : Vec α) (h : ∀ i, i < ax.N_AXIS → P i = P' i) :
    transform_from_cartesian ax L tlo_z rtcp t P = transform_from_cartesian ax L tlo_z rtcp t P' := by
  have hA := h ax.A_AXIS ax.hA.2
  have hC := h ax.C_AXIS ax.hC.2
  have h0 := h X_AXIS (by have := ax.hA; unfold X_AXIS; omega)
  have h1 := h Y_AXIS (by have := ax.hA; unfold Y_AXIS; omega)
  have h2 := h Z_AXIS (by have := ax.hA; unfold Z_AXIS; omega)
  by_cases hf : |P ax.A_AXIS| < 0.001 ∧ |P ax.C_AXIS| < 0.001
  · rw [transform_from_cartesian_fast ax L tlo_z rtcp t P hf,
      transform_from_cartesian_fast ax L tlo_z rtcp t P' (by rw [← hA, ← hC]; exact hf)]
    refine Prod.ext rfl ?_
    funext i
    simp only [memcpy]
    split_ifs with hi
    · exact h i hi
    · rfl
  · rw [transform_from_cartesian_general ax L tlo_z rtcp t P hf,
      transform_from_cartesian_general ax L tlo_z rtcp t P' (by rw [← hA, ← hC]; exact hf)]
    simp only [hA, hC, h0, h1, h2]
    refine Prod.ext rfl ?_
    funext i
    dsimp only
    split_ifs with hi
    · exact h i hi.2
    all_goals rfl

variable [FloorRing α]

theorem plan_iterations_bounds (L : Libm α) (rapid : Bool) (err_sq : α) :
    1 ≤ plan_iterations L rapid err_sq ∧ plan_iterations L rapid err_sq ≤ 2000 := by
  simp only [plan_iterations]
  split_ifs <;> omega

theorem segment_init_iterations (ax : Axes) (L : Libm α) (H : Host α) (m : Module α)
    (target position : Vec α) (pl : plan_line_data_t α) :
    2 ≤ (segment_init ax L H m target position pl).1.iterations ∧
    (segment_init ax L H m target position pl).1.iterations ≤ 2001 ∧
    (m.rtcp_enabled = false → (segment_init ax L H m target position pl).1.iterations = 2) := by
  simp only [segment_init]
  split_ifs with h1 h2 h3
  · dsimp only
    omega
  · dsimp only
    omega
  all_goals dsimp only
  all_goals first
    | omega
    | (refine ⟨?_, ?_, ?_⟩
       · exact Nat.succ_le_succ (plan_iterations_bounds L _ _).1
       · exact Nat.succ_le_succ (plan_iterations_bounds L _ _).2
       · intro hh
         exact absurd hh h1)

theorem segment_init_jog_cancel (ax : Axes) (L : Libm α) (H : Host α) (m : Module α)
    (target position : Vec α) (pl : plan_line_data_t α) :
    (segment_init ax L H m target position pl).1.jog_cancel = false := by
  simp only [segment_init]
  split_ifs <;> rfl

theorem produce_until_null_count (ax : Axes) (L : Libm α) (H : Host α)
    (pls : Nat → plan_line_data_t α) (cancel : Nat → Bool) (n : Nat) :
    ∀ (fuel k : Nat) (m : Module α), m.iterations = n + 1 → n + 1 < UINT_FAST16_RANGE →
      n + 1 ≤ fuel →
      ∃ pts m', produce_until_null ax L H pls cancel fuel k m = some (pts, m') ∧
        pts.length ≤ n ∧
        ((∀ j, cancel j = false) → m.jog_cancel = false → pts.length = n) := by
  induction n with
  | zero =>
    intro fuel k m hit hr hf
    obtain ⟨f, rfl⟩ : ∃ f, fuel = f + 1 := ⟨fuel - 1, by omega⟩
    have hres : (rtcp_segment_line ax L H (if cancel k = true then on_jog_cancel_handler m else m)
        (fun _ => 0) (fun _ => 0) (pls k) false).2.2 = none := by
      simp only [rtcp_segment_line, Bool.false_eq_true, if_false]
      rw [segment_produce_result]
      have : (if cancel k = true then on_jog_cancel_handler m else m).iterations = 0 + 1 := by
        split_ifs
        · exact hit
        · exact hit
      rw [this, dec_u16_succ 0 hr]
      simp
    refine ⟨[], (rtcp_segment_line ax L H (if cancel k = true then on_jog_cancel_handler m else m)
        (fun _ => 0) (fun _ => 0) (pls k) false).1, ?_, le_refl _, fun _ _ => rfl⟩
    simp only [produce_until_null]
    rw [hres]
  | succ n ih =>
    intro fuel k m hit hr hf
    obtain ⟨f, rfl⟩ : ∃ f, fuel = f + 1 := ⟨fuel - 1, by omega⟩
    have hit1 : (if cancel k = true then on_jog_cancel_handler m else m).iterations = n + 1 + 1 := by
      split_ifs
      · exact hit
      · exact hit
    have hi2 : (rtcp_segment_line ax L H (if cancel k = true then on_jog_cancel_handler m else m)
        (fun _ => 0) (fun _ => 0) (pls k) false).1.iterations = n + 1 := by
      simp only [rtcp_segment_line, Bool.false_eq_true, if_false]
      rw [segment_produce_iterations, hit1, dec_u16_succ _ hr]
    have hj2 : (rtcp_segment_line ax L H (if cancel k = true then on_jog_cancel_handler m else m)
        (fun _ => 0) (fun _ => 0) (pls k) false).1.jog_cancel
        = (if cancel k = true then on_jog_cancel_handler m else m).jog_cancel := by
      simp only [rtcp_segment_line, Bool.false_eq_true, if_false]
      rw [segment_produce_jog_cancel]
    have hres : (rtcp_segment_line ax L H (if cancel k = true then on_jog_cancel_handler m else m)
        (fun _ => 0) (fun _ => 0) (pls k) false).2.2 =
        if (if cancel k = true then on_jog_cancel_handler m else m).jog_cancel = true then none
        else some (rtcp_segment_line ax L H (if cancel k = true then on_jog_cancel_handler m else m)
          (fun _ => 0) (fun _ => 0) (pls k) false).1.mpos := by
      simp only [rtcp_segment_line, Bool.false_eq_true, if_false]
      rw [segment_produce_result, hit1, dec_u16_succ _ hr]
      simp
    by_cases hc : (if cancel k = true then on_jog_cancel_handler m else m).jog_cancel = true
    · rw [if_pos hc] at hres
      refine ⟨[], (rtcp_segment_line ax L H (if cancel k = true then on_jog_cancel_handler m else m)
        (fun _ => 0) (fun _ => 0) (pls k) false).1, ?_, Nat.zero_le _, ?_⟩
      · simp only [produce_until_null]
        rw [hres]
      · intro hno hm
        rw [hno k] at hc
        simp only [Bool.false_eq_true, if_false] at hc
        rw [hm] at hc
        exact absurd hc (by decide)
    · rw [if_neg hc] at hres
      obtain ⟨pts, m', hrun, hlen, hex⟩ := ih f (k + 1) _ hi2 (by omega) (by omega)
      refine ⟨(rtcp_segment_line ax L H (if cancel k = true then on_jog_cancel_handler m else m)
        (fun _ => 0) (fun _ => 0) (pls k) false).1.mpos :: pts, m', ?_, ?_, ?_⟩
      · simp only [produce_until_null]
        rw [hres]
        simp only [hrun, Option.map_some']
      · simp only [List.length_cons]
        omega
      · intro hno hm
        simp only [List.length_cons]
        rw [hex hno (by rw [hj2]; simpa using hc)]

theorem segment_init_on_state (ax : Axes) (L : Libm α) (H : Host α) (m : Module α)
    (target position : Vec α) (pl : plan_line_data_t α) (hon : m.rtcp_enabled = true)
    (hinv : CacheInv L m.rtcp) :
    (segment_init ax L H m target position pl).1.final_target
      = memcpy ax.N_AXIS m.final_target target ∧
    CacheInv L (segment_init ax L H m target position pl).1.rtcp ∧
    (segment_init ax L H m target position pl).1.rtcp.cfg = m.rtcp.cfg := by
  have hne : ¬ (m.rtcp_enabled = false) := by simp [hon]
  simp only [segment_init, if_neg hne]
  split_ifs
  all_goals refine ⟨rfl, ?_, ?_⟩
  all_goals first
    | exact transform_from_cartesian_inv _ _ _ _ _ _ (transform_from_cartesian_inv _ _ _ _ _ _ hinv)
    | exact transform_from_cartesian_inv _ _ _ _ _ _ hinv
    | (dsimp only; rw [transform_from_cartesian_cfg, transform_from_cartesian_cfg])
    | (dsimp only; rw [transform_from_cartesian_cfg])

theorem produce_until_null_last (ax : Axes) (L : Libm α) (H : Host α)
    (pls : Nat → plan_line_data_t α) (n : Nat) :
    ∀ (fuel k : Nat) (m : Module α), m.iterations = n + 2 → n + 2 < UINT_FAST16_RANGE →
      n + 2 ≤ fuel → m.jog_cancel = false → CacheInv L m.rtcp →
      ∃ pts m' r t s, produce_until_null ax L H pls (fun _ => false) fuel k m = some (pts, m') ∧
        pts.getLast? = some m'.mpos ∧ CacheInv L r ∧ r.cfg = m.rtcp.cfg ∧
        m'.rtcp = (transform_from_cartesian ax L H.tlo_z r t
          (memcpy ax.N_AXIS s m.final_target)).1 ∧
        m'.mpos = (transform_from_cartesian ax L H.tlo_z r t
          (memcpy ax.N_AXIS s m.final_target)).2 := by
  induction n with
  | zero =>
    intro fuel k m hit hr hf hj hinv
    obtain ⟨f, rfl⟩ : ∃ f, fuel = f + 2 := ⟨fuel - 2, by omega⟩
    have hd2 : dec_u16 2 = 1 := by
      unfold dec_u16 UINT_FAST16_RANGE
      norm_num
    have hd1 : dec_u16 1 = 0 := by
      unfold dec_u16 UINT_FAST16_RANGE
      norm_num
    obtain ⟨a1, a2, a3, a4⟩ := segment_produce_state ax L H m (pls k)
    have hmode : ¬ (m.segmented = true ∧ dec_u16 m.iterations > 1) := by
      rw [hit, hd2]
      simp
    rw [if_neg hmode] at a2 a3 a4
    have b0 := segment_produce_iterations ax L H m (pls k)
    rw [hit, hd2] at b0
    have bj := segment_produce_jog_cancel ax L H m (pls k)
    rw [hj] at bj
    have bres := segment_produce_result ax L H m (pls k)
    rw [hit, hd2, hj] at bres
    simp only [one_ne_zero, Bool.false_eq_true, or_self, if_false] at bres
    obtain ⟨c1, c2, c3, c4⟩ := segment_produce_state ax L H (segment_produce ax L H m (pls k)).1
      (pls (k + 1))
    have hmode2 : ¬ ((segment_produce ax L H m (pls k)).1.segmented = true ∧
        dec_u16 (segment_produce ax L H m (pls k)).1.iterations > 1) := by
      rw [b0, hd1]
      simp
    rw [if_neg hmode2, a1, a2, a3, a4, memcpy_memcpy, transform_from_cartesian_again] at c2 c3
    rw [transform_from_cartesian_over] at c3
    have cres := segment_produce_result ax L H (segment_produce ax L H m (pls k)).1 (pls (k + 1))
    rw [b0, hd1] at cres
    simp only [true_or, if_true] at cres
    refine ⟨[(segment_produce ax L H m (pls k)).1.mpos],
      (segment_produce ax L H (segment_produce ax L H m (pls k)).1 (pls (k + 1))).1,
      m.rtcp, m.mpos, m.segment_target, ?_, ?_, hinv, rfl, ?_, ?_⟩
    · simp only [produce_until_null, rtcp_segment_line, Bool.false_eq_true, if_false, bres, cres,
        Option.map_some']
    · simp only [List.getLast?_singleton, c3, a3]
    · rw [c2]
      exact transform_from_cartesian_fst_indep _ _ _ _ _ _ _
    · rw [c3]
  | succ n ih =>
    intro fuel k m hit hr hf hj hinv
    obtain ⟨f, rfl⟩ : ∃ f, fuel = f + 1 := ⟨fuel - 1, by omega⟩
    obtain ⟨a1, a2, _, _⟩ := segment_produce_state ax L H m (pls k)
    have b0 := segment_produce_iterations ax L H m (pls k)
    rw [hit, dec_u16_succ _ hr] at b0
    have bj := segment_produce_jog_cancel ax L H m (pls k)
    rw [hj] at bj
    have bres := segment_produce_result ax L H m (pls k)
    rw [hit, dec_u16_succ _ hr, hj] at bres
    simp only [Nat.add_one_ne_zero, Bool.false_eq_true, or_self, if_false] at bres
    have binv : CacheInv L (segment_produce ax L H m (pls k)).1.rtcp := by
      rw [a2]
      exact transform_from_cartesian_inv _ _ _ _ _ _ hinv
    have bcfg : (segment_produce ax L H m (pls k)).1.rtcp.cfg = m.rtcp.cfg := by
      rw [a2, transform_from_cartesian_cfg]
    obtain ⟨pts, m', r, t, s, hrun, hlast, hrinv, hrcfg, h1, h2⟩ :=
      ih f (k + 1) (segment_produce ax L H m (pls k)).1 b0 (by omega) (by omega) bj binv
    rw [a1] at h1 h2
    refine ⟨(segment_produce ax L H m (pls k)).1.mpos :: pts, m', r, t, s, ?_, ?_, hrinv,
      hrcfg.trans bcfg, h1, h2⟩
    · simp only [produce_until_null, rtcp_segment_line, Bool.false_eq_true, if_false, bres, hrun,
        Option.map_some']
    · cases pts with
      | nil => simp at hlast
      | cons q qs => simpa using hlast

/-- The statics after the init call with RTCP on, branch by branch. -/
theorem segment_init_on (ax : Axes) (L : Libm α) (H : Host α) (m : Module α)
    (target position : Vec α) (pl : plan_line_data_t α) (hon : m.rtcp_enabled = true) :
    (segment_init ax L H m target position pl).1 =
      (let r1 := transform_from_cartesian ax L H.tlo_z m.rtcp m.mpos target
       let S := transform_to_cartesian ax L H.tlo_z r1.1 m.segment_target position
       let F := memcpy ax.N_AXIS m.final_target target
       let acc := delta_loop ax target S ax.N_AXIS ⟨m.delta, 0, 0, 0⟩
       if max acc.rot_delta_a acc.rot_delta_c > 0.001 then
         let tcp_mid := fill_down (fun idx => (S idx + F idx) * 0.5) ax.N_AXIS (fun _ => 0)
         let r2 := transform_from_cartesian ax L H.tlo_z r1.1 (fun _ => 0) tcp_mid
         let n := plan_iterations L pl.condition.rapid_motion
           (err_sq_loop position r1.2 r2.2 0 0)
         { m with
           jog_cancel := false
           final_target := F
           rtcp := r2.1
           mpos := r1.2
           segment_target := S
           last_motors := memcpy ax.N_AXIS m.last_motors position
           delta := fill_down (fun idx => acc.delta idx / (n : α)) ax.N_AXIS acc.delta
           distance := L.sqrtf acc.dist_sq / (n : α)
           segmented := true
           iterations := n + 1 }
       else
         { m with
           jog_cancel := false
           final_target := F
           rtcp := r1.1
           mpos := r1.2
           segment_target := memcpy ax.N_AXIS S F
           last_motors := memcpy ax.N_AXIS m.last_motors position
           delta := acc.delta
           distance := L.sqrtf acc.dist_sq / ((1 : Nat) : α)
           segmented := false
           iterations := 1 + 1 }) := by
  have hne : ¬ (m.rtcp_enabled = false) := by simp [hon]
  simp only [segment_init, if_neg hne]
  split_ifs <;> simp_all


/-- Two produce calls from a state with `iterations == 2`: one point, then `NULL`. -/
theorem produce_until_null_two (ax : Axes) (L : Libm α) (H : Host α)
    (pls : Nat → plan_line_data_t α) (fuel k : Nat) (m : Module α)
    (hit : m.iterations = 2) (hf : 2 ≤ fuel) (hj : m.jog_cancel = false) :
    ∃ m', produce_until_null ax L H pls (fun _ => false) fuel k m =
        some ([(transform_from_cartesian ax L H.tlo_z m.rtcp m.mpos
          (memcpy ax.N_AXIS m.segment_target m.final_target)).2], m') ∧
      m'.rtcp = (transform_from_cartesian ax L H.tlo_z m.rtcp m.mpos
          (memcpy ax.N_AXIS m.segment_target m.final_target)).1 ∧
      m'.mpos = (transform_from_cartesian ax L H.tlo_z m.rtcp m.mpos
          (memcpy ax.N_AXIS m.segment_target m.final_target)).2 := by
  obtain ⟨f, rfl⟩ : ∃ f, fuel = f + 2 := ⟨fuel - 2, by omega⟩
  have hd2 : dec_u16 2 = 1 := by
    unfold dec_u16 UINT_FAST16_RANGE
    norm_num
  have hd1 : dec_u16 1 = 0 := by
    unfold dec_u16 UINT_FAST16_RANGE
    norm_num
  obtain ⟨a1, a2, a3, a4⟩ := segment_produce_state ax L H m (pls k)
  have hmode : ¬ (m.segmented = true ∧ dec_u16 m.iterations > 1) := by
    rw [hit, hd2]
    simp
  rw [if_neg hmode] at a2 a3 a4
  have b0 := segment_produce_iterations ax L H m (pls k)
  rw [hit, hd2] at b0
  have bres := segment_produce_result ax L H m (pls k)
  rw [hit, hd2, hj] at bres
  simp only [one_ne_zero, Bool.false_eq_true, or_self, if_false] at bres
  obtain ⟨_, c2, c3, _⟩ := segment_produce_state ax L H (segment_produce ax L H m (pls k)).1
    (pls (k + 1))
  have hmode2 : ¬ ((segment_produce ax L H m (pls k)).1.segmented = true ∧
      dec_u16 (segment_produce ax L H m (pls k)).1.iterations > 1) := by
    rw [b0, hd1]
    simp
  rw [if_neg hmode2, a1, a2, a3, a4, memcpy_memcpy, transform_from_cartesian_again] at c2 c3
  rw [transform_from_cartesian_over] at c3
  have cres := segment_produce_result ax L H (segment_produce ax L H m (pls k)).1 (pls (k + 1))
  rw [b0, hd1] at cres
  simp only [true_or, if_true] at cres
  refine ⟨(segment_produce ax L H (segment_produce ax L H m (pls k)).1 (pls (k + 1))).1,
    ?_, ?_, c3⟩
  · simp only [produce_until_null, rtcp_segment_line, Bool.false_eq_true, if_false, bres, cres,
      Option.map_some', a3]
  · rw [c2]
    exact transform_from_cartesian_fst_indep _ _ _ _ _ _ _

/-- A move without rotation (RTCP on, no jog cancel): one point, the inverse transform of
the target as the init call computed it. -/
theorem segment_move_unsegmented (ax : Axes) (L : Libm α) (H : Host α)
    (pl0 : plan_line_data_t α) (pls : Nat → plan_line_data_t α) (fuel : Nat) (m : Module α)
    (target position : Vec α) (hon : m.rtcp_enabled = true) (hf : 2 ≤ fuel)
    (hrot : |target ax.A_AXIS - position ax.A_AXIS| ≤ 0.001 ∧
      |target ax.C_AXIS - position ax.C_AXIS| ≤ 0.001) :
    ∃ m', segment_move ax L H pl0 pls (fun _ => false) fuel m target position =
        some ([(transform_from_cartesian ax L H.tlo_z m.rtcp m.mpos target).2], m') ∧
      m'.rtcp = (transform_from_cartesian ax L H.tlo_z m.rtcp m.mpos target).1 := by
  have hS : ∀ rr sb, ¬ (max
      (delta_loop ax target (transform_to_cartesian ax L H.tlo_z rr sb position) ax.N_AXIS
        ⟨m.delta, 0, 0, 0⟩).rot_delta_a
      (delta_loop ax target (transform_to_cartesian ax L H.tlo_z rr sb position) ax.N_AXIS
        ⟨m.delta, 0, 0, 0⟩).rot_delta_c > 0.001) := by
    intro rr sb
    obtain ⟨_, h2, h3⟩ := delta_loop_spec ax target
      (transform_to_cartesian ax L H.tlo_z rr sb position) ax.N_AXIS ⟨m.delta, 0, 0, 0⟩
    rw [h2, h3, if_pos ax.hA.2, if_pos ax.hC.2,
      transform_to_cartesian_above_Z ax L H.tlo_z rr sb position _ ax.hA.1 ax.hA.2,
      transform_to_cartesian_above_Z ax L H.tlo_z rr sb position _ ax.hC.1 ax.hC.2]
    exact not_lt.mpr (max_le hrot.1 hrot.2)
  have h0 : (rtcp_segment_line ax L H m target position pl0 true).1 =
      (segment_init ax L H m target position pl0).1 := by
    simp only [rtcp_segment_line, if_true]
  have h1 := segment_init_on ax L H m target position pl0 hon
  simp only [if_neg (hS _ _)] at h1
  unfold segment_move
  rw [h0]
  obtain ⟨m', hrun, hr, _⟩ := produce_until_null_two ax L H pls fuel 0
    (segment_init ax L H m target position pl0).1 (by rw [h1]) hf (by rw [h1])
  have hP : ∀ i, i < ax.N_AXIS →
      memcpy ax.N_AXIS (segment_init ax L H m target position pl0).1.segment_target
        (segment_init ax L H m target position pl0).1.final_target i = target i := by
    intro i hi
    rw [h1]
    simp [memcpy, hi]
  rw [transform_from_cartesian_congr ax L H.tlo_z _ _ _ target hP] at hrun hr
  have e1 : (segment_init ax L H m target position pl0).1.rtcp =
      (transform_from_cartesian ax L H.tlo_z m.rtcp m.mpos target).1 := by rw [h1]
  have e2 : (segment_init ax L H m target position pl0).1.mpos =
      (transform_from_cartesian ax L H.tlo_z m.rtcp m.mpos target).2 := by rw [h1]
  rw [e1, e2, transform_from_cartesian_again] at hrun hr
  rw [transform_from_cartesian_over] at hrun
  refine ⟨m', hrun, ?_⟩
  rw [hr]
  exact transform_from_cartesian_fst_indep _ _ _ _ _ _ _

/-- The statics after the init call of a move without rotation (RTCP on). -/
theorem segment_init_unsegmented (ax : Axes) (L : Libm α) (H : Host α) (m : Module α)
    (target position : Vec α) (pl : plan_line_data_t α) (hon : m.rtcp_enabled = true)
    (hrot : |target ax.A_AXIS - position ax.A_AXIS| ≤ 0.001 ∧
      |target ax.C_AXIS - position ax.C_AXIS| ≤ 0.001) :
    (segment_init ax L H m target position pl).1 =
      (let r1 := transform_from_cartesian ax L H.tlo_z m.rtcp m.mpos target
       let S := transform_to_cartesian ax L H.tlo_z r1.1 m.segment_target position
       let F := memcpy ax.N_AXIS m.final_target target
       let acc := delta_loop ax target S ax.N_AXIS ⟨m.delta, 0, 0, 0⟩
       { m with
         jog_cancel := false
         final_target := F
         rtcp := r1.1
         mpos := r1.2
         segment_target := memcpy ax.N_AXIS S F
         last_motors := memcpy ax.N_AXIS m.last_motors position
         delta := acc.delta
         distance := L.sqrtf acc.dist_sq / ((1 : Nat) : α)
         segmented := false
         iterations := 1 + 1 }) := by
  have hS : ∀ rr sb, ¬ (max
      (delta_loop ax target (transform_to_cartesian ax L H.tlo_z rr sb position) ax.N_AXIS
        ⟨m.delta, 0, 0, 0⟩).rot_delta_a
      (delta_loop ax target (transform_to_cartesian ax L H.tlo_z rr sb position) ax.N_AXIS
        ⟨m.delta, 0, 0, 0⟩).rot_delta_c > 0.001) := by
    intro rr sb
    obtain ⟨_, h2, h3⟩ := delta_loop_spec ax target
      (transform_to_cartesian ax L H.tlo_z rr sb position) ax.N_AXIS ⟨m.delta, 0, 0, 0⟩
    rw [h2, h3, if_pos ax.hA.2, if_pos ax.hC.2,
      transform_to_cartesian_above_Z ax L H.tlo_z rr sb position _ ax.hA.1 ax.hA.2,
      transform_to_cartesian_above_Z ax L H.tlo_z rr sb position _ ax.hC.1 ax.hC.2]
    exact not_lt.mpr (max_le hrot.1 hrot.2)
  have h1 := segment_init_on ax L H m target position pl hon
  simp only [if_neg (hS _ _)] at h1
  exact h1

/-- The produce calls of a move whose per-segment rotation exceeds the cache tolerance
(or that has one segment) end with the cache sample at the target's angles. -/
theorem produce_until_null_fresh (ax : Axes) (L : Libm α) (H : Host α)
    (pls : Nat → plan_line_data_t α) (a c : α)
    (hnf : ¬ (|a| < 0.001 ∧ |c| < 0.001)) (n : Nat) :
    ∀ (fuel k : Nat) (m : Module α), m.iterations = n + 2 → n + 2 < UINT_FAST16_RANGE →
      n + 2 ≤ fuel → m.jog_cancel = false → FreshAt L m.rtcp a c →
      m.final_target ax.A_AXIS = a → m.final_target ax.C_AXIS = c →
      (m.segmented = true →
        m.segment_target ax.A_AXIS + ((n : α) + 1) * m.delta ax.A_AXIS = a ∧
        m.segment_target ax.C_AXIS + ((n : α) + 1) * m.delta ax.C_AXIS = c) →
      (m.segmented = true → 1 ≤ n →
        m.rtcp.trig_cache_tol < |m.delta ax.A_AXIS| ∨
        m.rtcp.trig_cache_tol < |m.delta ax.C_AXIS|) →
      ∃ pts m', produce_until_null ax L H pls (fun _ => false) fuel k m = some (pts, m') ∧
        m'.rtcp.cache_valid = true ∧ m'.rtcp.last_a = a ∧ m'.rtcp.last_c = c := by
  induction n with
  | zero =>
    intro fuel k m hit hr hf hj hfresh hFA hFC _ _
    obtain ⟨m', hrun, hr1, _⟩ := produce_until_null_two ax L H pls fuel k m hit hf hj
    have hPA : memcpy ax.N_AXIS m.segment_target m.final_target ax.A_AXIS = a := by
      simp [memcpy, ax.hA.2, hFA]
    have hPC : memcpy ax.N_AXIS m.segment_target m.final_target ax.C_AXIS = c := by
      simp [memcpy, ax.hC.2, hFC]
    have := transform_from_cartesian_at ax L H.tlo_z m.rtcp m.mpos
      (memcpy ax.N_AXIS m.segment_target m.final_target)
      (by rw [hPA, hPC]; exact hnf) (by rw [hPA, hPC]; exact hfresh)
    rw [hPA, hPC, ← hr1] at this
    exact ⟨_, m', hrun, this⟩
  | succ n ih =>
    intro fuel k m hit hr hf hj hfresh hFA hFC hprog hstep
    obtain ⟨f, rfl⟩ : ∃ f, fuel = f + 1 := ⟨fuel - 1, by omega⟩
    obtain ⟨a1, a2, _, a4⟩ := segment_produce_state ax L H m (pls k)
    obtain ⟨k1, k2⟩ := segment_produce_keeps ax L H m (pls k)
    have b0 := segment_produce_iterations ax L H m (pls k)
    rw [hit, dec_u16_succ _ hr] at b0
    have bj := segment_produce_jog_cancel ax L H m (pls k)
    rw [hj] at bj
    have bres := segment_produce_result ax L H m (pls k)
    rw [hit, dec_u16_succ _ hr, hj] at bres
    simp only [Nat.add_one_ne_zero, Bool.false_eq_true, or_self, if_false] at bres
    have hdec : dec_u16 m.iterations > 1 := by
      rw [hit, dec_u16_succ _ hr]
      omega
    have btol : (segment_produce ax L H m (pls k)).1.rtcp.trig_cache_tol
        = m.rtcp.trig_cache_tol := by
      rw [a2, transform_from_cartesian_tol]
    have hA := ax.hA.2
    have hC := ax.hC.2
    have step : FreshAt L (segment_produce ax L H m (pls k)).1.rtcp a c ∧
        ((segment_produce ax L H m (pls k)).1.segmented = true →
          (segment_produce ax L H m (pls k)).1.segment_target ax.A_AXIS
            + ((n : α) + 1) * (segment_produce ax L H m (pls k)).1.delta ax.A_AXIS = a ∧
          (segment_produce ax L H m (pls k)).1.segment_target ax.C_AXIS
            + ((n : α) + 1) * (segment_produce ax L H m (pls k)).1.delta ax.C_AXIS = c) := by
      by_cases hs : m.segmented = true
      · have hmode : m.segmented = true ∧ dec_u16 m.iterations > 1 := ⟨hs, hdec⟩
        rw [if_pos hmode] at a2 a4
        obtain ⟨pA, pC⟩ := hprog hs
        have hst := hstep hs (by omega)
        have eA : fill_down (fun idx => m.segment_target idx + m.delta idx) ax.N_AXIS
            m.segment_target ax.A_AXIS = m.segment_target ax.A_AXIS + m.delta ax.A_AXIS := by
          rw [fill_down_apply, if_pos hA]
        have eC : fill_down (fun idx => m.segment_target idx + m.delta idx) ax.N_AXIS
            m.segment_target ax.C_AXIS = m.segment_target ax.C_AXIS + m.delta ax.C_AXIS := by
          rw [fill_down_apply, if_pos hC]
        have hn0 : (0 : α) ≤ (n : α) := Nat.cast_nonneg n
        have far : ∀ (d t : α), t < |d| → t < |((n : α) + 1) * d| := by
          intro d t ht
          rw [abs_mul, abs_of_pos (by linarith : (0 : α) < (n : α) + 1)]
          have : 0 ≤ (n : α) * |d| := mul_nonneg hn0 (abs_nonneg d)
          linarith
        refine ⟨?_, ?_⟩
        · rw [a2]
          refine transform_from_cartesian_fresh_at ax L H.tlo_z m.rtcp m.mpos _ a c hfresh
            (Or.inr ?_)
          rw [eA, eC]
          rcases hst with h | h
          · left
            have e : a - (m.segment_target ax.A_AXIS + m.delta ax.A_AXIS)
                = ((n : α) + 1) * m.delta ax.A_AXIS := by
              rw [← pA]
              push_cast
              ring
            rw [e]
            exact far _ _ h
          · right
            have e : c - (m.segment_target ax.C_AXIS + m.delta ax.C_AXIS)
                = ((n : α) + 1) * m.delta ax.C_AXIS := by
              rw [← pC]
              push_cast
              ring
            rw [e]
            exact far _ _ h
        · intro _
          rw [a4, k1, eA, eC]
          constructor
          · rw [← pA]
            push_cast
            ring
          · rw [← pC]
            push_cast
            ring
      · have hmode : ¬ (m.segmented = true ∧ dec_u16 m.iterations > 1) := fun h => hs h.1
        rw [if_neg hmode] at a2
        refine ⟨?_, ?_⟩
        · rw [a2]
          refine transform_from_cartesian_fresh_at ax L H.tlo_z m.rtcp m.mpos _ a c hfresh
            (Or.inl ?_)
          simp [memcpy, hA, hC, hFA, hFC]
        · intro h
          rw [k2] at h
          exact absurd h hs
    obtain ⟨pts, m', hrun, hfin⟩ :=
      ih f (k + 1) (segment_produce ax L H m (pls k)).1 b0 (by omega) (by omega) bj step.1
        (by rw [a1]; exact hFA) (by rw [a1]; exact hFC) step.2
        (by
          intro h1 _
          rw [k2] at h1
          rw [btol, k1]
          exact hstep h1 (by omega))
    refine ⟨(segment_produce ax L H m (pls k)).1.mpos :: pts, m', ?_, hfin⟩
    simp only [produce_until_null, rtcp_segment_line, Bool.false_eq_true, if_false, bres, hrun,
      Option.map_some']

/-- The init call of a move with rotation leaves, on the rotary axes, the start angle in
`segment_target` and the `1/N` share of the rotation in `delta`, `N + 1` being the value
of `iterations`. -/
theorem segment_init_progress (ax : Axes) (L : Libm α) (H : Host α) (m : Module α)
    (target position : Vec α) (pl : plan_line_data_t α) (hon : m.rtcp_enabled = true)
    (hseg : (segment_init ax L H m target position pl).1.segmented = true) :
    ∃ N : Nat, 1 ≤ N ∧ (segment_init ax L H m target position pl).1.iterations = N + 1 ∧
      ∀ i, 2 < i → i < ax.N_AXIS →
        (segment_init ax L H m target position pl).1.segment_target i = position i ∧
        (segment_init ax L H m target position pl).1.delta i
          = (target i - position i) / (N : α) := by
  have h1 := segment_init_on ax L H m target position pl hon
  by_cases hmax : max
      (delta_loop ax target (transform_to_cartesian ax L H.tlo_z
        (transform_from_cartesian ax L H.tlo_z m.rtcp m.mpos target).1 m.segment_target position)
        ax.N_AXIS ⟨m.delta, 0, 0, 0⟩).rot_delta_a
      (delta_loop ax target (transform_to_cartesian ax L H.tlo_z
        (transform_from_cartesian ax L H.tlo_z m.rtcp m.mpos target).1 m.segment_target position)
        ax.N_AXIS ⟨m.delta, 0, 0, 0⟩).rot_delta_c > 0.001
  · simp only [if_pos hmax] at h1
    rw [h1]
    refine ⟨_, (plan_iterations_bounds L _ _).1, rfl, ?_⟩
    intro i hi2 hiN
    refine ⟨transform_to_cartesian_above_Z ax L H.tlo_z _ _ position i hi2 hiN, ?_⟩
    dsimp only
    rw [fill_down_apply, if_pos hiN,
      (delta_loop_spec ax target _ ax.N_AXIS ⟨m.delta, 0, 0, 0⟩).1 i, if_pos hiN,
      transform_to_cartesian_above_Z ax L H.tlo_z _ _ position i hi2 hiN]
  · simp only [if_neg hmax] at h1
    rw [h1] at hseg
    exact absurd hseg (by simp)

/-- The init call of a move to a target off the fast path, entered with a cache that is
fresh at the target's angles, leaves the cache fresh at them, and keeps the tolerance. -/
theorem segment_init_fresh (ax : Axes) (L : Libm α) (H : Host α) (m : Module α)
    (target position : Vec α) (pl : plan_line_data_t α) (hon : m.rtcp_enabled = true)
    (hnf : ¬ (|target ax.A_AXIS| < 0.001 ∧ |target ax.C_AXIS| < 0.001))
    (hfresh : FreshAt L m.rtcp (target ax.A_AXIS) (target ax.C_AXIS)) :
    FreshAt L (segment_init ax L H m target position pl).1.rtcp
      (target ax.A_AXIS) (target ax.C_AXIS) ∧
    (segment_init ax L H m target position pl).1.rtcp.trig_cache_tol
      = m.rtcp.trig_cache_tol := by
  have h1 := segment_init_on ax L H m target position pl hon
  have hat := transform_from_cartesian_at ax L H.tlo_z m.rtcp m.mpos target hnf hfresh
  have hinv1 := transform_from_cartesian_inv ax L H.tlo_z m.rtcp m.mpos target hfresh.1
  by_cases hmax : max
      (delta_loop ax target (transform_to_cartesian ax L H.tlo_z
        (transform_from_cartesian ax L H.tlo_z m.rtcp m.mpos target).1 m.segment_target position)
        ax.N_AXIS ⟨m.delta, 0, 0, 0⟩).rot_delta_a
      (delta_loop ax target (transform_to_cartesian ax L H.tlo_z
        (transform_from_cartesian ax L H.tlo_z m.rtcp m.mpos target).1 m.segment_target position)
        ax.N_AXIS ⟨m.delta, 0, 0, 0⟩).rot_delta_c > 0.001
  · simp only [if_pos hmax] at h1
    rw [h1]
    dsimp only
    refine ⟨transform_from_cartesian_fresh_of_at ax L H.tlo_z _ _ _ _ _ hinv1 hat, ?_⟩
    rw [transform_from_cartesian_tol, transform_from_cartesian_tol]
  · simp only [if_neg hmax] at h1
    rw [h1]
    dsimp only
    refine ⟨⟨hinv1, fun _ => Or.inl hat.2⟩, ?_⟩
    rw [transform_from_cartesian_tol]

/-- A whole move with RTCP on to a target off the fast path, entered with a cache fresh at
the target's angles: when the move has one segment, or rotates by more than the cache
tolerance per segment on `A` or on `C`, it ends with the cache sample at the target's
angles. -/
theorem segment_move_cache_at_target (ax : Axes) (L : Libm α) (H : Host α)
    (pl0 : plan_line_data_t α) (pls : Nat → plan_line_data_t α) (m : Module α)
    (target position : Vec α) (hon : m.rtcp_enabled = true)
    (hnf : ¬ (|target ax.A_AXIS| < 0.001 ∧ |target ax.C_AXIS| < 0.001))
    (hfresh : FreshAt L m.rtcp (target ax.A_AXIS) (target ax.C_AXIS))
    (hstep : (rtcp_segment_line ax L H m target position pl0 true).1.iterations = 2 ∨
      (((rtcp_segment_line ax L H m target position pl0 true).1.iterations - 1 : Nat) : α)
          * m.rtcp.trig_cache_tol < |target ax.A_AXIS - position ax.A_AXIS| ∨
      (((rtcp_segment_line ax L H m target position pl0 true).1.iterations - 1 : Nat) : α)
          * m.rtcp.trig_cache_tol < |target ax.C_AXIS - position ax.C_AXIS|) :
    ∃ pts m', segment_move ax L H pl0 pls (fun _ => false) 2001 m target position
        = some (pts, m') ∧
      m'.rtcp.cache_valid = true ∧ m'.rtcp.last_a = target ax.A_AXIS ∧
      m'.rtcp.last_c = target ax.C_AXIS := by
  have h0 : (rtcp_segment_line ax L H m target position pl0 true).1 =
      (segment_init ax L H m target position pl0).1 := by
    simp only [rtcp_segment_line, if_true]
  rw [h0] at hstep
  have hb := segment_init_iterations ax L H m target position pl0
  have hj := segment_init_jog_cancel ax L H m target position pl0
  obtain ⟨hF, _, _⟩ := segment_init_on_state ax L H m target position pl0 hon hfresh.1
  obtain ⟨hfr, htol⟩ := segment_init_fresh ax L H m target position pl0 hon hnf hfresh
  obtain ⟨n, hn⟩ : ∃ n, (segment_init ax L H m target position pl0).1.iterations = n + 2 :=
    ⟨(segment_init ax L H m target position pl0).1.iterations - 2, by omega⟩
  have hA := ax.hA
  have hC := ax.hC
  unfold segment_move
  rw [h0]
  refine produce_until_null_fresh ax L H pls _ _ hnf n 2001 0
    (segment_init ax L H m target position pl0).1 hn (by unfold UINT_FAST16_RANGE; omega)
    (by omega) hj hfr (by rw [hF]; simp [memcpy, hA.2]) (by rw [hF]; simp [memcpy, hC.2]) ?_ ?_
  · intro hseg
    obtain ⟨N, hN1, hNit, hfields⟩ :=
      segment_init_progress ax L H m target position pl0 hon hseg
    have hNn : N = n + 1 := by omega
    have hNc : ((n : α) + 1) = (N : α) := by
      rw [hNn]
      push_cast
      ring
    have hN0 : (N : α) ≠ 0 := by
      have : (0 : α) < (N : α) := by exact_mod_cast hN1
      exact ne_of_gt this
    rw [hNc, (hfields _ hA.1 hA.2).1, (hfields _ hA.1 hA.2).2,
      (hfields _ hC.1 hC.2).1, (hfields _ hC.1 hC.2).2]
    constructor <;> field_simp
  · intro hseg hn1
    obtain ⟨N, hN1, hNit, hfields⟩ :=
      segment_init_progress ax L H m target position pl0 hon hseg
    have hNp : (0 : α) < (N : α) := by exact_mod_cast hN1
    have hsub : (segment_init ax L H m target position pl0).1.iterations - 1 = N := by omega
    rw [hsub] at hstep
    rw [htol, (hfields _ hA.1 hA.2).2, (hfields _ hC.1 hC.2).2, abs_div, abs_div,
      abs_of_pos hNp, lt_div_iff₀ hNp, lt_div_iff₀ hNp, mul_comm _ (N : α)]
    rcases hstep with h | h | h
    · omega
    · exact Or.inl h
    · exact Or.inr h

end SegLemmas

section ScenarioLemmas

/-- The statics after the init call of a move with rotation (RTCP on), with the
intermediate values named. -/
theorem segment_init_segmented {α : Type} [LinearOrderedField α] [FloorRing α]
    (ax : Axes) (L : Libm α) (H : Host α) (m : Module α)
    (target position : Vec α) (pl : plan_line_data_t α) (hon : m.rtcp_enabled = true)
    (r1 r2 : rtcp_state_t α × Vec α) (S F tcp_mid : Vec α) (acc : delta_acc α) (n : Nat)
    (hr1 : r1 = transform_from_cartesian ax L H.tlo_z m.rtcp m.mpos target)
    (hS : S = transform_to_cartesian ax L H.tlo_z r1.1 m.segment_target position)
    (hF : F = memcpy ax.N_AXIS m.final_target target)
    (hacc : acc = delta_loop ax target S ax.N_AXIS ⟨m.delta, 0, 0, 0⟩)
    (hmax : max acc.rot_delta_a acc.rot_delta_c > 0.001)
    (hmid : tcp_mid = fill_down (fun idx => (S idx + F idx) * 0.5) ax.N_AXIS (fun _ => 0))
    (hr2 : r2 = transform_from_cartesian ax L H.tlo_z r1.1 (fun _ => 0) tcp_mid)
    (hn : n = plan_iterations L pl.condition.rapid_motion (err_sq_loop position r1.2 r2.2 0 0)) :
    (segment_init ax L H m target position pl).1 =
      { m with
        jog_cancel := false
        final_target := F
        rtcp := r2.1
        mpos := r1.2
        segment_target := S
        last_motors := memcpy ax.N_AXIS m.last_motors position
        delta := fill_down (fun idx => acc.delta idx / (n : α)) ax.N_AXIS acc.delta
        distance := L.sqrtf acc.dist_sq / (n : α)
        segmented := true
        iterations := n + 1 } := by
  subst hr1 hS hF hacc hmid hr2 hn
  have h1 := segment_init_on ax L H m target position pl hon
  simp only [if_pos hmax] at h1
  exact h1

/-- The statics that the init call leaves in the scenario `c8_init`: 200 segments of
4.5 degrees each are planned. -/
theorem c8_init_eval :
    (c8_init (⟨Real.sin, Real.cos, Real.sqrt, Real.pi⟩ : Libm ℝ)).iterations = 201 ∧
    (c8_init (⟨Real.sin, Real.cos, Real.sqrt, Real.pi⟩ : Libm ℝ)).segmented = true ∧
    (c8_init (⟨Real.sin, Real.cos, Real.sqrt, Real.pi⟩ : Libm ℝ)).jog_cancel = false ∧
    (c8_init (⟨Real.sin, Real.cos, Real.sqrt, Real.pi⟩ : Libm ℝ)).rtcp.cfg = ⟨0, 0, 0, 0, 0⟩ ∧
    (c8_init (⟨Real.sin, Real.cos, Real.sqrt, Real.pi⟩ : Libm ℝ)).rtcp.last_c = 450 ∧
    (c8_init (⟨Real.sin, Real.cos, Real.sqrt, Real.pi⟩ : Libm ℝ)).rtcp.trig_cache_tol
      = 0.01 / 500 * (180 / Real.pi) ∧
    (∀ i, i < 5 → (c8_init (⟨Real.sin, Real.cos, Real.sqrt, Real.pi⟩ : Libm ℝ)).segment_target i
      = vec5 100 0 0 0 0 i) ∧
    (∀ i, i < 5 → (c8_init (⟨Real.sin, Real.cos, Real.sqrt, Real.pi⟩ : Libm ℝ)).delta i
      = (vec5 100 0 0 0 900 i - vec5 100 0 0 0 0 i) / 200) := by
  have hfast : |vec5 (100:ℝ) 0 0 0 0 axes5.A_AXIS| < 0.001 ∧
      |vec5 (100:ℝ) 0 0 0 0 axes5.C_AXIS| < 0.001 := by
    constructor <;> norm_num [vec5, axes5]
  have htolm : (module_on (⟨Real.sin, Real.cos, Real.sqrt, Real.pi⟩ : Libm ℝ)).rtcp.trig_cache_tol
      = 0.01 / 500 * (180 / Real.pi) := by rw [module_on_rtcp]
  have htol := default_tol_lt_one
  -- the inverse transform of the target
  obtain ⟨r1, hr1⟩ : ∃ r1, r1 = transform_from_cartesian axes5
      (⟨Real.sin, Real.cos, Real.sqrt, Real.pi⟩ : Libm ℝ) 0
      (module_on ⟨Real.sin, Real.cos, Real.sqrt, Real.pi⟩).rtcp
      (module_on ⟨Real.sin, Real.cos, Real.sqrt, Real.pi⟩).mpos (vec5 100 0 0 0 900) := ⟨_, rfl⟩
  have ha := inverse_pure_C
    (module_on ⟨Real.sin, Real.cos, Real.sqrt, Real.pi⟩).rtcp
    (module_on ⟨Real.sin, Real.cos, Real.sqrt, Real.pi⟩).mpos (vec5 100 0 0 0 900) 100 900
    (by rw [module_on_rtcp]) rfl rfl rfl rfl rfl (by norm_num)
    (Or.inl (by rw [module_on_rtcp]))
  rw [← hr1, sin_deg_900, cos_deg_900, htolm] at ha
  obtain ⟨a1, a2, a3, a4, a5, a6, a7⟩ := ha
  -- the TCP start point
  obtain ⟨S, hS⟩ : ∃ S, S = transform_to_cartesian axes5
      (⟨Real.sin, Real.cos, Real.sqrt, Real.pi⟩ : Libm ℝ) 0 r1.1
      (module_on ⟨Real.sin, Real.cos, Real.sqrt, Real.pi⟩).segment_target (vec5 100 0 0 0 0) :=
    ⟨_, rfl⟩
  have hSv : ∀ i, i < 5 → S i = vec5 100 0 0 0 0 i := by
    intro i hi
    rw [hS, transform_to_cartesian_fast _ _ _ _ _ _ hfast]
    simp [memcpy, axes5, hi]
  obtain ⟨F, hF⟩ : ∃ F, F = memcpy axes5.N_AXIS
      (module_on (⟨Real.sin, Real.cos, Real.sqrt, Real.pi⟩ : Libm ℝ)).final_target
      (vec5 100 0 0 0 900) := ⟨_, rfl⟩
  have hFv : ∀ i, i < 5 → F i = vec5 100 0 0 0 900 i := by
    intro i hi
    rw [hF]
    simp [memcpy, axes5, hi]
  obtain ⟨acc, hacc⟩ : ∃ acc, acc = delta_loop axes5 (vec5 (100:ℝ) 0 0 0 900) S axes5.N_AXIS
      ⟨(module_on (⟨Real.sin, Real.cos, Real.sqrt, Real.pi⟩ : Libm ℝ)).delta, 0, 0, 0⟩ := ⟨_, rfl⟩
  obtain ⟨d1, _, d3⟩ := delta_loop_spec axes5 (vec5 (100:ℝ) 0 0 0 900) S axes5.N_AXIS
      ⟨(module_on (⟨Real.sin, Real.cos, Real.sqrt, Real.pi⟩ : Libm ℝ)).delta, 0, 0, 0⟩
  rw [← hacc] at d1 d3
  have hmax : max acc.rot_delta_a acc.rot_delta_c > 0.001 := by
    rw [d3, if_pos axes5.hC.2]
    refine lt_of_lt_of_le ?_ (le_max_right _ _)
    rw [show axes5.C_AXIS = 4 from rfl, hSv 4 (by norm_num)]
    norm_num [vec5]
  -- the TCP midpoint and its inverse transform
  obtain ⟨tcp_mid, hmid⟩ : ∃ tcp_mid, tcp_mid =
      fill_down (fun idx => (S idx + F idx) * 0.5) axes5.N_AXIS (fun _ => (0:ℝ)) := ⟨_, rfl⟩
  have hmv : ∀ i, i < 5 → tcp_mid i = (vec5 100 0 0 0 0 i + vec5 100 0 0 0 900 i) * 0.5 := by
    intro i hi
    rw [hmid, fill_down_apply, if_pos (show i < axes5.N_AXIS from hi), hSv i hi, hFv i hi]
  obtain ⟨r2, hr2⟩ : ∃ r2, r2 = transform_from_cartesian axes5
      (⟨Real.sin, Real.cos, Real.sqrt, Real.pi⟩ : Libm ℝ) 0 r1.1 (fun _ => 0) tcp_mid := ⟨_, rfl⟩
  have hb := inverse_pure_C r1.1 (fun _ => 0) tcp_mid 100 450 a1
    (by rw [hmv 0 (by norm_num)]; norm_num [vec5])
    (by rw [hmv 1 (by norm_num)]; norm_num [vec5])
    (by rw [hmv 2 (by norm_num)]; norm_num [vec5])
    (by rw [hmv 3 (by norm_num)]; norm_num [vec5])
    (by rw [hmv 4 (by norm_num)]; norm_num [vec5])
    (by norm_num)
    (Or.inr (by
      rw [a2, a4]
      have : |(450:ℝ) - 900| = 450 := by norm_num [abs_of_neg]
      rw [this]
      linarith))
  rw [← hr2, sin_deg_450, cos_deg_450, a4] at hb
  obtain ⟨b1, b2, b3, b4, b5, b6, b7⟩ := hb
  have herr : err_sq_loop (vec5 (100:ℝ) 0 0 0 0) r1.2 r2.2 0 0 = 10000 := by
    rw [err_sq_loop_eq, a5, a6, a7, b5, b6, b7]
    norm_num [vec5]
  have h1 := segment_init_segmented axes5 (⟨Real.sin, Real.cos, Real.sqrt, Real.pi⟩ : Libm ℝ)
    ⟨0, fun _ _ => true⟩ (module_on ⟨Real.sin, Real.cos, Real.sqrt, Real.pi⟩)
    (vec5 100 0 0 0 900) (vec5 100 0 0 0 0) ⟨1000, 1, ⟨false, false, false⟩⟩ rfl
    r1 r2 S F tcp_mid acc 200 hr1 hS hF hacc hmax hmid hr2
    (by rw [herr, plan_iterations_10000])
  have hc8 : c8_init (⟨Real.sin, Real.cos, Real.sqrt, Real.pi⟩ : Libm ℝ) =
      (segment_init axes5 (⟨Real.sin, Real.cos, Real.sqrt, Real.pi⟩ : Libm ℝ)
        ⟨0, fun _ _ => true⟩ (module_on ⟨Real.sin, Real.cos, Real.sqrt, Real.pi⟩)
        (vec5 100 0 0 0 900) (vec5 100 0 0 0 0) ⟨1000, 1, ⟨false, false, false⟩⟩).1 := by
    simp only [c8_init, rtcp_segment_line, if_true]
  rw [hc8, h1]
  refine ⟨rfl, rfl, rfl, b1, b2, b4, fun i hi => hSv i hi, fun i hi => ?_⟩
  show fill_down (fun idx => acc.delta idx / ((200 : Nat) : ℝ)) axes5.N_AXIS acc.delta i = _
  rw [fill_down_apply, if_pos (show i < axes5.N_AXIS from hi), d1,
    if_pos (show i < axes5.N_AXIS from hi), hSv i hi]
  norm_num

/-- The first produce call in the scenario `c8_first`: it returns the joint point of the
TCP point `(100, 0, 0, 0, 4.5)`. -/
theorem c8_first_eval :
    (c8_first (⟨Real.sin, Real.cos, Real.sqrt, Real.pi⟩ : Libm ℝ)).2.2 =
      some (c8_first (⟨Real.sin, Real.cos, Real.sqrt, Real.pi⟩ : Libm ℝ)).1.mpos ∧
    (∀ i, i < 5 → (c8_first (⟨Real.sin, Real.cos, Real.sqrt, Real.pi⟩ : Libm ℝ)).1.segment_target i
      = vec5 100 0 0 0 4.5 i) ∧
    (c8_first (⟨Real.sin, Real.cos, Real.sqrt, Real.pi⟩ : Libm ℝ)).1.rtcp.cfg = ⟨0, 0, 0, 0, 0⟩ ∧
    (c8_first (⟨Real.sin, Real.cos, Real.sqrt, Real.pi⟩ : Libm ℝ)).1.mpos 0
      = 100 * Real.cos (4.5 * (Real.pi / 180)) ∧
    (c8_first (⟨Real.sin, Real.cos, Real.sqrt, Real.pi⟩ : Libm ℝ)).1.mpos 1
      = 100 * Real.sin (4.5 * (Real.pi / 180)) ∧
    (c8_first (⟨Real.sin, Real.cos, Real.sqrt, Real.pi⟩ : Libm ℝ)).1.mpos 2 = 0 := by
  obtain ⟨e1, e2, e3, e4, e5, e6, e7, e8⟩ := c8_init_eval
  have htol := default_tol_lt_one
  have hd : dec_u16 201 = 200 := by
    unfold dec_u16 UINT_FAST16_RANGE
    norm_num
  have hc : c8_first (⟨Real.sin, Real.cos, Real.sqrt, Real.pi⟩ : Libm ℝ) =
      segment_produce axes5 ⟨Real.sin, Real.cos, Real.sqrt, Real.pi⟩ ⟨0, fun _ _ => true⟩
        (c8_init ⟨Real.sin, Real.cos, Real.sqrt, Real.pi⟩) ⟨1000, 1, ⟨false, false, false⟩⟩ := by
    simp only [c8_first, rtcp_segment_line, Bool.false_eq_true, if_false]
  obtain ⟨_, p2, p3, p4⟩ := segment_produce_state axes5
    (⟨Real.sin, Real.cos, Real.sqrt, Real.pi⟩ : Libm ℝ) ⟨0, fun _ _ => true⟩
    (c8_init ⟨Real.sin, Real.cos, Real.sqrt, Real.pi⟩) ⟨1000, 1, ⟨false, false, false⟩⟩
  have hmode : (c8_init (⟨Real.sin, Real.cos, Real.sqrt, Real.pi⟩ : Libm ℝ)).segmented = true ∧
      dec_u16 (c8_init (⟨Real.sin, Real.cos, Real.sqrt, Real.pi⟩ : Libm ℝ)).iterations > 1 := by
    rw [e1, hd]
    exact ⟨e2, by norm_num⟩
  rw [if_pos hmode] at p2 p3 p4
  obtain ⟨seg1, hseg1⟩ : ∃ seg1, seg1 = fill_down (fun idx =>
      (c8_init (⟨Real.sin, Real.cos, Real.sqrt, Real.pi⟩ : Libm ℝ)).segment_target idx +
      (c8_init (⟨Real.sin, Real.cos, Real.sqrt, Real.pi⟩ : Libm ℝ)).delta idx) axes5.N_AXIS
      (c8_init (⟨Real.sin, Real.cos, Real.sqrt, Real.pi⟩ : Libm ℝ)).segment_target := ⟨_, rfl⟩
  rw [← hseg1] at p2 p3 p4
  have hsv : ∀ i, i < 5 → seg1 i = vec5 100 0 0 0 4.5 i := by
    intro i hi
    rw [hseg1, fill_down_apply, if_pos (show i < axes5.N_AXIS from hi), e7 i hi, e8 i hi]
    rcases i with _ | _ | _ | _ | _ | i
    all_goals first
      | omega
      | norm_num [vec5]
  have ha := inverse_pure_C (c8_init (⟨Real.sin, Real.cos, Real.sqrt, Real.pi⟩ : Libm ℝ)).rtcp
    (c8_init (⟨Real.sin, Real.cos, Real.sqrt, Real.pi⟩ : Libm ℝ)).mpos seg1 100 4.5 e4
    (by rw [hsv 0 (by norm_num)]; rfl) (by rw [hsv 1 (by norm_num)]; rfl)
    (by rw [hsv 2 (by norm_num)]; rfl) (by rw [hsv 3 (by norm_num)]; rfl)
    (by rw [hsv 4 (by norm_num)]; rfl) (by norm_num [abs_of_pos])
    (Or.inr (by
      rw [e5, e6]
      have : |(4.5:ℝ) - 450| = 445.5 := by norm_num [abs_of_neg]
      rw [this]
      linarith))
  rw [← p2, ← p3] at ha
  obtain ⟨a1, _, _, _, a5, a6, a7⟩ := ha
  have hres := segment_produce_result axes5
    (⟨Real.sin, Real.cos, Real.sqrt, Real.pi⟩ : Libm ℝ) ⟨0, fun _ _ => true⟩
    (c8_init ⟨Real.sin, Real.cos, Real.sqrt, Real.pi⟩) ⟨1000, 1, ⟨false, false, false⟩⟩
  rw [e1, hd, e3] at hres
  simp only [Bool.false_eq_true, or_false] at hres
  rw [if_neg (by norm_num)] at hres
  rw [hc]
  exact ⟨hres, fun i hi => by rw [p4]; exact hsv i hi, a1, a5, a6, a7⟩

/-- Scenario geometry, tool offset 50, RTCP on: the init call of the non-rapid move from
the joint position `(100, 100, 100, 0, 0)` to the TCP target `(100, 100, 100, 90, 0)` plans
at least two segments. -/
theorem scenario_init_iterations :
    3 ≤ (segment_init axes5 (⟨Real.sin, Real.cos, Real.sqrt, Real.pi⟩ : Libm ℝ)
      ⟨50, fun _ _ => true⟩ (scenario_module_on ⟨Real.sin, Real.cos, Real.sqrt, Real.pi⟩)
      (vec5 100 100 100 90 0) (vec5 100 100 100 0 0)
      ⟨1000, 1, ⟨false, false, false⟩⟩).1.iterations := by
  have hfast : |vec5 (100:ℝ) 100 100 0 0 axes5.A_AXIS| < 0.001 ∧
      |vec5 (100:ℝ) 100 100 0 0 axes5.C_AXIS| < 0.001 := by
    constructor <;> norm_num [vec5, axes5]
  have htolm := scenario_module_on_tol
  have htol := default_tol_lt_one
  obtain ⟨r1, hr1⟩ : ∃ r1, r1 = transform_from_cartesian axes5
      (⟨Real.sin, Real.cos, Real.sqrt, Real.pi⟩ : Libm ℝ) 50
      (scenario_module_on ⟨Real.sin, Real.cos, Real.sqrt, Real.pi⟩).rtcp
      (scenario_module_on ⟨Real.sin, Real.cos, Real.sqrt, Real.pi⟩).mpos
      (vec5 100 100 100 90 0) := ⟨_, rfl⟩
  have ha := inverse_scenario_A
    (scenario_module_on ⟨Real.sin, Real.cos, Real.sqrt, Real.pi⟩).rtcp
    (scenario_module_on ⟨Real.sin, Real.cos, Real.sqrt, Real.pi⟩).mpos (vec5 100 100 100 90 0) 90
    (scenario_module_on_cfg _) rfl rfl rfl rfl rfl (by norm_num)
    (Or.inl (scenario_module_on_cache _))
  rw [← hr1, cos_deg_90, htolm] at ha
  obtain ⟨a1, a2, a3, a4, a5⟩ := ha
  obtain ⟨S, hS⟩ : ∃ S, S = transform_to_cartesian axes5
      (⟨Real.sin, Real.cos, Real.sqrt, Real.pi⟩ : Libm ℝ) 50 r1.1
      (scenario_module_on ⟨Real.sin, Real.cos, Real.sqrt, Real.pi⟩).segment_target
      (vec5 100 100 100 0 0) := ⟨_, rfl⟩
  have hSv : ∀ i, i < 5 → S i = vec5 100 100 100 0 0 i := by
    intro i hi
    rw [hS, transform_to_cartesian_fast _ _ _ _ _ _ hfast]
    simp [memcpy, axes5, hi]
  obtain ⟨F, hF⟩ : ∃ F, F = memcpy axes5.N_AXIS
      (scenario_module_on (⟨Real.sin, Real.cos, Real.sqrt, Real.pi⟩ : Libm ℝ)).final_target
      (vec5 100 100 100 90 0) := ⟨_, rfl⟩
  have hFv : ∀ i, i < 5 → F i = vec5 100 100 100 90 0 i := by
    intro i hi
    rw [hF]
    simp [memcpy, axes5, hi]
  obtain ⟨acc, hacc⟩ : ∃ acc, acc = delta_loop axes5 (vec5 (100:ℝ) 100 100 90 0) S axes5.N_AXIS
      ⟨(scenario_module_on (⟨Real.sin, Real.cos, Real.sqrt, Real.pi⟩ : Libm ℝ)).delta, 0, 0, 0⟩ :=
    ⟨_, rfl⟩
  obtain ⟨_, d2, _⟩ := delta_loop_spec axes5 (vec5 (100:ℝ) 100 100 90 0) S axes5.N_AXIS
      ⟨(scenario_module_on (⟨Real.sin, Real.cos, Real.sqrt, Real.pi⟩ : Libm ℝ)).delta, 0, 0, 0⟩
  rw [← hacc] at d2
  have hmax : max acc.rot_delta_a acc.rot_delta_c > 0.001 := by
    rw [d2, if_pos axes5.hA.2]
    refine lt_of_lt_of_le ?_ (le_max_left _ _)
    rw [show axes5.A_AXIS = 3 from rfl, hSv 3 (by norm_num)]
    norm_num [vec5]
  obtain ⟨tcp_mid, hmid⟩ : ∃ tcp_mid, tcp_mid =
      fill_down (fun idx => (S idx + F idx) * 0.5) axes5.N_AXIS (fun _ => (0:ℝ)) := ⟨_, rfl⟩
  have hmv : ∀ i, i < 5 →
      tcp_mid i = (vec5 100 100 100 0 0 i + vec5 100 100 100 90 0 i) * 0.5 := by
    intro i hi
    rw [hmid, fill_down_apply, if_pos (show i < axes5.N_AXIS from hi), hSv i hi, hFv i hi]
  obtain ⟨r2, hr2⟩ : ∃ r2, r2 = transform_from_cartesian axes5
      (⟨Real.sin, Real.cos, Real.sqrt, Real.pi⟩ : Libm ℝ) 50 r1.1 (fun _ => 0) tcp_mid := ⟨_, rfl⟩
  have hb := inverse_scenario_A r1.1 (fun _ => 0) tcp_mid 45 a1
    (by rw [hmv 0 (by norm_num)]; norm_num [vec5])
    (by rw [hmv 1 (by norm_num)]; norm_num [vec5])
    (by rw [hmv 2 (by norm_num)]; norm_num [vec5])
    (by rw [hmv 3 (by norm_num)]; norm_num [vec5])
    (by rw [hmv 4 (by norm_num)]; norm_num [vec5])
    (by norm_num)
    (Or.inr (by
      rw [a2, a4]
      have : |(45:ℝ) - 90| = 45 := by norm_num [abs_of_neg]
      rw [this]
      linarith))
  rw [← hr2] at hb
  obtain ⟨_, _, _, _, b5⟩ := hb
  have hcos := cos_deg_45_ge
  have herr : 0.01 * 0.01 < err_sq_loop (vec5 (100:ℝ) 100 100 0 0) r1.2 r2.2 0 0 := by
    rw [err_sq_loop_eq, a5, b5]
    have e : (150 - 100 * Real.cos (45 * (Real.pi / 180))
        - (vec5 (100:ℝ) 100 100 0 0 2 + (150 - 100 * 0)) * 0.5)
        = 25 - 100 * Real.cos (45 * (Real.pi / 180)) := by
      norm_num [vec5]
      ring
    rw [e]
    nlinarith [mul_self_nonneg (r2.2 0 - (vec5 (100:ℝ) 100 100 0 0 0 + r1.2 0) * 0.5),
      mul_self_nonneg (r2.2 1 - (vec5 (100:ℝ) 100 100 0 0 1 + r1.2 1) * 0.5)]
  have h1 := segment_init_segmented axes5 (⟨Real.sin, Real.cos, Real.sqrt, Real.pi⟩ : Libm ℝ)
    ⟨50, fun _ _ => true⟩ (scenario_module_on ⟨Real.sin, Real.cos, Real.sqrt, Real.pi⟩)
    (vec5 100 100 100 90 0) (vec5 100 100 100 0 0) ⟨1000, 1, ⟨false, false, false⟩⟩ rfl
    r1 r2 S F tcp_mid acc _ hr1 hS hF hacc hmax hmid hr2 rfl
  rw [h1]
  exact Nat.succ_le_succ (plan_iterations_ge_two _ herr)

end ScenarioLemmas

section LimitLemmas
variable {α : Type} [LinearOrderedField α]

theorem limits_loop_iff (homed_mask axes_mask : Nat) (motors : Vec α)
    (envelope : work_envelope_t α) (n : Nat) :
    limits_loop homed_mask axes_mask motors envelope n = true ↔
      ∀ i, i < n → bit_istrue homed_mask (bit i) = true → bit_istrue axes_mask (bit i) = true →
        envelope.min i ≤ motors i ∧ motors i ≤ envelope.max i := by
  induction n with
  | zero => simp [limits_loop]
  | succ n ih =>
    rw [limits_loop]
    constructor
    · intro h i hi h1 h2
      by_cases hc : bit_istrue homed_mask (bit n) = true ∧ bit_istrue axes_mask (bit n) = true
      · rw [if_pos hc] at h
        by_cases ho : motors n < envelope.min n ∨ motors n > envelope.max n
        · rw [if_pos ho] at h
          exact absurd h (by decide)
        · rw [if_neg ho] at h
          rcases Nat.lt_succ_iff_lt_or_eq.mp hi with hlt | heq
          · exact ih.mp h i hlt h1 h2
          · subst heq
            exact ⟨not_lt.mp (fun hh => ho (Or.inl hh)), not_lt.mp (fun hh => ho (Or.inr hh))⟩
      · rw [if_neg hc] at h
        rcases Nat.lt_succ_iff_lt_or_eq.mp hi with hlt | heq
        · exact ih.mp h i hlt h1 h2
        · subst heq
          exact absurd ⟨h1, h2⟩ hc
    · intro h
      have hrest : limits_loop homed_mask axes_mask motors envelope n = true :=
        ih.mpr (fun i hi h1 h2 => h i (Nat.lt_succ_of_lt hi) h1 h2)
      by_cases hc : bit_istrue homed_mask (bit n) = true ∧ bit_istrue axes_mask (bit n) = true
      · rw [if_pos hc]
        have hn := h n (Nat.lt_succ_self n) hc.1 hc.2
        have ho : ¬ (motors n < envelope.min n ∨ motors n > envelope.max n) := by
          rintro (hh | hh)
          · exact absurd hn.1 (not_le.mpr hh)
          · exact absurd hn.2 (not_le.mpr hh)
        rw [if_neg ho]
        exact hrest
      · rw [if_neg hc]
        exact hrest

theorem bit_istrue_zero (mask : Nat) : bit_istrue 0 mask = false := by
  simp [bit_istrue]

/-- The flag returned by `rtcp_check_travel_limits` with RTCP on. -/
theorem rtcp_check_travel_limits_on (ax : Axes) (L : Libm α) (tlo_z : α) (sys : system_t)
    (orig : Option (check_travel_limits_ptr α)) (m : Module α) (target : Vec α) (axes : Nat)
    (is_cartesian : Bool) (envelope : work_envelope_t α) (hon : m.rtcp_enabled = true)
    (joint : Vec α)
    (hj : ∀ i, i < ax.N_AXIS → joint i =
      if is_cartesian = true then
        (transform_from_cartesian ax L tlo_z m.rtcp (fun _ => 0) target).2 i
      else target i) :
    (rtcp_check_travel_limits ax L tlo_z sys orig m target axes is_cartesian envelope).2 = true ↔
      (∀ i, i < ax.N_AXIS → bit_istrue sys.homed_mask (bit i) = true →
        bit_istrue axes (bit i) = true → envelope.min i ≤ joint i ∧ joint i ≤ envelope.max i) ∧
      (is_cartesian = true → ∀ f, orig = some f → f target axes true envelope = true) := by
  have hne : ¬ (m.rtcp_enabled = false) := by simp [hon]
  have key : ∀ motors : Vec α, (∀ i, i < ax.N_AXIS → motors i = joint i) →
      ((¬ (sys.homed_mask ≠ 0 ∧
          limits_loop sys.homed_mask axes motors envelope ax.N_AXIS = false)) ↔
        (∀ i, i < ax.N_AXIS → bit_istrue sys.homed_mask (bit i) = true →
          bit_istrue axes (bit i) = true →
          envelope.min i ≤ joint i ∧ joint i ≤ envelope.max i)) := by
    intro motors hm
    constructor
    · intro h i hi h1 h2
      have h0 : sys.homed_mask ≠ 0 := by
        intro h0
        rw [h0, bit_istrue_zero] at h1
        exact absurd h1 (by decide)
      have hl : limits_loop sys.homed_mask axes motors envelope ax.N_AXIS = true := by
        cases hb : limits_loop sys.homed_mask axes motors envelope ax.N_AXIS
        · exact absurd ⟨h0, hb⟩ h
        · rfl
      have := (limits_loop_iff _ _ _ _ _).mp hl i hi h1 h2
      rw [hm i hi] at this
      exact this
    · rintro h ⟨_, hl⟩
      have : limits_loop sys.homed_mask axes motors envelope ax.N_AXIS = true := by
        rw [limits_loop_iff]
        intro i hi h1 h2
        rw [hm i hi]
        exact h i hi h1 h2
      rw [this] at hl
      exact absurd hl (by decide)
  simp only [rtcp_check_travel_limits, if_neg hne]
  cases is_cartesian with
  | true =>
    have hm : ∀ i, i < ax.N_AXIS →
        (transform_from_cartesian ax L tlo_z m.rtcp (fun _ => 0) target).2 i = joint i := by
      intro i hi
      rw [hj i hi]
      simp
    have k := key _ hm
    simp only [if_true]
    by_cases hc : sys.homed_mask ≠ 0 ∧ limits_loop sys.homed_mask axes
        (transform_from_cartesian ax L tlo_z m.rtcp (fun _ => 0) target).2 envelope ax.N_AXIS
        = false
    · rw [if_pos hc]
      constructor
      · intro h
        simp at h
      · intro h
        exact absurd hc (k.mpr h.1)
    · rw [if_neg hc]
      have h1 := k.mp hc
      cases orig with
      | none =>
        simp only
        constructor
        · intro _
          exact ⟨h1, fun _ f hf => by cases hf⟩
        · intro _
          trivial
      | some f =>
        simp only
        by_cases hf : f target axes true envelope = false
        · rw [if_pos ⟨trivial, hf⟩]
          constructor
          · intro h
            simp at h
          · intro h
            have := h.2 trivial f rfl
            rw [hf] at this
            exact absurd this (by decide)
        · have hf2 : ¬ (True ∧ f target axes true envelope = false) := fun h => hf h.2
          rw [if_neg hf2]
          constructor
          · intro _
            refine ⟨h1, fun _ g hg => ?_⟩
            cases hg
            cases hfv : f target axes true envelope
            · exact absurd hfv hf
            · rfl
          · intro _
            trivial
  | false =>
    have hm : ∀ i, i < ax.N_AXIS → memcpy ax.N_AXIS (fun _ => (0 : α)) target i = joint i := by
      intro i hi
      rw [hj i hi]
      simp [memcpy, hi]
    have k := key _ hm
    simp only [Bool.false_eq_true, if_false]
    by_cases hc : sys.homed_mask ≠ 0 ∧ limits_loop sys.homed_mask axes
        (memcpy ax.N_AXIS (fun _ => (0 : α)) target) envelope ax.N_AXIS = false
    · rw [if_pos hc]
      constructor
      · intro h
        simp at h
      · intro h
        exact absurd hc (k.mpr h.1)
    · rw [if_neg hc]
      have h1 := k.mp hc
      cases orig with
      | none =>
        simp only
        constructor
        · intro _
          exact ⟨h1, fun h => absurd h (by decide)⟩
        · intro _
          trivial
      | some f =>
        simp only [false_and, if_false]
        constructor
        · intro _
          exact ⟨h1, fun h => absurd h (by decide)⟩
        · intro _
          trivial

theorem limits_loop_congr (homed_mask axes_mask : Nat) (motors motors' : Vec α)
    (envelope : work_envelope_t α) (n : Nat) (h : ∀ i, i < n → motors i = motors' i) :
    limits_loop homed_mask axes_mask motors envelope n
      = limits_loop homed_mask axes_mask motors' envelope n := by
  induction n with
  | zero => rfl
  | succ n ih =>
    rw [limits_loop, limits_loop, h n (Nat.lt_succ_self n),
      ih (fun i hi => h i (Nat.lt_succ_of_lt hi))]

/-- The statics after `rtcp_check_travel_limits`: only a Cartesian check with RTCP on
touches them, through the inverse transform. -/
theorem rtcp_check_travel_limits_state (ax : Axes) (L : Libm α) (tlo_z : α) (sys : system_t)
    (orig : Option (check_travel_limits_ptr α)) (m : Module α) (target : Vec α) (axes : Nat)
    (is_cartesian : Bool) (envelope : work_envelope_t α) :
    (rtcp_check_travel_limits ax L tlo_z sys orig m target axes is_cartesian envelope).1 =
      if m.rtcp_enabled = true ∧ is_cartesian = true then
        { m with rtcp := (transform_from_cartesian ax L tlo_z m.rtcp (fun _ => 0) target).1 }
      else m := by
  by_cases hen : m.rtcp_enabled = false
  · have h2 : ¬ (m.rtcp_enabled = true ∧ is_cartesian = true) := by
      rw [hen]
      simp
    simp only [rtcp_check_travel_limits, if_pos hen, if_neg h2]
  · have hen2 : m.rtcp_enabled = true := by
      cases h : m.rtcp_enabled
      · exact absurd h hen
      · rfl
    cases is_cartesian
    · have h2 : ¬ (m.rtcp_enabled = true ∧ false = true) := by simp
      rw [if_neg h2]
      simp only [rtcp_check_travel_limits, if_neg hen, Bool.false_eq_true, if_false]
      cases orig <;> simp only <;> split_ifs <;> rfl
    · rw [if_pos ⟨hen2, rfl⟩]
      simp only [rtcp_check_travel_limits, if_neg hen, if_true]
      cases orig <;> simp only <;> split_ifs <;> rfl

/-- The native check reads its array argument only at the indices below `N_AXIS`. -/
theorem rtcp_check_travel_limits_congr (ax : Axes) (L : Libm α) (tlo_z : α) (sys : system_t)
    (orig : Option (check_travel_limits_ptr α)) (m : Module α) (P P' : Vec α) (axes : Nat)
    (is_cartesian : Bool) (envelope : work_envelope_t α)
    (horig : ∀ f, orig = some f → ∀ (Q Q' : Vec α) (a : Nat) (b : Bool) (e : work_envelope_t α),
      (∀ i, i < ax.N_AXIS → Q i = Q' i) → f Q a b e = f Q' a b e)
    (h : ∀ i, i < ax.N_AXIS → P i = P' i) :
    rtcp_check_travel_limits ax L tlo_z sys orig m P axes is_cartesian envelope =
      rtcp_check_travel_limits ax L tlo_z sys orig m P' axes is_cartesian envelope := by
  have e1 := transform_from_cartesian_congr ax L tlo_z m.rtcp (fun _ => 0) P P' h
  have e2 : memcpy ax.N_AXIS (fun _ => (0 : α)) P = memcpy ax.N_AXIS (fun _ => (0 : α)) P' := by
    funext i
    simp only [memcpy]
    split_ifs with hi
    · exact h i hi
    · rfl
  cases orig with
  | none => simp only [rtcp_check_travel_limits, e1, e2]
  | some f =>
    have e3 : ∀ (a : Nat) (b : Bool) (e : work_envelope_t α), f P a b e = f P' a b e :=
      fun a b e => horig f rfl P P' a b e h
    simp only [rtcp_check_travel_limits, e1, e2, e3]

/-- A second inverse transform at the same angles finds the cache as the first left it
and computes what a first one would have computed. -/
theorem transform_from_cartesian_same_angles (ax : Axes) (L : Libm α) (tlo_z : α)
    (rtcp : rtcp_state_t α) (t t' P P' : Vec α) (hA : P' ax.A_AXIS = P ax.A_AXIS)
    (hC : P' ax.C_AXIS = P ax.C_AXIS) :
    transform_from_cartesian ax L tlo_z (transform_from_cartesian ax L tlo_z rtcp t' P').1 t P =
      ((transform_from_cartesian ax L tlo_z rtcp t' P').1,
        (transform_from_cartesian ax L tlo_z rtcp t P).2) := by
  by_cases hf : |P ax.A_AXIS| < 0.001 ∧ |P ax.C_AXIS| < 0.001
  · have hf' : |P' ax.A_AXIS| < 0.001 ∧ |P' ax.C_AXIS| < 0.001 := by
      rw [hA, hC]
      exact hf
    simp only [transform_from_cartesian_fast ax L tlo_z _ _ P hf,
      transform_from_cartesian_fast ax L tlo_z _ _ P' hf']
  · have hf' : ¬ (|P' ax.A_AXIS| < 0.001 ∧ |P' ax.C_AXIS| < 0.001) := by
      rw [hA, hC]
      exact hf
    simp only [transform_from_cartesian_general ax L tlo_z _ _ P hf,
      transform_from_cartesian_general ax L tlo_z _ _ P' hf', hA, hC, update_trig_cache_idem]

/-- A Cartesian check after another one at the same angles (or with RTCP off) leaves the
statics as they are and returns what it would have returned in place of the first. -/
theorem rtcp_check_travel_limits_same_angles (ax : Axes) (L : Libm α) (tlo_z : α)
    (sys : system_t) (orig : Option (check_travel_limits_ptr α)) (m : Module α)
    (P P' : Vec α) (axes axes' : Nat) (envelope envelope' : work_envelope_t α)
    (h : m.rtcp_enabled = false ∨
      (P' ax.A_AXIS = P ax.A_AXIS ∧ P' ax.C_AXIS = P ax.C_AXIS)) :
    rtcp_check_travel_limits ax L tlo_z sys orig
        (rtcp_check_travel_limits ax L tlo_z sys orig m P' axes' true envelope').1
        P axes true envelope =
      ((rtcp_check_travel_limits ax L tlo_z sys orig m P' axes' true envelope').1,
        (rtcp_check_travel_limits ax L tlo_z sys orig m P axes true envelope).2) := by
  rw [rtcp_check_travel_limits_state]
  by_cases hen : m.rtcp_enabled = false
  · have h2 : ¬ (m.rtcp_enabled = true ∧ true = true) := by
      rw [hen]
      simp
    rw [if_neg h2]
    refine Prod.ext ?_ rfl
    rw [rtcp_check_travel_limits_state, if_neg h2]
  · have hen2 : m.rtcp_enabled = true := by
      cases h : m.rtcp_enabled
      · exact absurd h hen
      · rfl
    rw [if_pos ⟨hen2, rfl⟩]
    obtain ⟨hA, hC⟩ := h.resolve_left hen
    have key := transform_from_cartesian_same_angles ax L tlo_z m.rtcp (fun _ => 0) (fun _ => 0)
      P P' hA hC
    have hne2 : ¬ (({ m with rtcp := (transform_from_cartesian ax L tlo_z m.rtcp
        (fun _ => 0) P').1 } : Module α).rtcp_enabled = false) := hen
    simp only [rtcp_check_travel_limits, if_neg hen, if_neg hne2, if_true, key]
    cases orig <;> simp only <;> split_ifs <;> rfl

/-- One pass of the bisection keeps the invariant, halving the interval. -/
theorem bisection_step_inv (ax : Axes) (L : Libm α) (tlo_z : α) (sys : system_t)
    (orig : Option (check_travel_limits_ptr α)) (envelope : work_envelope_t α)
    (Q : Module α → Prop) (pos tgt : Vec α)
    (hQ : ∀ m P, Q m → OnSeg ax pos tgt P →
      Q (rtcp_check_travel_limits ax L tlo_z sys orig m P sys.soft_limits true envelope).1)
    (j : Nat) (s : bisect_state α) (h : BInv ax L tlo_z sys orig envelope Q pos tgt j s) :
    BInv ax L tlo_z sys orig envelope Q pos tgt (j + 1)
      (bisection_step ax L tlo_z sys orig envelope s) := by
  obtain ⟨hQs, k, hk, hst, hen, hbe, hT, hF⟩ := h
  have h2 : (0 : α) < 2 ^ j := by positivity
  have h2' : (2 : α) ^ (j + 1) = 2 * 2 ^ j := by ring
  obtain ⟨mid, hmid_def⟩ : ∃ mid, mid =
      fill_down (fun i => 0.5 * (s.start i + s.end_ i)) ax.N_AXIS s.mid := ⟨_, rfl⟩
  have hmid : ∀ i, i < ax.N_AXIS →
      mid i = pos i + (2 * (k : α) + 1) / 2 ^ (j + 1) * (tgt i - pos i) := by
    intro i hi
    rw [hmid_def, fill_down_apply, if_pos hi, hst i hi, hen i hi, h2']
    field_simp
    ring
  have hkα : (k : α) + 1 ≤ 2 ^ j := by
    have : k + 1 ≤ 2 ^ j := hk
    exact_mod_cast this
  have hseg : OnSeg ax pos tgt mid := by
    refine ⟨(2 * (k : α) + 1) / 2 ^ (j + 1), ?_, ?_, hmid⟩
    · have : (0 : α) ≤ (k : α) := Nat.cast_nonneg k
      positivity
    · rw [h2', div_le_one (by positivity)]
      linarith
  have hQr := hQ s.m mid hQs hseg
  have hpow : 2 ^ (j + 1) = 2 * 2 ^ j := by ring
  by_cases hr : (rtcp_check_travel_limits ax L tlo_z sys orig s.m mid sys.soft_limits true
      envelope).2 = true
  · have e : bisection_step ax L tlo_z sys orig envelope s =
        { m := (rtcp_check_travel_limits ax L tlo_z sys orig s.m mid sys.soft_limits true
            envelope).1,
          start := memcpy ax.N_AXIS s.start mid, end_ := s.end_, mid := mid,
          best := memcpy ax.N_AXIS s.best mid } := by
      simp only [bisection_step, ← hmid_def, if_pos hr]
    rw [e]
    refine ⟨hQr, 2 * k + 1, by omega, ?_, ?_, ?_, Or.inr ⟨s.m, mid, hQs, ?_, hr⟩, ?_⟩
    · intro i hi
      simp only [memcpy, if_pos hi]
      rw [hmid i hi]
      push_cast
      rfl
    · intro i hi
      show s.end_ i = _
      rw [hen i hi, h2']
      push_cast
      field_simp
      ring
    · intro i hi
      simp only [memcpy, if_pos hi]
    · intro i hi
      simp only [memcpy, if_pos hi]
    · rcases hF with hF | ⟨m', P, hQm, hP, hres⟩
      · left
        omega
      · exact Or.inr ⟨m', P, hQm, hP, hres⟩
  · have hr' : (rtcp_check_travel_limits ax L tlo_z sys orig s.m mid sys.soft_limits true
        envelope).2 = false := by
      cases hb : (rtcp_check_travel_limits ax L tlo_z sys orig s.m mid sys.soft_limits true
        envelope).2
      · rfl
      · exact absurd hb hr
    have e : bisection_step ax L tlo_z sys orig envelope s =
        { m := (rtcp_check_travel_limits ax L tlo_z sys orig s.m mid sys.soft_limits true
            envelope).1,
          start := s.start, end_ := memcpy ax.N_AXIS s.end_ mid, mid := mid,
          best := s.best } := by
      simp only [bisection_step, ← hmid_def, if_neg hr]
    rw [e]
    refine ⟨hQr, 2 * k, by omega, ?_, ?_, hbe, ?_, Or.inr ⟨s.m, mid, hQs, ?_, hr'⟩⟩
    · intro i hi
      show s.start i = _
      rw [hst i hi, h2']
      push_cast
      field_simp
      ring
    · intro i hi
      simp only [memcpy, if_pos hi]
      rw [hmid i hi]
      push_cast
      rfl
    · rcases hT with hT | ⟨m', P, hQm, hP, hres⟩
      · left
        omega
      · exact Or.inr ⟨m', P, hQm, hP, hres⟩
    · intro i hi
      simp only [memcpy, if_pos hi]

/-- The bisection loop keeps the invariant. -/
theorem bisection_loop_inv (ax : Axes) (L : Libm α) (tlo_z : α) (sys : system_t)
    (orig : Option (check_travel_limits_ptr α)) (envelope : work_envelope_t α)
    (Q : Module α → Prop) (pos tgt : Vec α)
    (hQ : ∀ m P, Q m → OnSeg ax pos tgt P →
      Q (rtcp_check_travel_limits ax L tlo_z sys orig m P sys.soft_limits true envelope).1)
    (n : Nat) :
    ∀ (j : Nat) (s : bisect_state α), BInv ax L tlo_z sys orig envelope Q pos tgt j s →
      BInv ax L tlo_z sys orig envelope Q pos tgt (j + n)
        (bisection_loop ax L tlo_z sys orig envelope n s) := by
  induction n with
  | zero =>
    intro j s h
    exact h
  | succ n ih =>
    intro j s h
    rw [bisection_loop, show j + (n + 1) = (j + 1) + n by omega]
    exact ih (j + 1) _ (bisection_step_inv ax L tlo_z sys orig envelope Q pos tgt hQ j s h)

/-- The clip of an invalid destination is `best` of the bisection after 16 passes. -/
theorem rtcp_apply_travel_limits_eq (ax : Axes) (L : Libm α) (tlo_z : α) (sys : system_t)
    (orig : Option (check_travel_limits_ptr α)) (envelope : work_envelope_t α)
    (m : Module α) (target position : Vec α)
    (hhomed : sys.homed_mask ≠ 0)
    (htgt : (rtcp_check_travel_limits ax L tlo_z sys orig m target sys.soft_limits true
      envelope).2 = false) :
    rtcp_apply_travel_limits ax L tlo_z sys orig m target (some position) envelope =
      ((bisection_loop ax L tlo_z sys orig envelope 16
        { m := (rtcp_check_travel_limits ax L tlo_z sys orig m target sys.soft_limits true
            envelope).1,
          start := memcpy ax.N_AXIS (fun _ => 0) position,
          end_ := memcpy ax.N_AXIS (fun _ => 0) target,
          mid := fun _ => 0,
          best := memcpy ax.N_AXIS (fun _ => 0) (memcpy ax.N_AXIS (fun _ => 0) position) }).m,
       memcpy ax.N_AXIS target
        (bisection_loop ax L tlo_z sys orig envelope 16
        { m := (rtcp_check_travel_limits ax L tlo_z sys orig m target sys.soft_limits true
            envelope).1,
          start := memcpy ax.N_AXIS (fun _ => 0) position,
          end_ := memcpy ax.N_AXIS (fun _ => 0) target,
          mid := fun _ => 0,
          best := memcpy ax.N_AXIS (fun _ => 0)
            (memcpy ax.N_AXIS (fun _ => 0) position) }).best) := by
  have hne : ¬ ((rtcp_check_travel_limits ax L tlo_z sys orig m target sys.soft_limits true
      envelope).2 = true) := by
    rw [htgt]
    decide
  simp only [rtcp_apply_travel_limits, if_neg hhomed, if_neg hne, BISECTION_ITERATIONS]

/-- The clip of an invalid destination: the result is `best` of the bisection after 16
passes, and the loop invariant holds there for every property `Q` of the statics that the
checks on the segment preserve. -/
theorem rtcp_apply_travel_limits_inv (ax : Axes) (L : Libm α) (tlo_z : α) (sys : system_t)
    (orig : Option (check_travel_limits_ptr α)) (envelope : work_envelope_t α)
    (Q : Module α → Prop) (m : Module α) (target position : Vec α)
    (hhomed : sys.homed_mask ≠ 0)
    (htgt : (rtcp_check_travel_limits ax L tlo_z sys orig m target sys.soft_limits true
      envelope).2 = false)
    (hQ : ∀ m' P, Q m' → OnSeg ax position target P →
      Q (rtcp_check_travel_limits ax L tlo_z sys orig m' P sys.soft_limits true envelope).1)
    (hQ1 : Q (rtcp_check_travel_limits ax L tlo_z sys orig m target sys.soft_limits true
      envelope).1) :
    ∃ s : bisect_state α,
      rtcp_apply_travel_limits ax L tlo_z sys orig m target (some position) envelope
        = (s.m, memcpy ax.N_AXIS target s.best) ∧
      BInv ax L tlo_z sys orig envelope Q position target 16 s := by
  have h0 : BInv ax L tlo_z sys orig envelope Q position target 0
      { m := (rtcp_check_travel_limits ax L tlo_z sys orig m target sys.soft_limits true
          envelope).1,
        start := memcpy ax.N_AXIS (fun _ => 0) position,
        end_ := memcpy ax.N_AXIS (fun _ => 0) target,
        mid := fun _ => 0,
        best := memcpy ax.N_AXIS (fun _ => 0) (memcpy ax.N_AXIS (fun _ => 0) position) } := by
    refine ⟨hQ1, 0, by norm_num, ?_, ?_, ?_, Or.inl rfl, Or.inl (by norm_num)⟩
    · intro i hi
      simp [memcpy, hi]
    · intro i hi
      simp [memcpy, hi]
    · intro i hi
      simp [memcpy, hi]
  have h16 := bisection_loop_inv ax L tlo_z sys orig envelope Q position target hQ 16 0 _ h0
  exact ⟨_, rtcp_apply_travel_limits_eq ax L tlo_z sys orig envelope m target position hhomed
    htgt, h16⟩

/-- Every check keeps `rtcp_enabled` and the geometry. -/
theorem rtcp_check_travel_limits_keeps (ax : Axes) (L : Libm α) (tlo_z : α) (sys : system_t)
    (orig : Option (check_travel_limits_ptr α)) (m : Module α) (target : Vec α) (axes : Nat)
    (is_cartesian : Bool) (envelope : work_envelope_t α) :
    (rtcp_check_travel_limits ax L tlo_z sys orig m target axes is_cartesian envelope).1.rtcp_enabled
      = m.rtcp_enabled ∧
    (rtcp_check_travel_limits ax L tlo_z sys orig m target axes is_cartesian envelope).1.rtcp.cfg
      = m.rtcp.cfg := by
  rw [rtcp_check_travel_limits_state]
  split_ifs
  · exact ⟨rfl, transform_from_cartesian_cfg ax L tlo_z m.rtcp _ target⟩
  · exact ⟨rfl, rfl⟩

end LimitLemmas

section LimitScenarios

theorem default_tol_bounds :
    (0.001 : ℝ) < 0.01 / 500 * (180 / Real.pi) ∧ (0.01 : ℝ) / 500 * (180 / Real.pi) < 0.0012 := by
  have hpi : Real.pi < 3.15 := Real.pi_lt_d2
  have hpi3 : 3 < Real.pi := Real.pi_gt_three
  have hpos : 0 < Real.pi := Real.pi_pos
  have e : (0.01:ℝ) / 500 * (180 / Real.pi) = 0.0036 / Real.pi := by
    field_simp
    norm_num
    ring
  rw [e]
  constructor
  · rw [lt_div_iff₀ hpos]
    linarith
  · rw [div_lt_iff₀ hpos]
    linarith

/-- The cache of `sample_module` for an angle off the fast path. -/
theorem sample_module_rtcp (a : ℝ) (ha : 0.001 ≤ |a|) :
    (sample_module (⟨Real.sin, Real.cos, Real.sqrt, Real.pi⟩ : Libm ℝ) a).rtcp =
      ⟨⟨0, 0, 0, 0, 0⟩, a, 0, Real.sin (a * (Real.pi / 180)), Real.cos (a * (Real.pi / 180)),
        0, 1, true, 0.01 / 500 * (180 / Real.pi)⟩ := by
  have hnf : ¬ (|vec5 (0:ℝ) 0 0 a 0 axes5.A_AXIS| < 0.001 ∧
      |vec5 (0:ℝ) 0 0 a 0 axes5.C_AXIS| < 0.001) := by
    refine not_and_of_not_left _ (not_lt.mpr ?_)
    exact ha
  show (transform_from_cartesian axes5 _ 0 (module_on _).rtcp (fun _ => 0) (vec5 0 0 0 a 0)).1 = _
  rw [transform_from_cartesian_general _ _ _ _ _ _ hnf, module_on_rtcp]
  simp [update_trig_cache, axes5, vec5, DEG_TO_RAD]

/-- An inverse transform of `(0, 100, 0, A, 0)` in the statics `sample_module a_s`: the
sample moves to `A` when `A` is out of tolerance, and `Y` is 100 times the cached cosine. -/
theorem inverse_in_sample_module (a_s A : ℝ) (t : Vec ℝ) (has : 0.001 ≤ |a_s|)
    (hA : 0.001 ≤ |A|) :
    (transform_from_cartesian axes5 (⟨Real.sin, Real.cos, Real.sqrt, Real.pi⟩ : Libm ℝ) 0
      (sample_module ⟨Real.sin, Real.cos, Real.sqrt, Real.pi⟩ a_s).rtcp t
      (vec5 0 100 0 A 0)).1 =
      (sample_module (⟨Real.sin, Real.cos, Real.sqrt, Real.pi⟩ : Libm ℝ)
        (if 0.01 / 500 * (180 / Real.pi) < |A - a_s| then A else a_s)).rtcp ∧
    (transform_from_cartesian axes5 (⟨Real.sin, Real.cos, Real.sqrt, Real.pi⟩ : Libm ℝ) 0
      (sample_module ⟨Real.sin, Real.cos, Real.sqrt, Real.pi⟩ a_s).rtcp t
      (vec5 0 100 0 A 0)).2 1 =
      100 * Real.cos ((if 0.01 / 500 * (180 / Real.pi) < |A - a_s| then A else a_s)
        * (Real.pi / 180)) := by
  have hnf : ¬ (|vec5 (0:ℝ) 100 0 A 0 axes5.A_AXIS| < 0.001 ∧
      |vec5 (0:ℝ) 100 0 A 0 axes5.C_AXIS| < 0.001) := by
    refine not_and_of_not_left _ (not_lt.mpr ?_)
    exact hA
  have h0 : ¬ ((0.01:ℝ) / 500 * (180 / Real.pi) < 0) := not_lt.mpr (by positivity)
  rw [transform_from_cartesian_general _ _ _ _ _ _ hnf, sample_module_rtcp a_s has]
  by_cases hd : 0.01 / 500 * (180 / Real.pi) < |A - a_s|
  · rw [if_pos hd, sample_module_rtcp A hA]
    have hu : update_trig_cache (⟨Real.sin, Real.cos, Real.sqrt, Real.pi⟩ : Libm ℝ)
        ⟨⟨0, 0, 0, 0, 0⟩, a_s, 0, Real.sin (a_s * (Real.pi / 180)),
          Real.cos (a_s * (Real.pi / 180)), 0, 1, true, 0.01 / 500 * (180 / Real.pi)⟩
        (vec5 0 100 0 A 0 axes5.A_AXIS) (vec5 0 100 0 A 0 axes5.C_AXIS)
        = ⟨⟨0, 0, 0, 0, 0⟩, A, 0, Real.sin (A * (Real.pi / 180)),
          Real.cos (A * (Real.pi / 180)), 0, 1, true, 0.01 / 500 * (180 / Real.pi)⟩ := by
      simp [update_trig_cache, axes5, vec5, hd, DEG_TO_RAD]
    simp only [hu]
    refine ⟨trivial, ?_⟩
    simp [vec5, axes5, X_AXIS, Y_AXIS, Z_AXIS, copy_above_Z, store]
  · rw [if_neg hd]
    have hu : update_trig_cache (⟨Real.sin, Real.cos, Real.sqrt, Real.pi⟩ : Libm ℝ)
        ⟨⟨0, 0, 0, 0, 0⟩, a_s, 0, Real.sin (a_s * (Real.pi / 180)),
          Real.cos (a_s * (Real.pi / 180)), 0, 1, true, 0.01 / 500 * (180 / Real.pi)⟩
        (vec5 0 100 0 A 0 axes5.A_AXIS) (vec5 0 100 0 A 0 axes5.C_AXIS)
        = ⟨⟨0, 0, 0, 0, 0⟩, a_s, 0, Real.sin (a_s * (Real.pi / 180)),
          Real.cos (a_s * (Real.pi / 180)), 0, 1, true, 0.01 / 500 * (180 / Real.pi)⟩ := by
      simp [update_trig_cache, axes5, vec5, hd, h0]
    simp only [hu]
    refine ⟨(sample_module_rtcp a_s has).symm, ?_⟩
    simp [vec5, axes5, X_AXIS, Y_AXIS, Z_AXIS, copy_above_Z, store]

/-- A Cartesian check of a point `(0, 100, 0, A, 0)` in the statics `sample_module a_s`,
with only Y homed and limited to `[-0.001, 200]`. -/
theorem check_in_sample_module (a_s A : ℝ) (P : Vec ℝ)
    (hP : ∀ i, i < 5 → P i = vec5 0 100 0 A 0 i) (has : 0.001 ≤ |a_s|) (hA : 0.001 ≤ |A|) :
    (rtcp_check_travel_limits axes5 (⟨Real.sin, Real.cos, Real.sqrt, Real.pi⟩ : Libm ℝ) 0
      sys_y none (sample_module ⟨Real.sin, Real.cos, Real.sqrt, Real.pi⟩ a_s) P
      sys_y.soft_limits true envelope_y).1 =
      sample_module (⟨Real.sin, Real.cos, Real.sqrt, Real.pi⟩ : Libm ℝ)
        (if 0.01 / 500 * (180 / Real.pi) < |A - a_s| then A else a_s) ∧
    ((rtcp_check_travel_limits axes5 (⟨Real.sin, Real.cos, Real.sqrt, Real.pi⟩ : Libm ℝ) 0
      sys_y none (sample_module ⟨Real.sin, Real.cos, Real.sqrt, Real.pi⟩ a_s) P
      sys_y.soft_limits true envelope_y).2 = true ↔
      (-0.001 ≤ 100 * Real.cos ((if 0.01 / 500 * (180 / Real.pi) < |A - a_s| then A else a_s)
          * (Real.pi / 180)) ∧
        100 * Real.cos ((if 0.01 / 500 * (180 / Real.pi) < |A - a_s| then A else a_s)
          * (Real.pi / 180)) ≤ 200)) := by
  have hc := rtcp_check_travel_limits_congr axes5 (⟨Real.sin, Real.cos, Real.sqrt, Real.pi⟩ : Libm ℝ)
    0 sys_y none (sample_module ⟨Real.sin, Real.cos, Real.sqrt, Real.pi⟩ a_s) P
    (vec5 0 100 0 A 0) sys_y.soft_limits true envelope_y (fun f hf => by cases hf) hP
  rw [hc]
  obtain ⟨h1, h2⟩ := inverse_in_sample_module a_s A (fun _ => 0) has hA
  have hon : (sample_module (⟨Real.sin, Real.cos, Real.sqrt, Real.pi⟩ : Libm ℝ) a_s).rtcp_enabled
      = true := rfl
  constructor
  · rw [rtcp_check_travel_limits_state, if_pos ⟨hon, rfl⟩, h1]
    rfl
  · rw [rtcp_check_travel_limits_on axes5 _ 0 sys_y none _ (vec5 0 100 0 A 0) sys_y.soft_limits
      true envelope_y hon
      (transform_from_cartesian axes5 (⟨Real.sin, Real.cos, Real.sqrt, Real.pi⟩ : Libm ℝ) 0
        (sample_module ⟨Real.sin, Real.cos, Real.sqrt, Real.pi⟩ a_s).rtcp (fun _ => 0)
        (vec5 0 100 0 A 0)).2 (fun i _ => by simp)]
    constructor
    · intro h
      have := h.1 1 (by decide) (by decide) (by decide)
      rw [h2] at this
      simpa [envelope_y, vec5] using this
    · intro h
      refine ⟨fun i hi hb1 _ => ?_, fun _ f hf => by cases hf⟩
      have hi5 : i < 5 := hi
      interval_cases i
      · exact absurd hb1 (by decide)
      · rw [h2]
        simpa [envelope_y, vec5] using h
      · exact absurd hb1 (by decide)
      · exact absurd hb1 (by decide)
      · exact absurd hb1 (by decide)

theorem cos_deg_past_90 (a : ℝ) (h1 : 90.001 ≤ a) (h2 : a ≤ 100) :
    100 * Real.cos (a * (Real.pi / 180)) < -0.001 := by
  have hpos : 0 < Real.pi := Real.pi_pos
  have e : a * (Real.pi / 180) = (a - 90) * (Real.pi / 180) + Real.pi / 2 := by ring
  rw [e, Real.cos_add_pi_div_two]
  have hx0 : 0 ≤ (a - 90) * (Real.pi / 180) := by
    have : (0:ℝ) ≤ a - 90 := by linarith
    positivity
  have hx1 : (a - 90) * (Real.pi / 180) ≤ Real.pi / 2 := by
    have : (a - 90) * (Real.pi / 180) ≤ 10 * (Real.pi / 180) := by
      apply mul_le_mul_of_nonneg_right (by linarith) (by positivity)
    linarith
  have h := Real.mul_le_sin hx0 hx1
  have e2 : 2 / Real.pi * ((a - 90) * (Real.pi / 180)) = (a - 90) / 90 := by
    field_simp
    ring
  rw [e2] at h
  have : (0.001 : ℝ) / 90 ≤ (a - 90) / 90 := by
    apply div_le_div_of_nonneg_right (by linarith) (by norm_num)
  norm_num at this ⊢
  linarith

theorem cos_deg_upto_90 (a : ℝ) (h1 : 80 ≤ a) (h2 : a ≤ 90.0005) :
    -0.001 ≤ 100 * Real.cos (a * (Real.pi / 180)) ∧
    100 * Real.cos (a * (Real.pi / 180)) ≤ 200 := by
  have hpos : 0 < Real.pi := Real.pi_pos
  have hpi : Real.pi < 3.15 := Real.pi_lt_d2
  constructor
  · have e : a * (Real.pi / 180) = (a - 90) * (Real.pi / 180) + Real.pi / 2 := by ring
    rw [e, Real.cos_add_pi_div_two]
    by_cases hx : a ≤ 90
    · have hx0 : (a - 90) * (Real.pi / 180) ≤ 0 := by
        apply mul_nonpos_of_nonpos_of_nonneg (by linarith) (by positivity)
      have hx1 : -Real.pi ≤ (a - 90) * (Real.pi / 180) := by
        have : (-10) * (Real.pi / 180) ≤ (a - 90) * (Real.pi / 180) := by
          apply mul_le_mul_of_nonneg_right (by linarith) (by positivity)
        linarith
      have := Real.sin_nonpos_of_nonnpos_of_neg_pi_le hx0 hx1
      linarith
    · have hx0 : 0 ≤ (a - 90) * (Real.pi / 180) := by
        have : (0:ℝ) ≤ a - 90 := by linarith
        positivity
      have h := Real.sin_le hx0
      have : (a - 90) * (Real.pi / 180) ≤ 0.0005 * (3.15 / 180) := by
        apply mul_le_mul (by linarith) (by linarith) (by positivity) (by norm_num)
      norm_num at this ⊢
      linarith
  · have := Real.cos_le_one (a * (Real.pi / 180))
    linarith

/-- The points of a segment between two points `(0, 100, 0, A, 0)`. -/
theorem on_seg_shape (A0 A1 : ℝ) (P : Vec ℝ) (hle : A0 ≤ A1)
    (h : OnSeg axes5 (vec5 0 100 0 A0 0) (vec5 0 100 0 A1 0) P) :
    ∃ A, A0 ≤ A ∧ A ≤ A1 ∧ ∀ i, i < 5 → P i = vec5 0 100 0 A 0 i := by
  obtain ⟨t, ht0, ht1, hP⟩ := h
  refine ⟨A0 + t * (A1 - A0), ?_, ?_, ?_⟩
  · have : 0 ≤ t * (A1 - A0) := mul_nonneg ht0 (by linarith)
    linarith
  · have : t * (A1 - A0) ≤ 1 * (A1 - A0) := mul_le_mul_of_nonneg_right ht1 (by linarith)
    linarith
  · intro i hi
    rw [hP i hi]
    interval_cases i <;> simp [vec5]

/-- With a sample in `[90.001, 100]` cached, every point `(0, 100, 0, A, 0)` with `A` in
that range fails the check, and the sample stays in the range. -/
theorem check_fails_past_90 (a_s A : ℝ) (P : Vec ℝ)
    (hP : ∀ i, i < 5 → P i = vec5 0 100 0 A 0 i)
    (has : 90.001 ≤ a_s ∧ a_s ≤ 100) (hA : 90.001 ≤ A ∧ A ≤ 100) :
    (rtcp_check_travel_limits axes5 (⟨Real.sin, Real.cos, Real.sqrt, Real.pi⟩ : Libm ℝ) 0
      sys_y none (sample_module ⟨Real.sin, Real.cos, Real.sqrt, Real.pi⟩ a_s) P
      sys_y.soft_limits true envelope_y).2 = false ∧
    ∃ a', (90.001 ≤ a' ∧ a' ≤ 100) ∧
      (rtcp_check_travel_limits axes5 (⟨Real.sin, Real.cos, Real.sqrt, Real.pi⟩ : Libm ℝ) 0
        sys_y none (sample_module ⟨Real.sin, Real.cos, Real.sqrt, Real.pi⟩ a_s) P
        sys_y.soft_limits true envelope_y).1 =
        sample_module (⟨Real.sin, Real.cos, Real.sqrt, Real.pi⟩ : Libm ℝ) a' := by
  obtain ⟨h1, h2⟩ := check_in_sample_module a_s A P hP
    (by rw [abs_of_pos (by linarith)]; linarith) (by rw [abs_of_pos (by linarith)]; linarith)
  have hr : 90.001 ≤ (if 0.01 / 500 * (180 / Real.pi) < |A - a_s| then A else a_s) ∧
      (if 0.01 / 500 * (180 / Real.pi) < |A - a_s| then A else a_s) ≤ 100 := by
    split_ifs
    · exact hA
    · exact has
  refine ⟨?_, _, hr, h1⟩
  cases hb : (rtcp_check_travel_limits axes5 (⟨Real.sin, Real.cos, Real.sqrt, Real.pi⟩ : Libm ℝ) 0
      sys_y none (sample_module ⟨Real.sin, Real.cos, Real.sqrt, Real.pi⟩ a_s) P
      sys_y.soft_limits true envelope_y).2
  · rfl
  · have := (h2.mp hb).1
    have := cos_deg_past_90 _ hr.1 hr.2
    linarith

/-- With a sample in `[80, 90.0005]` cached, every point `(0, 100, 0, A, 0)` with `A` in
that range passes the check, and the sample stays in the range. -/
theorem check_passes_upto_90 (a_s A : ℝ) (P : Vec ℝ)
    (hP : ∀ i, i < 5 → P i = vec5 0 100 0 A 0 i)
    (has : 80 ≤ a_s ∧ a_s ≤ 90.0005) (hA : 80 ≤ A ∧ A ≤ 90.0005) :
    (rtcp_check_travel_limits axes5 (⟨Real.sin, Real.cos, Real.sqrt, Real.pi⟩ : Libm ℝ) 0
      sys_y none (sample_module ⟨Real.sin, Real.cos, Real.sqrt, Real.pi⟩ a_s) P
      sys_y.soft_limits true envelope_y).2 = true ∧
    ∃ a', (80 ≤ a' ∧ a' ≤ 90.0005) ∧
      (rtcp_check_travel_limits axes5 (⟨Real.sin, Real.cos, Real.sqrt, Real.pi⟩ : Libm ℝ) 0
        sys_y none (sample_module ⟨Real.sin, Real.cos, Real.sqrt, Real.pi⟩ a_s) P
        sys_y.soft_limits true envelope_y).1 =
        sample_module (⟨Real.sin, Real.cos, Real.sqrt, Real.pi⟩ : Libm ℝ) a' := by
  obtain ⟨h1, h2⟩ := check_in_sample_module a_s A P hP
    (by rw [abs_of_pos (by linarith)]; linarith) (by rw [abs_of_pos (by linarith)]; linarith)
  have hr : 80 ≤ (if 0.01 / 500 * (180 / Real.pi) < |A - a_s| then A else a_s) ∧
      (if 0.01 / 500 * (180 / Real.pi) < |A - a_s| then A else a_s) ≤ 90.0005 := by
    split_ifs
    · exact hA
    · exact has
  exact ⟨h2.mpr (cos_deg_upto_90 _ hr.1 hr.2), _, hr, h1⟩

/-- A Cartesian check of a point `(x, 0, 0, 0, 0)` with RTCP on, only X homed and limited to
`[-5, 5]`, no native check: the fast path leaves the statics, and the flag tells whether
`x` is in range. -/
theorem check_jog_x (m : Module ℝ) (hon : m.rtcp_enabled = true) (P : Vec ℝ) (x : ℝ)
    (hP : ∀ i, i < 5 → P i = vec5 x 0 0 0 0 i) :
    (rtcp_check_travel_limits axes5 (⟨Real.sin, Real.cos, Real.sqrt, Real.pi⟩ : Libm ℝ) 0
      sys_x none m P sys_x.soft_limits true envelope_x).2 = true ↔ (-5 ≤ x ∧ x ≤ 5) := by
  have hc := rtcp_check_travel_limits_congr axes5 (⟨Real.sin, Real.cos, Real.sqrt, Real.pi⟩ : Libm ℝ)
    0 sys_x none m P (vec5 x 0 0 0 0) sys_x.soft_limits true envelope_x
    (fun f hf => by cases hf) hP
  rw [hc]
  have hfast : |vec5 x 0 0 0 0 axes5.A_AXIS| < 0.001 ∧ |vec5 x 0 0 0 0 axes5.C_AXIS| < 0.001 := by
    constructor <;> norm_num [vec5, axes5]
  rw [rtcp_check_travel_limits_on axes5 _ 0 sys_x none _ (vec5 x 0 0 0 0) sys_x.soft_limits
    true envelope_x hon (vec5 x 0 0 0 0) (fun i hi => by
      rw [transform_from_cartesian_fast _ _ _ _ _ _ hfast]
      simp [memcpy, hi])]
  constructor
  · intro h
    have := h.1 0 (by decide) (by decide) (by decide)
    simpa [envelope_x, vec5] using this
  · intro h
    refine ⟨fun i hi hb1 _ => ?_, fun _ f hf => by cases hf⟩
    have hi5 : i < 5 := hi
    interval_cases i
    · simpa [envelope_x, vec5] using h
    · exact absurd hb1 (by decide)
    · exact absurd hb1 (by decide)
    · exact absurd hb1 (by decide)
    · exact absurd hb1 (by decide)

end LimitScenarios

section CacheLemmas
variable {α : Type} [LinearOrderedField α]

/-- A sequence of inverse transforms keeps the cache consistent, and keeps the tolerance
and the geometry. -/
theorem run_inverse_calls_inv (ax : Axes) (L : Libm α) (calls : List (inverse_call α)) :
    ∀ rtcp : rtcp_state_t α, CacheInv L rtcp →
      CacheInv L (run_inverse_calls ax L rtcp calls) ∧
      (run_inverse_calls ax L rtcp calls).trig_cache_tol = rtcp.trig_cache_tol ∧
      (run_inverse_calls ax L rtcp calls).cfg = rtcp.cfg := by
  induction calls with
  | nil =>
    intro rtcp h
    exact ⟨h, rfl, rfl⟩
  | cons c cs ih =>
    intro rtcp h
    have h1 := transform_from_cartesian_inv ax L c.tlo_z rtcp c.target c.position h
    obtain ⟨i1, i2, i3⟩ := ih _ h1
    refine ⟨i1, ?_, ?_⟩
    · exact i2.trans (transform_from_cartesian_tol ax L c.tlo_z rtcp c.target c.position)
    · exact i3.trans (transform_from_cartesian_cfg ax L c.tlo_z rtcp c.target c.position)

/-- The general path of the inverse transform is the uncached formula of the spec with the
sines and cosines that the cache request returns. -/
theorem transform_from_cartesian_spec (ax : Axes) (L : Libm α) (tlo_z : α)
    (rtcp : rtcp_state_t α) (target P : Vec α) (a' c' : α)
    (hout : ¬ (|P ax.A_AXIS| < 0.001 ∧ |P ax.C_AXIS| < 0.001))
    (htrig : (update_trig_cache L rtcp (P ax.A_AXIS) (P ax.C_AXIS)).sin_a
        = L.sinf (DEG_TO_RAD L a') ∧
      (update_trig_cache L rtcp (P ax.A_AXIS) (P ax.C_AXIS)).cos_a
        = L.cosf (DEG_TO_RAD L a') ∧
      (update_trig_cache L rtcp (P ax.A_AXIS) (P ax.C_AXIS)).sin_c
        = L.sinf (DEG_TO_RAD L c') ∧
      (update_trig_cache L rtcp (P ax.A_AXIS) (P ax.C_AXIS)).cos_c
        = L.cosf (DEG_TO_RAD L c')) :
    ∀ i, i < ax.N_AXIS →
      (transform_from_cartesian ax L tlo_z rtcp target P).2 i
        = spec_uncached_inverse L rtcp.cfg tlo_z a' c' P i := by
  intro i hi
  obtain ⟨t1, t2, t3, t4⟩ := htrig
  rw [transform_from_cartesian_general ax L tlo_z rtcp target P hout]
  simp only [spec_uncached_inverse, t1, t2, t3, t4, update_trig_cache_cfg]
  by_cases h0 : i = X_AXIS
  · subst h0
    simp [X_AXIS, Y_AXIS, Z_AXIS]
  · by_cases h1 : i = Y_AXIS
    · subst h1
      simp [X_AXIS, Y_AXIS, Z_AXIS]
    · by_cases h2 : i = Z_AXIS
      · subst h2
        simp [X_AXIS, Y_AXIS, Z_AXIS]
      · have h3 : Z_AXIS < i := by
          unfold X_AXIS at h0
          unfold Y_AXIS at h1
          unfold Z_AXIS at h2 ⊢
          omega
        simp [h0, h1, h2, h3, hi]

end CacheLemmas

section PivotScenario

/-- Scenario geometry (pivot (100,100,100), axis offsets zero), tool offset 50, cache invalid
on entry: the inverse transform of the point `(100, 100, 100, a, c)` off the fast path is
`(100, 100 + 100 sin a, 150 - 100 cos a, a, c)`. -/
theorem inverse_at_pivot (rtcp : rtcp_state_t ℝ) (t : Vec ℝ) (a c : ℝ)
    (hcfg : rtcp.cfg = scenario_cfg) (hfresh : rtcp.cache_valid = false)
    (hout : 0.001 ≤ |a| ∨ 0.001 ≤ |c|) :
    (transform_from_cartesian axes5 (⟨Real.sin, Real.cos, Real.sqrt, Real.pi⟩ : Libm ℝ) 50 rtcp t
      (vec5 100 100 100 a c)).2 X_AXIS = 100 ∧
    (transform_from_cartesian axes5 (⟨Real.sin, Real.cos, Real.sqrt, Real.pi⟩ : Libm ℝ) 50 rtcp t
      (vec5 100 100 100 a c)).2 Y_AXIS = 100 + 100 * Real.sin (a * (Real.pi / 180)) ∧
    (transform_from_cartesian axes5 (⟨Real.sin, Real.cos, Real.sqrt, Real.pi⟩ : Libm ℝ) 50 rtcp t
      (vec5 100 100 100 a c)).2 Z_AXIS = 150 - 100 * Real.cos (a * (Real.pi / 180)) ∧
    (transform_from_cartesian axes5 (⟨Real.sin, Real.cos, Real.sqrt, Real.pi⟩ : Libm ℝ) 50 rtcp t
      (vec5 100 100 100 a c)).2 3 = a ∧
    (transform_from_cartesian axes5 (⟨Real.sin, Real.cos, Real.sqrt, Real.pi⟩ : Libm ℝ) 50 rtcp t
      (vec5 100 100 100 a c)).2 4 = c := by
  have hnf : ¬ (|vec5 (100 : ℝ) 100 100 a c axes5.A_AXIS| < 0.001 ∧
      |vec5 (100 : ℝ) 100 100 a c axes5.C_AXIS| < 0.001) := by
    rintro ⟨h1, h2⟩
    rcases hout with h | h
    · exact absurd h1 (not_lt.mpr h)
    · exact absurd h2 (not_lt.mpr h)
  rw [transform_from_cartesian_general _ _ _ _ _ _ hnf,
    update_trig_cache_fresh _ _ _ _ hfresh]
  simp only [hcfg, scenario_cfg, vec5, axes5, DEG_TO_RAD, X_AXIS, Y_AXIS, Z_AXIS]
  refine ⟨?_, ?_, ?_, ?_, ?_⟩
  · norm_num
  · norm_num
    ring
  · norm_num
    ring
  · norm_num
  · norm_num

theorem sqrt_two_bounds : (1.41420 : ℝ) < Real.sqrt 2 ∧ Real.sqrt 2 < 1.41424 := by
  constructor
  · rw [Real.lt_sqrt (by norm_num)]
    norm_num
  · rw [Real.sqrt_lt' (by norm_num)]
    norm_num

theorem sin_deg_45 : Real.sin (45 * (Real.pi / 180)) = Real.sqrt 2 / 2 := by
  rw [show (45 : ℝ) * (Real.pi / 180) = Real.pi / 4 by ring, Real.sin_pi_div_four]

theorem cos_deg_45 : Real.cos (45 * (Real.pi / 180)) = Real.sqrt 2 / 2 := by
  rw [show (45 : ℝ) * (Real.pi / 180) = Real.pi / 4 by ring, Real.cos_pi_div_four]

end PivotScenario

section MoreLemmas
variable {α : Type} [LinearOrderedField α]

/-- The forward transform reads its input only at the indices below `N_AXIS`. -/
theorem transform_to_cartesian_congr (ax : Axes) (L : Libm α) (tlo_z : α)
    (rtcp : rtcp_state_t α) (t P P' : Vec α) (h : ∀ i, i < ax.N_AXIS → P i = P' i) :
    transform_to_cartesian ax L tlo_z rtcp t P = transform_to_cartesian ax L tlo_z rtcp t P' := by
  have hA := h ax.A_AXIS ax.hA.2
  have hC := h ax.C_AXIS ax.hC.2
  have h0 := h X_AXIS (by have := ax.hA; unfold X_AXIS; omega)
  have h1 := h Y_AXIS (by have := ax.hA; unfold Y_AXIS; omega)
  have h2 := h Z_AXIS (by have := ax.hA; unfold Z_AXIS; omega)
  by_cases hf : |P ax.A_AXIS| < 0.001 ∧ |P ax.C_AXIS| < 0.001
  · rw [transform_to_cartesian_fast ax L tlo_z rtcp t P hf,
      transform_to_cartesian_fast ax L tlo_z rtcp t P' (by rw [← hA, ← hC]; exact hf)]
    funext i
    simp only [memcpy]
    split_ifs with hi
    · exact h i hi
    · rfl
  · rw [transform_to_cartesian_general ax L tlo_z rtcp t P hf,
      transform_to_cartesian_general ax L tlo_z rtcp t P' (by rw [← hA, ← hC]; exact hf)]
    simp only [hA, hC, h0, h1, h2]
    funext i
    split_ifs with hi
    · exact h i hi.2
    all_goals rfl

variable [FloorRing α]

/-- The init call never returns `NULL`. -/
theorem segment_init_result (ax : Axes) (L : Libm α) (H : Host α) (m : Module α)
    (target position : Vec α) (pl : plan_line_data_t α) :
    (segment_init ax L H m target position pl).2.2
      = some (segment_init ax L H m target position pl).1.mpos := by
  have hb := segment_init_iterations ax L H m target position pl
  have hj := segment_init_jog_cancel ax L H m target position pl
  by_cases hen : m.rtcp_enabled = false
  · simp only [segment_init, if_pos hen]
  · have hne : ¬ ((segment_init ax L H m target position pl).1.iterations = 0 ∨
        (segment_init ax L H m target position pl).1.jog_cancel = true) := by
      rw [hj]
      rintro (h | h)
      · omega
      · exact absurd h (by decide)
    have key : (segment_init ax L H m target position pl).2.2 =
        if (segment_init ax L H m target position pl).1.iterations = 0 ∨
          (segment_init ax L H m target position pl).1.jog_cancel = true then none
        else some (segment_init ax L H m target position pl).1.mpos := by
      simp only [segment_init, if_neg hen]
    rw [key, if_neg hne]

end MoreLemmas

section ModeLemmas
variable {α : Type} [LinearOrderedField α]

theorem bisection_loop_enabled (ax : Axes) (L : Libm α) (tlo_z : α) (sys : system_t)
    (orig : Option (check_travel_limits_ptr α)) (envelope : work_envelope_t α) (n : Nat) :
    ∀ s : bisect_state α,
      (bisection_loop ax L tlo_z sys orig envelope n s).m.rtcp_enabled = s.m.rtcp_enabled := by
  induction n with
  | zero =>
    intro s
    rfl
  | succ n ih =>
    intro s
    rw [bisection_loop, ih]
    simp only [bisection_step]
    split_ifs <;>
      exact (rtcp_check_travel_limits_keeps ax L tlo_z sys orig s.m _ sys.soft_limits true
        envelope).1

theorem rtcp_apply_travel_limits_enabled (ax : Axes) (L : Libm α) (tlo_z : α) (sys : system_t)
    (orig : Option (check_travel_limits_ptr α)) (m : Module α) (target : Vec α)
    (position : Option (Vec α)) (envelope : work_envelope_t α) :
    (rtcp_apply_travel_limits ax L tlo_z sys orig m target position envelope).1.rtcp_enabled
      = m.rtcp_enabled := by
  have hk := (rtcp_check_travel_limits_keeps ax L tlo_z sys orig m target sys.soft_limits true
    envelope).1
  cases position with
  | none => rfl
  | some position =>
    simp only [rtcp_apply_travel_limits]
    split_ifs
    · rfl
    · exact hk
    · rw [bisection_loop_enabled]
      exact hk

theorem segment_produce_enabled (ax : Axes) (L : Libm α) (H : Host α) (m : Module α)
    (pl_data : plan_line_data_t α) :
    (segment_produce ax L H m pl_data).1.rtcp_enabled = m.rtcp_enabled := by
  simp only [segment_produce]
  split_ifs <;> rfl

variable [FloorRing α]

theorem segment_init_enabled (ax : Axes) (L : Libm α) (H : Host α) (m : Module α)
    (target position : Vec α) (pl_data : plan_line_data_t α) :
    (segment_init ax L H m target position pl_data).1.rtcp_enabled = m.rtcp_enabled := by
  simp only [segment_init]
  split_ifs <;> rfl

theorem run_call_enabled (ax : Axes) (L : Libm α) (m : Module α) (c : module_call α) :
    (run_call ax L m c).rtcp_enabled =
      match c with
      | .rtcp_mcode_execute user_mcode _ _ _ _ =>
        if user_mcode = 451 then true
        else if user_mcode = 450 then false
        else m.rtcp_enabled
      | _ => m.rtcp_enabled := by
  cases c with
  | rtcp_segment_line H target position pl_data init =>
    cases init
    · exact segment_produce_enabled ax L H m pl_data
    · exact segment_init_enabled ax L H m target position pl_data
  | rtcp_check_travel_limits tlo_z sys orig target axes is_cartesian envelope =>
    exact (rtcp_check_travel_limits_keeps ax L tlo_z sys orig m target axes is_cartesian
      envelope).1
  | rtcp_apply_travel_limits tlo_z sys orig target position envelope =>
    exact rtcp_apply_travel_limits_enabled ax L tlo_z sys orig m target position envelope
  | rtcp_settings_load nvs =>
    cases nvs <;> rfl
  | rtcp_mcode_execute user_mcode pos_a pos_c spm_a spm_c =>
    simp only [run_call, rtcp_mcode_execute]
    by_cases h1 : user_mcode = 451
    · subst h1
      simp
    · by_cases h0 : user_mcode = 450
      · subst h0
        cases hen : m.rtcp_enabled <;> simp [hen]
      · simp [h0, h1]
  | _ => rfl

end ModeLemmas

section HomingLemmas
variable {α : Type} [LinearOrderedField α]

theorem set_origin_loop_spec (cycle : Nat) (n : Nat) :
    ∀ (sys : sys_position_t α) (i : Nat),
      (set_origin_loop cycle n sys).position i =
        (if i < n ∧ cycle &&& bit i ≠ 0 then 0 else sys.position i) ∧
      (set_origin_loop cycle n sys).home_position i =
        (if i < n ∧ cycle &&& bit i ≠ 0 then 0 else sys.home_position i) := by
  induction n with
  | zero =>
    intro sys i
    simp [set_origin_loop]
  | succ n ih =>
    intro sys i
    rw [set_origin_loop]
    by_cases hc : cycle &&& bit n ≠ 0
    · rw [if_pos hc]
      obtain ⟨h1, h2⟩ := ih
        { position := store sys.position n 0, home_position := store sys.home_position n 0 } i
      rw [h1, h2]
      by_cases hin : i = n
      · subst hin
        simp [store, hc]
      · have e : (i < n + 1 ∧ cycle &&& bit i ≠ 0) ↔ (i < n ∧ cycle &&& bit i ≠ 0) := by
          constructor
          · rintro ⟨a, b⟩
            exact ⟨by omega, b⟩
          · rintro ⟨a, b⟩
            exact ⟨by omega, b⟩
        simp only [store, if_neg hin, e]
        exact ⟨trivial, trivial⟩
    · rw [if_neg hc]
      obtain ⟨h1, h2⟩ := ih sys i
      rw [h1, h2]
      have e : (i < n + 1 ∧ cycle &&& bit i ≠ 0) ↔ (i < n ∧ cycle &&& bit i ≠ 0) := by
        constructor
        · rintro ⟨a, b⟩
          refine ⟨?_, b⟩
          rcases Nat.lt_succ_iff_lt_or_eq.mp a with h | h
          · exact h
          · subst h
            exact absurd b hc
        · rintro ⟨a, b⟩
          exact ⟨by omega, b⟩
      simp only [e]
      exact ⟨trivial, trivial⟩

variable [FloorRing α]

theorem set_home_loop_spec (fp : float_ops α) (settings : settings_t α) (pulloff : Vec α)
    (cycle : Nat) (n : Nat) :
    ∀ (sys : sys_position_t α) (i : Nat),
      (set_home_loop fp settings pulloff cycle n sys).home_position i =
        (if i < n ∧ cycle &&& bit i ≠ 0 then
          (if bit_istrue settings.dir_mask (bit i) = true then
            fp.add (settings.max_travel i) (pulloff i)
          else -pulloff i)
        else sys.home_position i) ∧
      (set_home_loop fp settings pulloff cycle n sys).position i =
        (if i < n ∧ cycle &&& bit i ≠ 0 then
          to_int32 (lroundf (fp.mul (if bit_istrue settings.dir_mask (bit i) = true then
              fp.add (settings.max_travel i) (pulloff i)
            else -pulloff i) (settings.steps_per_mm i)))
        else sys.position i) := by
  induction n with
  | zero =>
    intro sys i
    simp [set_home_loop]
  | succ n ih =>
    intro sys i
    rw [set_home_loop]
    by_cases hc : cycle &&& bit n ≠ 0
    · rw [if_pos hc]
      obtain ⟨h1, h2⟩ := ih
        { position := store sys.position n
            (to_int32 (lroundf (fp.mul ((store sys.home_position n
              (if bit_istrue settings.dir_mask (bit n) = true then
                fp.add (settings.max_travel n) (pulloff n)
              else -pulloff n)) n) (settings.steps_per_mm n))))
          home_position := store sys.home_position n
            (if bit_istrue settings.dir_mask (bit n) = true then
              fp.add (settings.max_travel n) (pulloff n)
            else -pulloff n) } i
      simp only at h1 h2 ⊢
      rw [h1, h2]
      by_cases hin : i = n
      · subst hin
        simp [store, hc]
      · have e : (i < n + 1 ∧ cycle &&& bit i ≠ 0) ↔ (i < n ∧ cycle &&& bit i ≠ 0) := by
          constructor
          · rintro ⟨a, b⟩
            exact ⟨by omega, b⟩
          · rintro ⟨a, b⟩
            exact ⟨by omega, b⟩
        simp only [store, if_neg hin, e]
        exact ⟨trivial, trivial⟩
    · rw [if_neg hc]
      obtain ⟨h1, h2⟩ := ih sys i
      rw [h1, h2]
      have e : (i < n + 1 ∧ cycle &&& bit i ≠ 0) ↔ (i < n ∧ cycle &&& bit i ≠ 0) := by
        constructor
        · rintro ⟨a, b⟩
          refine ⟨?_, b⟩
          rcases Nat.lt_succ_iff_lt_or_eq.mp a with h | h
          · exact h
          · subst h
            exact absurd b hc
        · rintro ⟨a, b⟩
          exact ⟨by omega, b⟩
      simp only [e]
      exact ⟨trivial, trivial⟩

/-- The rounding of `lroundf`: within one half of the argument, and away from zero at the
halfway points. -/
theorem lroundf_spec (x : α) :
    |((lroundf x : Int) : α) - x| ≤ 1 / 2 ∧
    (0 ≤ x → x + 1 / 2 < ((lroundf x : Int) : α) + 1) ∧
    (x < 0 → ((lroundf x : Int) : α) - 1 < x - 1 / 2) := by
  unfold lroundf
  by_cases h : 0 ≤ x
  · rw [if_pos h]
    have h1 := Int.floor_le (x + 1 / 2)
    have h2 := Int.lt_floor_add_one (x + 1 / 2)
    refine ⟨?_, fun _ => h2, fun hx => absurd h (not_le.mpr hx)⟩
    rw [abs_le]
    constructor <;> linarith
  · rw [if_neg h]
    have h1 := Int.le_ceil (x - 1 / 2)
    have h2 := Int.ceil_lt_add_one (x - 1 / 2)
    refine ⟨?_, fun hx => absurd hx h, fun _ => by linarith⟩
    rw [abs_le]
    constructor <;> linarith

end HomingLemmas

section CartesianLemmas

theorem copy_up_apply {β : Type} (n : Nat) (position : Vec β) (k : Nat) :
    ∀ (idx : Nat) (target : Vec β), n - idx = k → ∀ i,
      copy_up n position idx target i =
        if idx ≤ i ∧ i < n then position i else target i := by
  induction k with
  | zero =>
    intro idx target hk i
    have hge : ¬ idx < n := by omega
    rw [copy_up, dif_neg hge]
    have : ¬ (idx ≤ i ∧ i < n) := by omega
    rw [if_neg this]
  | succ k ih =>
    intro idx target hk i
    have hlt : idx < n := by omega
    rw [copy_up, dif_pos hlt, ih (idx + 1) _ (by omega) i]
    by_cases hi : i = idx
    · subst hi
      have h1 : ¬ (i + 1 ≤ i ∧ i < n) := by omega
      have h2 : i ≤ i ∧ i < n := ⟨le_refl _, hlt⟩
      rw [if_neg h1, if_pos h2]
      simp [store]
    · by_cases hr : idx ≤ i ∧ i < n
      · have h1 : idx + 1 ≤ i ∧ i < n := by omega
        rw [if_pos h1, if_pos hr]
      · have h1 : ¬ (idx + 1 ≤ i ∧ i < n) := by omega
        rw [if_neg h1, if_neg hr]
        simp [store, hi]

theorem dec_u8_pos (range n : Nat) (h : n + 1 < range) : dec_u8 range (n + 1) = n := by
  unfold dec_u8
  have : n + 1 + (range - 1) = n + range := by omega
  rw [this, Nat.add_mod_right, Nat.mod_eq_of_lt (by omega)]

end CartesianLemmas

section JogLemmas
variable {α : Type} [LinearOrderedField α]

/-- Along a jog that changes X only, the joint X is an affine function of the parameter. -/
theorem joint_x_affine (ax : Axes) (L : Libm α) (tlo_z : α) (rtcp : rtcp_state_t α)
    (pos tgt P : Vec α) (τ : α)
    (hline : ∀ i, i < ax.N_AXIS → i ≠ X_AXIS → tgt i = pos i)
    (hP : ∀ i, i < ax.N_AXIS → P i = pos i + τ * (tgt i - pos i)) :
    joint_x ax L tlo_z rtcp P =
      joint_x ax L tlo_z rtcp pos
        + τ * (joint_x ax L tlo_z rtcp tgt - joint_x ax L tlo_z rtcp pos) := by
  have hN : 3 < ax.N_AXIS := by
    have := ax.hA
    omega
  have hAx : ax.A_AXIS ≠ X_AXIS := by
    have := ax.hA
    unfold X_AXIS
    omega
  have hCx : ax.C_AXIS ≠ X_AXIS := by
    have := ax.hC
    unfold X_AXIS
    omega
  have htA : tgt ax.A_AXIS = pos ax.A_AXIS := hline _ ax.hA.2 hAx
  have htC : tgt ax.C_AXIS = pos ax.C_AXIS := hline _ ax.hC.2 hCx
  have htY : tgt 1 = pos 1 := hline 1 (by omega) (by unfold X_AXIS; omega)
  have hPA : P ax.A_AXIS = pos ax.A_AXIS := by
    rw [hP _ ax.hA.2, htA]
    ring
  have hPC : P ax.C_AXIS = pos ax.C_AXIS := by
    rw [hP _ ax.hC.2, htC]
    ring
  have hPY : P 1 = pos 1 := by
    rw [hP 1 (by omega), htY]
    ring
  have hPX : P 0 = pos 0 + τ * (tgt 0 - pos 0) := hP 0 (by omega)
  have h0 : (0 : Nat) < ax.N_AXIS := by omega
  unfold joint_x
  by_cases hf : |pos ax.A_AXIS| < 0.001 ∧ |pos ax.C_AXIS| < 0.001
  · have hfP : |P ax.A_AXIS| < 0.001 ∧ |P ax.C_AXIS| < 0.001 := by
      rw [hPA, hPC]
      exact hf
    have hft : |tgt ax.A_AXIS| < 0.001 ∧ |tgt ax.C_AXIS| < 0.001 := by
      rw [htA, htC]
      exact hf
    rw [transform_from_cartesian_fast ax L tlo_z rtcp _ P hfP,
      transform_from_cartesian_fast ax L tlo_z rtcp _ pos hf,
      transform_from_cartesian_fast ax L tlo_z rtcp _ tgt hft]
    simp only [memcpy, X_AXIS, if_pos h0]
    exact hPX
  · have hfP : ¬ (|P ax.A_AXIS| < 0.001 ∧ |P ax.C_AXIS| < 0.001) := by
      rw [hPA, hPC]
      exact hf
    have hft : ¬ (|tgt ax.A_AXIS| < 0.001 ∧ |tgt ax.C_AXIS| < 0.001) := by
      rw [htA, htC]
      exact hf
    rw [transform_from_cartesian_general ax L tlo_z rtcp _ P hfP,
      transform_from_cartesian_general ax L tlo_z rtcp _ pos hf,
      transform_from_cartesian_general ax L tlo_z rtcp _ tgt hft]
    simp only [hPA, hPC, htA, htC, X_AXIS, Y_AXIS, Z_AXIS, hPY, htY, hPX]
    norm_num
    ring

/-- After a Cartesian check of `P'`, the joint X of a point with the same `A` and `C` is
what it was before that check. -/
theorem joint_x_same_angles (ax : Axes) (L : Libm α) (tlo_z : α) (rtcp : rtcp_state_t α)
    (t' P P' : Vec α) (hA : P' ax.A_AXIS = P ax.A_AXIS) (hC : P' ax.C_AXIS = P ax.C_AXIS) :
    joint_x ax L tlo_z (transform_from_cartesian ax L tlo_z rtcp t' P').1 P =
      joint_x ax L tlo_z rtcp P := by
  unfold joint_x
  rw [transform_from_cartesian_same_angles ax L tlo_z rtcp (fun _ => 0) t' P P' hA hC]

/-- With RTCP on and X the only axis that is both homed and in the soft-limit mask, a
Cartesian point passes the check when its joint X is in range and the native check, when
installed, accepts it. -/
theorem check_only_x (ax : Axes) (L : Libm α) (tlo_z : α) (sys : system_t)
    (orig : Option (check_travel_limits_ptr α)) (envelope : work_envelope_t α) (m : Module α)
    (P : Vec α) (hon : m.rtcp_enabled = true)
    (hX : bit_istrue sys.homed_mask (bit X_AXIS) = true ∧
      bit_istrue sys.soft_limits (bit X_AXIS) = true)
    (hO : ∀ i, i < ax.N_AXIS → i ≠ X_AXIS →
      ¬ (bit_istrue sys.homed_mask (bit i) = true ∧ bit_istrue sys.soft_limits (bit i) = true)) :
    (rtcp_check_travel_limits ax L tlo_z sys orig m P sys.soft_limits true envelope).2 = true ↔
      (envelope.min X_AXIS ≤ joint_x ax L tlo_z m.rtcp P ∧
        joint_x ax L tlo_z m.rtcp P ≤ envelope.max X_AXIS) ∧
      (∀ f, orig = some f → f P sys.soft_limits true envelope = true) := by
  have h0 : X_AXIS < ax.N_AXIS := by
    have := ax.hA
    unfold X_AXIS
    omega
  rw [rtcp_check_travel_limits_on ax L tlo_z sys orig m P sys.soft_limits true envelope hon
    (transform_from_cartesian ax L tlo_z m.rtcp (fun _ => 0) P).2 (fun i _ => by simp)]
  constructor
  · rintro ⟨h1, h2⟩
    exact ⟨h1 X_AXIS h0 hX.1 hX.2, h2 rfl⟩
  · rintro ⟨h1, h2⟩
    refine ⟨fun i hi hb1 hb2 => ?_, fun _ => h2⟩
    by_cases hi0 : i = X_AXIS
    · subst hi0
      exact h1
    · exact absurd ⟨hb1, hb2⟩ (hO i hi hi0)

/-- The same for a joint-frame point: only its X is tested. -/
theorem check_only_x_joint (ax : Axes) (L : Libm α) (tlo_z : α) (sys : system_t)
    (orig : Option (check_travel_limits_ptr α)) (envelope : work_envelope_t α) (m : Module α)
    (P : Vec α) (hon : m.rtcp_enabled = true)
    (hX : bit_istrue sys.homed_mask (bit X_AXIS) = true ∧
      bit_istrue sys.soft_limits (bit X_AXIS) = true)
    (hO : ∀ i, i < ax.N_AXIS → i ≠ X_AXIS →
      ¬ (bit_istrue sys.homed_mask (bit i) = true ∧ bit_istrue sys.soft_limits (bit i) = true)) :
    (rtcp_check_travel_limits ax L tlo_z sys orig m P sys.soft_limits false envelope).2 = true ↔
      (envelope.min X_AXIS ≤ P X_AXIS ∧ P X_AXIS ≤ envelope.max X_AXIS) := by
  have h0 : X_AXIS < ax.N_AXIS := by
    have := ax.hA
    unfold X_AXIS
    omega
  rw [rtcp_check_travel_limits_on ax L tlo_z sys orig m P sys.soft_limits false envelope hon
    P (fun i _ => by simp)]
  constructor
  · rintro ⟨h1, _⟩
    exact h1 X_AXIS h0 hX.1 hX.2
  · intro h1
    refine ⟨fun i hi hb1 hb2 => ?_, fun h => absurd h (by decide)⟩
    by_cases hi0 : i = X_AXIS
    · subst hi0
      exact h1
    · exact absurd ⟨hb1, hb2⟩ (hO i hi hi0)

/-- The clip of a jog along X whose destination lies beyond the `+X` face of the joint
envelope: the result is the point at the parameter `k / 2^16`, the last one of the grid
whose joint X is not beyond the face. -/
theorem jog_x_clip (ax : Axes) (L : Libm α) (tlo_z : α) (sys : system_t)
    (orig : Option (check_travel_limits_ptr α)) (envelope : work_envelope_t α) (m : Module α)
    (target position : Vec α) (hon : m.rtcp_enabled = true)
    (hX : bit_istrue sys.homed_mask (bit X_AXIS) = true ∧
      bit_istrue sys.soft_limits (bit X_AXIS) = true)
    (hO : ∀ i, i < ax.N_AXIS → i ≠ X_AXIS →
      ¬ (bit_istrue sys.homed_mask (bit i) = true ∧ bit_istrue sys.soft_limits (bit i) = true))
    (hnat : ∀ f, orig = some f → ∀ P, OnSeg ax position target P →
      envelope.min X_AXIS ≤ joint_x ax L tlo_z m.rtcp P →
      joint_x ax L tlo_z m.rtcp P ≤ envelope.max X_AXIS →
      f P sys.soft_limits true envelope = true)
    (hline : ∀ i, i < ax.N_AXIS → i ≠ X_AXIS → target i = position i)
    (hpos : (rtcp_check_travel_limits ax L tlo_z sys orig m position sys.soft_limits true
      envelope).2 = true)
    (hpast : envelope.max X_AXIS < joint_x ax L tlo_z m.rtcp target) :
    ∃ k : Nat, k < 2 ^ 16 ∧
      (∀ i, i < ax.N_AXIS →
        (rtcp_apply_travel_limits ax L tlo_z sys orig m target (some position) envelope).2 i
          = position i + (k : α) / 2 ^ 16 * (target i - position i)) ∧
      (rtcp_apply_travel_limits ax L tlo_z sys orig m target (some position) envelope).1
        = { m with rtcp := (transform_from_cartesian ax L tlo_z m.rtcp (fun _ => 0) target).1 } ∧
      joint_x ax L tlo_z m.rtcp position + (k : α) / 2 ^ 16 *
          (joint_x ax L tlo_z m.rtcp target - joint_x ax L tlo_z m.rtcp position)
        ≤ envelope.max X_AXIS ∧
      envelope.max X_AXIS < joint_x ax L tlo_z m.rtcp position + ((k : α) + 1) / 2 ^ 16 *
          (joint_x ax L tlo_z m.rtcp target - joint_x ax L tlo_z m.rtcp position) := by
  have hAx : ax.A_AXIS ≠ X_AXIS := by
    have := ax.hA
    unfold X_AXIS
    omega
  have hCx : ax.C_AXIS ≠ X_AXIS := by
    have := ax.hC
    unfold X_AXIS
    omega
  have htA : target ax.A_AXIS = position ax.A_AXIS := hline _ ax.hA.2 hAx
  have htC : target ax.C_AXIS = position ax.C_AXIS := hline _ ax.hC.2 hCx
  have hhomed : sys.homed_mask ≠ 0 := by
    intro h0
    have := hX.1
    rw [h0, bit_istrue_zero] at this
    exact absurd this (by decide)
  -- validity in the statics of the call
  have hV := fun P => check_only_x ax L tlo_z sys orig envelope m P hon hX hO
  have hJ0 := ((hV position).mp hpos).1
  have htgt : (rtcp_check_travel_limits ax L tlo_z sys orig m target sys.soft_limits true
      envelope).2 = false := by
    cases hb : (rtcp_check_travel_limits ax L tlo_z sys orig m target sys.soft_limits true
      envelope).2
    · rfl
    · exact absurd ((hV target).mp hb).1.2 (not_le.mpr hpast)
  have hm1 : (rtcp_check_travel_limits ax L tlo_z sys orig m target sys.soft_limits true
      envelope).1 =
      { m with rtcp := (transform_from_cartesian ax L tlo_z m.rtcp (fun _ => 0) target).1 } := by
    rw [rtcp_check_travel_limits_state, if_pos ⟨hon, rfl⟩]
  -- a point of the segment has the angles of the destination
  have hang : ∀ (P : Vec α) (τ : α),
      (∀ i, i < ax.N_AXIS → P i = position i + τ * (target i - position i)) →
      target ax.A_AXIS = P ax.A_AXIS ∧ target ax.C_AXIS = P ax.C_AXIS := by
    intro P τ hP
    rw [hP _ ax.hA.2, hP _ ax.hC.2, htA, htC]
    constructor <;> ring
  -- in the statics after the first check the flag is that of the statics of the call
  have hst : ∀ (P : Vec α) (τ : α),
      (∀ i, i < ax.N_AXIS → P i = position i + τ * (target i - position i)) →
      rtcp_check_travel_limits ax L tlo_z sys orig
        (rtcp_check_travel_limits ax L tlo_z sys orig m target sys.soft_limits true envelope).1
        P sys.soft_limits true envelope =
      ((rtcp_check_travel_limits ax L tlo_z sys orig m target sys.soft_limits true envelope).1,
        (rtcp_check_travel_limits ax L tlo_z sys orig m P sys.soft_limits true envelope).2) := by
    intro P τ hP
    exact rtcp_check_travel_limits_same_angles ax L tlo_z sys orig m P target sys.soft_limits
      sys.soft_limits envelope envelope (Or.inr (hang P τ hP))
  obtain ⟨s, hres, hQs, k, hk, hstart, hend, hbest, hT, hF⟩ :=
    rtcp_apply_travel_limits_inv ax L tlo_z sys orig envelope
      (fun m' => m' = (rtcp_check_travel_limits ax L tlo_z sys orig m target sys.soft_limits
        true envelope).1)
      m target position hhomed htgt
      (fun m' P hm' hseg => by
        obtain ⟨τ, _, _, hτ⟩ := hseg
        have hm'' : m' = (rtcp_check_travel_limits ax L tlo_z sys orig m target
          sys.soft_limits true envelope).1 := hm'
        show (rtcp_check_travel_limits ax L tlo_z sys orig m' P sys.soft_limits true
          envelope).1 = _
        rw [hm'', hst P τ hτ])
      rfl
  have hsm : s.m = (rtcp_check_travel_limits ax L tlo_z sys orig m target sys.soft_limits
      true envelope).1 := hQs
  have hkα : (0 : α) ≤ (k : α) := Nat.cast_nonneg k
  have hk1 : ((k : α) + 1) / 2 ^ 16 ≤ 1 := by
    rw [div_le_one (by positivity)]
    have : k + 1 ≤ 2 ^ 16 := hk
    exact_mod_cast this
  have hgap : 0 < joint_x ax L tlo_z m.rtcp target - joint_x ax L tlo_z m.rtcp position := by
    linarith [hJ0.2]
  refine ⟨k, hk, ?_, ?_, ?_, ?_⟩
  · intro i hi
    rw [hres]
    simp only [memcpy, if_pos hi]
    rw [hbest i hi, hstart i hi]
  · rw [hres]
    show s.m = _
    rw [hsm, hm1]
  · rcases hT with hT | ⟨m', P, hQm, hP, hr⟩
    · rw [hT]
      simp only [Nat.cast_zero, zero_div, zero_mul, add_zero]
      exact hJ0.2
    · have hm'' : m' = (rtcp_check_travel_limits ax L tlo_z sys orig m target
          sys.soft_limits true envelope).1 := hQm
      have hPτ : ∀ i, i < ax.N_AXIS →
          P i = position i + (k : α) / 2 ^ 16 * (target i - position i) := by
        intro i hi
        rw [hP i hi, hbest i hi, hstart i hi]
      rw [hm'', hst P _ hPτ] at hr
      have := ((hV P).mp hr).1.2
      rw [joint_x_affine ax L tlo_z m.rtcp position target P _ hline hPτ] at this
      exact this
  · rcases hF with hF | ⟨m', P, hQm, hP, hr⟩
    · have : ((k : α) + 1) = 2 ^ 16 := by exact_mod_cast hF
      rw [this]
      have h2 : (2 : α) ^ 16 / 2 ^ 16 = 1 := div_self (by positivity)
      rw [h2]
      linarith
    · have hm'' : m' = (rtcp_check_travel_limits ax L tlo_z sys orig m target
          sys.soft_limits true envelope).1 := hQm
      have hPτ : ∀ i, i < ax.N_AXIS →
          P i = position i + ((k : α) + 1) / 2 ^ 16 * (target i - position i) := by
        intro i hi
        rw [hP i hi, hend i hi]
      rw [hm'', hst P _ hPτ] at hr
      have hseg : OnSeg ax position target P :=
        ⟨((k : α) + 1) / 2 ^ 16, by positivity, hk1, hPτ⟩
      have hJP := joint_x_affine ax L tlo_z m.rtcp position target P _ hline hPτ
      by_contra hcon
      have hle : joint_x ax L tlo_z m.rtcp P ≤ envelope.max X_AXIS := by
        rw [hJP]
        exact not_lt.mp hcon
      have hge : envelope.min X_AXIS ≤ joint_x ax L tlo_z m.rtcp P := by
        rw [hJP]
        have : 0 ≤ ((k : α) + 1) / 2 ^ 16 *
            (joint_x ax L tlo_z m.rtcp target - joint_x ax L tlo_z m.rtcp position) := by
          positivity
        linarith [hJ0.1]
      have hpass := (hV P).mpr ⟨⟨hge, hle⟩, fun f hf => hnat f hf P hseg hge hle⟩
      rw [hpass] at hr
      exact absurd hr (by decide)

/-- On the fast path the joint X is the X of the point. -/
theorem joint_x_fast (ax : Axes) (L : Libm α) (tlo_z : α) (rtcp : rtcp_state_t α) (P : Vec α)
    (hf : |P ax.A_AXIS| < 0.001 ∧ |P ax.C_AXIS| < 0.001) :
    joint_x ax L tlo_z rtcp P = P X_AXIS := by
  have h0 : X_AXIS < ax.N_AXIS := by
    have := ax.hA
    unfold X_AXIS
    omega
  unfold joint_x
  rw [transform_from_cartesian_fast ax L tlo_z rtcp _ P hf]
  simp only [memcpy, if_pos h0]

/-- The joint X reads the point only below `N_AXIS`. -/
theorem joint_x_congr (ax : Axes) (L : Libm α) (tlo_z : α) (rtcp : rtcp_state_t α)
    (P P' : Vec α) (h : ∀ i, i < ax.N_AXIS → P i = P' i) :
    joint_x ax L tlo_z rtcp P = joint_x ax L tlo_z rtcp P' := by
  unfold joint_x
  rw [transform_from_cartesian_congr ax L tlo_z rtcp (fun _ => 0) P P' h]

end JogLemmas

section CacheErrorLemmas

/-- The chord between two points of the unit circle is not longer than the arc. -/
theorem chord_sq_le (x y : ℝ) :
    (Real.cos x - Real.cos y) ^ 2 + (Real.sin x - Real.sin y) ^ 2 ≤ (x - y) ^ 2 := by
  have h := Real.one_sub_sq_div_two_le_cos (x := x - y)
  rw [Real.cos_sub] at h
  have e : (Real.cos x - Real.cos y) ^ 2 + (Real.sin x - Real.sin y) ^ 2 =
      (Real.sin x ^ 2 + Real.cos x ^ 2) + (Real.sin y ^ 2 + Real.cos y ^ 2)
        - 2 * (Real.cos x * Real.cos y + Real.sin x * Real.sin y) := by ring
  rw [e, Real.sin_sq_add_cos_sq, Real.sin_sq_add_cos_sq]
  linarith

/-- Triangle inequality in three dimensions, on squared lengths. -/
theorem norm3_add_sq_le (u1 u2 u3 v1 v2 v3 A B : ℝ) (hA : 0 ≤ A) (hB : 0 ≤ B)
    (hu : u1 ^ 2 + u2 ^ 2 + u3 ^ 2 ≤ A ^ 2) (hv : v1 ^ 2 + v2 ^ 2 + v3 ^ 2 ≤ B ^ 2) :
    (u1 + v1) ^ 2 + (u2 + v2) ^ 2 + (u3 + v3) ^ 2 ≤ (A + B) ^ 2 := by
  have hcs : (u1 * v1 + u2 * v2 + u3 * v3) ^ 2 ≤
      (u1 ^ 2 + u2 ^ 2 + u3 ^ 2) * (v1 ^ 2 + v2 ^ 2 + v3 ^ 2) := by
    nlinarith [sq_nonneg (u1 * v2 - u2 * v1), sq_nonneg (u1 * v3 - u3 * v1),
      sq_nonneg (u2 * v3 - u3 * v2)]
  have hprod : (u1 ^ 2 + u2 ^ 2 + u3 ^ 2) * (v1 ^ 2 + v2 ^ 2 + v3 ^ 2) ≤ A ^ 2 * B ^ 2 :=
    mul_le_mul hu hv (by positivity) (by positivity)
  have hdot : u1 * v1 + u2 * v2 + u3 * v3 ≤ A * B := by
    by_contra hcon
    have hlt : A * B < u1 * v1 + u2 * v2 + u3 * v3 := not_le.mp hcon
    have hAB : 0 ≤ A * B := mul_nonneg hA hB
    have : (A * B) ^ 2 < (u1 * v1 + u2 * v2 + u3 * v3) ^ 2 := by
      apply pow_lt_pow_left₀ hlt hAB (by norm_num)
    nlinarith
  nlinarith

/-- Error of the uncached formula evaluated at the angles `(a', c')` in place of `(a, c)`:
at most the angular error `δ` (radians) times the sum of the distance `rC` of the point
from the C axis and the distance `rA` of the rotated point from the A axis. -/
theorem spec_inverse_error (cfg : rtcp_settings_t ℝ) (tlo_z a c a' c' : ℝ) (P : Vec ℝ)
    (δ rC rA : ℝ) (hδ : 0 ≤ δ) (hrC : 0 ≤ rC) (hrA : 0 ≤ rA)
    (ha : |a' - a| * (Real.pi / 180) ≤ δ) (hc : |c' - c| * (Real.pi / 180) ≤ δ)
    (hdC : (P X_AXIS - cfg.pivot_x) ^ 2 + (P Y_AXIS - cfg.pivot_y) ^ 2 ≤ rC ^ 2)
    (hdA : (spec_uncached_inverse (⟨Real.sin, Real.cos, Real.sqrt, Real.pi⟩ : Libm ℝ) cfg tlo_z
          a c P Y_AXIS - cfg.pivot_y - cfg.axis_offset_y) ^ 2 +
        (spec_uncached_inverse (⟨Real.sin, Real.cos, Real.sqrt, Real.pi⟩ : Libm ℝ) cfg tlo_z
          a c P Z_AXIS - cfg.pivot_z - (cfg.axis_offset_z + tlo_z)) ^ 2 ≤ rA ^ 2) :
    xyz_dist_sq
      (spec_uncached_inverse (⟨Real.sin, Real.cos, Real.sqrt, Real.pi⟩ : Libm ℝ) cfg tlo_z
        a' c' P)
      (spec_uncached_inverse (⟨Real.sin, Real.cos, Real.sqrt, Real.pi⟩ : Libm ℝ) cfg tlo_z
        a c P) ≤ (δ * (rC + rA)) ^ 2 := by
  have hpi : 0 < Real.pi := Real.pi_pos
  have hchord : ∀ x y : ℝ, |x - y| * (Real.pi / 180) ≤ δ →
      (Real.cos (x * (Real.pi / 180)) - Real.cos (y * (Real.pi / 180))) ^ 2 +
        (Real.sin (x * (Real.pi / 180)) - Real.sin (y * (Real.pi / 180))) ^ 2 ≤ δ ^ 2 := by
    intro x y hxy
    refine le_trans (chord_sq_le _ _) ?_
    have e : (x * (Real.pi / 180) - y * (Real.pi / 180)) ^ 2 =
        (|x - y| * (Real.pi / 180)) ^ 2 := by
      rw [mul_pow, sq_abs]
      ring
    rw [e]
    exact pow_le_pow_left₀ (by positivity) hxy 2
  have hca := hchord a' a ha
  have hcc := hchord c' c hc
  obtain ⟨Sa, hSa⟩ : ∃ v, v = Real.sin (a' * (Real.pi / 180)) := ⟨_, rfl⟩
  obtain ⟨Ca, hCa⟩ : ∃ v, v = Real.cos (a' * (Real.pi / 180)) := ⟨_, rfl⟩
  obtain ⟨Sc, hSc⟩ : ∃ v, v = Real.sin (c' * (Real.pi / 180)) := ⟨_, rfl⟩
  obtain ⟨Cc, hCc⟩ : ∃ v, v = Real.cos (c' * (Real.pi / 180)) := ⟨_, rfl⟩
  obtain ⟨sa, hsa⟩ : ∃ v, v = Real.sin (a * (Real.pi / 180)) := ⟨_, rfl⟩
  obtain ⟨ca, hca'⟩ : ∃ v, v = Real.cos (a * (Real.pi / 180)) := ⟨_, rfl⟩
  obtain ⟨sc, hsc⟩ : ∃ v, v = Real.sin (c * (Real.pi / 180)) := ⟨_, rfl⟩
  obtain ⟨cc, hcc'⟩ : ∃ v, v = Real.cos (c * (Real.pi / 180)) := ⟨_, rfl⟩
  have pA : Sa ^ 2 + Ca ^ 2 = 1 := by
    rw [hSa, hCa]
    exact Real.sin_sq_add_cos_sq _
  have pa : sa ^ 2 + ca ^ 2 = 1 := by
    rw [hsa, hca']
    exact Real.sin_sq_add_cos_sq _
  rw [← hSa, ← hCa, ← hsa, ← hca'] at hca
  rw [← hSc, ← hCc, ← hsc, ← hcc'] at hcc
  obtain ⟨px, hpx⟩ : ∃ v, v = P 0 - cfg.pivot_x := ⟨_, rfl⟩
  obtain ⟨py, hpy⟩ : ∃ v, v = P 1 - cfg.pivot_y := ⟨_, rfl⟩
  obtain ⟨w2, hw2⟩ : ∃ v, v = (P 2 - tlo_z) - cfg.pivot_z - (cfg.axis_offset_z + tlo_z) :=
    ⟨_, rfl⟩
  obtain ⟨w1, hw1⟩ : ∃ v, v = px * sc + py * cc - cfg.axis_offset_y := ⟨_, rfl⟩
  simp only [spec_uncached_inverse, DEG_TO_RAD, X_AXIS, Y_AXIS, Z_AXIS, ← hSa, ← hCa, ← hSc,
    ← hCc, ← hsa, ← hca', ← hsc, ← hcc'] at hdC hdA ⊢
  norm_num at hdC hdA ⊢
  rw [← hpx, ← hpy] at hdC
  have hdA' : w1 ^ 2 + w2 ^ 2 ≤ rA ^ 2 := by
    have e : w1 ^ 2 + w2 ^ 2 = (w1 ^ 2 + w2 ^ 2) * (sa ^ 2 + ca ^ 2) := by
      rw [pa, mul_one]
    rw [e]
    refine le_trans (le_of_eq ?_) hdA
    rw [hw1, hw2, hpx, hpy]
    ring
  have hu : (px * (Cc - cc) - py * (Sc - sc)) ^ 2
      + ((px * (Sc - sc) + py * (Cc - cc)) * Ca) ^ 2
      + ((px * (Sc - sc) + py * (Cc - cc)) * Sa) ^ 2 ≤ (δ * rC) ^ 2 := by
    have e : (px * (Cc - cc) - py * (Sc - sc)) ^ 2
        + ((px * (Sc - sc) + py * (Cc - cc)) * Ca) ^ 2
        + ((px * (Sc - sc) + py * (Cc - cc)) * Sa) ^ 2
        = (px ^ 2 + py ^ 2) * ((Cc - cc) ^ 2 + (Sc - sc) ^ 2)
          + (px * (Sc - sc) + py * (Cc - cc)) ^ 2 * (Sa ^ 2 + Ca ^ 2 - 1) := by ring
    rw [e, pA, sub_self, mul_zero, add_zero]
    have : (px ^ 2 + py ^ 2) * ((Cc - cc) ^ 2 + (Sc - sc) ^ 2) ≤ rC ^ 2 * δ ^ 2 :=
      mul_le_mul hdC hcc (by positivity) (by positivity)
    calc (px ^ 2 + py ^ 2) * ((Cc - cc) ^ 2 + (Sc - sc) ^ 2) ≤ rC ^ 2 * δ ^ 2 := this
      _ = (δ * rC) ^ 2 := by ring
  have hv : (0 : ℝ) ^ 2 + (w1 * (Ca - ca) - w2 * (Sa - sa)) ^ 2
      + (w1 * (Sa - sa) + w2 * (Ca - ca)) ^ 2 ≤ (δ * rA) ^ 2 := by
    have e : (0 : ℝ) ^ 2 + (w1 * (Ca - ca) - w2 * (Sa - sa)) ^ 2
        + (w1 * (Sa - sa) + w2 * (Ca - ca)) ^ 2
        = (w1 ^ 2 + w2 ^ 2) * ((Ca - ca) ^ 2 + (Sa - sa) ^ 2) := by ring
    rw [e]
    have : (w1 ^ 2 + w2 ^ 2) * ((Ca - ca) ^ 2 + (Sa - sa) ^ 2) ≤ rA ^ 2 * δ ^ 2 :=
      mul_le_mul hdA' hca (by positivity) (by positivity)
    calc (w1 ^ 2 + w2 ^ 2) * ((Ca - ca) ^ 2 + (Sa - sa) ^ 2) ≤ rA ^ 2 * δ ^ 2 := this
      _ = (δ * rA) ^ 2 := by ring
  have key := norm3_add_sq_le _ _ _ _ _ _ (δ * rC) (δ * rA) (by positivity) (by positivity)
    hu hv
  refine le_trans (le_of_eq ?_) (le_trans key (le_of_eq (by ring)))
  unfold xyz_dist_sq
  simp only [X_AXIS, Y_AXIS, Z_AXIS]
  norm_num
  rw [hw1, hw2, hpx, hpy]
  ring

end CacheErrorLemmas

section CacheErrorLemmas2
variable {α : Type} [LinearOrderedField α]

/-- With a valid, consistent sample within the tolerance of the angles of `P`, the general
path of the inverse transform is the uncached formula at the angles of the sample. -/
theorem cached_inverse_eq_spec (ax : Axes) (L : Libm α) (tlo_z : α) (rtcp : rtcp_state_t α)
    (t P : Vec α) (hvalid : rtcp.cache_valid = true) (hinv : CacheInv L rtcp)
    (hA : |P ax.A_AXIS - rtcp.last_a| ≤ rtcp.trig_cache_tol)
    (hC : |P ax.C_AXIS - rtcp.last_c| ≤ rtcp.trig_cache_tol)
    (hout : ¬ (|P ax.A_AXIS| < 0.001 ∧ |P ax.C_AXIS| < 0.001)) :
    ∀ i, i < ax.N_AXIS →
      (transform_from_cartesian ax L tlo_z rtcp t P).2 i
        = spec_uncached_inverse L rtcp.cfg tlo_z rtcp.last_a rtcp.last_c P i := by
  have hkeep : update_trig_cache L rtcp (P ax.A_AXIS) (P ax.C_AXIS) = rtcp := by
    unfold update_trig_cache
    rw [if_neg]
    rintro (h | h | h)
    · rw [hvalid] at h
      exact absurd h (by decide)
    · exact absurd hA (not_le.mpr h)
    · exact absurd hC (not_le.mpr h)
  apply transform_from_cartesian_spec ax L tlo_z rtcp t P _ _ hout
  rw [hkeep]
  exact hinv hvalid

/-- With an invalid cache the general path of the inverse transform is the uncached formula
at the angles of `P`. -/
theorem exact_inverse_eq_spec (ax : Axes) (L : Libm α) (tlo_z : α) (rtcp : rtcp_state_t α)
    (t P : Vec α) (hout : ¬ (|P ax.A_AXIS| < 0.001 ∧ |P ax.C_AXIS| < 0.001)) :
    ∀ i, i < ax.N_AXIS →
      (transform_from_cartesian ax L tlo_z (invalidate_cache rtcp) t P).2 i
        = spec_uncached_inverse L rtcp.cfg tlo_z (P ax.A_AXIS) (P ax.C_AXIS) P i := by
  have h := transform_from_cartesian_spec ax L tlo_z (invalidate_cache rtcp) t P _ _ hout
    (update_trig_cache_exact L (invalidate_cache rtcp) (P ax.A_AXIS) (P ax.C_AXIS)
      (Or.inl rfl))
  exact h

theorem xyz_dist_sq_congr (ax : Axes) (P P' Q Q' : Vec α)
    (hP : ∀ i, i < ax.N_AXIS → P i = P' i) (hQ : ∀ i, i < ax.N_AXIS → Q i = Q' i) :
    xyz_dist_sq P Q = xyz_dist_sq P' Q' := by
  have hN : 3 < ax.N_AXIS := by
    have := ax.hA
    omega
  unfold xyz_dist_sq X_AXIS Y_AXIS Z_AXIS
  rw [hP 0 (by omega), hP 1 (by omega), hP 2 (by omega), hQ 0 (by omega), hQ 1 (by omega),
    hQ 2 (by omega)]

end CacheErrorLemmas2

section CacheErrorLemmas3

/-- The tolerance that `rtcp_kinematics_settings_changed` stores, in radians. -/
theorem settings_changed_tol_rad (m0 : Module ℝ) :
    DEG_TO_RAD (⟨Real.sin, Real.cos, Real.sqrt, Real.pi⟩ : Libm ℝ)
      (rtcp_kinematics_settings_changed (⟨Real.sin, Real.cos, Real.sqrt, Real.pi⟩ : Libm ℝ)
        m0).rtcp.trig_cache_tol
      = 0.01 / max (Real.sqrt (m0.rtcp_settings_storage.pivot_x * m0.rtcp_settings_storage.pivot_x
          + m0.rtcp_settings_storage.pivot_y * m0.rtcp_settings_storage.pivot_y
          + m0.rtcp_settings_storage.pivot_z * m0.rtcp_settings_storage.pivot_z)) 500 := by
  have hpi : Real.pi ≠ 0 := ne_of_gt Real.pi_pos
  obtain ⟨arm, harm⟩ : ∃ v, v = Real.sqrt
      (m0.rtcp_settings_storage.pivot_x * m0.rtcp_settings_storage.pivot_x
        + m0.rtcp_settings_storage.pivot_y * m0.rtcp_settings_storage.pivot_y
        + m0.rtcp_settings_storage.pivot_z * m0.rtcp_settings_storage.pivot_z) := ⟨_, rfl⟩
  have hmax : (if arm < 500 then (500 : ℝ) else arm) = max arm 500 := by
    by_cases h : arm < 500
    · rw [if_pos h, max_eq_right h.le]
    · rw [if_neg h, max_eq_left (not_lt.mp h)]
  simp only [rtcp_kinematics_settings_changed, invalidate_cache, DEG_TO_RAD, RAD_TO_DEG,
    MAX_CHORD_ERROR_MM, MAX_ARM_LENGTH_MM, ← harm, hmax]
  field_simp
  ring

end CacheErrorLemmas3

section CacheErrorScenario

/-- In the state `c1_state` (default geometry, sample `(90, 0)`), a point
`(0, y, 0, 90.001, 0)`: the sample is valid, consistent and within the tolerance of the
angles of the point; the cached inverse transform gives `Y = 0`, and with the cache
invalid it gives `Y = y cos 90.001°`, `Z = y sin 90.001°`. -/
theorem c1_state_point (y : ℝ) :
    (c1_state (⟨Real.sin, Real.cos, Real.sqrt, Real.pi⟩ : Libm ℝ)).cache_valid = true ∧
    CacheInv (⟨Real.sin, Real.cos, Real.sqrt, Real.pi⟩ : Libm ℝ)
      (c1_state ⟨Real.sin, Real.cos, Real.sqrt, Real.pi⟩) ∧
    |vec5 0 y 0 90.001 0 axes5.A_AXIS
        - (c1_state (⟨Real.sin, Real.cos, Real.sqrt, Real.pi⟩ : Libm ℝ)).last_a|
      ≤ (c1_state (⟨Real.sin, Real.cos, Real.sqrt, Real.pi⟩ : Libm ℝ)).trig_cache_tol ∧
    |vec5 0 y 0 90.001 0 axes5.C_AXIS
        - (c1_state (⟨Real.sin, Real.cos, Real.sqrt, Real.pi⟩ : Libm ℝ)).last_c|
      ≤ (c1_state (⟨Real.sin, Real.cos, Real.sqrt, Real.pi⟩ : Libm ℝ)).trig_cache_tol ∧
    (transform_from_cartesian axes5 (⟨Real.sin, Real.cos, Real.sqrt, Real.pi⟩ : Libm ℝ) 0
      (c1_state ⟨Real.sin, Real.cos, Real.sqrt, Real.pi⟩) (fun _ => 0)
      (vec5 0 y 0 90.001 0)).2 Y_AXIS = 0 ∧
    (transform_from_cartesian axes5 (⟨Real.sin, Real.cos, Real.sqrt, Real.pi⟩ : Libm ℝ) 0
      (invalidate_cache (c1_state ⟨Real.sin, Real.cos, Real.sqrt, Real.pi⟩)) (fun _ => 0)
      (vec5 0 y 0 90.001 0)).2 Y_AXIS = y * Real.cos (90.001 * (Real.pi / 180)) ∧
    (transform_from_cartesian axes5 (⟨Real.sin, Real.cos, Real.sqrt, Real.pi⟩ : Libm ℝ) 0
      (invalidate_cache (c1_state ⟨Real.sin, Real.cos, Real.sqrt, Real.pi⟩)) (fun _ => 0)
      (vec5 0 y 0 90.001 0)).2 Z_AXIS = y * Real.sin (90.001 * (Real.pi / 180)) := by
  have htolb := default_tol_bounds
  have hvalid : (c1_state (⟨Real.sin, Real.cos, Real.sqrt, Real.pi⟩ : Libm ℝ)).cache_valid
      = true := by
    rw [c1_state_eq]
  have hinv : CacheInv (⟨Real.sin, Real.cos, Real.sqrt, Real.pi⟩ : Libm ℝ)
      (c1_state ⟨Real.sin, Real.cos, Real.sqrt, Real.pi⟩) := by
    rw [c1_state_eq]
    intro _
    simp only [DEG_TO_RAD]
    rw [sin_deg_90, cos_deg_90]
    simp
  have hA : |vec5 0 y 0 90.001 0 axes5.A_AXIS
      - (c1_state (⟨Real.sin, Real.cos, Real.sqrt, Real.pi⟩ : Libm ℝ)).last_a|
      ≤ (c1_state (⟨Real.sin, Real.cos, Real.sqrt, Real.pi⟩ : Libm ℝ)).trig_cache_tol := by
    rw [c1_state_eq]
    simp only [vec5, axes5]
    rw [abs_of_pos (by norm_num)]
    norm_num at htolb ⊢
    linarith [htolb.1]
  have hC : |vec5 0 y 0 90.001 0 axes5.C_AXIS
      - (c1_state (⟨Real.sin, Real.cos, Real.sqrt, Real.pi⟩ : Libm ℝ)).last_c|
      ≤ (c1_state (⟨Real.sin, Real.cos, Real.sqrt, Real.pi⟩ : Libm ℝ)).trig_cache_tol := by
    rw [c1_state_eq]
    simp only [vec5, axes5]
    norm_num
    linarith [htolb.1]
  have hout : ¬ (|vec5 (0:ℝ) y 0 90.001 0 axes5.A_AXIS| < 0.001 ∧
      |vec5 (0:ℝ) y 0 90.001 0 axes5.C_AXIS| < 0.001) := by
    refine not_and_of_not_left _ (not_lt.mpr ?_)
    simp only [vec5, axes5]
    rw [abs_of_pos (by norm_num)]
    norm_num
  have e1 := cached_inverse_eq_spec axes5 (⟨Real.sin, Real.cos, Real.sqrt, Real.pi⟩ : Libm ℝ)
    0 (c1_state ⟨Real.sin, Real.cos, Real.sqrt, Real.pi⟩) (fun _ => 0) (vec5 0 y 0 90.001 0)
    hvalid hinv hA hC hout
  have e2 := exact_inverse_eq_spec axes5 (⟨Real.sin, Real.cos, Real.sqrt, Real.pi⟩ : Libm ℝ)
    0 (c1_state ⟨Real.sin, Real.cos, Real.sqrt, Real.pi⟩) (fun _ => 0) (vec5 0 y 0 90.001 0)
    hout
  refine ⟨hvalid, hinv, hA, hC, ?_, ?_, ?_⟩
  · rw [e1 Y_AXIS (by decide), c1_state_eq]
    simp only [spec_uncached_inverse, DEG_TO_RAD, sin_deg_90, cos_deg_90, vec5, X_AXIS, Y_AXIS,
      Z_AXIS]
    norm_num
  · rw [e2 Y_AXIS (by decide), c1_state_eq]
    simp only [spec_uncached_inverse, DEG_TO_RAD, vec5, X_AXIS, Y_AXIS, Z_AXIS, axes5]
    norm_num
  · rw [e2 Z_AXIS (by decide), c1_state_eq]
    simp only [spec_uncached_inverse, DEG_TO_RAD, vec5, X_AXIS, Y_AXIS, Z_AXIS, axes5]
    norm_num

end CacheErrorScenario

section ReachLemmas
variable {α : Type} [LinearOrderedField α]

theorem transform_to_cartesian_cfg_congr (ax : Axes) (L : Libm α) (tlo_z : α)
    (rtcp rr : rtcp_state_t α) (t P : Vec α) (h : rr.cfg = rtcp.cfg) :
    transform_to_cartesian ax L tlo_z rr t P = transform_to_cartesian ax L tlo_z rtcp t P := by
  simp only [transform_to_cartesian, h]

theorem rtcp_check_travel_limits_pres (ax : Axes) (L : Libm α) (Q : rtcp_state_t α → Prop)
    (hT : ∀ tlo r t P, Q r → Q (transform_from_cartesian ax L tlo r t P).1)
    (tlo_z : α) (sys : system_t)
    (orig : Option (check_travel_limits_ptr α)) (m : Module α) (target : Vec α) (axes : Nat)
    (is_cartesian : Bool) (envelope : work_envelope_t α) (h : Q m.rtcp) :
    Q (rtcp_check_travel_limits ax L tlo_z sys orig m target axes is_cartesian envelope).1.rtcp := by
  rw [rtcp_check_travel_limits_state]
  split_ifs
  · exact hT _ _ _ _ h
  · exact h

theorem bisection_loop_pres (ax : Axes) (L : Libm α) (Q : rtcp_state_t α → Prop)
    (hT : ∀ tlo r t P, Q r → Q (transform_from_cartesian ax L tlo r t P).1)
    (tlo_z : α) (sys : system_t)
    (orig : Option (check_travel_limits_ptr α)) (envelope : work_envelope_t α) (n : Nat) :
    ∀ s : bisect_state α, Q s.m.rtcp →
      Q (bisection_loop ax L tlo_z sys orig envelope n s).m.rtcp := by
  induction n with
  | zero =>
    intro s h
    exact h
  | succ n ih =>
    intro s h
    rw [bisection_loop]
    apply ih
    simp only [bisection_step]
    split_ifs <;>
      exact rtcp_check_travel_limits_pres ax L Q hT tlo_z sys orig s.m _ sys.soft_limits true
        envelope h

theorem rtcp_apply_travel_limits_pres (ax : Axes) (L : Libm α) (Q : rtcp_state_t α → Prop)
    (hT : ∀ tlo r t P, Q r → Q (transform_from_cartesian ax L tlo r t P).1)
    (tlo_z : α) (sys : system_t)
    (orig : Option (check_travel_limits_ptr α)) (m : Module α) (target : Vec α)
    (position : Option (Vec α)) (envelope : work_envelope_t α) (h : Q m.rtcp) :
    Q (rtcp_apply_travel_limits ax L tlo_z sys orig m target position envelope).1.rtcp := by
  have hk := rtcp_check_travel_limits_pres ax L Q hT tlo_z sys orig m target sys.soft_limits
    true envelope h
  cases position with
  | none => exact h
  | some position =>
    simp only [rtcp_apply_travel_limits]
    split_ifs
    · exact h
    · exact hk
    · exact bisection_loop_pres ax L Q hT tlo_z sys orig envelope _ _ hk

theorem segment_produce_pres (ax : Axes) (L : Libm α) (Q : rtcp_state_t α → Prop)
    (hT : ∀ tlo r t P, Q r → Q (transform_from_cartesian ax L tlo r t P).1)
    (H : Host α) (m : Module α) (pl_data : plan_line_data_t α) (h : Q m.rtcp) :
    Q (segment_produce ax L H m pl_data).1.rtcp := by
  rw [(segment_produce_state ax L H m pl_data).2.1]
  exact hT _ _ _ _ h

theorem settings_changed_inv (L : Libm α) (m : Module α) :
    CacheInv L (rtcp_kinematics_settings_changed L m).rtcp := by
  intro h
  exact absurd h (by simp [rtcp_kinematics_settings_changed, invalidate_cache])

theorem invalidate_cache_inv (L : Libm α) (r : rtcp_state_t α) :
    CacheInv L (invalidate_cache r) := by
  intro h
  exact absurd h (by simp [invalidate_cache])

variable [FloorRing α]

theorem segment_init_pres (ax : Axes) (L : Libm α) (Q : rtcp_state_t α → Prop)
    (hT : ∀ tlo r t P, Q r → Q (transform_from_cartesian ax L tlo r t P).1)
    (H : Host α) (m : Module α) (target position : Vec α) (pl_data : plan_line_data_t α)
    (h : Q m.rtcp) :
    Q (segment_init ax L H m target position pl_data).1.rtcp := by
  simp only [segment_init]
  split_ifs
  all_goals first
    | exact h
    | exact hT _ _ _ _ (hT _ _ _ _ h)
    | exact hT _ _ _ _ h

/-- A property of the trig-cache record that every inverse transform keeps, that
`invalidate_cache` keeps and that holds after `rtcp_kinematics_settings_changed`, is kept
by every call of an entry point of the module. -/
theorem run_call_pres (ax : Axes) (L : Libm α) (Q : rtcp_state_t α → Prop)
    (hT : ∀ tlo r t P, Q r → Q (transform_from_cartesian ax L tlo r t P).1)
    (hI : ∀ r, Q r → Q (invalidate_cache r))
    (hS : ∀ m : Module α, Q (rtcp_kinematics_settings_changed L m).rtcp)
    (m : Module α) (c : module_call α) (h : Q m.rtcp) :
    Q (run_call ax L m c).rtcp := by
  cases c with
  | transform_from_cartesian tlo_z target position => exact hT _ _ _ _ h
  | rtcp_segment_line H target position pl_data init =>
    cases init
    · exact segment_produce_pres ax L Q hT H m pl_data h
    · exact segment_init_pres ax L Q hT H m target position pl_data h
  | rtcp_limits_set_machine_positions fp settings pulloff sys cycle => exact hI _ h
  | rtcp_check_travel_limits tlo_z sys orig target axes is_cartesian envelope =>
    exact rtcp_check_travel_limits_pres ax L Q hT tlo_z sys orig m target axes is_cartesian
      envelope h
  | rtcp_apply_travel_limits tlo_z sys orig target position envelope =>
    exact rtcp_apply_travel_limits_pres ax L Q hT tlo_z sys orig m target position envelope h
  | rtcp_kinematics_settings_changed => exact hS m
  | rtcp_settings_load nvs => exact hS _
  | rtcp_mcode_execute user_mcode pos_a pos_c spm_a spm_c =>
    simp only [run_call, rtcp_mcode_execute]
    split_ifs
    · exact hI _ h
    · exact h
    · exact hI _ h
    · exact h
  | _ => exact h

theorem run_calls_pres (ax : Axes) (L : Libm α) (Q : rtcp_state_t α → Prop)
    (hT : ∀ tlo r t P, Q r → Q (transform_from_cartesian ax L tlo r t P).1)
    (hI : ∀ r, Q r → Q (invalidate_cache r))
    (hS : ∀ m : Module α, Q (rtcp_kinematics_settings_changed L m).rtcp)
    (cs : List (module_call α)) :
    ∀ m : Module α, Q m.rtcp → Q (run_calls ax L m cs).rtcp := by
  induction cs with
  | nil =>
    intro m h
    exact h
  | cons c cs ih =>
    intro m h
    exact ih _ (run_call_pres ax L Q hT hI hS m c h)

end ReachLemmas

section AffineLemmas
variable {α : Type} [LinearOrderedField α]

theorem fresh_of_invalid (L : Libm α) (rtcp : rtcp_state_t α) (a c : α)
    (h : rtcp.cache_valid = false) : FreshAt L rtcp a c := by
  constructor
  · intro hv
    rw [h] at hv
    exact absurd hv (by decide)
  · intro hv
    rw [h] at hv
    exact absurd hv (by decide)

/-- A request at angles the cache is fresh at ends with the sines and cosines of those
angles. -/
theorem update_trig_cache_fresh_exact (L : Libm α) (rtcp : rtcp_state_t α) (a c : α)
    (h : FreshAt L rtcp a c) :
    (update_trig_cache L rtcp a c).sin_a = L.sinf (DEG_TO_RAD L a) ∧
    (update_trig_cache L rtcp a c).cos_a = L.cosf (DEG_TO_RAD L a) ∧
    (update_trig_cache L rtcp a c).sin_c = L.sinf (DEG_TO_RAD L c) ∧
    (update_trig_cache L rtcp a c).cos_c = L.cosf (DEG_TO_RAD L c) := by
  obtain ⟨hv, ha, hc⟩ := update_trig_cache_at L rtcp a c h
  have hi := update_trig_cache_inv L rtcp a c h.1 hv
  rw [ha, hc] at hi
  exact hi

theorem reverse_algebra (sa ca sc cc x y z tlo pvx pvy pvz dy dz0 : α)
    (hA : sa ^ 2 + ca ^ 2 = 1) (hC : sc ^ 2 + cc ^ 2 = 1) :
    let dz := dz0 + tlo
    let px := x - pvx
    let py := y - dy - pvy
    let pz := z - dz - pvz
    let yt := ca * py + sa * pz + dy
    let zi := -sa * py + ca * pz + dz
    let xi := cc * px + sc * yt
    let yi := -sc * px + cc * yt
    let px' := (xi + pvx) - pvx
    let py' := (yi + pvy) - pvy
    let pz' := ((zi + pvz + tlo) - tlo) - pvz
    let xc := px' * cc - py' * sc
    let yc := px' * sc + py' * cc
    let y_rot := yc * ca - pz' * sa - ca * dy + sa * dz + dy
    let z_rot := yc * sa + pz' * ca - sa * dy - ca * dz + dz
    xc + pvx = x ∧ y_rot + pvy = y ∧ z_rot + pvz = z := by
  intro dz px py pz yt zi xi yi px' py' pz' xc yc y_rot z_rot
  have hyc : yc = yt := by
    simp only [yc, px', py', xi, yi]
    linear_combination yt * hC
  have hpz : pz' = zi := by
    simp only [pz']
    ring
  refine ⟨?_, ?_, ?_⟩
  · simp only [xc, px', py', xi, yi, px]
    linear_combination (x - pvx) * hC
  · simp only [y_rot, hyc, hpz, yt, zi, py]
    linear_combination (y - dy - pvy) * hA
  · simp only [z_rot, hyc, hpz, yt, zi, pz]
    linear_combination (z - dz - pvz) * hA

/-- Forward transform, then inverse transform with the sines and cosines of the point's
own angles: the joint point comes back on every axis. -/
theorem reverse_round_trip (ax : Axes) (L : Libm α) (tlo_z : α) (rtcp rr : rtcp_state_t α)
    (t1 t2 Q : Vec α) (hpyth : ∀ x, L.sinf x ^ 2 + L.cosf x ^ 2 = 1) (hcfg : rr.cfg = rtcp.cfg)
    (hex : (|Q ax.A_AXIS| < 0.001 ∧ |Q ax.C_AXIS| < 0.001) ∨
      FreshAt L rtcp (Q ax.A_AXIS) (Q ax.C_AXIS)) :
    ∀ i, i < ax.N_AXIS →
      (transform_from_cartesian ax L tlo_z rtcp t1
        (transform_to_cartesian ax L tlo_z rr t2 Q)).2 i = Q i := by
  intro i hi
  have hTA := transform_to_cartesian_above_Z ax L tlo_z rr t2 Q ax.A_AXIS ax.hA.1 ax.hA.2
  have hTC := transform_to_cartesian_above_Z ax L tlo_z rr t2 Q ax.C_AXIS ax.hC.1 ax.hC.2
  by_cases hf : |Q ax.A_AXIS| < 0.001 ∧ |Q ax.C_AXIS| < 0.001
  · have hf2 : |transform_to_cartesian ax L tlo_z rr t2 Q ax.A_AXIS| < 0.001 ∧
        |transform_to_cartesian ax L tlo_z rr t2 Q ax.C_AXIS| < 0.001 := by
      rw [hTA, hTC]
      exact hf
    rw [transform_from_cartesian_fast ax L tlo_z rtcp t1 _ hf2,
      transform_to_cartesian_fast ax L tlo_z rr t2 Q hf]
    simp [memcpy, hi]
  · have hf2 : ¬ (|transform_to_cartesian ax L tlo_z rr t2 Q ax.A_AXIS| < 0.001 ∧
        |transform_to_cartesian ax L tlo_z rr t2 Q ax.C_AXIS| < 0.001) := by
      rw [hTA, hTC]
      exact hf
    by_cases h3 : 2 < i ∧ i < ax.N_AXIS
    · rw [transform_from_cartesian_above_Z ax L tlo_z rtcp t1 _ i h3.1 h3.2]
      exact transform_to_cartesian_above_Z ax L tlo_z rr t2 Q i h3.1 h3.2
    · rw [transform_from_cartesian_general ax L tlo_z rtcp t1 _ hf2, hTA, hTC]
      obtain ⟨e1, e2, e3, e4⟩ := update_trig_cache_fresh_exact L rtcp _ _ (hex.resolve_left hf)
      have hcfg2 := update_trig_cache_cfg L rtcp (Q ax.A_AXIS) (Q ax.C_AXIS)
      have hq : ∀ j, transform_to_cartesian ax L tlo_z rr t2 Q j = _ :=
        fun j => congrFun (transform_to_cartesian_general ax L tlo_z rr t2 Q hf) j
      have hX := hq X_AXIS
      have hY := hq Y_AXIS
      have hZ := hq Z_AXIS
      simp only [X_AXIS, Y_AXIS, Z_AXIS, hcfg] at hX hY hZ
      norm_num at hX hY hZ
      obtain ⟨r1, r2, r3⟩ := reverse_algebra (L.sinf (DEG_TO_RAD L (Q ax.A_AXIS)))
        (L.cosf (DEG_TO_RAD L (Q ax.A_AXIS))) (L.sinf (DEG_TO_RAD L (Q ax.C_AXIS)))
        (L.cosf (DEG_TO_RAD L (Q ax.C_AXIS))) (Q 0) (Q 1) (Q 2) tlo_z rtcp.cfg.pivot_x
        rtcp.cfg.pivot_y rtcp.cfg.pivot_z rtcp.cfg.axis_offset_y rtcp.cfg.axis_offset_z
        (hpyth _) (hpyth _)
      simp only [X_AXIS, Y_AXIS, Z_AXIS, hX, hY, hZ, e1, e2, e3, e4, hcfg2]
      rw [if_neg h3]
      have hi2 : i = 2 ∨ i = 1 ∨ i = 0 := by omega
      rcases hi2 with h | h | h
      · subst h
        simpa using r3
      · subst h
        simpa using r2
      · subst h
        simpa using r1

/-- In one cache state, the inverse transform of the midpoint of two points with the same
`A` and the same `C` is the midpoint of their inverse transforms, on every axis. -/
theorem inverse_midpoint (ax : Axes) (L : Libm α) (tlo_z : α) (rtcp : rtcp_state_t α)
    (t t1 t2 M P1 P2 : Vec α) (hA : P2 ax.A_AXIS = P1 ax.A_AXIS)
    (hC : P2 ax.C_AXIS = P1 ax.C_AXIS)
    (hM : ∀ i, i < ax.N_AXIS → M i = (P1 i + P2 i) / 2) :
    ∀ i, i < ax.N_AXIS →
      (transform_from_cartesian ax L tlo_z rtcp t M).2 i =
        ((transform_from_cartesian ax L tlo_z rtcp t1 P1).2 i
          + (transform_from_cartesian ax L tlo_z rtcp t2 P2).2 i) / 2 := by
  intro i hi
  have hN : 3 < ax.N_AXIS := by
    have := ax.hA
    omega
  have hMA : M ax.A_AXIS = P1 ax.A_AXIS := by
    rw [hM _ ax.hA.2, hA]
    ring
  have hMC : M ax.C_AXIS = P1 ax.C_AXIS := by
    rw [hM _ ax.hC.2, hC]
    ring
  by_cases h3 : 2 < i ∧ i < ax.N_AXIS
  · rw [transform_from_cartesian_above_Z ax L tlo_z rtcp t M i h3.1 h3.2,
      transform_from_cartesian_above_Z ax L tlo_z rtcp t1 P1 i h3.1 h3.2,
      transform_from_cartesian_above_Z ax L tlo_z rtcp t2 P2 i h3.1 h3.2]
    exact hM i hi
  · have hM0 := hM 0 (by omega)
    have hM1 := hM 1 (by omega)
    have hM2 := hM 2 (by omega)
    by_cases hf : |P1 ax.A_AXIS| < 0.001 ∧ |P1 ax.C_AXIS| < 0.001
    · have hfM : |M ax.A_AXIS| < 0.001 ∧ |M ax.C_AXIS| < 0.001 := by
        rw [hMA, hMC]
        exact hf
      have hf2 : |P2 ax.A_AXIS| < 0.001 ∧ |P2 ax.C_AXIS| < 0.001 := by
        rw [hA, hC]
        exact hf
      rw [transform_from_cartesian_fast ax L tlo_z rtcp _ M hfM,
        transform_from_cartesian_fast ax L tlo_z rtcp _ P1 hf,
        transform_from_cartesian_fast ax L tlo_z rtcp _ P2 hf2]
      simp only [memcpy, if_pos hi]
      exact hM i hi
    · have hfM : ¬ (|M ax.A_AXIS| < 0.001 ∧ |M ax.C_AXIS| < 0.001) := by
        rw [hMA, hMC]
        exact hf
      have hf2 : ¬ (|P2 ax.A_AXIS| < 0.001 ∧ |P2 ax.C_AXIS| < 0.001) := by
        rw [hA, hC]
        exact hf
      rw [transform_from_cartesian_general ax L tlo_z rtcp _ M hfM,
        transform_from_cartesian_general ax L tlo_z rtcp _ P1 hf,
        transform_from_cartesian_general ax L tlo_z rtcp _ P2 hf2]
      simp only [hMA, hMC, hA, hC, X_AXIS, Y_AXIS, Z_AXIS, hM0, hM1, hM2]
      rw [if_neg h3, if_neg h3, if_neg h3]
      have hi2 : i = 2 ∨ i = 1 ∨ i = 0 := by omega
      rcases hi2 with h | h | h
      · subst h
        norm_num
        ring
      · subst h
        norm_num
        ring
      · subst h
        norm_num
        ring

/-- Two cache states with the same geometry that are both fresh at the angles of `P`
(or any two states when `P` is on the fast path) give the same inverse transform of `P`. -/
theorem inverse_fresh_indep (ax : Axes) (L : Libm α) (tlo_z : α) (rtcp rr : rtcp_state_t α)
    (t1 t2 P : Vec α) (hcfg : rr.cfg = rtcp.cfg)
    (hex : (|P ax.A_AXIS| < 0.001 ∧ |P ax.C_AXIS| < 0.001) ∨
      (FreshAt L rtcp (P ax.A_AXIS) (P ax.C_AXIS) ∧ FreshAt L rr (P ax.A_AXIS) (P ax.C_AXIS))) :
    ∀ i, i < ax.N_AXIS →
      (transform_from_cartesian ax L tlo_z rtcp t1 P).2 i =
        (transform_from_cartesian ax L tlo_z rr t2 P).2 i := by
  intro i hi
  by_cases hf : |P ax.A_AXIS| < 0.001 ∧ |P ax.C_AXIS| < 0.001
  · rw [transform_from_cartesian_fast ax L tlo_z rtcp _ P hf,
      transform_from_cartesian_fast ax L tlo_z rr _ P hf]
    simp only [memcpy, if_pos hi]
  · obtain ⟨h1, h2⟩ := hex.resolve_left hf
    rw [transform_from_cartesian_spec ax L tlo_z rtcp t1 P _ _ hf
        (update_trig_cache_fresh_exact L rtcp _ _ h1) i hi,
      transform_from_cartesian_spec ax L tlo_z rr t2 P _ _ hf
        (update_trig_cache_fresh_exact L rr _ _ h2) i hi, hcfg]

end AffineLemmas

section PlanLemmas

/-- Over the reals, with the square root of `<math.h>` read as the real square root: the
segment count chosen from the squared midpoint error. -/
theorem plan_iterations_real (rapid : Bool) (err_sq : ℝ) :
    plan_iterations (⟨Real.sin, Real.cos, Real.sqrt, Real.pi⟩ : Libm ℝ) rapid err_sq =
      if Real.sqrt err_sq ≤ (if rapid = true then 0.5 else 0.01) then 1
      else min 2000
        (2 * ⌈Real.sqrt (Real.sqrt err_sq / (if rapid = true then 0.5 else 0.01))⌉₊) := by
  obtain ⟨tol, htol⟩ : ∃ tol : ℝ, tol = if rapid = true then 0.5 else 0.01 := ⟨_, rfl⟩
  have htol2 : (if rapid = true then (MAX_CHORD_ERROR_G0_MM : ℝ) else MAX_CHORD_ERROR_MM)
      = tol := by
    rw [htol]
    cases rapid <;> simp [MAX_CHORD_ERROR_G0_MM, MAX_CHORD_ERROR_MM]
  have hpos : 0 < tol := by
    rw [htol]
    cases rapid <;> norm_num
  rw [← htol]
  unfold plan_iterations
  simp only [htol2]
  by_cases h : err_sq > tol * tol
  · have hs : tol < Real.sqrt err_sq := by
      rw [Real.lt_sqrt hpos.le]
      nlinarith
    rw [if_pos h, if_neg (not_le.mpr hs)]
    have h1 : 1 < Real.sqrt err_sq / tol := by
      rw [one_lt_div hpos]
      exact hs
    have h2 : 1 < Real.sqrt (Real.sqrt err_sq / tol) := by
      rw [Real.lt_sqrt (by norm_num)]
      simpa using h1
    have h3 : 1 < ⌈Real.sqrt (Real.sqrt err_sq / tol)⌉₊ := by
      rw [Nat.lt_ceil]
      simpa using h2
    have h4 : cast_ceil_times_two (Real.sqrt (Real.sqrt err_sq / tol))
        = 2 * ⌈Real.sqrt (Real.sqrt err_sq / tol)⌉₊ := by
      unfold cast_ceil_times_two
      rw [← Int.natCast_ceil_eq_ceil (by positivity)]
      omega
    simp only [h4]
    generalize ⌈Real.sqrt (Real.sqrt err_sq / tol)⌉₊ = c at h3
    have hlt : ¬ (2 * c < 1) := by omega
    rw [if_neg hlt]
    split_ifs with h5
    · omega
    · omega
  · have hs : Real.sqrt err_sq ≤ tol := by
      rw [Real.sqrt_le_left hpos.le]
      nlinarith
    rw [if_neg h, if_pos hs]
    simp

/-- Over the reals the count is 1 or an even number from 4 to 2000. -/
theorem plan_iterations_values (rapid : Bool) (err_sq : ℝ) :
    plan_iterations (⟨Real.sin, Real.cos, Real.sqrt, Real.pi⟩ : Libm ℝ) rapid err_sq = 1 ∨
    (4 ≤ plan_iterations (⟨Real.sin, Real.cos, Real.sqrt, Real.pi⟩ : Libm ℝ) rapid err_sq ∧
     plan_iterations (⟨Real.sin, Real.cos, Real.sqrt, Real.pi⟩ : Libm ℝ) rapid err_sq ≤ 2000 ∧
     2 ∣ plan_iterations (⟨Real.sin, Real.cos, Real.sqrt, Real.pi⟩ : Libm ℝ) rapid err_sq) := by
  rw [plan_iterations_real]
  obtain ⟨tol, htol⟩ : ∃ tol : ℝ, tol = if rapid = true then 0.5 else 0.01 := ⟨_, rfl⟩
  have hpos : 0 < tol := by
    rw [htol]
    cases rapid <;> norm_num
  rw [← htol]
  by_cases hs : Real.sqrt err_sq ≤ tol
  · left
    rw [if_pos hs]
  · right
    rw [if_neg hs]
    have h1 : 1 < Real.sqrt err_sq / tol := by
      rw [one_lt_div hpos]
      exact not_le.mp hs
    have h2 : 1 < Real.sqrt (Real.sqrt err_sq / tol) := by
      rw [Real.lt_sqrt (by norm_num)]
      simpa using h1
    have h3 : 1 < ⌈Real.sqrt (Real.sqrt err_sq / tol)⌉₊ := by
      rw [Nat.lt_ceil]
      simpa using h2
    refine ⟨by omega, by omega, ?_⟩
    rcases le_total 2000 (2 * ⌈Real.sqrt (Real.sqrt err_sq / tol)⌉₊) with h | h
    · rw [min_eq_left h]
      exact ⟨1000, rfl⟩
    · rw [min_eq_right h]
      exact ⟨_, rfl⟩

/-- Over the reals the count of a rapid move is at most that of the same move as a
non-rapid move. -/
theorem plan_iterations_rapid_le (err_sq : ℝ) :
    plan_iterations (⟨Real.sin, Real.cos, Real.sqrt, Real.pi⟩ : Libm ℝ) true err_sq ≤
      plan_iterations (⟨Real.sin, Real.cos, Real.sqrt, Real.pi⟩ : Libm ℝ) false err_sq := by
  by_cases h : Real.sqrt err_sq ≤ 0.5
  · have := (plan_iterations_bounds (⟨Real.sin, Real.cos, Real.sqrt, Real.pi⟩ : Libm ℝ) false
      err_sq).1
    rw [plan_iterations_real true]
    simp only [if_true]
    rw [if_pos h]
    exact this
  · rw [plan_iterations_real true, plan_iterations_real false]
    simp only [if_true, Bool.false_eq_true, if_false]
    have h' : ¬ Real.sqrt err_sq ≤ 0.01 := by
      intro h2
      apply h
      linarith
    rw [if_neg h, if_neg h']
    apply min_le_min (le_refl _)
    apply Nat.mul_le_mul_left
    apply Nat.ceil_mono
    apply Real.sqrt_le_sqrt
    apply div_le_div_of_nonneg_left (Real.sqrt_nonneg _) (by norm_num) (by norm_num)

end PlanLemmas

section CountLemmas
variable {α : Type} [LinearOrderedField α] [FloorRing α]

/-- The count left by the init call with RTCP on, in terms of the TCP start point, the
rotation of the move and the two inverse transforms made by the call. -/
theorem segment_init_count (ax : Axes) (L : Libm α) (H : Host α) (m : Module α)
    (target position : Vec α) (pl : plan_line_data_t α) (hon : m.rtcp_enabled = true) :
    (segment_init ax L H m target position pl).1.iterations =
      (if max |target ax.A_AXIS
              - transform_to_cartesian ax L H.tlo_z m.rtcp m.segment_target position ax.A_AXIS|
            |target ax.C_AXIS
              - transform_to_cartesian ax L H.tlo_z m.rtcp m.segment_target position ax.C_AXIS|
          > 0.001 then
        plan_iterations L pl.condition.rapid_motion
          (err_sq_loop position (transform_from_cartesian ax L H.tlo_z m.rtcp m.mpos target).2
            (transform_from_cartesian ax L H.tlo_z
              (transform_from_cartesian ax L H.tlo_z m.rtcp m.mpos target).1 (fun _ => 0)
              (fun i => (transform_to_cartesian ax L H.tlo_z m.rtcp m.segment_target position i
                + target i) * 0.5)).2 0 0)
      else 1) + 1 := by
  rw [segment_init_on ax L H m target position pl hon]
  have hcfg : (transform_from_cartesian ax L H.tlo_z m.rtcp m.mpos target).1.cfg = m.rtcp.cfg :=
    transform_from_cartesian_cfg ax L H.tlo_z m.rtcp m.mpos target
  have hS := transform_to_cartesian_cfg_congr ax L H.tlo_z m.rtcp
    (transform_from_cartesian ax L H.tlo_z m.rtcp m.mpos target).1 m.segment_target position hcfg
  obtain ⟨_, ha, hc⟩ := delta_loop_spec ax target
    (transform_to_cartesian ax L H.tlo_z m.rtcp m.segment_target position) ax.N_AXIS
    ⟨m.delta, 0, 0, 0⟩
  rw [if_pos ax.hA.2] at ha
  rw [if_pos ax.hC.2] at hc
  simp only [hS, ha, hc]
  have hmid : transform_from_cartesian ax L H.tlo_z
      (transform_from_cartesian ax L H.tlo_z m.rtcp m.mpos target).1 (fun _ => 0)
      (fill_down (fun idx =>
        (transform_to_cartesian ax L H.tlo_z m.rtcp m.segment_target position idx
          + memcpy ax.N_AXIS m.final_target target idx) * 0.5) ax.N_AXIS (fun _ => 0))
      = transform_from_cartesian ax L H.tlo_z
      (transform_from_cartesian ax L H.tlo_z m.rtcp m.mpos target).1 (fun _ => 0)
      (fun i => (transform_to_cartesian ax L H.tlo_z m.rtcp m.segment_target position i
                + target i) * 0.5) := by
    apply transform_from_cartesian_congr
    intro i hi
    rw [fill_down_apply]
    simp only [if_pos hi, memcpy]
  rw [hmid]
  split_ifs <;> rfl

end CountLemmas

section ProduceLemmas
variable {α : Type} [LinearOrderedField α]

/-- The loop of `get_distance` adds the squares of the differences on every index
below its entry value. -/
theorem get_distance_loop_sum (p0 p1 : Vec α) (n : Nat) :
    ∀ d : α, get_distance_loop p0 p1 n d =
      d + Finset.sum (Finset.range n) (fun i => (p0 i - p1 i) ^ 2) := by
  induction n with
  | zero =>
    intro d
    simp [get_distance_loop]
  | succ n ih =>
    intro d
    rw [get_distance_loop, ih, Finset.sum_range_succ]
    ring

theorem clamp_rate_multiplier_eq (x : α) :
    clamp_rate_multiplier x = max 0.5 (min x 2) := by
  unfold clamp_rate_multiplier
  split_ifs with h1 h2
  · rw [min_eq_left (by linarith), max_eq_left h1.le]
  · rw [min_eq_right (by norm_num at h2 ⊢; linarith), max_eq_right (by norm_num)]
    norm_num
  · rw [min_eq_left (by norm_num at h2 ⊢; linarith), max_eq_right (not_lt.mp h1)]

/-- What a produce call writes to `*pl_data`. -/
theorem segment_produce_feed (ax : Axes) (L : Libm α) (H : Host α) (m : Module α)
    (pl : plan_line_data_t α) :
    (segment_produce ax L H m pl).2.1 =
      if pl.condition.rapid_motion = false ∧ m.distance > 0.0001 then
        { pl with
          feed_rate := pl.feed_rate * clamp_rate_multiplier
            (get_distance ax L (segment_produce ax L H m pl).1.mpos m.last_motors / m.distance)
          rate_multiplier := 1 / clamp_rate_multiplier
            (get_distance ax L (segment_produce ax L H m pl).1.mpos m.last_motors / m.distance) }
      else pl := by
  simp only [segment_produce]
  split_ifs <;> norm_num

variable [FloorRing α]

theorem after_produce_calls_inv (ax : Axes) (L : Libm α) (H : Host α)
    (pls : Nat → plan_line_data_t α) (m0 : Module α) (N : Nat)
    (hN : N + 1 < UINT_FAST16_RANGE) (hit : m0.iterations = N + 1)
    (hj : m0.jog_cancel = false) (hseg : 1 < N → m0.segmented = true) :
    ∀ j, j ≤ N →
      (after_produce_calls ax L H pls m0 j).iterations = N + 1 - j ∧
      (after_produce_calls ax L H pls m0 j).jog_cancel = false ∧
      (after_produce_calls ax L H pls m0 j).delta = m0.delta ∧
      (after_produce_calls ax L H pls m0 j).segmented = m0.segmented ∧
      (after_produce_calls ax L H pls m0 j).final_target = m0.final_target ∧
      (j < N → ∀ i, i < ax.N_AXIS →
        (after_produce_calls ax L H pls m0 j).segment_target i
          = m0.segment_target i + (j : α) * m0.delta i) := by
  intro j
  induction j with
  | zero =>
    intro _
    refine ⟨by simp [after_produce_calls, hit], hj, rfl, rfl, rfl, ?_⟩
    intro _ i _
    simp [after_produce_calls]
  | succ j ih =>
    intro hle
    obtain ⟨h1, h2, h3, h4, h5, h6⟩ := ih (by omega)
    have e : after_produce_calls ax L H pls m0 (j + 1) =
        (segment_produce ax L H (after_produce_calls ax L H pls m0 j) (pls j)).1 := rfl
    rw [e]
    obtain ⟨s1, _, _, s4⟩ := segment_produce_state ax L H
      (after_produce_calls ax L H pls m0 j) (pls j)
    obtain ⟨k1, k2⟩ := segment_produce_keeps ax L H
      (after_produce_calls ax L H pls m0 j) (pls j)
    have hdec : dec_u16 (after_produce_calls ax L H pls m0 j).iterations = N - j := by
      rw [h1]
      have e2 : N + 1 - j = (N - j) + 1 := by omega
      rw [e2]
      exact dec_u16_succ _ (by omega)
    refine ⟨?_, ?_, ?_, ?_, ?_, ?_⟩
    · rw [segment_produce_iterations, hdec]
      omega
    · rw [segment_produce_jog_cancel]
      exact h2
    · rw [k1, h3]
    · rw [k2, h4]
    · rw [s1, h5]
    · intro hlt i hi
      have hc : (after_produce_calls ax L H pls m0 j).segmented = true ∧
          dec_u16 (after_produce_calls ax L H pls m0 j).iterations > 1 := by
        refine ⟨?_, ?_⟩
        · rw [h4]
          exact hseg (by omega)
        · rw [hdec]
          omega
      rw [s4, if_pos hc, fill_down_apply, if_pos hi, h6 (by omega) i hi, h3]
      push_cast
      ring

/-- The pointer returned by the produce call made after `j` produce calls of a move with
`N` segments planned: the joint point of the next TCP point on the line for `j + 1 < N`,
the joint point of the saved target for `j + 1 = N`, and `NULL` for `j = N`. -/
theorem produce_call_result (ax : Axes) (L : Libm α) (H : Host α)
    (pls : Nat → plan_line_data_t α) (m0 : Module α) (N : Nat)
    (hN : N + 1 < UINT_FAST16_RANGE) (hit : m0.iterations = N + 1)
    (hj : m0.jog_cancel = false) (hseg : 1 < N → m0.segmented = true)
    (j : Nat) (hle : j ≤ N) (pl : plan_line_data_t α) :
    (segment_produce ax L H (after_produce_calls ax L H pls m0 j) pl).2.2 =
      if j = N then none
      else some (transform_from_cartesian ax L H.tlo_z
        (after_produce_calls ax L H pls m0 j).rtcp (after_produce_calls ax L H pls m0 j).mpos
        (if j + 1 < N then fun i => m0.segment_target i + ((j + 1 : Nat) : α) * m0.delta i
         else m0.final_target)).2 := by
  obtain ⟨h1, h2, h3, h4, h5, h6⟩ := after_produce_calls_inv ax L H pls m0 N hN hit hj hseg j hle
  have hdec : dec_u16 (after_produce_calls ax L H pls m0 j).iterations = N - j := by
    rw [h1]
    have e2 : N + 1 - j = (N - j) + 1 := by omega
    rw [e2]
    exact dec_u16_succ _ (by omega)
  rw [segment_produce_result, hdec, h2]
  by_cases hjN : j = N
  · rw [if_pos hjN, if_pos (Or.inl (by omega))]
  · have hne : ¬ (N - j = 0 ∨ false = true) := by
      intro h
      rcases h with h | h
      · omega
      · exact absurd h (by decide)
    rw [if_neg hjN, if_neg hne, (segment_produce_state ax L H _ pl).2.2.1, hdec, h4, h3, h5]
    refine congrArg (fun r : rtcp_state_t α × Vec α => some r.2) ?_
    apply transform_from_cartesian_congr
    intro i hi
    by_cases hlt : j + 1 < N
    · rw [if_pos ⟨hseg (by omega), by omega⟩, if_pos hlt, fill_down_apply, if_pos hi,
        h6 (by omega) i hi]
      push_cast
      ring
    · have hc : ¬ (m0.segmented = true ∧ N - j > 1) := by
        intro h
        omega
      rw [if_neg hc, if_neg hlt]
      simp only [memcpy, if_pos hi]

/-- The plan left by the init call with RTCP on: the saved target, the count of an
unsegmented move, and the start point and step of a segmented one. -/
theorem segment_init_plan (ax : Axes) (L : Libm α) (H : Host α) (m : Module α)
    (target position : Vec α) (pl : plan_line_data_t α) (hon : m.rtcp_enabled = true) :
    (∀ i, i < ax.N_AXIS → (segment_init ax L H m target position pl).1.final_target i
      = target i) ∧
    ((segment_init ax L H m target position pl).1.segmented = false →
      (segment_init ax L H m target position pl).1.iterations = 2) ∧
    ((segment_init ax L H m target position pl).1.segmented = true →
      ∀ i, i < ax.N_AXIS →
        (segment_init ax L H m target position pl).1.segment_target i
          = transform_to_cartesian ax L H.tlo_z m.rtcp m.segment_target position i ∧
        (segment_init ax L H m target position pl).1.delta i
          = (target i - transform_to_cartesian ax L H.tlo_z m.rtcp m.segment_target position i)
            / (((segment_init ax L H m target position pl).1.iterations - 1 : Nat) : α)) := by
  rw [segment_init_on ax L H m target position pl hon]
  have hcfg : (transform_from_cartesian ax L H.tlo_z m.rtcp m.mpos target).1.cfg = m.rtcp.cfg :=
    transform_from_cartesian_cfg ax L H.tlo_z m.rtcp m.mpos target
  have hS := transform_to_cartesian_cfg_congr ax L H.tlo_z m.rtcp
    (transform_from_cartesian ax L H.tlo_z m.rtcp m.mpos target).1 m.segment_target position hcfg
  obtain ⟨hd, _, _⟩ := delta_loop_spec ax target
    (transform_to_cartesian ax L H.tlo_z m.rtcp m.segment_target position) ax.N_AXIS
    ⟨m.delta, 0, 0, 0⟩
  simp only [hS]
  split_ifs with hmax
  · refine ⟨?_, ?_, ?_⟩
    · intro i hi
      simp only [memcpy, if_pos hi]
    · intro h
      exact absurd h (by decide)
    · intro _ i hi
      refine ⟨rfl, ?_⟩
      simp only [fill_down_apply, if_pos hi, hd i, Nat.add_sub_cancel]
  · refine ⟨?_, ?_, ?_⟩
    · intro i hi
      simp only [memcpy, if_pos hi]
    · intro _
      rfl
    · intro h
      exact absurd h (by decide)

end ProduceLemmas

section ChordLemmas
variable {α : Type} [LinearOrderedField α] [FloorRing α]

/-- A move without rotation whose joint end point is computed with the sines and cosines
of its own angles: one point is returned, and the inverse transform (computed afresh) of
the TCP midpoint is the joint midpoint. -/
theorem unsegmented_chord_zero (ax : Axes) (L : Libm α) (H : Host α) (m : Module α)
    (target position : Vec α) (pl0 : plan_line_data_t α) (pls : Nat → plan_line_data_t α)
    (hpyth : ∀ x, L.sinf x ^ 2 + L.cosf x ^ 2 = 1)
    (hon : m.rtcp_enabled = true)
    (hrotA : target ax.A_AXIS = position ax.A_AXIS)
    (hrotC : target ax.C_AXIS = position ax.C_AXIS)
    (hex : (|target ax.A_AXIS| < 0.001 ∧ |target ax.C_AXIS| < 0.001) ∨
      FreshAt L m.rtcp (target ax.A_AXIS) (target ax.C_AXIS)) :
    ∃ J m', segment_move ax L H pl0 pls (fun _ => false) 2001 m target position
        = some ([J], m') ∧
      chord_midpoint_err_sq ax L H.tlo_z m.rtcp
        (transform_to_cartesian ax L H.tlo_z m.rtcp m.segment_target position) target
        position J = 0 := by
  have hN : 3 < ax.N_AXIS := by
    have := ax.hA
    omega
  obtain ⟨m', hrun, _⟩ := segment_move_unsegmented ax L H pl0 pls 2001 m target position hon
    (by norm_num) ⟨by rw [hrotA, sub_self, abs_zero]; norm_num,
      by rw [hrotC, sub_self, abs_zero]; norm_num⟩
  refine ⟨_, m', hrun, ?_⟩
  have hSA := transform_to_cartesian_above_Z ax L H.tlo_z m.rtcp m.segment_target position
    ax.A_AXIS ax.hA.1 ax.hA.2
  have hSC := transform_to_cartesian_above_Z ax L H.tlo_z m.rtcp m.segment_target position
    ax.C_AXIS ax.hC.1 ax.hC.2
  have hmid := inverse_midpoint ax L H.tlo_z (invalidate_cache m.rtcp) (fun _ => 0)
    (fun _ => 0) (fun _ => 0)
    (fun i => (transform_to_cartesian ax L H.tlo_z m.rtcp m.segment_target position i
      + target i) / 2)
    (transform_to_cartesian ax L H.tlo_z m.rtcp m.segment_target position) target
    (by rw [hSA, hrotA]) (by rw [hSC, hrotC]) (fun _ _ => rfl)
  have hback := reverse_round_trip ax L H.tlo_z (invalidate_cache m.rtcp) m.rtcp (fun _ => 0)
    m.segment_target position hpyth rfl (Or.inr (fresh_of_invalid L _ _ _ rfl))
  have hJ := inverse_fresh_indep ax L H.tlo_z (invalidate_cache m.rtcp) m.rtcp (fun _ => 0)
    m.mpos target rfl (by
      rcases hex with h | h
      · exact Or.inl h
      · exact Or.inr ⟨fresh_of_invalid L _ _ _ rfl, h⟩)
  have key : ∀ i, i < ax.N_AXIS →
      (transform_from_cartesian ax L H.tlo_z (invalidate_cache m.rtcp) (fun _ => 0)
        (fun i => (transform_to_cartesian ax L H.tlo_z m.rtcp m.segment_target position i
          + target i) / 2)).2 i
      - (position i + (transform_from_cartesian ax L H.tlo_z m.rtcp m.mpos target).2 i) / 2
        = 0 := by
    intro i hi
    rw [hmid i hi, hback i hi, hJ i hi]
    ring
  unfold chord_midpoint_err_sq
  simp only [X_AXIS, Y_AXIS, Z_AXIS]
  rw [key 0 (by omega), key 1 (by omega), key 2 (by omega)]
  norm_num

end ChordLemmas

section ChordScenario

/-- Default geometry, no tool offset: the joint position `(0, 0, 0, 90.001, 0)` has the TCP
point `(0, 0, 0, 90.001, 0)` (the tool tip is on both rotary axes). -/
theorem forward_at_origin (rr : rtcp_state_t ℝ) (hcfg : rr.cfg = ⟨0, 0, 0, 0, 0⟩) :
    ∀ i, i < 5 →
      transform_to_cartesian axes5 (⟨Real.sin, Real.cos, Real.sqrt, Real.pi⟩ : Libm ℝ) 0 rr
        (fun _ => 0) (vec5 0 0 0 90.001 0) i = vec5 0 0 0 90.001 0 i := by
  intro i hi
  have hout : ¬ (|vec5 (0:ℝ) 0 0 90.001 0 axes5.A_AXIS| < 0.001 ∧
      |vec5 (0:ℝ) 0 0 90.001 0 axes5.C_AXIS| < 0.001) := by
    refine not_and_of_not_left _ (not_lt.mpr ?_)
    simp only [vec5, axes5]
    rw [abs_of_pos (by norm_num)]
    norm_num
  rw [transform_to_cartesian_general axes5 _ 0 rr _ _ hout, hcfg]
  interval_cases i <;> simp [vec5, axes5, X_AXIS, Y_AXIS, Z_AXIS]

end ChordScenario

section RevisionLemmas
variable {α : Type} [LinearOrderedField α]

/-- With an invalid cache, a consistent sample taken at the very angles asked for, or a
sample out of tolerance (which is recomputed), the cache holds the sines and cosines of
the angles asked for after `update_trig_cache`. -/
theorem update_trig_cache_exact_of (L : Libm α) (rtcp : rtcp_state_t α) (a c : α)
    (h : rtcp.cache_valid = false ∨ (rtcp.last_a = a ∧ rtcp.last_c = c ∧ CacheInv L rtcp) ∨
      |a - rtcp.last_a| > rtcp.trig_cache_tol ∨ |c - rtcp.last_c| > rtcp.trig_cache_tol) :
    (update_trig_cache L rtcp a c).sin_a = L.sinf (DEG_TO_RAD L a) ∧
    (update_trig_cache L rtcp a c).cos_a = L.cosf (DEG_TO_RAD L a) ∧
    (update_trig_cache L rtcp a c).sin_c = L.sinf (DEG_TO_RAD L c) ∧
    (update_trig_cache L rtcp a c).cos_c = L.cosf (DEG_TO_RAD L c) := by
  rcases h with h | h | h
  · exact update_trig_cache_exact L rtcp a c (Or.inl h)
  · exact update_trig_cache_exact L rtcp a c (Or.inr h)
  · unfold update_trig_cache
    rw [if_pos (Or.inr h)]
    exact ⟨rfl, rfl, rfl, rfl⟩

theorem bisection_loop_succ (ax : Axes) (L : Libm α) (tlo_z : α) (sys : system_t)
    (orig : Option (check_travel_limits_ptr α)) (envelope : work_envelope_t α) (n : Nat) :
    ∀ s : bisect_state α,
      bisection_loop ax L tlo_z sys orig envelope (n + 1) s =
        bisection_step ax L tlo_z sys orig envelope
          (bisection_loop ax L tlo_z sys orig envelope n s) := by
  induction n with
  | zero =>
    intro s
    rfl
  | succ n ih =>
    intro s
    rw [bisection_loop, ih (bisection_step ax L tlo_z sys orig envelope s)]
    rfl

/-- Where `best` and `end` come from after `n` passes started with the locals `s0`: `best`
is what it was on entry or the midpoint of an earlier pass that passed the check in the
statics of that pass; `end` is what it was on entry or the midpoint of an earlier pass
that failed the check in the statics of that pass. -/
theorem bisection_trace (ax : Axes) (L : Libm α) (tlo_z : α) (sys : system_t)
    (orig : Option (check_travel_limits_ptr α)) (envelope : work_envelope_t α)
    (s0 : bisect_state α) (n : Nat) :
    ((∀ i, i < ax.N_AXIS →
        (bisection_loop ax L tlo_z sys orig envelope n s0).best i = s0.best i) ∨
      ∃ j, j < n ∧
        (∀ i, i < ax.N_AXIS → (bisection_loop ax L tlo_z sys orig envelope n s0).best i
          = bisection_mid ax (bisection_loop ax L tlo_z sys orig envelope j s0) i) ∧
        (rtcp_check_travel_limits ax L tlo_z sys orig
          (bisection_loop ax L tlo_z sys orig envelope j s0).m
          (bisection_mid ax (bisection_loop ax L tlo_z sys orig envelope j s0))
          sys.soft_limits true envelope).2 = true) ∧
    ((∀ i, i < ax.N_AXIS →
        (bisection_loop ax L tlo_z sys orig envelope n s0).end_ i = s0.end_ i) ∨
      ∃ j, j < n ∧
        (∀ i, i < ax.N_AXIS → (bisection_loop ax L tlo_z sys orig envelope n s0).end_ i
          = bisection_mid ax (bisection_loop ax L tlo_z sys orig envelope j s0) i) ∧
        (rtcp_check_travel_limits ax L tlo_z sys orig
          (bisection_loop ax L tlo_z sys orig envelope j s0).m
          (bisection_mid ax (bisection_loop ax L tlo_z sys orig envelope j s0))
          sys.soft_limits true envelope).2 = false) := by
  induction n with
  | zero =>
    exact ⟨Or.inl (fun _ _ => rfl), Or.inl (fun _ _ => rfl)⟩
  | succ n ih =>
    obtain ⟨hb, he⟩ := ih
    rw [bisection_loop_succ]
    obtain ⟨s, hs⟩ : ∃ s, s = bisection_loop ax L tlo_z sys orig envelope n s0 := ⟨_, rfl⟩
    rw [← hs] at hb he ⊢
    have hlift : ∀ (b : Bool) (e : Vec α),
        (∃ j, j < n ∧ (∀ i, i < ax.N_AXIS → e i
          = bisection_mid ax (bisection_loop ax L tlo_z sys orig envelope j s0) i) ∧
          (rtcp_check_travel_limits ax L tlo_z sys orig
            (bisection_loop ax L tlo_z sys orig envelope j s0).m
            (bisection_mid ax (bisection_loop ax L tlo_z sys orig envelope j s0))
            sys.soft_limits true envelope).2 = b) →
        (∃ j, j < n + 1 ∧ (∀ i, i < ax.N_AXIS → e i
          = bisection_mid ax (bisection_loop ax L tlo_z sys orig envelope j s0) i) ∧
          (rtcp_check_travel_limits ax L tlo_z sys orig
            (bisection_loop ax L tlo_z sys orig envelope j s0).m
            (bisection_mid ax (bisection_loop ax L tlo_z sys orig envelope j s0))
            sys.soft_limits true envelope).2 = b) := by
      rintro b e ⟨j, hj, h1, h2⟩
      exact ⟨j, by omega, h1, h2⟩
    by_cases hr : (rtcp_check_travel_limits ax L tlo_z sys orig s.m (bisection_mid ax s)
        sys.soft_limits true envelope).2 = true
    · have e : bisection_step ax L tlo_z sys orig envelope s =
          { m := (rtcp_check_travel_limits ax L tlo_z sys orig s.m (bisection_mid ax s)
              sys.soft_limits true envelope).1,
            start := memcpy ax.N_AXIS s.start (bisection_mid ax s), end_ := s.end_,
            mid := bisection_mid ax s, best := memcpy ax.N_AXIS s.best (bisection_mid ax s) } := by
        simp only [bisection_step, bisection_mid] at hr ⊢
        rw [if_pos hr]
      rw [e]
      refine ⟨Or.inr ⟨n, by omega, ?_, ?_⟩, ?_⟩
      · intro i hi
        rw [← hs]
        simp only [memcpy, if_pos hi]
      · rw [← hs]
        exact hr
      · rcases he with he | he
        · exact Or.inl he
        · exact Or.inr (hlift false _ he)
    · have hr' : (rtcp_check_travel_limits ax L tlo_z sys orig s.m (bisection_mid ax s)
          sys.soft_limits true envelope).2 = false := by
        cases hb2 : (rtcp_check_travel_limits ax L tlo_z sys orig s.m (bisection_mid ax s)
          sys.soft_limits true envelope).2
        · rfl
        · exact absurd hb2 hr
      have e : bisection_step ax L tlo_z sys orig envelope s =
          { m := (rtcp_check_travel_limits ax L tlo_z sys orig s.m (bisection_mid ax s)
              sys.soft_limits true envelope).1,
            start := s.start, end_ := memcpy ax.N_AXIS s.end_ (bisection_mid ax s),
            mid := bisection_mid ax s, best := s.best } := by
        simp only [bisection_step, bisection_mid] at hr ⊢
        rw [if_neg hr]
      rw [e]
      refine ⟨?_, Or.inr ⟨n, by omega, ?_, ?_⟩⟩
      · rcases hb with hb | hb
        · exact Or.inl hb
        · exact Or.inr (hlift true _ hb)
      · intro i hi
        rw [← hs]
        simp only [memcpy, if_pos hi]
      · rw [← hs]
        exact hr'

/-- The clip of an invalid destination, with the locals named: the result is `best` after
16 passes from `bisection_entry`, and the loop invariant holds there for every property
`Q` of the statics that the checks on the segment preserve. -/
theorem rtcp_apply_travel_limits_run (ax : Axes) (L : Libm α) (tlo_z : α) (sys : system_t)
    (orig : Option (check_travel_limits_ptr α)) (envelope : work_envelope_t α)
    (Q : Module α → Prop) (m : Module α) (target position : Vec α)
    (hhomed : sys.homed_mask ≠ 0)
    (htgt : (rtcp_check_travel_limits ax L tlo_z sys orig m target sys.soft_limits true
      envelope).2 = false)
    (hQ : ∀ m' P, Q m' → OnSeg ax position target P →
      Q (rtcp_check_travel_limits ax L tlo_z sys orig m' P sys.soft_limits true envelope).1)
    (hQ1 : Q (rtcp_check_travel_limits ax L tlo_z sys orig m target sys.soft_limits true
      envelope).1) :
    rtcp_apply_travel_limits ax L tlo_z sys orig m target (some position) envelope
      = ((bisection_loop ax L tlo_z sys orig envelope 16
          (bisection_entry ax L tlo_z sys orig m target position envelope)).m,
        memcpy ax.N_AXIS target (bisection_loop ax L tlo_z sys orig envelope 16
          (bisection_entry ax L tlo_z sys orig m target position envelope)).best) ∧
    BInv ax L tlo_z sys orig envelope Q position target 16
      (bisection_loop ax L tlo_z sys orig envelope 16
        (bisection_entry ax L tlo_z sys orig m target position envelope)) := by
  have h0 : BInv ax L tlo_z sys orig envelope Q position target 0
      (bisection_entry ax L tlo_z sys orig m target position envelope) := by
    refine ⟨hQ1, 0, by norm_num, ?_, ?_, ?_, Or.inl rfl, Or.inl (by norm_num)⟩
    · intro i hi
      simp [bisection_entry, memcpy, hi]
    · intro i hi
      simp [bisection_entry, memcpy, hi]
    · intro i hi
      simp [bisection_entry, memcpy, hi]
  have h16 := bisection_loop_inv ax L tlo_z sys orig envelope Q position target hQ 16 0 _ h0
  exact ⟨rtcp_apply_travel_limits_eq ax L tlo_z sys orig envelope m target position hhomed
    htgt, h16⟩

end RevisionLemmas

section CounterLemmas

theorem to_int32_of_range (z : Int) (h1 : -2 ^ 31 ≤ z) (h2 : z < 2 ^ 31) : to_int32 z = z := by
  unfold to_int32
  norm_num at h1 h2 ⊢
  omega

theorem to_int32_range (z : Int) : -2 ^ 31 ≤ to_int32 z ∧ to_int32 z < 2 ^ 31 := by
  unfold to_int32
  norm_num
  omega

end CounterLemmas

section EvenLemmas
variable {α : Type} [LinearOrderedField α] [FloorRing α]

theorem cast_ceil_times_two_even (x : α) : ∃ k, cast_ceil_times_two x = 2 * k := by
  unfold cast_ceil_times_two
  generalize Int.ceil x = z
  refine ⟨Int.toNat z, ?_⟩
  omega

/-- Whatever the library computes, the count chosen from the squared midpoint error is 1
or an even number from 2 to 2000. -/
theorem plan_iterations_even (L : Libm α) (rapid : Bool) (err_sq : α) :
    plan_iterations L rapid err_sq = 1 ∨
    (2 ≤ plan_iterations L rapid err_sq ∧ plan_iterations L rapid err_sq ≤ 2000 ∧
      2 ∣ plan_iterations L rapid err_sq) := by
  obtain ⟨k, hk⟩ := cast_ceil_times_two_even
    (L.sqrtf (L.sqrtf err_sq /
      (if rapid = true then (MAX_CHORD_ERROR_G0_MM : α) else MAX_CHORD_ERROR_MM)))
  unfold plan_iterations
  simp only [hk]
  split_ifs <;> omega

/-- The count left by the init call, RTCP on or off, is one more than 1 or than an even
number from 2 to 2000. -/
theorem segment_init_even (ax : Axes) (L : Libm α) (H : Host α) (m : Module α)
    (target position : Vec α) (pl0 : plan_line_data_t α) :
    ∃ n, (segment_init ax L H m target position pl0).1.iterations = n + 1 ∧
      (n = 1 ∨ (2 ≤ n ∧ n ≤ 2000 ∧ 2 ∣ n)) := by
  by_cases hon : m.rtcp_enabled = true
  · rw [segment_init_count ax L H m target position pl0 hon]
    split_ifs
    · exact ⟨_, rfl, plan_iterations_even L _ _⟩
    · exact ⟨1, rfl, Or.inl rfl⟩
  · have hoff : m.rtcp_enabled = false := by
      cases h : m.rtcp_enabled
      · rfl
      · exact absurd h hon
    exact ⟨1, (segment_init_iterations ax L H m target position pl0).2.2 hoff, Or.inl rfl⟩

end EvenLemmas

section RoundingLemmas

theorem round_half_even_intCast (z : Int) : round_half_even ((z : ℝ)) = z := by
  unfold round_half_even
  rw [Int.floor_intCast, sub_self, if_pos (by norm_num)]

/-- The value `10737419 / 2^30` (the `float` next above `0.01f`) is a `float`. -/
theorem round_binary32_x0 :
    round_binary32 ((10737419 : ℝ) / 2 ^ 30) = 10737419 / 2 ^ 30 := by
  have hpos : (0 : ℝ) < 10737419 / 2 ^ 30 := by positivity
  have hlog : Int.log 2 ((10737419 : ℝ) / 2 ^ 30) = -7 := by
    have h1 : (-7 : ℤ) ≤ Int.log 2 ((10737419 : ℝ) / 2 ^ 30) := by
      rw [← Int.zpow_le_iff_le_log (by norm_num) hpos]
      norm_num
    have h2 : Int.log 2 ((10737419 : ℝ) / 2 ^ 30) < -6 := by
      rw [← Int.lt_zpow_iff_log_lt (by norm_num) hpos]
      norm_num
    omega
  unfold round_binary32
  rw [if_neg (not_le.mpr hpos), hlog]
  have e : (10737419 : ℝ) / 2 ^ 30 / 2 ^ ((-7 : ℤ) - 23) = ((10737419 : Int) : ℝ) := by
    norm_num
  rw [e, round_half_even_intCast]
  norm_num

/-- A real from 1 to below `1 + 2^-24` rounds to the `float` 1. -/
theorem round_binary32_near_one (y : ℝ) (h1 : 1 ≤ y) (h2 : y < 1 + 1 / 2 ^ 24) :
    round_binary32 y = 1 := by
  have hpos : (0 : ℝ) < y := by linarith
  have hlog : Int.log 2 y = 0 := by
    have a1 : (0 : ℤ) ≤ Int.log 2 y := by
      rw [← Int.zpow_le_iff_le_log (by norm_num) hpos]
      norm_num
      exact h1
    have a2 : Int.log 2 y < 1 := by
      rw [← Int.lt_zpow_iff_log_lt (by norm_num) hpos]
      norm_num at h2 ⊢
      linarith
    omega
  unfold round_binary32
  rw [if_neg (not_le.mpr hpos), hlog]
  have e : y / 2 ^ ((0 : ℤ) - 23) = y * 8388608 := by
    norm_num
    ring
  have hfl : Int.floor (y * 8388608) = 8388608 := by
    rw [Int.floor_eq_iff]
    norm_num at h2 ⊢
    constructor <;> linarith
  have hr : round_half_even (y * 8388608) = 8388608 := by
    unfold round_half_even
    rw [hfl, if_pos]
    norm_num at h2 ⊢
    linarith
  rw [e, hr]
  norm_num

theorem round_binary32_zero : round_binary32 (0 : ℝ) = 0 := by
  unfold round_binary32
  rw [if_pos (le_refl _)]

end RoundingLemmas

section TwoSegments

theorem sin_deg_180 : Real.sin (180 * (Real.pi / 180)) = 0 := by
  rw [show (180:ℝ) * (Real.pi / 180) = Real.pi by ring]
  exact Real.sin_pi

theorem cos_deg_180 : Real.cos (180 * (Real.pi / 180)) = -1 := by
  rw [show (180:ℝ) * (Real.pi / 180) = Real.pi by ring]
  exact Real.cos_pi

/-- The inverse transform does not call the square root. -/
theorem transform_from_cartesian_sqrtf (ax : Axes) (f : ℝ → ℝ) (tlo_z : ℝ)
    (rr : rtcp_state_t ℝ) (t P : Vec ℝ) :
    transform_from_cartesian ax (⟨Real.sin, Real.cos, f, Real.pi⟩ : Libm ℝ) tlo_z rr t P =
      transform_from_cartesian ax (⟨Real.sin, Real.cos, Real.sqrt, Real.pi⟩ : Libm ℝ) tlo_z
        rr t P := by
  unfold transform_from_cartesian update_trig_cache DEG_TO_RAD
  rfl

/-- Start-up with the default geometry and M451 give the same statics when the square
root of the library is the real one rounded to `float`. -/
theorem module_on_rounded :
    module_on (⟨Real.sin, Real.cos, fun x => round_binary32 (Real.sqrt x), Real.pi⟩ : Libm ℝ) =
      module_on (⟨Real.sin, Real.cos, Real.sqrt, Real.pi⟩ : Libm ℝ) := by
  simp [module_on, rtcp_mcode_execute, rtcp_kinematics_settings_changed, module_boot,
    invalidate_cache, RAD_TO_DEG, MAX_ARM_LENGTH_MM, MAX_CHORD_ERROR_MM, round_binary32_zero]

/-- With the square root rounded to `float`, a squared midpoint error of `x0 * x0` for
`x0 = 10737419 / 2^30` gives the count 2. -/
theorem plan_iterations_rounded :
    plan_iterations (⟨Real.sin, Real.cos, fun x => round_binary32 (Real.sqrt x), Real.pi⟩ : Libm ℝ)
      false ((10737419 / 2 ^ 30) * (10737419 / 2 ^ 30)) = 2 := by
  have h1 : Real.sqrt ((10737419 / 2 ^ 30) * (10737419 / 2 ^ 30)) = 10737419 / 2 ^ 30 :=
    Real.sqrt_mul_self (by positivity)
  have h2 : round_binary32 (Real.sqrt ((10737419 : ℝ) / 2 ^ 30 / 0.01)) = 1 := by
    apply round_binary32_near_one
    · rw [Real.le_sqrt' (by norm_num)]
      norm_num
    · rw [Real.sqrt_lt' (by norm_num)]
      norm_num
  have h3 : Int.toNat (Int.ceil (1:ℝ) * 2) = 2 := by
    rw [show (1:ℝ) = ((1:ℤ):ℝ) by norm_num, Int.ceil_intCast]
    rfl
  have h4 : ((10737419 : ℝ) / 2 ^ 30) * (10737419 / 2 ^ 30) > 0.01 * 0.01 := by norm_num
  simp only [plan_iterations, MAX_CHORD_ERROR_MM, Bool.false_eq_true, if_false, if_pos h4, h1,
    round_binary32_x0, h2, cast_ceil_times_two, h3]
  norm_num

/-- Default geometry, no tool offset, RTCP on, square roots rounded to `float`: the init
call of the non-rapid move from the joint position `(x0, 0, 0, 0, 0)` to the TCP target
`(x0, 0, 0, 0, 180)`, `x0 = 10737419 / 2^30`, leaves `iterations = 3`. -/
theorem two_segments_init :
    (segment_init axes5
      (⟨Real.sin, Real.cos, fun x => round_binary32 (Real.sqrt x), Real.pi⟩ : Libm ℝ)
      ⟨0, fun _ _ => true⟩
      (module_on ⟨Real.sin, Real.cos, fun x => round_binary32 (Real.sqrt x), Real.pi⟩)
      (vec5 (10737419 / 2 ^ 30) 0 0 0 180) (vec5 (10737419 / 2 ^ 30) 0 0 0 0)
      ⟨1000, 1, ⟨false, false, false⟩⟩).1.iterations = 3 := by
  have hfast : |vec5 ((10737419 : ℝ) / 2 ^ 30) 0 0 0 0 axes5.A_AXIS| < 0.001 ∧
      |vec5 ((10737419 : ℝ) / 2 ^ 30) 0 0 0 0 axes5.C_AXIS| < 0.001 := by
    constructor <;> norm_num [vec5, axes5]
  have htol := default_tol_lt_one
  rw [segment_init_count axes5 _ _ _ _ _ _ (by rw [module_on_rounded]; rfl)]
  simp only [transform_from_cartesian_sqrtf, module_on_rounded,
    transform_to_cartesian_fast _ _ _ _ _ _ hfast]
  -- the inverse transform of the target
  obtain ⟨r1, hr1⟩ : ∃ r1, r1 = transform_from_cartesian axes5
      (⟨Real.sin, Real.cos, Real.sqrt, Real.pi⟩ : Libm ℝ) 0
      (module_on ⟨Real.sin, Real.cos, Real.sqrt, Real.pi⟩).rtcp
      (module_on ⟨Real.sin, Real.cos, Real.sqrt, Real.pi⟩).mpos
      (vec5 (10737419 / 2 ^ 30) 0 0 0 180) := ⟨_, rfl⟩
  have ha := inverse_pure_C
    (module_on ⟨Real.sin, Real.cos, Real.sqrt, Real.pi⟩).rtcp
    (module_on ⟨Real.sin, Real.cos, Real.sqrt, Real.pi⟩).mpos
    (vec5 (10737419 / 2 ^ 30) 0 0 0 180) (10737419 / 2 ^ 30) 180
    (by rw [module_on_rtcp]) rfl rfl rfl rfl rfl (by norm_num)
    (Or.inl (by rw [module_on_rtcp]))
  rw [← hr1, sin_deg_180, cos_deg_180, module_on_rtcp] at ha
  obtain ⟨a1, a2, a3, a4, a5, a6, a7⟩ := ha
  simp only at a4
  -- the TCP midpoint and its inverse transform
  obtain ⟨tcp_mid, hmid⟩ : ∃ tcp_mid : Vec ℝ, tcp_mid = (fun i =>
      (memcpy axes5.N_AXIS (module_on (⟨Real.sin, Real.cos, Real.sqrt, Real.pi⟩ : Libm ℝ)).segment_target
        (vec5 (10737419 / 2 ^ 30) 0 0 0 0) i + vec5 (10737419 / 2 ^ 30) 0 0 0 180 i) * 0.5) :=
    ⟨_, rfl⟩
  obtain ⟨r2, hr2⟩ : ∃ r2, r2 = transform_from_cartesian axes5
      (⟨Real.sin, Real.cos, Real.sqrt, Real.pi⟩ : Libm ℝ) 0 r1.1 (fun _ => 0) tcp_mid := ⟨_, rfl⟩
  have hb := inverse_pure_C r1.1 (fun _ => 0) tcp_mid (10737419 / 2 ^ 30) 90 a1
    (by rw [hmid]; norm_num [vec5, memcpy, axes5])
    (by rw [hmid]; norm_num [vec5, memcpy, axes5])
    (by rw [hmid]; norm_num [vec5, memcpy, axes5])
    (by rw [hmid]; norm_num [vec5, memcpy, axes5])
    (by rw [hmid]; norm_num [vec5, memcpy, axes5])
    (by norm_num)
    (Or.inr (by
      rw [a2, a4]
      have : |(90:ℝ) - 180| = 90 := by norm_num [abs_of_neg]
      rw [this]
      linarith))
  rw [← hr2, sin_deg_90, cos_deg_90] at hb
  obtain ⟨b1, b2, b3, b4, b5, b6, b7⟩ := hb
  rw [← hr1, ← hmid, ← hr2]
  have hrot : max |vec5 ((10737419 : ℝ) / 2 ^ 30) 0 0 0 180 axes5.A_AXIS
        - memcpy axes5.N_AXIS (module_on (⟨Real.sin, Real.cos, Real.sqrt, Real.pi⟩ : Libm ℝ)).segment_target
            (vec5 (10737419 / 2 ^ 30) 0 0 0 0) axes5.A_AXIS|
      |vec5 ((10737419 : ℝ) / 2 ^ 30) 0 0 0 180 axes5.C_AXIS
        - memcpy axes5.N_AXIS (module_on (⟨Real.sin, Real.cos, Real.sqrt, Real.pi⟩ : Libm ℝ)).segment_target
            (vec5 (10737419 / 2 ^ 30) 0 0 0 0) axes5.C_AXIS| > 0.001 := by
    refine lt_of_lt_of_le ?_ (le_max_right _ _)
    norm_num [vec5, memcpy, axes5]
  rw [if_pos hrot]
  have herr : err_sq_loop (vec5 ((10737419 : ℝ) / 2 ^ 30) 0 0 0 0) r1.2 r2.2 0 0
      = (10737419 / 2 ^ 30) * (10737419 / 2 ^ 30) := by
    rw [err_sq_loop_eq, a5, a6, a7, b5, b6, b7]
    norm_num [vec5]
  rw [herr, plan_iterations_rounded]

end TwoSegments

section CountValues

/-- The count chosen from the squared midpoint error calls the library for square roots
only. -/
theorem plan_iterations_sqrtf (L : Libm ℝ) (h : L.sqrtf = Real.sqrt) (rapid : Bool)
    (err_sq : ℝ) :
    plan_iterations L rapid err_sq =
      plan_iterations (⟨Real.sin, Real.cos, Real.sqrt, Real.pi⟩ : Libm ℝ) rapid err_sq := by
  unfold plan_iterations
  rw [h]

/-- The count left by the init call is one more than 1 or than an even number from 2 to
2000, and not one more than 2 when the square root of the library is the real one. -/
theorem segment_init_values (ax : Axes) (L : Libm ℝ) (H : Host ℝ) (m : Module ℝ)
    (target position : Vec ℝ) (pl0 : plan_line_data_t ℝ) :
    ∃ n, (segment_init ax L H m target position pl0).1.iterations = n + 1 ∧
      (n = 1 ∨ (2 ≤ n ∧ n ≤ 2000 ∧ 2 ∣ n)) ∧
      (L.sqrtf = Real.sqrt → n ≠ 2) := by
  by_cases hon : m.rtcp_enabled = true
  · rw [segment_init_count ax L H m target position pl0 hon]
    split_ifs
    · refine ⟨_, rfl, plan_iterations_even L _ _, fun h => ?_⟩
      rw [plan_iterations_sqrtf L h]
      rcases plan_iterations_values pl0.condition.rapid_motion
        (err_sq_loop position (transform_from_cartesian ax L H.tlo_z m.rtcp m.mpos target).2
          (transform_from_cartesian ax L H.tlo_z
            (transform_from_cartesian ax L H.tlo_z m.rtcp m.mpos target).1 (fun _ => 0)
            (fun i => (transform_to_cartesian ax L H.tlo_z m.rtcp m.segment_target position i
              + target i) * 0.5)).2 0 0) with h1 | h1
      · omega
      · omega
    · exact ⟨1, rfl, Or.inl rfl, fun _ => by decide⟩
  · have hoff : m.rtcp_enabled = false := by
      cases h : m.rtcp_enabled
      · rfl
      · exact absurd h hon
    exact ⟨1, (segment_init_iterations ax L H m target position pl0).2.2 hoff, Or.inl rfl,
      fun _ => by decide⟩

end CountValues

section Claims

variable {α : Type} [LinearOrderedField α]

/-- C2 (inverse formula).  Outside the fast path (`|A| ≥ 1e-3` or `|C| ≥ 1e-3` degrees) and
with an invalid trig cache on entry, `transform_from_cartesian` writes
`Q.x = xc + pivot_x`, `Q.y = yc cos a − pz sin a − cos a dy + sin a dz + dy + pivot_y`,
`Q.z = yc sin a + pz cos a − sin a dy − cos a dz + dz + pivot_z`, with
`px = P.x − pivot_x`, `py = P.y − pivot_y`, `pz = (P.z − tlo_z) − pivot_z`,
`xc = px cos c − py sin c`, `yc = px sin c + py cos c`, `a`, `c` the angles `A`, `C`
converted to radians, `dy = axis_offset_y` and `dz = axis_offset_z + tlo_z`. -/
theorem C2_inverse_formula (ax : Axes) (L : Libm α) (tlo_z : α) (rtcp : rtcp_state_t α)
    (target P : Vec α) (hfresh : rtcp.cache_valid = false)
    (hout : 0.001 ≤ |P ax.A_AXIS| ∨ 0.001 ≤ |P ax.C_AXIS|) :
    let a := DEG_TO_RAD L (P ax.A_AXIS)
    let c := DEG_TO_RAD L (P ax.C_AXIS)
    let dy := rtcp.cfg.axis_offset_y
    let dz := rtcp.cfg.axis_offset_z + tlo_z
    let px := P X_AXIS - rtcp.cfg.pivot_x
    let py := P Y_AXIS - rtcp.cfg.pivot_y
    let pz := (P Z_AXIS - tlo_z) - rtcp.cfg.pivot_z
    let xc := px * L.cosf c - py * L.sinf c
    let yc := px * L.sinf c + py * L.cosf c
    let Q := (transform_from_cartesian ax L tlo_z rtcp target P).2
    Q X_AXIS = xc + rtcp.cfg.pivot_x ∧
    Q Y_AXIS = yc * L.cosf a - pz * L.sinf a - L.cosf a * dy + L.sinf a * dz + dy
      + rtcp.cfg.pivot_y ∧
    Q Z_AXIS = yc * L.sinf a + pz * L.cosf a - L.sinf a * dy - L.cosf a * dz + dz
      + rtcp.cfg.pivot_z := by
  have h : ¬ (|P ax.A_AXIS| < 0.001 ∧ |P ax.C_AXIS| < 0.001) := by
    rintro ⟨h1, h2⟩
    rcases hout with h3 | h3
    · exact absurd h1 (not_lt.mpr h3)
    · exact absurd h2 (not_lt.mpr h3)
  rw [transform_from_cartesian_general ax L tlo_z rtcp target P h,
    update_trig_cache_fresh L rtcp _ _ hfresh]
  simp [X_AXIS, Y_AXIS, Z_AXIS]

/-- C3 (identity under zero rotation).  When `|A| < 1e-3` and `|C| < 1e-3` degrees, both
`transform_from_cartesian` and `transform_to_cartesian` return the input unchanged on every
axis, for every pivot, axis offset, tool-length offset and cache state, and the inverse
leaves the module state untouched. -/
theorem C3_identity_zero_rotation (ax : Axes) (L : Libm α) (tlo_z : α) (rtcp : rtcp_state_t α)
    (target P : Vec α) (hA : |P ax.A_AXIS| < 0.001) (hC : |P ax.C_AXIS| < 0.001) :
    (∀ i, i < ax.N_AXIS → (transform_from_cartesian ax L tlo_z rtcp target P).2 i = P i) ∧
    (∀ i, i < ax.N_AXIS → transform_to_cartesian ax L tlo_z rtcp target P i = P i) ∧
    (transform_from_cartesian ax L tlo_z rtcp target P).1 = rtcp := by
  unfold transform_from_cartesian transform_to_cartesian
  simp only [if_pos (And.intro hA hC)]
  refine ⟨?_, ?_, trivial⟩ <;>
  · intro i hi
    simp [memcpy, hi]

/-- C1 (round trip, as amended).  For every point `P` (any angles), pivot, axis offsets and
tool-length offset, with a library whose sine and cosine satisfy `sin² + cos² = 1`: when
the inverse is evaluated with the sines and cosines of `P`'s own angles, that is when `P`
is on the fast path, or the trig cache on entry is invalid, or it is consistent and its
sample was taken at exactly `P`'s angles, or its sample is farther than `trig_cache_tol`
from `P` on `A` or on `C` (the cache is then recomputed), the forward transform of the
inverse transform of `P` is `P` on every axis, in exact arithmetic: the two formulas are
algebraic inverses of each other and the tool offset cancels.  (No bound is stated for the
rounding of the `float` computation.) -/
theorem C1_round_trip_exact_cache (ax : Axes) (L : Libm α) (tlo_z : α) (rtcp : rtcp_state_t α)
    (t1 t2 P : Vec α) (hpyth : ∀ x, L.sinf x ^ 2 + L.cosf x ^ 2 = 1)
    (hcache : (|P ax.A_AXIS| < 0.001 ∧ |P ax.C_AXIS| < 0.001) ∨
      rtcp.cache_valid = false ∨
      (rtcp.last_a = P ax.A_AXIS ∧ rtcp.last_c = P ax.C_AXIS ∧ CacheInv L rtcp) ∨
      |P ax.A_AXIS - rtcp.last_a| > rtcp.trig_cache_tol ∨
      |P ax.C_AXIS - rtcp.last_c| > rtcp.trig_cache_tol) :
    ∀ i, i < ax.N_AXIS →
      transform_to_cartesian ax L tlo_z (transform_from_cartesian ax L tlo_z rtcp t1 P).1 t2
          (transform_from_cartesian ax L tlo_z rtcp t1 P).2 i = P i := by
  intro i hi
  refine round_trip_of_exact ax L tlo_z rtcp
    (transform_from_cartesian ax L tlo_z rtcp t1 P).1 t1 t2 P hpyth
    (transform_from_cartesian_cfg ax L tlo_z rtcp t1 P) ?_ i hi
  rcases hcache with h | h
  · exact Or.inl h
  · exact Or.inr (update_trig_cache_exact_of L rtcp (P ax.A_AXIS) (P ax.C_AXIS) h)

/-- C1, counterexample.  Default geometry, no tool offset, cache holding the sample
`(A, C) = (90, 0)` left by an earlier inverse transform.  For `P = (0, 100, 0, 90.001, 0)` the
inverse reuses that sample (the drift, 0.001 degrees, is within `trig_cache_tol`), the
forward computes `cos(90.001°)` itself, and the round trip moves Z by `100·sin(0.001°)`,
more than 1e-4 mm. -/
theorem C1_counterexample :
    ¬ (|c1_round_trip (⟨Real.sin, Real.cos, Real.sqrt, Real.pi⟩ : Libm ℝ) Z_AXIS
        - vec5 0 100 0 90.001 0 Z_AXIS| ≤ 0.0001) := by
  have e : (90.001 : ℝ) = 90 + 0.001 := by norm_num
  unfold c1_round_trip
  simp only [e]
  rw [stale_inverse_near_90 0.001 (by norm_num) (by norm_num)]
  rw [forward_Z_of_joint _ _ rfl (by norm_num)]
  exact forward_Z_off 0.001 (by norm_num) (by norm_num)

/-- C1, witness: the scenario geometry (pivot (100,100,100), TLO 50) with a fresh cache and
`P = (100, 100, 100, 90, 0)`; the round trip returns `P.z`. -/
theorem C1_round_trip_witness :
    (scenario_module (⟨Real.sin, Real.cos, Real.sqrt, Real.pi⟩ : Libm ℝ)).rtcp.cache_valid = false ∧
    transform_to_cartesian axes5 ⟨Real.sin, Real.cos, Real.sqrt, Real.pi⟩ 50
      (transform_from_cartesian axes5 ⟨Real.sin, Real.cos, Real.sqrt, Real.pi⟩ 50
        (scenario_module ⟨Real.sin, Real.cos, Real.sqrt, Real.pi⟩).rtcp (fun _ => 0)
        (vec5 100 100 100 90 0)).1 (fun _ => 0)
      (transform_from_cartesian axes5 ⟨Real.sin, Real.cos, Real.sqrt, Real.pi⟩ 50
        (scenario_module ⟨Real.sin, Real.cos, Real.sqrt, Real.pi⟩).rtcp (fun _ => 0)
        (vec5 100 100 100 90 0)).2 Z_AXIS = vec5 100 100 100 90 0 Z_AXIS :=
  ⟨rfl, (C1_round_trip_exact_cache axes5 ⟨Real.sin, Real.cos, Real.sqrt, Real.pi⟩ 50
    (scenario_module ⟨Real.sin, Real.cos, Real.sqrt, Real.pi⟩).rtcp (fun _ => 0) (fun _ => 0)
    (vec5 100 100 100 90 0) (fun x => Real.sin_sq_add_cos_sq x) (Or.inr (Or.inl rfl))
    Z_AXIS (by decide))⟩

/-- C2, witness: scenario geometry, TLO 50, fresh cache, `P = (110, 100, 100, 90, 0)`;
the formula gives `Q = (110, 200, 150)`. -/
theorem C2_inverse_formula_witness :
    (scenario_module (⟨Real.sin, Real.cos, Real.sqrt, Real.pi⟩ : Libm ℝ)).rtcp.cache_valid = false ∧
    ((0.001 : ℝ) ≤ |vec5 110 100 100 90 0 axes5.A_AXIS| ∨
      (0.001 : ℝ) ≤ |vec5 110 100 100 90 0 axes5.C_AXIS|) ∧
    (transform_from_cartesian axes5 ⟨Real.sin, Real.cos, Real.sqrt, Real.pi⟩ 50
      (scenario_module ⟨Real.sin, Real.cos, Real.sqrt, Real.pi⟩).rtcp (fun _ => 0)
      (vec5 110 100 100 90 0)).2 X_AXIS = 110 ∧
    (transform_from_cartesian axes5 ⟨Real.sin, Real.cos, Real.sqrt, Real.pi⟩ 50
      (scenario_module ⟨Real.sin, Real.cos, Real.sqrt, Real.pi⟩).rtcp (fun _ => 0)
      (vec5 110 100 100 90 0)).2 Y_AXIS = 200 ∧
    (transform_from_cartesian axes5 ⟨Real.sin, Real.cos, Real.sqrt, Real.pi⟩ 50
      (scenario_module ⟨Real.sin, Real.cos, Real.sqrt, Real.pi⟩).rtcp (fun _ => 0)
      (vec5 110 100 100 90 0)).2 Z_AXIS = 150 := by
  have hout : (0.001 : ℝ) ≤ |vec5 110 100 100 90 0 axes5.A_AXIS| ∨
      (0.001 : ℝ) ≤ |vec5 110 100 100 90 0 axes5.C_AXIS| := by
    left
    simp only [vec5, axes5]
    rw [abs_of_pos (by norm_num)]
    norm_num
  have h := C2_inverse_formula axes5 (⟨Real.sin, Real.cos, Real.sqrt, Real.pi⟩ : Libm ℝ) 50
    (scenario_module ⟨Real.sin, Real.cos, Real.sqrt, Real.pi⟩).rtcp (fun _ => 0)
    (vec5 110 100 100 90 0) rfl hout
  simp only [scenario_module_cfg, scenario_cfg, vec5, axes5, DEG_TO_RAD, X_AXIS, Y_AXIS, Z_AXIS,
    sin_deg_90, cos_deg_90, zero_mul, Real.sin_zero, Real.cos_zero] at h
  refine ⟨rfl, hout, h.1.trans ?_, h.2.1.trans ?_, h.2.2.trans ?_⟩ <;> norm_num

/-- C3, witness: the spec's scenario `inverse((100,100,100,0,0)) = (100,100,100,0,0)` with
pivot (100,100,100) and TLO 50. -/
theorem C3_identity_zero_rotation_witness :
    (|vec5 (100 : ℝ) 100 100 0 0 axes5.A_AXIS| < 0.001 ∧
      |vec5 (100 : ℝ) 100 100 0 0 axes5.C_AXIS| < 0.001) ∧
    (∀ i, i < axes5.N_AXIS →
      (transform_from_cartesian axes5 ⟨Real.sin, Real.cos, Real.sqrt, Real.pi⟩ 50
        (scenario_module ⟨Real.sin, Real.cos, Real.sqrt, Real.pi⟩).rtcp (fun _ => 0)
        (vec5 (100 : ℝ) 100 100 0 0)).2 i = vec5 100 100 100 0 0 i) :=
  ⟨⟨by norm_num [vec5, axes5], by norm_num [vec5, axes5]⟩,
    (C3_identity_zero_rotation axes5 ⟨Real.sin, Real.cos, Real.sqrt, Real.pi⟩ 50
      (scenario_module ⟨Real.sin, Real.cos, Real.sqrt, Real.pi⟩).rtcp (fun _ => 0)
      (vec5 (100 : ℝ) 100 100 0 0) (by norm_num [vec5, axes5]) (by norm_num [vec5, axes5])).1⟩

/-- C4 (failing input).  With RTCP off (the statics after start-up with the scenario
geometry; M451 was never executed) and TLO 50, `transform_from_cartesian` maps
`P = (100, 100, 100, 90, 0)` to a point with `Y = 200`, not to `P` (`P.y = 100`): the
function never reads `rtcp_enabled`. -/
theorem C4_rtcp_off_inverse_rotates :
    (scenario_module (⟨Real.sin, Real.cos, Real.sqrt, Real.pi⟩ : Libm ℝ)).rtcp_enabled = false ∧
    (transform_from_cartesian axes5 ⟨Real.sin, Real.cos, Real.sqrt, Real.pi⟩ 50
      (scenario_module ⟨Real.sin, Real.cos, Real.sqrt, Real.pi⟩).rtcp (fun _ => 0)
      (vec5 100 100 100 90 0)).2 Y_AXIS = 200 ∧
    vec5 (100 : ℝ) 100 100 90 0 Y_AXIS = 100 := by
  refine ⟨rfl, ?_, rfl⟩
  have hnf : ¬ (|vec5 (100 : ℝ) 100 100 90 0 axes5.A_AXIS| < 0.001 ∧
      |vec5 (100 : ℝ) 100 100 90 0 axes5.C_AXIS| < 0.001) := by
    refine not_and_of_not_left _ (not_lt.mpr ?_)
    simp only [vec5, axes5]
    rw [abs_of_pos (by norm_num)]
    norm_num
  rw [transform_from_cartesian_general _ _ _ _ _ _ hnf,
    update_trig_cache_fresh _ _ _ _ (scenario_module_cache_valid _)]
  simp only [scenario_module_cfg, scenario_cfg, vec5, axes5, DEG_TO_RAD, X_AXIS, Y_AXIS, Z_AXIS,
    sin_deg_90, cos_deg_90, zero_mul, Real.sin_zero, Real.cos_zero]
  norm_num

/-- C5 (failing input).  Statics at start-up (RTCP off), target `P = (10, 20, 30, 0, 0)`.
The init call returns `P`, but the next produce call copies the stale `final_target`
(all zero: the bypass branch of init never saves the target) and returns
`transform_from_cartesian` of it, so the point emitted has `X = 0`, not `P.x = 10`. -/
theorem C5_rtcp_off_produce_emits_stale_target :
    (module_boot : Module ℝ).rtcp_enabled = false ∧
    (rtcp_segment_line axes5 ⟨Real.sin, Real.cos, Real.sqrt, Real.pi⟩ ⟨0, fun _ _ => true⟩
      module_boot (vec5 10 20 30 0 0) (fun _ => 0) ⟨1000, 1, ⟨false, false, false⟩⟩ true).2.2.map
        (fun v => v X_AXIS) = some 10 ∧
    (rtcp_segment_line axes5 ⟨Real.sin, Real.cos, Real.sqrt, Real.pi⟩ ⟨0, fun _ _ => true⟩
      (rtcp_segment_line axes5 ⟨Real.sin, Real.cos, Real.sqrt, Real.pi⟩ ⟨0, fun _ _ => true⟩
        module_boot (vec5 10 20 30 0 0) (fun _ => 0) ⟨1000, 1, ⟨false, false, false⟩⟩ true).1
      (fun _ => 0) (fun _ => 0) ⟨1000, 1, ⟨false, false, false⟩⟩ false).2.2.map
        (fun v => v X_AXIS) = some 0 := by
  refine ⟨rfl, ?_, ?_⟩
  · simp [rtcp_segment_line, segment_init, module_boot, memcpy, axes5, vec5, X_AXIS]
  · have hf : (0 : ℝ) < 0.001 := by norm_num
    simp [rtcp_segment_line, segment_init, segment_produce, module_boot, memcpy, axes5, vec5,
      X_AXIS, dec_u16, UINT_FAST16_RANGE, transform_from_cartesian, hf]

variable [FloorRing α]

/-- C6 (identity mode, segment count).  With RTCP off and no jog cancel between the calls,
after an init call the first produce call returns a point and the second returns `NULL`,
whatever the target, the earlier statics and the planner data of each call; so the move
emits exactly one segment. -/
theorem C6_rtcp_off_one_segment (ax : Axes) (L : Libm α) (H : Host α) (m : Module α)
    (target position t1 p1 t2 p2 : Vec α) (pl0 pl1 pl2 : plan_line_data_t α)
    (pls : Nat → plan_line_data_t α) (hoff : m.rtcp_enabled = false) :
    (rtcp_segment_line ax L H
      (rtcp_segment_line ax L H m target position pl0 true).1 t1 p1 pl1 false).2.2.isSome = true ∧
    (rtcp_segment_line ax L H
      (rtcp_segment_line ax L H
        (rtcp_segment_line ax L H m target position pl0 true).1 t1 p1 pl1 false).1
      t2 p2 pl2 false).2.2 = none ∧
    ∃ pts m', segment_move ax L H pl0 pls (fun _ => false) 2 m target position = some (pts, m') ∧
      pts.length = 1 := by
  have hi := (segment_init_iterations ax L H m target position pl0).2.2 hoff
  have hj := segment_init_jog_cancel ax L H m target position pl0
  have h1 : (rtcp_segment_line ax L H m target position pl0 true).1
      = (segment_init ax L H m target position pl0).1 := by
    simp only [rtcp_segment_line, if_true]
  have hd2 : dec_u16 2 = 1 := by
    unfold dec_u16 UINT_FAST16_RANGE
    norm_num
  have hd1 : dec_u16 1 = 0 := by
    unfold dec_u16 UINT_FAST16_RANGE
    norm_num
  refine ⟨?_, ?_, ?_⟩
  · rw [h1]
    simp only [rtcp_segment_line, Bool.false_eq_true, if_false]
    rw [segment_produce_result, hi, hj, hd2]
    simp
  · rw [h1]
    simp only [rtcp_segment_line, Bool.false_eq_true, if_false]
    rw [segment_produce_result, segment_produce_iterations, hi, hd2, hd1]
    simp
  · obtain ⟨pts, m', hrun, _, hex⟩ := produce_until_null_count ax L H pls (fun _ => false) 1 2 0
      (rtcp_segment_line ax L H m target position pl0 true).1 (by rw [h1, hi])
      (by unfold UINT_FAST16_RANGE; norm_num) (le_refl _)
    exact ⟨pts, m', hrun, hex (fun _ => rfl) (by rw [h1, hj])⟩

/-- C7 (segment count bound).  For every move (any target, joint position, planner data,
earlier statics, RTCP on or off) and every schedule of jog-cancel events, the produce calls
after the init call reach `NULL` within 2001 calls and return at most 2000 points before
it; when no jog cancel occurs they return at least one point. -/
theorem C7_segment_count_bound (ax : Axes) (L : Libm α) (H : Host α) (m : Module α)
    (target position : Vec α) (pl0 : plan_line_data_t α) (pls : Nat → plan_line_data_t α)
    (cancel : Nat → Bool) :
    ∃ pts m', segment_move ax L H pl0 pls cancel 2001 m target position = some (pts, m') ∧
      pts.length ≤ 2000 ∧ ((∀ k, cancel k = false) → 1 ≤ pts.length) := by
  have hb := segment_init_iterations ax L H m target position pl0
  have hj := segment_init_jog_cancel ax L H m target position pl0
  have h1 : (rtcp_segment_line ax L H m target position pl0 true).1
      = (segment_init ax L H m target position pl0).1 := by
    simp only [rtcp_segment_line, if_true]
  obtain ⟨n, hn⟩ : ∃ n, (segment_init ax L H m target position pl0).1.iterations = n + 1 :=
    ⟨(segment_init ax L H m target position pl0).1.iterations - 1, by omega⟩
  obtain ⟨pts, m', hrun, hle, hex⟩ := produce_until_null_count ax L H pls cancel n 2001 0
    (rtcp_segment_line ax L H m target position pl0 true).1 (by rw [h1, hn])
    (by unfold UINT_FAST16_RANGE; omega) (by omega)
  refine ⟨pts, m', hrun, by omega, fun hno => ?_⟩
  rw [hex hno (by rw [h1, hj])]
  omega

/-- C10 (feed-rate compensation bounds).  On a produce call for a non-rapid move with
`distance > 1e-4` (the TCP distance per segment), the feed rate of the planner block is
multiplied by a factor `k` with `0.5 ≤ k ≤ 2`, and the `rate_multiplier` written to the
block is `1 / k`, which also lies in `[0.5, 2]`. -/
theorem C10_feed_rate_bounds (ax : Axes) (L : Libm α) (H : Host α) (m : Module α)
    (target position : Vec α) (pl : plan_line_data_t α)
    (hrapid : pl.condition.rapid_motion = false) (hdist : m.distance > 0.0001) :
    ∃ k : α, 0.5 ≤ k ∧ k ≤ 2 ∧
      (rtcp_segment_line ax L H m target position pl false).2.1.feed_rate = pl.feed_rate * k ∧
      (rtcp_segment_line ax L H m target position pl false).2.1.rate_multiplier = 1 / k ∧
      0.5 ≤ 1 / k ∧ 1 / k ≤ 2 := by
  have key : ∀ k : α, 0.5 ≤ k → k ≤ 2 → 0.5 ≤ 1 / k ∧ 1 / k ≤ 2 := by
    intro k h1 h2
    have hk : 0 < k := lt_of_lt_of_le (by norm_num) h1
    constructor
    · rw [le_div_iff₀ hk]
      norm_num
      linarith
    · rw [div_le_iff₀ hk]
      norm_num at h1 ⊢
      linarith
  obtain ⟨d, hd⟩ := segment_produce_pl_data ax L H m pl ⟨hrapid, hdist⟩
  obtain ⟨h1, h2⟩ := clamp_rate_multiplier_bounds d
  refine ⟨clamp_rate_multiplier d, h1, h2, ?_, ?_, key _ h1 h2⟩
  · simp only [rtcp_segment_line, Bool.false_eq_true, if_false, hd]
  · simp only [rtcp_segment_line, Bool.false_eq_true, if_false, hd]
    norm_num

/-- C9 (segment endpoint, as amended).  For every move with RTCP on, no jog cancel and a
consistent trig cache on entry, the produce calls return at least one point before `NULL`
(within 2001 calls), and the forward transform of the last point returned equals the
requested TCP target on every axis in exact arithmetic (no bound is stated for the
rounding of the `float` computation) whenever that point was computed with the sines and cosines of the target's own angles: the target
is on the fast path, or the trig cache left by the move holds the sample of the target's
`A` and `C`.  That is the case when on entry the cache is invalid, or holds the target's
angles, or a sample out of tolerance from them, and the move has one segment or rotates by
more than `trig_cache_tol` per segment on `A` or on `C`. -/
theorem C9_segment_endpoint_exact_cache (ax : Axes) (L : Libm α) (H : Host α) (m : Module α)
    (target position tbuf : Vec α) (pl0 : plan_line_data_t α)
    (pls : Nat → plan_line_data_t α) (hon : m.rtcp_enabled = true)
    (hinv : CacheInv L m.rtcp) (hpyth : ∀ x, L.sinf x ^ 2 + L.cosf x ^ 2 = 1) :
    ∃ pts m' J,
      segment_move ax L H pl0 pls (fun _ => false) 2001 m target position = some (pts, m') ∧
      pts.getLast? = some J ∧
      (((|target ax.A_AXIS| < 0.001 ∧ |target ax.C_AXIS| < 0.001) ∨
        (m'.rtcp.cache_valid = true ∧ m'.rtcp.last_a = target ax.A_AXIS ∧
          m'.rtcp.last_c = target ax.C_AXIS)) →
        ∀ i, i < ax.N_AXIS →
          transform_to_cartesian ax L H.tlo_z m'.rtcp tbuf J i = target i) ∧
      (FreshAt L m.rtcp (target ax.A_AXIS) (target ax.C_AXIS) →
        ((rtcp_segment_line ax L H m target position pl0 true).1.iterations = 2 ∨
          (((rtcp_segment_line ax L H m target position pl0 true).1.iterations - 1 : Nat) : α)
            * m.rtcp.trig_cache_tol < |target ax.A_AXIS - position ax.A_AXIS| ∨
          (((rtcp_segment_line ax L H m target position pl0 true).1.iterations - 1 : Nat) : α)
            * m.rtcp.trig_cache_tol < |target ax.C_AXIS - position ax.C_AXIS|) →
        ((|target ax.A_AXIS| < 0.001 ∧ |target ax.C_AXIS| < 0.001) ∨
          (m'.rtcp.cache_valid = true ∧ m'.rtcp.last_a = target ax.A_AXIS ∧
            m'.rtcp.last_c = target ax.C_AXIS))) := by
  have hb := segment_init_iterations ax L H m target position pl0
  have hj := segment_init_jog_cancel ax L H m target position pl0
  obtain ⟨hF, hinv0, _⟩ := segment_init_on_state ax L H m target position pl0 hon hinv
  have h0 : (rtcp_segment_line ax L H m target position pl0 true).1 =
      (segment_init ax L H m target position pl0).1 := by
    simp only [rtcp_segment_line, if_true]
  obtain ⟨n, hn⟩ : ∃ n, (segment_init ax L H m target position pl0).1.iterations = n + 2 :=
    ⟨(segment_init ax L H m target position pl0).1.iterations - 2, by omega⟩
  obtain ⟨pts, m', r, t, s, hrun, hlast, hrinv, _, h1, h2⟩ :=
    produce_until_null_last ax L H pls n 2001 0 (segment_init ax L H m target position pl0).1
      hn (by unfold UINT_FAST16_RANGE; omega) (by omega) hj hinv0
  have hmove : segment_move ax L H pl0 pls (fun _ => false) 2001 m target position
      = some (pts, m') := by
    unfold segment_move
    rw [h0]
    exact hrun
  refine ⟨pts, m', m'.mpos, hmove, hlast, ?_, ?_⟩
  · intro hc i hi
    have hP : ∀ j, j < ax.N_AXIS →
        memcpy ax.N_AXIS s (segment_init ax L H m target position pl0).1.final_target j
          = target j := by
      intro j hj2
      rw [hF]
      simp [memcpy, hj2]
    generalize memcpy ax.N_AXIS s (segment_init ax L H m target position pl0).1.final_target = Pf
      at h1 h2 hP
    have hPA := hP ax.A_AXIS ax.hA.2
    have hPC := hP ax.C_AXIS ax.hC.2
    have hcfg : m'.rtcp.cfg = r.cfg := by
      rw [h1, transform_from_cartesian_cfg]
    have hex : (|Pf ax.A_AXIS| < 0.001 ∧ |Pf ax.C_AXIS| < 0.001) ∨
        ((update_trig_cache L r (Pf ax.A_AXIS) (Pf ax.C_AXIS)).sin_a
            = L.sinf (DEG_TO_RAD L (Pf ax.A_AXIS)) ∧
         (update_trig_cache L r (Pf ax.A_AXIS) (Pf ax.C_AXIS)).cos_a
            = L.cosf (DEG_TO_RAD L (Pf ax.A_AXIS)) ∧
         (update_trig_cache L r (Pf ax.A_AXIS) (Pf ax.C_AXIS)).sin_c
            = L.sinf (DEG_TO_RAD L (Pf ax.C_AXIS)) ∧
         (update_trig_cache L r (Pf ax.A_AXIS) (Pf ax.C_AXIS)).cos_c
            = L.cosf (DEG_TO_RAD L (Pf ax.C_AXIS))) := by
      by_cases hf : |target ax.A_AXIS| < 0.001 ∧ |target ax.C_AXIS| < 0.001
      · left
        rw [hPA, hPC]
        exact hf
      · right
        obtain ⟨hv, ha, hcc⟩ := hc.resolve_left hf
        have hf2 : ¬ (|Pf ax.A_AXIS| < 0.001 ∧ |Pf ax.C_AXIS| < 0.001) := by
          rw [hPA, hPC]
          exact hf
        rw [transform_from_cartesian_general ax L H.tlo_z r t _ hf2] at h1
        have hi2 := update_trig_cache_inv L r (Pf ax.A_AXIS) (Pf ax.C_AXIS) hrinv
        simp only at h1
        rw [← h1]
        have := hi2 (by rw [← h1]; exact hv)
        rw [← h1, ha, hcc, ← hPA, ← hPC] at this
        exact this
    have key := round_trip_of_exact ax L H.tlo_z r m'.rtcp t tbuf Pf hpyth hcfg hex i hi
    rw [← h2, hP i hi] at key
    exact key
  · intro hfresh hstep
    by_cases hf : |target ax.A_AXIS| < 0.001 ∧ |target ax.C_AXIS| < 0.001
    · exact Or.inl hf
    · right
      obtain ⟨pts2, m2, hrun2, hc⟩ := segment_move_cache_at_target ax L H pl0 pls m target
        position hon hf hfresh hstep
      rw [hmove] at hrun2
      have hm : m' = m2 := by
        injection hrun2 with h
        exact (Prod.mk.inj h).2
      rw [hm]
      exact hc

/-- C9, witness: the scenario of the claim.  Scenario geometry (pivot (100,100,100), TLO
50), RTCP switched on by M451 (cache invalid), the non-rapid move from the joint position
`(100, 100, 100, 0, 0)` to the TCP target `(100, 100, 100, 90, 0)`.  More than one point is
returned, and the forward transform of the last one is the target on every axis. -/
theorem C9_segment_endpoint_witness :
    (scenario_module_on (⟨Real.sin, Real.cos, Real.sqrt, Real.pi⟩ : Libm ℝ)).rtcp_enabled = true ∧
    ∃ pts m' J,
      segment_move axes5 ⟨Real.sin, Real.cos, Real.sqrt, Real.pi⟩ ⟨50, fun _ _ => true⟩
        ⟨1000, 1, ⟨false, false, false⟩⟩ (fun _ => ⟨1000, 1, ⟨false, false, false⟩⟩)
        (fun _ => false) 2001 (scenario_module_on ⟨Real.sin, Real.cos, Real.sqrt, Real.pi⟩)
        (vec5 100 100 100 90 0) (vec5 100 100 100 0 0) = some (pts, m') ∧
      1 < pts.length ∧
      pts.getLast? = some J ∧
      ∀ i, i < 5 →
        transform_to_cartesian axes5 ⟨Real.sin, Real.cos, Real.sqrt, Real.pi⟩ 50 m'.rtcp
          (fun _ => 0) J i = vec5 100 100 100 90 0 i := by
  refine ⟨rfl, ?_⟩
  have hcache := scenario_module_on_cache (⟨Real.sin, Real.cos, Real.sqrt, Real.pi⟩ : Libm ℝ)
  obtain ⟨pts, m', J, hrun, hlast, himp, hsuff⟩ := C9_segment_endpoint_exact_cache axes5
    (⟨Real.sin, Real.cos, Real.sqrt, Real.pi⟩ : Libm ℝ) ⟨50, fun _ _ => true⟩
    (scenario_module_on ⟨Real.sin, Real.cos, Real.sqrt, Real.pi⟩)
    (vec5 100 100 100 90 0) (vec5 100 100 100 0 0) (fun _ => 0)
    ⟨1000, 1, ⟨false, false, false⟩⟩ (fun _ => ⟨1000, 1, ⟨false, false, false⟩⟩)
    rfl (fun h => absurd h (by rw [hcache]; decide))
    (fun x => Real.sin_sq_add_cos_sq x)
  obtain ⟨m0, hm0⟩ : ∃ m0, m0 = (segment_init axes5
      (⟨Real.sin, Real.cos, Real.sqrt, Real.pi⟩ : Libm ℝ) ⟨50, fun _ _ => true⟩
      (scenario_module_on ⟨Real.sin, Real.cos, Real.sqrt, Real.pi⟩)
      (vec5 100 100 100 90 0) (vec5 100 100 100 0 0) ⟨1000, 1, ⟨false, false, false⟩⟩).1 :=
    ⟨_, rfl⟩
  have h0 : (rtcp_segment_line axes5 (⟨Real.sin, Real.cos, Real.sqrt, Real.pi⟩ : Libm ℝ)
      ⟨50, fun _ _ => true⟩ (scenario_module_on ⟨Real.sin, Real.cos, Real.sqrt, Real.pi⟩)
      (vec5 100 100 100 90 0) (vec5 100 100 100 0 0) ⟨1000, 1, ⟨false, false, false⟩⟩ true).1 =
      m0 := by
    rw [hm0]
    simp only [rtcp_segment_line, if_true]
  have hb := segment_init_iterations axes5 (⟨Real.sin, Real.cos, Real.sqrt, Real.pi⟩ : Libm ℝ)
    ⟨50, fun _ _ => true⟩ (scenario_module_on ⟨Real.sin, Real.cos, Real.sqrt, Real.pi⟩)
    (vec5 100 100 100 90 0) (vec5 100 100 100 0 0) ⟨1000, 1, ⟨false, false, false⟩⟩
  have hj := segment_init_jog_cancel axes5 (⟨Real.sin, Real.cos, Real.sqrt, Real.pi⟩ : Libm ℝ)
    ⟨50, fun _ _ => true⟩ (scenario_module_on ⟨Real.sin, Real.cos, Real.sqrt, Real.pi⟩)
    (vec5 100 100 100 90 0) (vec5 100 100 100 0 0) ⟨1000, 1, ⟨false, false, false⟩⟩
  have h3 := scenario_init_iterations
  rw [← hm0] at hb hj h3
  rw [h0] at hsuff
  unfold segment_move at hrun
  rw [h0] at hrun
  -- the number of points
  obtain ⟨n, hn⟩ : ∃ n, m0.iterations = n + 1 := ⟨m0.iterations - 1, by omega⟩
  obtain ⟨pts2, m2, hrun2, _, hlen⟩ := produce_until_null_count axes5
    (⟨Real.sin, Real.cos, Real.sqrt, Real.pi⟩ : Libm ℝ) ⟨50, fun _ _ => true⟩
    (fun _ => ⟨1000, 1, ⟨false, false, false⟩⟩) (fun _ => false) n 2001 0 m0 hn
    (by unfold UINT_FAST16_RANGE; omega) (by omega)
  have hpts : pts2 = pts := by
    rw [hrun2] at hrun
    injection hrun with h
    exact (Prod.mk.inj h).1
  have hlen2 : 1 < pts.length := by
    rw [← hpts, hlen (fun _ => rfl) hj]
    omega
  -- the cache at the end of the move
  have htol : (scenario_module_on (⟨Real.sin, Real.cos, Real.sqrt, Real.pi⟩ : Libm ℝ)).rtcp.trig_cache_tol
      < 0.04 := by
    rw [scenario_module_on_tol]
    have hpi : 3 < Real.pi := Real.pi_gt_three
    have e : (0.01:ℝ) / 500 * (180 / Real.pi) = 0.0036 / Real.pi := by
      field_simp
      norm_num
      ring
    rw [e, div_lt_iff₀ Real.pi_pos]
    linarith
  have htol0 : 0 < (scenario_module_on (⟨Real.sin, Real.cos, Real.sqrt, Real.pi⟩ : Libm ℝ)).rtcp.trig_cache_tol := by
    rw [scenario_module_on_tol]
    have := Real.pi_pos
    positivity
  have hN : ((m0.iterations - 1 : Nat) : ℝ) ≤ 2000 := by
    have : m0.iterations - 1 ≤ 2000 := by omega
    exact_mod_cast this
  have hN0 : (0 : ℝ) ≤ ((m0.iterations - 1 : Nat) : ℝ) := Nat.cast_nonneg _
  have e : |vec5 (100:ℝ) 100 100 90 0 axes5.A_AXIS - vec5 (100:ℝ) 100 100 0 0 axes5.A_AXIS|
      = 90 := by
    norm_num [vec5, axes5]
  have hc := hsuff ⟨fun h => absurd h (by rw [hcache]; decide),
      fun h => absurd h (by rw [hcache]; decide)⟩
    (Or.inr (Or.inl (by
      rw [e]
      nlinarith)))
  refine ⟨pts, m', J, ?_, hlen2, hlast, himp hc⟩
  unfold segment_move
  rw [h0]
  exact hrun

/-- C9, counterexample.  Default geometry, no tool offset, RTCP on, the cache holding the
sample `(90, 0)`.  The move from the joint position `(0, 0, 0, 90, 0)` to the TCP target
`(0, 100, 0, 90 + 1/2048, 0)` rotates by less than 0.001 degrees, so it is one segment; its
point is computed with the cached sines and cosines of 90 degrees, and the forward
transform of it misses the target's `Z = 0` by `100·sin((1/2048)°)`, more than 1e-4 mm. -/
theorem C9_counterexample :
    ∃ J m',
      segment_move axes5 (⟨Real.sin, Real.cos, Real.sqrt, Real.pi⟩ : Libm ℝ)
        ⟨0, fun _ _ => true⟩ ⟨1000, 1, ⟨false, false, false⟩⟩
        (fun _ => ⟨1000, 1, ⟨false, false, false⟩⟩) (fun _ => false) 2001
        (c9_module ⟨Real.sin, Real.cos, Real.sqrt, Real.pi⟩)
        (vec5 0 100 0 (90 + 1 / 2048) 0) (vec5 0 0 0 90 0) = some ([J], m') ∧
      ¬ (|transform_to_cartesian axes5 ⟨Real.sin, Real.cos, Real.sqrt, Real.pi⟩ 0 m'.rtcp
          (fun _ => 0) J Z_AXIS - vec5 0 100 0 (90 + 1 / 2048) 0 Z_AXIS| ≤ 0.0001) := by
  obtain ⟨m2, hrun2, hr2⟩ := segment_move_unsegmented axes5
    (⟨Real.sin, Real.cos, Real.sqrt, Real.pi⟩ : Libm ℝ) ⟨0, fun _ _ => true⟩
    ⟨1000, 1, ⟨false, false, false⟩⟩ (fun _ => ⟨1000, 1, ⟨false, false, false⟩⟩) 2001
    (c9_module ⟨Real.sin, Real.cos, Real.sqrt, Real.pi⟩)
    (vec5 0 100 0 (90 + 1 / 2048) 0) (vec5 0 0 0 90 0) rfl (by norm_num)
    (by constructor <;> norm_num [vec5, axes5, abs_le])
  have hst : (c9_module (⟨Real.sin, Real.cos, Real.sqrt, Real.pi⟩ : Libm ℝ)).rtcp =
      c1_state ⟨Real.sin, Real.cos, Real.sqrt, Real.pi⟩ := rfl
  have hmp : (c9_module (⟨Real.sin, Real.cos, Real.sqrt, Real.pi⟩ : Libm ℝ)).mpos =
      fun _ => 0 := rfl
  have hJ := stale_inverse_near_90 (1 / 2048) (by norm_num) (by norm_num)
  simp only [hst, hmp] at hrun2 hr2
  rw [hJ] at hrun2 hr2
  refine ⟨_, m2, hrun2, ?_⟩
  rw [forward_Z_of_joint _ _ (by rw [hr2]) (by norm_num)]
  exact forward_Z_off (1 / 2048) (le_refl _) (by norm_num)

/-- C6, witness: the statics at start-up (RTCP off) and the target `(10, 20, 30, 0, 0)`. -/
theorem C6_rtcp_off_one_segment_witness :
    (module_boot : Module ℝ).rtcp_enabled = false ∧
    ∃ pts m', segment_move axes5 (⟨Real.sin, Real.cos, Real.sqrt, Real.pi⟩ : Libm ℝ)
        ⟨0, fun _ _ => true⟩ ⟨1000, 1, ⟨false, false, false⟩⟩
        (fun _ => ⟨1000, 1, ⟨false, false, false⟩⟩) (fun _ => false) 2 module_boot
        (vec5 10 20 30 0 0) (fun _ => 0) = some (pts, m') ∧ pts.length = 1 :=
  ⟨rfl, (C6_rtcp_off_one_segment axes5 (⟨Real.sin, Real.cos, Real.sqrt, Real.pi⟩ : Libm ℝ)
    ⟨0, fun _ _ => true⟩ module_boot (vec5 10 20 30 0 0) (fun _ => 0) (fun _ => 0)
    (fun _ => 0) (fun _ => 0) (fun _ => 0) ⟨1000, 1, ⟨false, false, false⟩⟩
    ⟨1000, 1, ⟨false, false, false⟩⟩ ⟨1000, 1, ⟨false, false, false⟩⟩
    (fun _ => ⟨1000, 1, ⟨false, false, false⟩⟩) rfl).2.2⟩


/-- C10, witness: default geometry, RTCP on; after the init call for the move from the
joint position `(0, 0, 0, 0, 0)` to the TCP target `(3, 4, 0, 0, 0)` the distance per
segment is 5 mm, and the produce call of this non-rapid move scales the feed rate 1000 by
a factor in `[0.5, 2]`. -/
theorem C10_feed_rate_bounds_witness :
    (rtcp_segment_line axes5 (⟨Real.sin, Real.cos, Real.sqrt, Real.pi⟩ : Libm ℝ)
      ⟨0, fun _ _ => true⟩ (module_on ⟨Real.sin, Real.cos, Real.sqrt, Real.pi⟩)
      (vec5 3 4 0 0 0) (vec5 0 0 0 0 0) ⟨1000, 1, ⟨false, false, false⟩⟩ true).1.distance
        > 0.0001 ∧
    ∃ k : ℝ, 0.5 ≤ k ∧ k ≤ 2 ∧
      (rtcp_segment_line axes5 (⟨Real.sin, Real.cos, Real.sqrt, Real.pi⟩ : Libm ℝ)
        ⟨0, fun _ _ => true⟩
        (rtcp_segment_line axes5 (⟨Real.sin, Real.cos, Real.sqrt, Real.pi⟩ : Libm ℝ)
          ⟨0, fun _ _ => true⟩ (module_on ⟨Real.sin, Real.cos, Real.sqrt, Real.pi⟩)
          (vec5 3 4 0 0 0) (vec5 0 0 0 0 0) ⟨1000, 1, ⟨false, false, false⟩⟩ true).1
        (fun _ => 0) (fun _ => 0) ⟨1000, 1, ⟨false, false, false⟩⟩ false).2.1.feed_rate
        = 1000 * k := by
  have hd : (rtcp_segment_line axes5 (⟨Real.sin, Real.cos, Real.sqrt, Real.pi⟩ : Libm ℝ)
      ⟨0, fun _ _ => true⟩ (module_on ⟨Real.sin, Real.cos, Real.sqrt, Real.pi⟩)
      (vec5 3 4 0 0 0) (vec5 0 0 0 0 0) ⟨1000, 1, ⟨false, false, false⟩⟩ true).1.distance
        > 0.0001 := by
    simp only [rtcp_segment_line, if_true]
    rw [segment_init_unsegmented axes5 _ _ _ _ _ _ rfl (by constructor <;> norm_num [vec5, axes5])]
    simp only [show axes5.N_AXIS = 2 + 3 from rfl, delta_loop_dist_sq]
    rw [transform_to_cartesian_fast _ _ _ _ _ _ (by constructor <;> norm_num [vec5, axes5])]
    simp only [memcpy, vec5, axes5, Nat.cast_one, div_one]
    norm_num
    rw [Real.lt_sqrt (by norm_num)]
    norm_num
  obtain ⟨k, h1, h2, h3, _⟩ := C10_feed_rate_bounds axes5
    (⟨Real.sin, Real.cos, Real.sqrt, Real.pi⟩ : Libm ℝ) ⟨0, fun _ _ => true⟩
    (rtcp_segment_line axes5 (⟨Real.sin, Real.cos, Real.sqrt, Real.pi⟩ : Libm ℝ)
      ⟨0, fun _ _ => true⟩ (module_on ⟨Real.sin, Real.cos, Real.sqrt, Real.pi⟩)
      (vec5 3 4 0 0 0) (vec5 0 0 0 0 0) ⟨1000, 1, ⟨false, false, false⟩⟩ true).1
    (fun _ => 0) (fun _ => 0) ⟨1000, 1, ⟨false, false, false⟩⟩ rfl hd
  exact ⟨hd, k, h1, h2, h3⟩


/-- C8 (failing input).  Default geometry, no tool offset, RTCP on, non-rapid move from the
joint position `(100, 0, 0, 0, 0)` to the TCP target `(100, 0, 0, 0, 900)`.  The init call
plans 200 segments (`iterations = 201`, no clamp), the first produce call returns the joint
point of the TCP point `(100, 0, 0, 0, 4.5)`, and on this first segment the distance
between the inverse transform of the TCP midpoint and the joint midpoint is
`100·(1 − cos 2.25°)`, about 0.077 mm: its square exceeds `0.01²`. -/
theorem C8_chord_budget_exceeded :
    (c8_init (⟨Real.sin, Real.cos, Real.sqrt, Real.pi⟩ : Libm ℝ)).iterations = 201 ∧
    (c8_first (⟨Real.sin, Real.cos, Real.sqrt, Real.pi⟩ : Libm ℝ)).2.2 =
      some (c8_first (⟨Real.sin, Real.cos, Real.sqrt, Real.pi⟩ : Libm ℝ)).1.mpos ∧
    chord_midpoint_err_sq axes5 (⟨Real.sin, Real.cos, Real.sqrt, Real.pi⟩ : Libm ℝ) 0
      (c8_first (⟨Real.sin, Real.cos, Real.sqrt, Real.pi⟩ : Libm ℝ)).1.rtcp
      (c8_init (⟨Real.sin, Real.cos, Real.sqrt, Real.pi⟩ : Libm ℝ)).segment_target
      (c8_first (⟨Real.sin, Real.cos, Real.sqrt, Real.pi⟩ : Libm ℝ)).1.segment_target
      (vec5 100 0 0 0 0)
      (c8_first (⟨Real.sin, Real.cos, Real.sqrt, Real.pi⟩ : Libm ℝ)).1.mpos > 0.01 ^ 2 := by
  obtain ⟨e1, _, _, _, _, _, e7, _⟩ := c8_init_eval
  obtain ⟨f1, f2, f3, f4, f5, f6⟩ := c8_first_eval
  refine ⟨e1, f1, ?_⟩
  have hm := inverse_pure_C
    (invalidate_cache (c8_first (⟨Real.sin, Real.cos, Real.sqrt, Real.pi⟩ : Libm ℝ)).1.rtcp)
    (fun _ => 0)
    (fun i => ((c8_init (⟨Real.sin, Real.cos, Real.sqrt, Real.pi⟩ : Libm ℝ)).segment_target i +
      (c8_first (⟨Real.sin, Real.cos, Real.sqrt, Real.pi⟩ : Libm ℝ)).1.segment_target i) / 2)
    100 2.25 f3
    (by simp only [e7 0 (by norm_num), f2 0 (by norm_num)]; norm_num [vec5])
    (by simp only [e7 1 (by norm_num), f2 1 (by norm_num)]; norm_num [vec5])
    (by simp only [e7 2 (by norm_num), f2 2 (by norm_num)]; norm_num [vec5])
    (by simp only [e7 3 (by norm_num), f2 3 (by norm_num)]; norm_num [vec5])
    (by simp only [e7 4 (by norm_num), f2 4 (by norm_num)]; norm_num [vec5])
    (by norm_num [abs_of_pos]) (Or.inl rfl)
  obtain ⟨_, _, _, _, m0, m1, m2⟩ := hm
  unfold chord_midpoint_err_sq
  simp only [X_AXIS, Y_AXIS, Z_AXIS, m0, m1, m2, f4, f5, f6]
  have h2 : (4.5 : ℝ) * (Real.pi / 180) = 2 * (2.25 * (Real.pi / 180)) := by ring
  have hq : (2.25 : ℝ) * (Real.pi / 180) = 2 * (1.125 * (Real.pi / 180)) := by ring
  rw [h2, Real.cos_two_mul, Real.sin_two_mul]
  have hpos : 0 < Real.pi := Real.pi_pos
  have hs := Real.mul_le_sin (x := 1.125 * (Real.pi / 180)) (by positivity) (by nlinarith)
  have e2 : 2 / Real.pi * (1.125 * (Real.pi / 180)) = 0.0125 := by
    field_simp
    norm_num
    ring
  rw [e2] at hs
  have hcos : Real.cos (2.25 * (Real.pi / 180))
      = 1 - 2 * Real.sin (1.125 * (Real.pi / 180)) ^ 2 := by
    rw [hq, Real.cos_two_mul]
    have := Real.sin_sq_add_cos_sq (1.125 * (Real.pi / 180))
    linarith
  have hpy := Real.sin_sq_add_cos_sq (2.25 * (Real.pi / 180))
  have hu : (0.0125 : ℝ) ^ 2 ≤ Real.sin (1.125 * (Real.pi / 180)) ^ 2 := by
    apply pow_le_pow_left₀ (by norm_num) hs
  have key : (100 * Real.cos (2.25 * (Real.pi / 180)) -
        (vec5 100 0 0 0 0 0 + 100 * (2 * Real.cos (2.25 * (Real.pi / 180)) ^ 2 - 1)) / 2) ^ 2 +
      (100 * Real.sin (2.25 * (Real.pi / 180)) -
        (vec5 100 0 0 0 0 1 + 100 * (2 * Real.sin (2.25 * (Real.pi / 180)) *
          Real.cos (2.25 * (Real.pi / 180)))) / 2) ^ 2 +
      (0 - (vec5 (100:ℝ) 0 0 0 0 2 + 0) / 2) ^ 2
      = (100 * (1 - Real.cos (2.25 * (Real.pi / 180)))) ^ 2 := by
    simp only [vec5]
    linear_combination (100 * (1 - Real.cos (2.25 * (Real.pi / 180)))) ^ 2 * hpy
  rw [key, hcos]
  have h3 : (0.01 : ℝ) < 100 * (1 - (1 - 2 * Real.sin (1.125 * (Real.pi / 180)) ^ 2)) := by
    norm_num at hu ⊢
    linarith
  exact pow_lt_pow_left₀ h3 (by norm_num) (by norm_num)


end Claims

section MoreClaims
variable {α : Type} [LinearOrderedField α]

/-- C11 (bisection clip, validity, as amended).  With at least one axis homed, a current
position that passes `rtcp_check_travel_limits` (Cartesian) and a destination that does
not: the point that `rtcp_apply_travel_limits` writes over the destination is the position
itself (valid in the statics on entry, by hypothesis) or the midpoint of one of the 16
passes, which passed the check when that pass tested it, in the statics of that pass
(the statics left by the check of the destination and by the passes before it).  When
RTCP is off, or the position and the destination have the same `A` and `C`, the written
point also passes the check in the statics the function leaves, and with RTCP on its
joint image is then inside the envelope on every homed axis of the mask. -/
theorem C11_bisection_clip_valid (ax : Axes) (L : Libm α) (tlo_z : α) (sys : system_t)
    (orig : Option (check_travel_limits_ptr α)) (envelope : work_envelope_t α)
    (m : Module α) (target position : Vec α)
    (hhomed : sys.homed_mask ≠ 0)
    (horig : ∀ f, orig = some f → ∀ (Q Q' : Vec α) (a : Nat) (b : Bool) (e : work_envelope_t α),
      (∀ i, i < ax.N_AXIS → Q i = Q' i) → f Q a b e = f Q' a b e)
    (hpos : (rtcp_check_travel_limits ax L tlo_z sys orig m position sys.soft_limits true
      envelope).2 = true)
    (htgt : (rtcp_check_travel_limits ax L tlo_z sys orig m target sys.soft_limits true
      envelope).2 = false) :
    ((∀ i, i < ax.N_AXIS →
        (rtcp_apply_travel_limits ax L tlo_z sys orig m target (some position) envelope).2 i
          = position i) ∨
      ∃ j, j < 16 ∧
        (∀ i, i < ax.N_AXIS →
          (rtcp_apply_travel_limits ax L tlo_z sys orig m target (some position) envelope).2 i
            = bisection_mid ax (bisection_loop ax L tlo_z sys orig envelope j
                (bisection_entry ax L tlo_z sys orig m target position envelope)) i) ∧
        (rtcp_check_travel_limits ax L tlo_z sys orig
          (bisection_loop ax L tlo_z sys orig envelope j
            (bisection_entry ax L tlo_z sys orig m target position envelope)).m
          (bisection_mid ax (bisection_loop ax L tlo_z sys orig envelope j
            (bisection_entry ax L tlo_z sys orig m target position envelope)))
          sys.soft_limits true envelope).2 = true) ∧
    ((m.rtcp_enabled = false ∨
        (position ax.A_AXIS = target ax.A_AXIS ∧ position ax.C_AXIS = target ax.C_AXIS)) →
      (rtcp_check_travel_limits ax L tlo_z sys orig
        (rtcp_apply_travel_limits ax L tlo_z sys orig m target (some position) envelope).1
        (rtcp_apply_travel_limits ax L tlo_z sys orig m target (some position) envelope).2
        sys.soft_limits true envelope).2 = true ∧
      (m.rtcp_enabled = true → ∀ i, i < ax.N_AXIS →
        bit_istrue sys.homed_mask (bit i) = true → bit_istrue sys.soft_limits (bit i) = true →
        envelope.min i ≤ (transform_from_cartesian ax L tlo_z
          (rtcp_apply_travel_limits ax L tlo_z sys orig m target (some position) envelope).1.rtcp
          (fun _ => 0)
          (rtcp_apply_travel_limits ax L tlo_z sys orig m target (some position) envelope).2).2 i
        ∧ (transform_from_cartesian ax L tlo_z
          (rtcp_apply_travel_limits ax L tlo_z sys orig m target (some position) envelope).1.rtcp
          (fun _ => 0)
          (rtcp_apply_travel_limits ax L tlo_z sys orig m target (some position) envelope).2).2 i
          ≤ envelope.max i)) := by
  constructor
  · have hres := rtcp_apply_travel_limits_eq ax L tlo_z sys orig envelope m target position
      hhomed htgt
    have hres2 : (rtcp_apply_travel_limits ax L tlo_z sys orig m target (some position)
        envelope).2 = memcpy ax.N_AXIS target (bisection_loop ax L tlo_z sys orig envelope 16
          (bisection_entry ax L tlo_z sys orig m target position envelope)).best := by
      rw [hres]
      rfl
    rw [hres2]
    rcases (bisection_trace ax L tlo_z sys orig envelope
      (bisection_entry ax L tlo_z sys orig m target position envelope) 16).1 with h | h
    · left
      intro i hi
      simp only [memcpy, if_pos hi]
      rw [h i hi]
      simp [bisection_entry, memcpy, hi]
    · right
      obtain ⟨j, hj, h1, h2⟩ := h
      refine ⟨j, hj, ?_, h2⟩
      intro i hi
      simp only [memcpy, if_pos hi]
      exact h1 i hi
  · intro hstable
    obtain ⟨s, hres, hQs, k, hk, hst, hen, hbe, hT, hF⟩ :=
      rtcp_apply_travel_limits_inv ax L tlo_z sys orig envelope
        (fun m' => m' = (rtcp_check_travel_limits ax L tlo_z sys orig m target sys.soft_limits
          true envelope).1)
        m target position hhomed htgt
        (fun m' P hm' hseg => by
          obtain ⟨t, _, _, ht⟩ := hseg
          have hm'' : m' = (rtcp_check_travel_limits ax L tlo_z sys orig m target
            sys.soft_limits true envelope).1 := hm'
          show (rtcp_check_travel_limits ax L tlo_z sys orig m' P sys.soft_limits true
            envelope).1 = _
          rw [hm'', rtcp_check_travel_limits_same_angles ax L tlo_z sys orig m P target
            sys.soft_limits sys.soft_limits envelope envelope ?_]
          rcases hstable with h | ⟨hA, hC⟩
          · exact Or.inl h
          · right
            rw [ht _ ax.hA.2, ht _ ax.hC.2, hA, hC]
            simp)
        rfl
    have hsm : s.m = (rtcp_check_travel_limits ax L tlo_z sys orig m target sys.soft_limits
        true envelope).1 := hQs
    have hpass : (rtcp_check_travel_limits ax L tlo_z sys orig s.m (memcpy ax.N_AXIS target s.best)
        sys.soft_limits true envelope).2 = true := by
      rcases hT with hT | ⟨m', P, hQm, hP, hr⟩
      · rw [rtcp_check_travel_limits_congr ax L tlo_z sys orig s.m _ position sys.soft_limits
          true envelope horig ?_]
        · rw [hsm, rtcp_check_travel_limits_same_angles ax L tlo_z sys orig m position target
            sys.soft_limits sys.soft_limits envelope envelope ?_]
          · exact hpos
          · rcases hstable with h | ⟨hA, hC⟩
            · exact Or.inl h
            · exact Or.inr ⟨hA.symm, hC.symm⟩
        · intro i hi
          simp only [memcpy, if_pos hi]
          rw [hbe i hi, hst i hi, hT]
          simp
      · have hm'' : m' = (rtcp_check_travel_limits ax L tlo_z sys orig m target
            sys.soft_limits true envelope).1 := hQm
        rw [rtcp_check_travel_limits_congr ax L tlo_z sys orig s.m _ P sys.soft_limits true
          envelope horig ?_]
        · rw [hsm, ← hm'']
          exact hr
        · intro i hi
          simp only [memcpy, if_pos hi]
          exact (hP i hi).symm
    rw [hres]
    refine ⟨hpass, ?_⟩
    intro hon i hi h1 h2
    have hon' : s.m.rtcp_enabled = true := by
      rw [hsm, (rtcp_check_travel_limits_keeps ax L tlo_z sys orig m target sys.soft_limits true
        envelope).1]
      exact hon
    exact ((rtcp_check_travel_limits_on ax L tlo_z sys orig s.m (memcpy ax.N_AXIS target s.best)
      sys.soft_limits true envelope hon'
      (transform_from_cartesian ax L tlo_z s.m.rtcp (fun _ => 0)
        (memcpy ax.N_AXIS target s.best)).2 (fun i _ => by simp)).mp hpass).1 i hi h1 h2

/-- C12 (bisection clip, precision, as amended).  Under the hypotheses of the clip (an axis
homed, position passing and destination failing the Cartesian check), the result is
`position + t (destination - position)` with `t = k / 2^16` for a natural number
`k < 2^16`, and the point at the parameter `t + 2^-16` is the destination itself (which
failed the check in the statics on entry, by hypothesis) or the midpoint of one of the 16
passes, which failed the check when that pass tested it, in the statics of that pass.
When RTCP is off, or position and destination have the same `A` and `C`, in the statics
the function leaves that point fails the check and the result passes it, so a validity
boundary lies within `2^-16` of the span beyond the result. -/
theorem C12_bisection_clip_precision (ax : Axes) (L : Libm α) (tlo_z : α) (sys : system_t)
    (orig : Option (check_travel_limits_ptr α)) (envelope : work_envelope_t α)
    (m : Module α) (target position : Vec α)
    (hhomed : sys.homed_mask ≠ 0)
    (horig : ∀ f, orig = some f → ∀ (Q Q' : Vec α) (a : Nat) (b : Bool) (e : work_envelope_t α),
      (∀ i, i < ax.N_AXIS → Q i = Q' i) → f Q a b e = f Q' a b e)
    (hpos : (rtcp_check_travel_limits ax L tlo_z sys orig m position sys.soft_limits true
      envelope).2 = true)
    (htgt : (rtcp_check_travel_limits ax L tlo_z sys orig m target sys.soft_limits true
      envelope).2 = false) :
    ∃ k : Nat, k < 2 ^ 16 ∧
      (∀ i, i < ax.N_AXIS →
        (rtcp_apply_travel_limits ax L tlo_z sys orig m target (some position) envelope).2 i
          = position i + (k : α) / 2 ^ 16 * (target i - position i)) ∧
      ((∀ i, i < ax.N_AXIS →
          position i + ((k : α) + 1) / 2 ^ 16 * (target i - position i) = target i) ∨
        ∃ j, j < 16 ∧
          (∀ i, i < ax.N_AXIS →
            position i + ((k : α) + 1) / 2 ^ 16 * (target i - position i)
              = bisection_mid ax (bisection_loop ax L tlo_z sys orig envelope j
                  (bisection_entry ax L tlo_z sys orig m target position envelope)) i) ∧
          (rtcp_check_travel_limits ax L tlo_z sys orig
            (bisection_loop ax L tlo_z sys orig envelope j
              (bisection_entry ax L tlo_z sys orig m target position envelope)).m
            (bisection_mid ax (bisection_loop ax L tlo_z sys orig envelope j
              (bisection_entry ax L tlo_z sys orig m target position envelope)))
            sys.soft_limits true envelope).2 = false) ∧
      ((m.rtcp_enabled = false ∨
          (position ax.A_AXIS = target ax.A_AXIS ∧ position ax.C_AXIS = target ax.C_AXIS)) →
        (rtcp_check_travel_limits ax L tlo_z sys orig
          (rtcp_apply_travel_limits ax L tlo_z sys orig m target (some position) envelope).1
          (fun i => position i + ((k : α) + 1) / 2 ^ 16 * (target i - position i))
          sys.soft_limits true envelope).2 = false ∧
        (rtcp_check_travel_limits ax L tlo_z sys orig
          (rtcp_apply_travel_limits ax L tlo_z sys orig m target (some position) envelope).1
          (rtcp_apply_travel_limits ax L tlo_z sys orig m target (some position) envelope).2
          sys.soft_limits true envelope).2 = true) := by
  obtain ⟨hres, hQs, k, hk, hst, hen, hbe, hT, hF⟩ :=
    rtcp_apply_travel_limits_run ax L tlo_z sys orig envelope
      (fun m' => (m'.rtcp_enabled = m.rtcp_enabled ∧ m'.rtcp.cfg = m.rtcp.cfg) ∧
        ((m.rtcp_enabled = false ∨
          (position ax.A_AXIS = target ax.A_AXIS ∧ position ax.C_AXIS = target ax.C_AXIS)) →
          m' = (rtcp_check_travel_limits ax L tlo_z sys orig m target sys.soft_limits
            true envelope).1))
      m target position hhomed htgt
      (fun m' P hm' hseg => by
        obtain ⟨h1, h2⟩ := rtcp_check_travel_limits_keeps ax L tlo_z sys orig m' P
          sys.soft_limits true envelope
        refine ⟨⟨h1.trans hm'.1.1, h2.trans hm'.1.2⟩, fun hstable => ?_⟩
        obtain ⟨t, _, _, ht⟩ := hseg
        rw [hm'.2 hstable, rtcp_check_travel_limits_same_angles ax L tlo_z sys orig m P target
          sys.soft_limits sys.soft_limits envelope envelope ?_]
        rcases hstable with h | ⟨hA, hC⟩
        · exact Or.inl h
        · right
          rw [ht _ ax.hA.2, ht _ ax.hC.2, hA, hC]
          simp)
      ⟨rtcp_check_travel_limits_keeps ax L tlo_z sys orig m target sys.soft_limits true
        envelope, fun _ => rfl⟩
  have htrace := (bisection_trace ax L tlo_z sys orig envelope
    (bisection_entry ax L tlo_z sys orig m target position envelope) 16).2
  obtain ⟨s, hs⟩ : ∃ s, s = bisection_loop ax L tlo_z sys orig envelope 16
      (bisection_entry ax L tlo_z sys orig m target position envelope) := ⟨_, rfl⟩
  rw [← hs] at hres hQs hst hen hbe hT hF htrace
  have hend : ∀ i, i < ax.N_AXIS → (fun i => position i + ((k : α) + 1) / 2 ^ 16 *
      (target i - position i)) i = s.end_ i := fun i hi => (hen i hi).symm
  refine ⟨k, hk, ?_, ?_, ?_⟩
  · intro i hi
    rw [hres]
    simp only [memcpy, if_pos hi]
    rw [hbe i hi, hst i hi]
  · rcases htrace with h | ⟨j, hj, h1, h2⟩
    · left
      intro i hi
      rw [← hen i hi, h i hi]
      simp [bisection_entry, memcpy, hi]
    · right
      refine ⟨j, hj, ?_, h2⟩
      intro i hi
      rw [← hen i hi]
      exact h1 i hi
  · intro hstable
    have hsm := hQs.2 hstable
    rw [hres]
    constructor
    · rcases hF with hF | ⟨m', P, hQm, hP, hr⟩
      · rw [rtcp_check_travel_limits_congr ax L tlo_z sys orig s.m _ target sys.soft_limits true
          envelope horig ?_]
        · rw [hsm, rtcp_check_travel_limits_same_angles ax L tlo_z sys orig m target target
            sys.soft_limits sys.soft_limits envelope envelope (Or.inr ⟨rfl, rfl⟩)]
          exact htgt
        · intro i hi
          have : ((k : α) + 1) = 2 ^ 16 := by exact_mod_cast hF
          simp only [this]
          norm_num
      · rw [rtcp_check_travel_limits_congr ax L tlo_z sys orig s.m _ P sys.soft_limits true
          envelope horig ?_]
        · rw [hsm, ← hQm.2 hstable]
          exact hr
        · intro i hi
          rw [hP i hi]
          exact hend i hi
    · rcases hT with hT | ⟨m', P, hQm, hP, hr⟩
      · rw [rtcp_check_travel_limits_congr ax L tlo_z sys orig s.m _ position sys.soft_limits
          true envelope horig ?_]
        · rw [hsm, rtcp_check_travel_limits_same_angles ax L tlo_z sys orig m position target
            sys.soft_limits sys.soft_limits envelope envelope ?_]
          · exact hpos
          · rcases hstable with h | ⟨hA, hC⟩
            · exact Or.inl h
            · exact Or.inr ⟨hA.symm, hC.symm⟩
        · intro i hi
          simp only [memcpy, if_pos hi]
          rw [hbe i hi, hst i hi, hT]
          simp
      · rw [rtcp_check_travel_limits_congr ax L tlo_z sys orig s.m _ P sys.soft_limits true
          envelope horig ?_]
        · rw [hsm, ← hQm.2 hstable]
          exact hr
        · intro i hi
          simp only [memcpy, if_pos hi]
          exact (hP i hi).symm

/-- C11, counterexample.  Default geometry, RTCP on, no tool offset, only Y homed and limited
to `[-0.001, 200]`, no native check, and the cache holding the sample `(90, 0)`.  The
position `(0, 100, 0, 90.001, 0)` passes the check (the cached cosine of 90 degrees gives
the joint `Y = 0`), the destination `(0, 100, 0, 100, 0)` fails it.  All 16 midpoints fail,
so the clip writes the position over the destination; but the cache now holds a sample
past 90.001 degrees, and in the statics the clip leaves the check of that point returns
`false` (joint `Y` below `-0.001`). -/
theorem C11_counterexample :
    sys_y.homed_mask ≠ 0 ∧
    (rtcp_check_travel_limits axes5 (⟨Real.sin, Real.cos, Real.sqrt, Real.pi⟩ : Libm ℝ) 0
      sys_y none (sample_module ⟨Real.sin, Real.cos, Real.sqrt, Real.pi⟩ 90)
      (vec5 0 100 0 90.001 0) sys_y.soft_limits true envelope_y).2 = true ∧
    (rtcp_check_travel_limits axes5 (⟨Real.sin, Real.cos, Real.sqrt, Real.pi⟩ : Libm ℝ) 0
      sys_y none (sample_module ⟨Real.sin, Real.cos, Real.sqrt, Real.pi⟩ 90)
      (vec5 0 100 0 100 0) sys_y.soft_limits true envelope_y).2 = false ∧
    (rtcp_check_travel_limits axes5 (⟨Real.sin, Real.cos, Real.sqrt, Real.pi⟩ : Libm ℝ) 0
      sys_y none
      (rtcp_apply_travel_limits axes5 (⟨Real.sin, Real.cos, Real.sqrt, Real.pi⟩ : Libm ℝ) 0
        sys_y none (sample_module ⟨Real.sin, Real.cos, Real.sqrt, Real.pi⟩ 90)
        (vec5 0 100 0 100 0) (some (vec5 0 100 0 90.001 0)) envelope_y).1
      (rtcp_apply_travel_limits axes5 (⟨Real.sin, Real.cos, Real.sqrt, Real.pi⟩ : Libm ℝ) 0
        sys_y none (sample_module ⟨Real.sin, Real.cos, Real.sqrt, Real.pi⟩ 90)
        (vec5 0 100 0 100 0) (some (vec5 0 100 0 90.001 0)) envelope_y).2
      sys_y.soft_limits true envelope_y).2 = false := by
  obtain ⟨htol1, htol2⟩ := default_tol_bounds
  have hhomed : sys_y.homed_mask ≠ 0 := by decide
  -- the position in the entry statics
  obtain ⟨_, p2⟩ := check_in_sample_module 90 90.001 (vec5 0 100 0 90.001 0) (fun _ _ => rfl)
    (by norm_num) (by rw [abs_of_pos (by norm_num)]; norm_num)
  have hd1 : ¬ ((0.01:ℝ) / 500 * (180 / Real.pi) < |(90.001:ℝ) - 90|) := by
    rw [show (90.001:ℝ) - 90 = 0.001 by norm_num, abs_of_pos (by norm_num)]
    exact not_lt.mpr htol1.le
  rw [if_neg hd1, cos_deg_90] at p2
  have hpos := p2.mpr (by norm_num)
  -- the destination in the entry statics
  obtain ⟨t1, t2⟩ := check_in_sample_module 90 100 (vec5 0 100 0 100 0) (fun _ _ => rfl)
    (by norm_num) (by norm_num)
  have hd2 : (0.01:ℝ) / 500 * (180 / Real.pi) < |(100:ℝ) - 90| := by
    rw [show (100:ℝ) - 90 = 10 by norm_num, abs_of_pos (by norm_num)]
    linarith
  rw [if_pos hd2] at t1 t2
  have htgt : (rtcp_check_travel_limits axes5 (⟨Real.sin, Real.cos, Real.sqrt, Real.pi⟩ : Libm ℝ)
      0 sys_y none (sample_module ⟨Real.sin, Real.cos, Real.sqrt, Real.pi⟩ 90)
      (vec5 0 100 0 100 0) sys_y.soft_limits true envelope_y).2 = false := by
    cases hb : (rtcp_check_travel_limits axes5 (⟨Real.sin, Real.cos, Real.sqrt, Real.pi⟩ : Libm ℝ)
      0 sys_y none (sample_module ⟨Real.sin, Real.cos, Real.sqrt, Real.pi⟩ 90)
      (vec5 0 100 0 100 0) sys_y.soft_limits true envelope_y).2
    · rfl
    · have := (t2.mp hb).1
      have := cos_deg_past_90 100 (by norm_num) (by norm_num)
      linarith
  refine ⟨hhomed, hpos, htgt, ?_⟩
  -- the bisection
  obtain ⟨s, hres, hQs, k, hk, hst, hen, hbe, hT, hF⟩ :=
    rtcp_apply_travel_limits_inv axes5 (⟨Real.sin, Real.cos, Real.sqrt, Real.pi⟩ : Libm ℝ) 0
      sys_y none envelope_y
      (fun m' => ∃ a, (90.001 ≤ a ∧ a ≤ 100) ∧
        m' = sample_module (⟨Real.sin, Real.cos, Real.sqrt, Real.pi⟩ : Libm ℝ) a)
      (sample_module ⟨Real.sin, Real.cos, Real.sqrt, Real.pi⟩ 90)
      (vec5 0 100 0 100 0) (vec5 0 100 0 90.001 0) hhomed htgt
      (fun m' P hm' hseg => by
        obtain ⟨a, ha, rfl⟩ := hm'
        obtain ⟨A, hA1, hA2, hP⟩ := on_seg_shape 90.001 100 P (by norm_num) hseg
        exact (check_fails_past_90 a A P hP ha ⟨hA1, hA2⟩).2)
      ⟨100, ⟨by norm_num, by norm_num⟩, t1⟩
  have hk0 : k = 0 := by
    rcases hT with hT | ⟨m', P, ⟨a, ha, rfl⟩, hP, hr⟩
    · exact hT
    · exfalso
      have hseg : OnSeg axes5 (vec5 0 100 0 90.001 0) (vec5 0 100 0 100 0) P := by
        refine ⟨(k : ℝ) / 2 ^ 16, by positivity, ?_, fun i hi => ?_⟩
        · rw [div_le_one (by positivity)]
          exact_mod_cast hk.le
        · rw [hP i hi, hbe i hi, hst i hi]
      obtain ⟨A, hA1, hA2, hP'⟩ := on_seg_shape 90.001 100 P (by norm_num) hseg
      have := (check_fails_past_90 a A P hP' ha ⟨hA1, hA2⟩).1
      rw [this] at hr
      exact absurd hr (by decide)
  obtain ⟨a, ha, hsm⟩ := hQs
  rw [hres, hsm]
  refine (check_fails_past_90 a 90.001 _ (fun i hi => ?_) ha ⟨le_refl _, by norm_num⟩).1
  have hi' : i < axes5.N_AXIS := hi
  simp only [memcpy, if_pos hi']
  rw [hbe i hi', hst i hi', hk0]
  simp

/-- C12, counterexample.  Default geometry, RTCP on, no tool offset, only Y homed and limited
to `[-0.001, 200]`, no native check, and the cache holding the sample `(90.001, 0)`.  The
position `(0, 100, 0, 80, 0)` passes the check; the destination `(0, 100, 0, 90.0005, 0)`
fails it, because the cached cosine of 90.001 degrees is used.  All 16 midpoints pass, so
the result is the point at `t = 65535 / 65536`; the point at `t + 2^-16` is the destination,
and in the statics the clip leaves (a sample of at most 90.0005 degrees) the check of it
returns `true`. -/
theorem C12_counterexample :
    sys_y.homed_mask ≠ 0 ∧
    (rtcp_check_travel_limits axes5 (⟨Real.sin, Real.cos, Real.sqrt, Real.pi⟩ : Libm ℝ) 0
      sys_y none (sample_module ⟨Real.sin, Real.cos, Real.sqrt, Real.pi⟩ 90.001)
      (vec5 0 100 0 80 0) sys_y.soft_limits true envelope_y).2 = true ∧
    (rtcp_check_travel_limits axes5 (⟨Real.sin, Real.cos, Real.sqrt, Real.pi⟩ : Libm ℝ) 0
      sys_y none (sample_module ⟨Real.sin, Real.cos, Real.sqrt, Real.pi⟩ 90.001)
      (vec5 0 100 0 90.0005 0) sys_y.soft_limits true envelope_y).2 = false ∧
    (∀ i, i < 5 →
      (rtcp_apply_travel_limits axes5 (⟨Real.sin, Real.cos, Real.sqrt, Real.pi⟩ : Libm ℝ) 0
        sys_y none (sample_module ⟨Real.sin, Real.cos, Real.sqrt, Real.pi⟩ 90.001)
        (vec5 0 100 0 90.0005 0) (some (vec5 0 100 0 80 0)) envelope_y).2 i =
        vec5 0 100 0 80 0 i
          + 65535 / 65536 * (vec5 0 100 0 90.0005 0 i - vec5 (0:ℝ) 100 0 80 0 i)) ∧
    (rtcp_check_travel_limits axes5 (⟨Real.sin, Real.cos, Real.sqrt, Real.pi⟩ : Libm ℝ) 0
      sys_y none
      (rtcp_apply_travel_limits axes5 (⟨Real.sin, Real.cos, Real.sqrt, Real.pi⟩ : Libm ℝ) 0
        sys_y none (sample_module ⟨Real.sin, Real.cos, Real.sqrt, Real.pi⟩ 90.001)
        (vec5 0 100 0 90.0005 0) (some (vec5 0 100 0 80 0)) envelope_y).1
      (fun i => vec5 0 100 0 80 0 i
        + (65535 / 65536 + 1 / 65536) * (vec5 0 100 0 90.0005 0 i - vec5 (0:ℝ) 100 0 80 0 i))
      sys_y.soft_limits true envelope_y).2 = true := by
  obtain ⟨htol1, htol2⟩ := default_tol_bounds
  have hhomed : sys_y.homed_mask ≠ 0 := by decide
  -- the position in the entry statics
  obtain ⟨_, p2⟩ := check_in_sample_module 90.001 80 (vec5 0 100 0 80 0) (fun _ _ => rfl)
    (by rw [abs_of_pos (by norm_num)]; norm_num) (by norm_num)
  have hpos := p2.mpr (by
    split_ifs
    · exact cos_deg_upto_90 80 (by norm_num) (by norm_num)
    · exfalso
      rename_i h
      apply h
      rw [show (80:ℝ) - 90.001 = -10.001 by norm_num, abs_of_neg (by norm_num)]
      linarith)
  -- the destination in the entry statics
  obtain ⟨t1, t2⟩ := check_in_sample_module 90.001 90.0005 (vec5 0 100 0 90.0005 0)
    (fun _ _ => rfl) (by rw [abs_of_pos (by norm_num)]; norm_num)
    (by rw [abs_of_pos (by norm_num)]; norm_num)
  have hd2 : ¬ ((0.01:ℝ) / 500 * (180 / Real.pi) < |(90.0005:ℝ) - 90.001|) := by
    rw [show (90.0005:ℝ) - 90.001 = -0.0005 by norm_num, abs_of_neg (by norm_num)]
    apply not_lt.mpr
    linarith
  rw [if_neg hd2] at t1 t2
  have htgt : (rtcp_check_travel_limits axes5 (⟨Real.sin, Real.cos, Real.sqrt, Real.pi⟩ : Libm ℝ)
      0 sys_y none (sample_module ⟨Real.sin, Real.cos, Real.sqrt, Real.pi⟩ 90.001)
      (vec5 0 100 0 90.0005 0) sys_y.soft_limits true envelope_y).2 = false := by
    cases hb : (rtcp_check_travel_limits axes5 (⟨Real.sin, Real.cos, Real.sqrt, Real.pi⟩ : Libm ℝ)
      0 sys_y none (sample_module ⟨Real.sin, Real.cos, Real.sqrt, Real.pi⟩ 90.001)
      (vec5 0 100 0 90.0005 0) sys_y.soft_limits true envelope_y).2
    · rfl
    · have := (t2.mp hb).1
      have := cos_deg_past_90 90.001 (by norm_num) (by norm_num)
      linarith
  refine ⟨hhomed, hpos, htgt, ?_⟩
  -- the first pass of the bisection
  rw [rtcp_apply_travel_limits_eq axes5 _ 0 sys_y none envelope_y _ _ _ hhomed htgt, t1]
  obtain ⟨s0, hs0⟩ : ∃ s0 : bisect_state ℝ, s0 =
      { m := sample_module ⟨Real.sin, Real.cos, Real.sqrt, Real.pi⟩ 90.001,
        start := memcpy axes5.N_AXIS (fun _ => 0) (vec5 0 100 0 80 0),
        end_ := memcpy axes5.N_AXIS (fun _ => 0) (vec5 0 100 0 90.0005 0),
        mid := fun _ => 0,
        best := memcpy axes5.N_AXIS (fun _ => 0)
          (memcpy axes5.N_AXIS (fun _ => 0) (vec5 0 100 0 80 0)) } := ⟨_, rfl⟩
  rw [← hs0]
  obtain ⟨mid, hmid_def⟩ : ∃ mid, mid =
      fill_down (fun i => 0.5 * (s0.start i + s0.end_ i)) axes5.N_AXIS s0.mid := ⟨_, rfl⟩
  have hmid : ∀ i, i < 5 → mid i = vec5 0 100 0 85.00025 0 i := by
    intro i hi
    have hi' : i < axes5.N_AXIS := hi
    rw [hmid_def, fill_down_apply, if_pos hi', hs0]
    simp only [memcpy, if_pos hi']
    interval_cases i <;> norm_num [vec5]
  obtain ⟨c1, c2⟩ := check_in_sample_module 90.001 85.00025 mid hmid
    (by rw [abs_of_pos (by norm_num)]; norm_num) (by rw [abs_of_pos (by norm_num)]; norm_num)
  have hd3 : (0.01:ℝ) / 500 * (180 / Real.pi) < |(85.00025:ℝ) - 90.001| := by
    rw [show (85.00025:ℝ) - 90.001 = -5.00075 by norm_num, abs_of_neg (by norm_num)]
    linarith
  rw [if_pos hd3] at c1 c2
  have hr := c2.mpr (cos_deg_upto_90 85.00025 (by norm_num) (by norm_num))
  have hm0 : s0.m = sample_module ⟨Real.sin, Real.cos, Real.sqrt, Real.pi⟩ 90.001 := by
    rw [hs0]
  have e1 : bisection_step axes5 (⟨Real.sin, Real.cos, Real.sqrt, Real.pi⟩ : Libm ℝ) 0 sys_y none
      envelope_y s0 =
      { m := sample_module ⟨Real.sin, Real.cos, Real.sqrt, Real.pi⟩ 85.00025,
        start := memcpy axes5.N_AXIS s0.start mid, end_ := s0.end_, mid := mid,
        best := memcpy axes5.N_AXIS s0.best mid } := by
    have hr' := hr
    rw [← hm0] at hr' c1
    simp only [bisection_step, ← hmid_def, if_pos hr', c1]
  have hb1 : BInv axes5 (⟨Real.sin, Real.cos, Real.sqrt, Real.pi⟩ : Libm ℝ) 0 sys_y none
      envelope_y
      (fun m' => ∃ a, (80 ≤ a ∧ a ≤ 90.0005) ∧
        m' = sample_module (⟨Real.sin, Real.cos, Real.sqrt, Real.pi⟩ : Libm ℝ) a)
      (vec5 0 100 0 80 0) (vec5 0 100 0 90.0005 0) 1
      (bisection_step axes5 (⟨Real.sin, Real.cos, Real.sqrt, Real.pi⟩ : Libm ℝ) 0 sys_y none
        envelope_y s0) := by
    rw [e1]
    refine ⟨⟨85.00025, ⟨by norm_num, by norm_num⟩, rfl⟩, 1, by norm_num, ?_, ?_, ?_,
      Or.inr ⟨sample_module ⟨Real.sin, Real.cos, Real.sqrt, Real.pi⟩ 85.00025, mid,
        ⟨85.00025, ⟨by norm_num, by norm_num⟩, rfl⟩, ?_, ?_⟩, Or.inl (by norm_num)⟩
    · intro i hi
      have hi5 : i < 5 := hi
      simp only [memcpy, if_pos hi]
      rw [hmid i hi5]
      interval_cases i <;> norm_num [vec5]
    · intro i hi
      have hi5 : i < 5 := hi
      rw [hs0]
      simp only [memcpy, if_pos hi]
      interval_cases i <;> norm_num [vec5]
    · intro i hi
      simp only [memcpy, if_pos hi]
    · intro i hi
      simp only [memcpy, if_pos hi]
    · exact (check_passes_upto_90 85.00025 85.00025 mid hmid ⟨by norm_num, by norm_num⟩
        ⟨by norm_num, by norm_num⟩).1
  -- the remaining passes
  obtain ⟨hQs, k, hk, hst, hen, hbe, hT, hF⟩ :=
    bisection_loop_inv axes5 (⟨Real.sin, Real.cos, Real.sqrt, Real.pi⟩ : Libm ℝ) 0
      sys_y none envelope_y
      (fun m' => ∃ a, (80 ≤ a ∧ a ≤ 90.0005) ∧
        m' = sample_module (⟨Real.sin, Real.cos, Real.sqrt, Real.pi⟩ : Libm ℝ) a)
      (vec5 0 100 0 80 0) (vec5 0 100 0 90.0005 0)
      (fun m' P hm' hseg => by
        obtain ⟨a, ha, rfl⟩ := hm'
        obtain ⟨A, hA1, hA2, hP⟩ := on_seg_shape 80 90.0005 P (by norm_num) hseg
        exact (check_passes_upto_90 a A P hP ha ⟨hA1, hA2⟩).2)
      15 1 _ hb1
  have hloop : bisection_loop axes5 (⟨Real.sin, Real.cos, Real.sqrt, Real.pi⟩ : Libm ℝ) 0 sys_y
      none envelope_y 16 s0 =
      bisection_loop axes5 (⟨Real.sin, Real.cos, Real.sqrt, Real.pi⟩ : Libm ℝ) 0 sys_y
      none envelope_y 15 (bisection_step axes5 (⟨Real.sin, Real.cos, Real.sqrt, Real.pi⟩ : Libm ℝ)
        0 sys_y none envelope_y s0) := by
    rw [bisection_loop]
  rw [hloop]
  have hk1 : k + 1 = 2 ^ 16 := by
    rcases hF with hF | ⟨m', P, ⟨a, ha, rfl⟩, hP, hr2⟩
    · exact hF
    · exfalso
      have hseg : OnSeg axes5 (vec5 0 100 0 80 0) (vec5 0 100 0 90.0005 0) P := by
        refine ⟨((k : ℝ) + 1) / 2 ^ 16, by positivity, ?_, fun i hi => ?_⟩
        · rw [div_le_one (by positivity)]
          have : k + 1 ≤ 2 ^ 16 := hk
          exact_mod_cast this
        · rw [hP i hi, hen i hi]
      obtain ⟨A, hA1, hA2, hP'⟩ := on_seg_shape 80 90.0005 P (by norm_num) hseg
      have := (check_passes_upto_90 a A P hP' ha ⟨hA1, hA2⟩).1
      rw [this] at hr2
      exact absurd hr2 (by decide)
  have hk2 : (k : ℝ) = 65535 := by
    have : k = 65535 := by omega
    rw [this]
    norm_num
  obtain ⟨a, ha, hsm⟩ := hQs
  constructor
  · intro i hi
    have hi' : i < axes5.N_AXIS := hi
    simp only [memcpy, if_pos hi']
    rw [hbe i hi', hst i hi', hk2]
    norm_num
  · simp only [hsm]
    refine (check_passes_upto_90 a 90.0005 _ (fun i hi => ?_) ha ⟨by norm_num, le_refl _⟩).1
    interval_cases i <;> norm_num [vec5]

/-- C11, witness: default geometry, RTCP on, only X homed and limited to `[-5, 5]`; the jog
from `(0, 0, 0, 0, 0)` towards `(10, 0, 0, 0, 0)` is clipped to a point that passes the
check in the statics the clip leaves. -/
theorem C11_bisection_clip_valid_witness :
    sys_x.homed_mask ≠ 0 ∧
    (rtcp_check_travel_limits axes5 (⟨Real.sin, Real.cos, Real.sqrt, Real.pi⟩ : Libm ℝ) 0
      sys_x none (module_on ⟨Real.sin, Real.cos, Real.sqrt, Real.pi⟩) (vec5 0 0 0 0 0)
      sys_x.soft_limits true envelope_x).2 = true ∧
    (rtcp_check_travel_limits axes5 (⟨Real.sin, Real.cos, Real.sqrt, Real.pi⟩ : Libm ℝ) 0
      sys_x none (module_on ⟨Real.sin, Real.cos, Real.sqrt, Real.pi⟩) (vec5 10 0 0 0 0)
      sys_x.soft_limits true envelope_x).2 = false ∧
    (rtcp_check_travel_limits axes5 (⟨Real.sin, Real.cos, Real.sqrt, Real.pi⟩ : Libm ℝ) 0
      sys_x none
      (rtcp_apply_travel_limits axes5 (⟨Real.sin, Real.cos, Real.sqrt, Real.pi⟩ : Libm ℝ) 0
        sys_x none (module_on ⟨Real.sin, Real.cos, Real.sqrt, Real.pi⟩)
        (vec5 10 0 0 0 0) (some (vec5 0 0 0 0 0)) envelope_x).1
      (rtcp_apply_travel_limits axes5 (⟨Real.sin, Real.cos, Real.sqrt, Real.pi⟩ : Libm ℝ) 0
        sys_x none (module_on ⟨Real.sin, Real.cos, Real.sqrt, Real.pi⟩)
        (vec5 10 0 0 0 0) (some (vec5 0 0 0 0 0)) envelope_x).2
      sys_x.soft_limits true envelope_x).2 = true := by
  have hhomed : sys_x.homed_mask ≠ 0 := by decide
  have hpos := (check_jog_x (module_on ⟨Real.sin, Real.cos, Real.sqrt, Real.pi⟩) rfl
    (vec5 0 0 0 0 0) 0 (fun _ _ => rfl)).mpr ⟨by norm_num, by norm_num⟩
  have htgt : (rtcp_check_travel_limits axes5 (⟨Real.sin, Real.cos, Real.sqrt, Real.pi⟩ : Libm ℝ)
      0 sys_x none (module_on ⟨Real.sin, Real.cos, Real.sqrt, Real.pi⟩) (vec5 10 0 0 0 0)
      sys_x.soft_limits true envelope_x).2 = false := by
    cases hb : (rtcp_check_travel_limits axes5 (⟨Real.sin, Real.cos, Real.sqrt, Real.pi⟩ : Libm ℝ)
      0 sys_x none (module_on ⟨Real.sin, Real.cos, Real.sqrt, Real.pi⟩) (vec5 10 0 0 0 0)
      sys_x.soft_limits true envelope_x).2
    · rfl
    · have := ((check_jog_x (module_on ⟨Real.sin, Real.cos, Real.sqrt, Real.pi⟩) rfl
        (vec5 10 0 0 0 0) 10 (fun _ _ => rfl)).mp hb).2
      norm_num at this
  exact ⟨hhomed, hpos, htgt,
    ((C11_bisection_clip_valid axes5 (⟨Real.sin, Real.cos, Real.sqrt, Real.pi⟩ : Libm ℝ) 0
      sys_x none envelope_x (module_on ⟨Real.sin, Real.cos, Real.sqrt, Real.pi⟩)
      (vec5 10 0 0 0 0) (vec5 0 0 0 0 0) hhomed (fun f hf => by cases hf) hpos htgt).2
      (Or.inr ⟨rfl, rfl⟩)).1⟩

/-- C12, witness: the jog of the witness of C11 from a position one step further in; the
result is the point at some `t = k / 2^16`, and in the statics the clip leaves the point at
`t + 2^-16` fails the check. -/
theorem C12_bisection_clip_precision_witness :
    sys_x.homed_mask ≠ 0 ∧
    (rtcp_check_travel_limits axes5 (⟨Real.sin, Real.cos, Real.sqrt, Real.pi⟩ : Libm ℝ) 0
      sys_x none (module_on ⟨Real.sin, Real.cos, Real.sqrt, Real.pi⟩) (vec5 1 0 0 0 0)
      sys_x.soft_limits true envelope_x).2 = true ∧
    (rtcp_check_travel_limits axes5 (⟨Real.sin, Real.cos, Real.sqrt, Real.pi⟩ : Libm ℝ) 0
      sys_x none (module_on ⟨Real.sin, Real.cos, Real.sqrt, Real.pi⟩) (vec5 10 0 0 0 0)
      sys_x.soft_limits true envelope_x).2 = false ∧
    ∃ k : Nat, k < 2 ^ 16 ∧
      (∀ i, i < 5 →
        (rtcp_apply_travel_limits axes5 (⟨Real.sin, Real.cos, Real.sqrt, Real.pi⟩ : Libm ℝ) 0
          sys_x none (module_on ⟨Real.sin, Real.cos, Real.sqrt, Real.pi⟩)
          (vec5 10 0 0 0 0) (some (vec5 1 0 0 0 0)) envelope_x).2 i
          = vec5 1 0 0 0 0 i + (k : ℝ) / 2 ^ 16 * (vec5 10 0 0 0 0 i - vec5 1 0 0 0 0 i)) ∧
      (rtcp_check_travel_limits axes5 (⟨Real.sin, Real.cos, Real.sqrt, Real.pi⟩ : Libm ℝ) 0
        sys_x none
        (rtcp_apply_travel_limits axes5 (⟨Real.sin, Real.cos, Real.sqrt, Real.pi⟩ : Libm ℝ) 0
          sys_x none (module_on ⟨Real.sin, Real.cos, Real.sqrt, Real.pi⟩)
          (vec5 10 0 0 0 0) (some (vec5 1 0 0 0 0)) envelope_x).1
        (fun i => vec5 1 0 0 0 0 i
          + ((k : ℝ) + 1) / 2 ^ 16 * (vec5 10 0 0 0 0 i - vec5 1 0 0 0 0 i))
        sys_x.soft_limits true envelope_x).2 = false := by
  have hhomed : sys_x.homed_mask ≠ 0 := by decide
  have hpos := (check_jog_x (module_on ⟨Real.sin, Real.cos, Real.sqrt, Real.pi⟩) rfl
    (vec5 1 0 0 0 0) 1 (fun _ _ => rfl)).mpr ⟨by norm_num, by norm_num⟩
  have htgt : (rtcp_check_travel_limits axes5 (⟨Real.sin, Real.cos, Real.sqrt, Real.pi⟩ : Libm ℝ)
      0 sys_x none (module_on ⟨Real.sin, Real.cos, Real.sqrt, Real.pi⟩) (vec5 10 0 0 0 0)
      sys_x.soft_limits true envelope_x).2 = false := by
    cases hb : (rtcp_check_travel_limits axes5 (⟨Real.sin, Real.cos, Real.sqrt, Real.pi⟩ : Libm ℝ)
      0 sys_x none (module_on ⟨Real.sin, Real.cos, Real.sqrt, Real.pi⟩) (vec5 10 0 0 0 0)
      sys_x.soft_limits true envelope_x).2
    · rfl
    · have := ((check_jog_x (module_on ⟨Real.sin, Real.cos, Real.sqrt, Real.pi⟩) rfl
        (vec5 10 0 0 0 0) 10 (fun _ _ => rfl)).mp hb).2
      norm_num at this
  obtain ⟨k, hk, hres, _, hst⟩ := C12_bisection_clip_precision axes5
    (⟨Real.sin, Real.cos, Real.sqrt, Real.pi⟩ : Libm ℝ) 0 sys_x none envelope_x
    (module_on ⟨Real.sin, Real.cos, Real.sqrt, Real.pi⟩) (vec5 10 0 0 0 0) (vec5 1 0 0 0 0)
    hhomed (fun f hf => by cases hf) hpos htgt
  exact ⟨hhomed, hpos, htgt, k, hk, hres, (hst (Or.inr ⟨rfl, rfl⟩)).1⟩

/-- C13 (validity check, RTCP on).  With RTCP on, `rtcp_check_travel_limits` returns `true`
exactly when (i) on every axis that is homed and in the mask the joint value lies between
`min` and `max`, the joint point being the inverse transform of the target for a Cartesian
target and the target itself otherwise, and (ii) for a Cartesian target, the native check,
when one is installed, accepts the target.  In particular a joint-frame point inside the
envelope is accepted. -/
theorem C13_check_travel_limits_on (ax : Axes) (L : Libm α) (tlo_z : α) (sys : system_t)
    (orig : Option (check_travel_limits_ptr α)) (m : Module α) (target : Vec α) (axes : Nat)
    (is_cartesian : Bool) (envelope : work_envelope_t α) (hon : m.rtcp_enabled = true) :
    ((rtcp_check_travel_limits ax L tlo_z sys orig m target axes is_cartesian envelope).2 = true ↔
      (∀ i, i < ax.N_AXIS → bit_istrue sys.homed_mask (bit i) = true →
        bit_istrue axes (bit i) = true →
        envelope.min i ≤ (if is_cartesian = true then
            (transform_from_cartesian ax L tlo_z m.rtcp (fun _ => 0) target).2 else target) i ∧
        (if is_cartesian = true then
            (transform_from_cartesian ax L tlo_z m.rtcp (fun _ => 0) target).2 else target) i
          ≤ envelope.max i) ∧
      (is_cartesian = true → ∀ f, orig = some f → f target axes true envelope = true)) ∧
    (is_cartesian = false → (∀ i, i < ax.N_AXIS → envelope.min i ≤ target i ∧
        target i ≤ envelope.max i) →
      (rtcp_check_travel_limits ax L tlo_z sys orig m target axes is_cartesian envelope).2
        = true) := by
  have key := rtcp_check_travel_limits_on ax L tlo_z sys orig m target axes is_cartesian envelope
    hon (if is_cartesian = true then
      (transform_from_cartesian ax L tlo_z m.rtcp (fun _ => 0) target).2 else target)
    (fun i _ => by cases is_cartesian <;> simp)
  refine ⟨key, ?_⟩
  intro hic hin
  rw [key]
  refine ⟨fun i hi _ _ => ?_, fun h => ?_⟩
  · rw [hic]
    simpa using hin i hi
  · rw [hic] at h
    exact absurd h (by decide)

/-- C13, witness: default geometry, RTCP on, only X homed and limited to `[-5, 5]`; the
joint-frame point `(3, 0, 0, 0, 0)` is accepted. -/
theorem C13_check_travel_limits_on_witness :
    (module_on (⟨Real.sin, Real.cos, Real.sqrt, Real.pi⟩ : Libm ℝ)).rtcp_enabled = true ∧
    (rtcp_check_travel_limits axes5 (⟨Real.sin, Real.cos, Real.sqrt, Real.pi⟩ : Libm ℝ) 0
      sys_x none (module_on ⟨Real.sin, Real.cos, Real.sqrt, Real.pi⟩) (vec5 3 0 0 0 0)
      sys_x.soft_limits false envelope_x).2 = true := by
  refine ⟨rfl, ?_⟩
  rw [(C13_check_travel_limits_on axes5 (⟨Real.sin, Real.cos, Real.sqrt, Real.pi⟩ : Libm ℝ) 0
    sys_x none (module_on ⟨Real.sin, Real.cos, Real.sqrt, Real.pi⟩) (vec5 3 0 0 0 0)
    sys_x.soft_limits false envelope_x rfl).1]
  refine ⟨fun i hi hb1 _ => ?_, fun h => absurd h (by decide)⟩
  have hi5 : i < 5 := hi
  interval_cases i
  · norm_num [envelope_x, vec5]
  · exact absurd hb1 (by decide)
  · exact absurd hb1 (by decide)
  · exact absurd hb1 (by decide)
  · exact absurd hb1 (by decide)

/-- C14 (cache transparency).  After any sequence of inverse transforms started with a
consistent cache and a tolerance that is not negative, for every `P` outside the fast
path the inverse transform equals the uncached formula of the spec evaluated with the
sines and cosines of some angles `(a', c')` within `trig_cache_tol` of `P`'s `A` and `C`;
it equals the uncached formula at `P`'s own angles whenever the cache is invalid or either
angle drifted by more than the tolerance since the cached sample. -/
theorem C14_cache_transparency (ax : Axes) (L : Libm α) (rtcp0 : rtcp_state_t α)
    (calls : List (inverse_call α)) (tlo_z : α) (target P : Vec α)
    (hinv : CacheInv L rtcp0) (htol : 0 ≤ rtcp0.trig_cache_tol)
    (hout : ¬ (|P ax.A_AXIS| < 0.001 ∧ |P ax.C_AXIS| < 0.001)) :
    (∃ a' c', |a' - P ax.A_AXIS| ≤ (run_inverse_calls ax L rtcp0 calls).trig_cache_tol ∧
      |c' - P ax.C_AXIS| ≤ (run_inverse_calls ax L rtcp0 calls).trig_cache_tol ∧
      ∀ i, i < ax.N_AXIS →
        (transform_from_cartesian ax L tlo_z (run_inverse_calls ax L rtcp0 calls) target P).2 i
          = spec_uncached_inverse L (run_inverse_calls ax L rtcp0 calls).cfg tlo_z a' c' P i) ∧
    (((run_inverse_calls ax L rtcp0 calls).cache_valid = false ∨
        |P ax.A_AXIS - (run_inverse_calls ax L rtcp0 calls).last_a|
          > (run_inverse_calls ax L rtcp0 calls).trig_cache_tol ∨
        |P ax.C_AXIS - (run_inverse_calls ax L rtcp0 calls).last_c|
          > (run_inverse_calls ax L rtcp0 calls).trig_cache_tol) →
      ∀ i, i < ax.N_AXIS →
        (transform_from_cartesian ax L tlo_z (run_inverse_calls ax L rtcp0 calls) target P).2 i
          = spec_uncached_inverse L (run_inverse_calls ax L rtcp0 calls).cfg tlo_z
              (P ax.A_AXIS) (P ax.C_AXIS) P i) := by
  obtain ⟨hinv', htol', _⟩ := run_inverse_calls_inv ax L calls rtcp0 hinv
  generalize run_inverse_calls ax L rtcp0 calls = rtcp at hinv' htol' ⊢
  have htol2 : 0 ≤ rtcp.trig_cache_tol := by
    rw [htol']
    exact htol
  have hfresh : (rtcp.cache_valid = false ∨
      |P ax.A_AXIS - rtcp.last_a| > rtcp.trig_cache_tol ∨
      |P ax.C_AXIS - rtcp.last_c| > rtcp.trig_cache_tol) →
      ∀ i, i < ax.N_AXIS →
        (transform_from_cartesian ax L tlo_z rtcp target P).2 i
          = spec_uncached_inverse L rtcp.cfg tlo_z (P ax.A_AXIS) (P ax.C_AXIS) P i := by
    intro hc
    refine transform_from_cartesian_spec ax L tlo_z rtcp target P _ _ hout ?_
    unfold update_trig_cache
    rw [if_pos hc]
    exact ⟨rfl, rfl, rfl, rfl⟩
  refine ⟨?_, hfresh⟩
  by_cases hc : rtcp.cache_valid = false ∨
      |P ax.A_AXIS - rtcp.last_a| > rtcp.trig_cache_tol ∨
      |P ax.C_AXIS - rtcp.last_c| > rtcp.trig_cache_tol
  · refine ⟨P ax.A_AXIS, P ax.C_AXIS, ?_, ?_, hfresh hc⟩
    · rw [sub_self, abs_zero]
      exact htol2
    · rw [sub_self, abs_zero]
      exact htol2
  · have hv : rtcp.cache_valid = true := by
      cases h : rtcp.cache_valid
      · exact absurd (Or.inl h) hc
      · rfl
    have ha : |rtcp.last_a - P ax.A_AXIS| ≤ rtcp.trig_cache_tol := by
      rw [abs_sub_comm]
      exact not_lt.mp (fun h => hc (Or.inr (Or.inl h)))
    have hcc : |rtcp.last_c - P ax.C_AXIS| ≤ rtcp.trig_cache_tol := by
      rw [abs_sub_comm]
      exact not_lt.mp (fun h => hc (Or.inr (Or.inr h)))
    refine ⟨rtcp.last_a, rtcp.last_c, ha, hcc, ?_⟩
    refine transform_from_cartesian_spec ax L tlo_z rtcp target P _ _ hout ?_
    have e : update_trig_cache L rtcp (P ax.A_AXIS) (P ax.C_AXIS) = rtcp := by
      unfold update_trig_cache
      rw [if_neg hc]
    rw [e]
    exact hinv' hv

/-- C14, witness: scenario geometry, RTCP switched on by M451 (cache invalid), one inverse
transform at `A = 45`, then the inverse transform of `(100, 100, 100, 90, 0)` with tool
offset 50. -/
theorem C14_cache_transparency_witness :
    CacheInv (⟨Real.sin, Real.cos, Real.sqrt, Real.pi⟩ : Libm ℝ)
      (scenario_module_on ⟨Real.sin, Real.cos, Real.sqrt, Real.pi⟩).rtcp ∧
    0 ≤ (scenario_module_on (⟨Real.sin, Real.cos, Real.sqrt, Real.pi⟩ : Libm ℝ)).rtcp.trig_cache_tol ∧
    ¬ (|vec5 (100 : ℝ) 100 100 90 0 axes5.A_AXIS| < 0.001 ∧
      |vec5 (100 : ℝ) 100 100 90 0 axes5.C_AXIS| < 0.001) ∧
    ∃ a' c',
      |a' - 90| ≤ (run_inverse_calls axes5 (⟨Real.sin, Real.cos, Real.sqrt, Real.pi⟩ : Libm ℝ)
        (scenario_module_on ⟨Real.sin, Real.cos, Real.sqrt, Real.pi⟩).rtcp
        [⟨50, fun _ => 0, vec5 100 100 100 45 0⟩]).trig_cache_tol ∧
      |c' - 0| ≤ (run_inverse_calls axes5 (⟨Real.sin, Real.cos, Real.sqrt, Real.pi⟩ : Libm ℝ)
        (scenario_module_on ⟨Real.sin, Real.cos, Real.sqrt, Real.pi⟩).rtcp
        [⟨50, fun _ => 0, vec5 100 100 100 45 0⟩]).trig_cache_tol ∧
      ∀ i, i < 5 →
        (transform_from_cartesian axes5 (⟨Real.sin, Real.cos, Real.sqrt, Real.pi⟩ : Libm ℝ) 50
          (run_inverse_calls axes5 (⟨Real.sin, Real.cos, Real.sqrt, Real.pi⟩ : Libm ℝ)
            (scenario_module_on ⟨Real.sin, Real.cos, Real.sqrt, Real.pi⟩).rtcp
            [⟨50, fun _ => 0, vec5 100 100 100 45 0⟩])
          (fun _ => 0) (vec5 100 100 100 90 0)).2 i
          = spec_uncached_inverse (⟨Real.sin, Real.cos, Real.sqrt, Real.pi⟩ : Libm ℝ)
              (run_inverse_calls axes5 (⟨Real.sin, Real.cos, Real.sqrt, Real.pi⟩ : Libm ℝ)
                (scenario_module_on ⟨Real.sin, Real.cos, Real.sqrt, Real.pi⟩).rtcp
                [⟨50, fun _ => 0, vec5 100 100 100 45 0⟩]).cfg
              50 a' c' (vec5 100 100 100 90 0) i := by
  have hcache := scenario_module_on_cache (⟨Real.sin, Real.cos, Real.sqrt, Real.pi⟩ : Libm ℝ)
  have hinv : CacheInv (⟨Real.sin, Real.cos, Real.sqrt, Real.pi⟩ : Libm ℝ)
      (scenario_module_on ⟨Real.sin, Real.cos, Real.sqrt, Real.pi⟩).rtcp :=
    fun h => absurd h (by rw [hcache]; decide)
  have htol : 0 ≤ (scenario_module_on
      (⟨Real.sin, Real.cos, Real.sqrt, Real.pi⟩ : Libm ℝ)).rtcp.trig_cache_tol := by
    rw [scenario_module_on_tol]
    have := Real.pi_pos
    positivity
  have hout : ¬ (|vec5 (100 : ℝ) 100 100 90 0 axes5.A_AXIS| < 0.001 ∧
      |vec5 (100 : ℝ) 100 100 90 0 axes5.C_AXIS| < 0.001) := by
    refine not_and_of_not_left _ (not_lt.mpr ?_)
    simp only [vec5, axes5]
    rw [abs_of_pos (by norm_num)]
    norm_num
  obtain ⟨a', c', h1, h2, h3⟩ := (C14_cache_transparency axes5
    (⟨Real.sin, Real.cos, Real.sqrt, Real.pi⟩ : Libm ℝ)
    (scenario_module_on ⟨Real.sin, Real.cos, Real.sqrt, Real.pi⟩).rtcp
    [⟨50, fun _ => 0, vec5 100 100 100 45 0⟩] 50 (fun _ => 0) (vec5 100 100 100 90 0)
    hinv htol hout).1
  exact ⟨hinv, htol, hout, a', c', h1, h2, h3⟩

/-- C15 (scenario `A = 90`, as amended).  With pivot (100,100,100), axis offsets zero,
tool offset 50 and a cache that is invalid on entry (as M451 leaves it), the inverse
transform of `(100, 100, 100, 90, 0)` is `(100, 200, 150, 90, 0)`. -/
theorem C15_scenario_A90 (rtcp : rtcp_state_t ℝ) (t : Vec ℝ)
    (hcfg : rtcp.cfg = scenario_cfg) (hfresh : rtcp.cache_valid = false) :
    (transform_from_cartesian axes5 (⟨Real.sin, Real.cos, Real.sqrt, Real.pi⟩ : Libm ℝ) 50 rtcp t
      (vec5 100 100 100 90 0)).2 X_AXIS = 100 ∧
    (transform_from_cartesian axes5 (⟨Real.sin, Real.cos, Real.sqrt, Real.pi⟩ : Libm ℝ) 50 rtcp t
      (vec5 100 100 100 90 0)).2 Y_AXIS = 200 ∧
    (transform_from_cartesian axes5 (⟨Real.sin, Real.cos, Real.sqrt, Real.pi⟩ : Libm ℝ) 50 rtcp t
      (vec5 100 100 100 90 0)).2 Z_AXIS = 150 ∧
    (transform_from_cartesian axes5 (⟨Real.sin, Real.cos, Real.sqrt, Real.pi⟩ : Libm ℝ) 50 rtcp t
      (vec5 100 100 100 90 0)).2 3 = 90 ∧
    (transform_from_cartesian axes5 (⟨Real.sin, Real.cos, Real.sqrt, Real.pi⟩ : Libm ℝ) 50 rtcp t
      (vec5 100 100 100 90 0)).2 4 = 0 := by
  obtain ⟨h0, h1, h2, h3, h4⟩ := inverse_at_pivot rtcp t 90 0 hcfg hfresh
    (Or.inl (by rw [abs_of_pos (by norm_num)]; norm_num))
  rw [sin_deg_90] at h1
  rw [cos_deg_90] at h2
  refine ⟨h0, h1.trans (by norm_num), h2.trans (by norm_num), h3, h4⟩

/-- C15, witness: the statics after start-up with the scenario geometry and M451. -/
theorem C15_scenario_A90_witness :
    (scenario_module_on (⟨Real.sin, Real.cos, Real.sqrt, Real.pi⟩ : Libm ℝ)).rtcp.cfg
      = scenario_cfg ∧
    (scenario_module_on (⟨Real.sin, Real.cos, Real.sqrt, Real.pi⟩ : Libm ℝ)).rtcp.cache_valid
      = false ∧
    (transform_from_cartesian axes5 (⟨Real.sin, Real.cos, Real.sqrt, Real.pi⟩ : Libm ℝ) 50
      (scenario_module_on ⟨Real.sin, Real.cos, Real.sqrt, Real.pi⟩).rtcp (fun _ => 0)
      (vec5 100 100 100 90 0)).2 Y_AXIS = 200 :=
  ⟨rfl, rfl, (C15_scenario_A90 (scenario_module_on ⟨Real.sin, Real.cos, Real.sqrt, Real.pi⟩).rtcp
    (fun _ => 0) rfl rfl).2.1⟩

/-- C15, counterexample: in the statics after start-up with the scenario geometry and
M451, with tool offset 50, the inverse transform of `(100, 100, 100, 90, 0)` is not within
1e-3 of `X = 100`, `Y = 150`, `Z = 250`. -/
theorem C15_counterexample :
    ¬ (|(transform_from_cartesian axes5 (⟨Real.sin, Real.cos, Real.sqrt, Real.pi⟩ : Libm ℝ) 50
        (scenario_module_on ⟨Real.sin, Real.cos, Real.sqrt, Real.pi⟩).rtcp (fun _ => 0)
        (vec5 100 100 100 90 0)).2 X_AXIS - 100| ≤ 0.001 ∧
      |(transform_from_cartesian axes5 (⟨Real.sin, Real.cos, Real.sqrt, Real.pi⟩ : Libm ℝ) 50
        (scenario_module_on ⟨Real.sin, Real.cos, Real.sqrt, Real.pi⟩).rtcp (fun _ => 0)
        (vec5 100 100 100 90 0)).2 Y_AXIS - 150| ≤ 0.001 ∧
      |(transform_from_cartesian axes5 (⟨Real.sin, Real.cos, Real.sqrt, Real.pi⟩ : Libm ℝ) 50
        (scenario_module_on ⟨Real.sin, Real.cos, Real.sqrt, Real.pi⟩).rtcp (fun _ => 0)
        (vec5 100 100 100 90 0)).2 Z_AXIS - 250| ≤ 0.001) := by
  obtain ⟨_, h1, _, _, _⟩ := inverse_at_pivot
    (scenario_module_on ⟨Real.sin, Real.cos, Real.sqrt, Real.pi⟩).rtcp (fun _ => 0) 90 0 rfl rfl
    (Or.inl (by rw [abs_of_pos (by norm_num)]; norm_num))
  rw [sin_deg_90] at h1
  rintro ⟨_, hy, _⟩
  rw [h1] at hy
  norm_num [abs_le] at hy

/-- C16 (scenario `A = 45`, as amended).  With pivot (100,100,100), axis offsets zero,
tool offset 50 and a cache that is invalid on entry, the inverse transform of
`(100, 100, 100, 45, 0)` has `X = 100`, `Y = 100 + 50 √2` and `Z = 150 - 50 √2`, that is
`Y = 170.711` and `Z = 79.289` within 1e-3. -/
theorem C16_scenario_A45 (rtcp : rtcp_state_t ℝ) (t : Vec ℝ)
    (hcfg : rtcp.cfg = scenario_cfg) (hfresh : rtcp.cache_valid = false) :
    (transform_from_cartesian axes5 (⟨Real.sin, Real.cos, Real.sqrt, Real.pi⟩ : Libm ℝ) 50 rtcp t
      (vec5 100 100 100 45 0)).2 X_AXIS = 100 ∧
    (transform_from_cartesian axes5 (⟨Real.sin, Real.cos, Real.sqrt, Real.pi⟩ : Libm ℝ) 50 rtcp t
      (vec5 100 100 100 45 0)).2 Y_AXIS = 100 + 50 * Real.sqrt 2 ∧
    (transform_from_cartesian axes5 (⟨Real.sin, Real.cos, Real.sqrt, Real.pi⟩ : Libm ℝ) 50 rtcp t
      (vec5 100 100 100 45 0)).2 Z_AXIS = 150 - 50 * Real.sqrt 2 ∧
    |(transform_from_cartesian axes5 (⟨Real.sin, Real.cos, Real.sqrt, Real.pi⟩ : Libm ℝ) 50 rtcp t
      (vec5 100 100 100 45 0)).2 Y_AXIS - 170.711| ≤ 0.001 ∧
    |(transform_from_cartesian axes5 (⟨Real.sin, Real.cos, Real.sqrt, Real.pi⟩ : Libm ℝ) 50 rtcp t
      (vec5 100 100 100 45 0)).2 Z_AXIS - 79.289| ≤ 0.001 := by
  obtain ⟨h0, h1, h2, _, _⟩ := inverse_at_pivot rtcp t 45 0 hcfg hfresh
    (Or.inl (by rw [abs_of_pos (by norm_num)]; norm_num))
  rw [sin_deg_45] at h1
  rw [cos_deg_45] at h2
  obtain ⟨s1, s2⟩ := sqrt_two_bounds
  have e1 : (100 : ℝ) + 100 * (Real.sqrt 2 / 2) = 100 + 50 * Real.sqrt 2 := by ring
  have e2 : (150 : ℝ) - 100 * (Real.sqrt 2 / 2) = 150 - 50 * Real.sqrt 2 := by ring
  rw [e1] at h1
  rw [e2] at h2
  refine ⟨h0, h1, h2, ?_, ?_⟩
  · rw [h1, abs_le]
    constructor <;> norm_num <;> linarith
  · rw [h2, abs_le]
    constructor <;> norm_num <;> linarith

/-- C16, witness: the statics after start-up with the scenario geometry and M451. -/
theorem C16_scenario_A45_witness :
    (scenario_module_on (⟨Real.sin, Real.cos, Real.sqrt, Real.pi⟩ : Libm ℝ)).rtcp.cfg
      = scenario_cfg ∧
    (scenario_module_on (⟨Real.sin, Real.cos, Real.sqrt, Real.pi⟩ : Libm ℝ)).rtcp.cache_valid
      = false ∧
    |(transform_from_cartesian axes5 (⟨Real.sin, Real.cos, Real.sqrt, Real.pi⟩ : Libm ℝ) 50
      (scenario_module_on ⟨Real.sin, Real.cos, Real.sqrt, Real.pi⟩).rtcp (fun _ => 0)
      (vec5 100 100 100 45 0)).2 Y_AXIS - 170.711| ≤ 0.001 :=
  ⟨rfl, rfl, (C16_scenario_A45 (scenario_module_on ⟨Real.sin, Real.cos, Real.sqrt, Real.pi⟩).rtcp
    (fun _ => 0) rfl rfl).2.2.2.1⟩

/-- C16, counterexample: in the statics after start-up with the scenario geometry and
M451, with tool offset 50, the inverse transform of `(100, 100, 100, 45, 0)` does not have
`Y = 106.066` and `Z = 143.934` within 1e-3. -/
theorem C16_counterexample :
    ¬ ((transform_from_cartesian axes5 (⟨Real.sin, Real.cos, Real.sqrt, Real.pi⟩ : Libm ℝ) 50
        (scenario_module_on ⟨Real.sin, Real.cos, Real.sqrt, Real.pi⟩).rtcp (fun _ => 0)
        (vec5 100 100 100 45 0)).2 X_AXIS = 100 ∧
      |(transform_from_cartesian axes5 (⟨Real.sin, Real.cos, Real.sqrt, Real.pi⟩ : Libm ℝ) 50
        (scenario_module_on ⟨Real.sin, Real.cos, Real.sqrt, Real.pi⟩).rtcp (fun _ => 0)
        (vec5 100 100 100 45 0)).2 Y_AXIS - 106.066| ≤ 0.001 ∧
      |(transform_from_cartesian axes5 (⟨Real.sin, Real.cos, Real.sqrt, Real.pi⟩ : Libm ℝ) 50
        (scenario_module_on ⟨Real.sin, Real.cos, Real.sqrt, Real.pi⟩).rtcp (fun _ => 0)
        (vec5 100 100 100 45 0)).2 Z_AXIS - 143.934| ≤ 0.001) := by
  obtain ⟨_, h1, _, _, _⟩ := inverse_at_pivot
    (scenario_module_on ⟨Real.sin, Real.cos, Real.sqrt, Real.pi⟩).rtcp (fun _ => 0) 45 0 rfl rfl
    (Or.inl (by rw [abs_of_pos (by norm_num)]; norm_num))
  rw [sin_deg_45] at h1
  obtain ⟨s1, _⟩ := sqrt_two_bounds
  rintro ⟨_, hy, _⟩
  rw [h1, abs_le] at hy
  norm_num at hy
  linarith [hy.2]

/-- C17 (scenario `C = 90`, as amended).  With pivot (100,100,100), axis offsets zero,
tool offset 50 and a cache that is invalid on entry, the inverse transform of
`(100, 100, 100, 0, 90)` is `(100, 100, 50, 0, 90)`: X and Y are not translated, and Z is
lowered by the tool offset, as on the whole general path at `A = 0`. -/
theorem C17_scenario_C90 (rtcp : rtcp_state_t ℝ) (t : Vec ℝ)
    (hcfg : rtcp.cfg = scenario_cfg) (hfresh : rtcp.cache_valid = false) :
    (transform_from_cartesian axes5 (⟨Real.sin, Real.cos, Real.sqrt, Real.pi⟩ : Libm ℝ) 50 rtcp t
      (vec5 100 100 100 0 90)).2 X_AXIS = 100 ∧
    (transform_from_cartesian axes5 (⟨Real.sin, Real.cos, Real.sqrt, Real.pi⟩ : Libm ℝ) 50 rtcp t
      (vec5 100 100 100 0 90)).2 Y_AXIS = 100 ∧
    (transform_from_cartesian axes5 (⟨Real.sin, Real.cos, Real.sqrt, Real.pi⟩ : Libm ℝ) 50 rtcp t
      (vec5 100 100 100 0 90)).2 Z_AXIS = 50 ∧
    (transform_from_cartesian axes5 (⟨Real.sin, Real.cos, Real.sqrt, Real.pi⟩ : Libm ℝ) 50 rtcp t
      (vec5 100 100 100 0 90)).2 3 = 0 ∧
    (transform_from_cartesian axes5 (⟨Real.sin, Real.cos, Real.sqrt, Real.pi⟩ : Libm ℝ) 50 rtcp t
      (vec5 100 100 100 0 90)).2 4 = 90 := by
  obtain ⟨h0, h1, h2, h3, h4⟩ := inverse_at_pivot rtcp t 0 90 hcfg hfresh
    (Or.inr (by rw [abs_of_pos (by norm_num)]; norm_num))
  rw [zero_mul, Real.sin_zero] at h1
  rw [zero_mul, Real.cos_zero] at h2
  refine ⟨h0, h1.trans (by norm_num), h2.trans (by norm_num), h3, h4⟩

/-- C17, witness: the statics after start-up with the scenario geometry and M451. -/
theorem C17_scenario_C90_witness :
    (scenario_module_on (⟨Real.sin, Real.cos, Real.sqrt, Real.pi⟩ : Libm ℝ)).rtcp.cfg
      = scenario_cfg ∧
    (scenario_module_on (⟨Real.sin, Real.cos, Real.sqrt, Real.pi⟩ : Libm ℝ)).rtcp.cache_valid
      = false ∧
    (transform_from_cartesian axes5 (⟨Real.sin, Real.cos, Real.sqrt, Real.pi⟩ : Libm ℝ) 50
      (scenario_module_on ⟨Real.sin, Real.cos, Real.sqrt, Real.pi⟩).rtcp (fun _ => 0)
      (vec5 100 100 100 0 90)).2 Z_AXIS = 50 :=
  ⟨rfl, rfl, (C17_scenario_C90 (scenario_module_on ⟨Real.sin, Real.cos, Real.sqrt, Real.pi⟩).rtcp
    (fun _ => 0) rfl rfl).2.2.1⟩

/-- C17, counterexample: in the statics after start-up with the scenario geometry and
M451, with tool offset 50, the inverse transform of `(100, 100, 100, 0, 90)` is not
`(100, 100, 100, 0, 90)`: its `Z` is 50. -/
theorem C17_counterexample :
    ¬ (∀ i, i < 5 →
      (transform_from_cartesian axes5 (⟨Real.sin, Real.cos, Real.sqrt, Real.pi⟩ : Libm ℝ) 50
        (scenario_module_on ⟨Real.sin, Real.cos, Real.sqrt, Real.pi⟩).rtcp (fun _ => 0)
        (vec5 100 100 100 0 90)).2 i = vec5 100 100 100 0 90 i) := by
  obtain ⟨_, _, h2, _, _⟩ := inverse_at_pivot
    (scenario_module_on ⟨Real.sin, Real.cos, Real.sqrt, Real.pi⟩).rtcp (fun _ => 0) 0 90 rfl rfl
    (Or.inr (by rw [abs_of_pos (by norm_num)]; norm_num))
  rw [zero_mul, Real.cos_zero] at h2
  intro h
  have := h 2 (by norm_num)
  rw [show (2 : Nat) = Z_AXIS from rfl, h2] at this
  norm_num [vec5, Z_AXIS] at this

/-- C18 (pass-through).  For every input point, output buffer, geometry, tool offset and
module state, `transform_from_cartesian` and `transform_to_cartesian` copy every axis with
an index above `Z` (below `N_AXIS`: `A`, `C` and any further axis) from the input to the
output; so only X, Y, Z can differ. -/
theorem C18_pass_through (ax : Axes) (L : Libm α) (tlo_z : α) (rtcp : rtcp_state_t α)
    (target P : Vec α) (i : Nat) (h1 : Z_AXIS < i) (h2 : i < ax.N_AXIS) :
    (transform_from_cartesian ax L tlo_z rtcp target P).2 i = P i ∧
    transform_to_cartesian ax L tlo_z rtcp target P i = P i :=
  ⟨transform_from_cartesian_above_Z ax L tlo_z rtcp target P i h1 h2,
    transform_to_cartesian_above_Z ax L tlo_z rtcp target P i h1 h2⟩

/-- C18, witness: the `A` axis of the scenario point `(100, 100, 100, 90, 0)`. -/
theorem C18_pass_through_witness :
    Z_AXIS < 3 ∧ 3 < axes5.N_AXIS ∧
    (transform_from_cartesian axes5 (⟨Real.sin, Real.cos, Real.sqrt, Real.pi⟩ : Libm ℝ) 50
      (scenario_module_on ⟨Real.sin, Real.cos, Real.sqrt, Real.pi⟩).rtcp (fun _ => 0)
      (vec5 100 100 100 90 0)).2 3 = 90 ∧
    transform_to_cartesian axes5 (⟨Real.sin, Real.cos, Real.sqrt, Real.pi⟩ : Libm ℝ) 50
      (scenario_module_on ⟨Real.sin, Real.cos, Real.sqrt, Real.pi⟩).rtcp (fun _ => 0)
      (vec5 100 100 100 90 0) 3 = 90 :=
  ⟨by decide, by decide,
    (C18_pass_through axes5 (⟨Real.sin, Real.cos, Real.sqrt, Real.pi⟩ : Libm ℝ) 50
      (scenario_module_on ⟨Real.sin, Real.cos, Real.sqrt, Real.pi⟩).rtcp (fun _ => 0)
      (vec5 100 100 100 90 0) 3 (by decide) (by decide)).1,
    (C18_pass_through axes5 (⟨Real.sin, Real.cos, Real.sqrt, Real.pi⟩ : Libm ℝ) 50
      (scenario_module_on ⟨Real.sin, Real.cos, Real.sqrt, Real.pi⟩).rtcp (fun _ => 0)
      (vec5 100 100 100 90 0) 3 (by decide) (by decide)).2⟩

/-- C19 (`transform_steps_to_cartesian`).  With non-zero `steps_per_mm` on every axis, let
`mm[i] = steps[i] / steps_per_mm[i]` (so `mm[i] * steps_per_mm[i] = steps[i]`).  With RTCP
on the result is `transform_to_cartesian` of `mm`; with RTCP off it is `mm` itself on every
axis. -/
theorem C19_steps_to_cartesian (ax : Axes) (L : Libm α) (tlo_z : α) (m : Module α)
    (steps_per_mm position : Vec α) (steps : Nat → Int)
    (hspm : ∀ i, i < ax.N_AXIS → steps_per_mm i ≠ 0) :
    (∀ i, i < ax.N_AXIS → (steps i : α) / steps_per_mm i * steps_per_mm i = (steps i : α)) ∧
    (m.rtcp_enabled = true →
      transform_steps_to_cartesian ax L tlo_z m steps_per_mm position steps =
        transform_to_cartesian ax L tlo_z m.rtcp position
          (fun i => (steps i : α) / steps_per_mm i)) ∧
    (m.rtcp_enabled = false → ∀ i, i < ax.N_AXIS →
      transform_steps_to_cartesian ax L tlo_z m steps_per_mm position steps i =
        (steps i : α) / steps_per_mm i) := by
  refine ⟨fun i hi => div_mul_cancel₀ _ (hspm i hi), ?_, ?_⟩
  · intro hon
    have hne : ¬ (m.rtcp_enabled = false) := by simp [hon]
    simp only [transform_steps_to_cartesian, if_neg hne]
    apply transform_to_cartesian_congr
    intro i hi
    rw [fill_down_apply, if_pos hi]
  · intro hoff i hi
    simp only [transform_steps_to_cartesian, if_pos hoff, memcpy, if_pos hi]
    rw [fill_down_apply, if_pos hi]

/-- C19, witness: start-up statics (RTCP off), 800 steps per mm on every axis, and the step
counters `(800, 1600, 2400, 0, 0)`: the X position reported is 1 mm. -/
theorem C19_steps_to_cartesian_witness :
    (∀ i, i < axes5.N_AXIS → (fun _ => (800 : ℝ)) i ≠ 0) ∧
    transform_steps_to_cartesian axes5 (⟨Real.sin, Real.cos, Real.sqrt, Real.pi⟩ : Libm ℝ) 0
      module_boot (fun _ => 800) (fun _ => 0)
      (fun i => match i with | 0 => 800 | 1 => 1600 | 2 => 2400 | _ => 0) 0 = 1 := by
  have hspm : ∀ i, i < axes5.N_AXIS → (fun _ => (800 : ℝ)) i ≠ 0 := by
    intro i _
    norm_num
  refine ⟨hspm, ?_⟩
  rw [(C19_steps_to_cartesian axes5 (⟨Real.sin, Real.cos, Real.sqrt, Real.pi⟩ : Libm ℝ) 0
    module_boot (fun _ => 800) (fun _ => 0)
    (fun i => match i with | 0 => 800 | 1 => 1600 | 2 => 2400 | _ => 0) hspm).2.2 rfl 0
    (by decide)]
  norm_num

variable [FloorRing α]

/-- C20 (cancellation).  Whatever the statics (whatever the number of iterations left),
once `on_jog_cancel_handler` has run the next produce call returns `NULL` and leaves the
flag set; every init call leaves `jog_cancel` cleared; and after a cancel the init call of
the next move returns a point and so does the produce call that follows it. -/
theorem C20_cancellation (ax : Axes) (L : Libm α) (H : Host α) (m : Module α)
    (target position t p : Vec α) (pl0 pl1 pl2 : plan_line_data_t α) :
    (rtcp_segment_line ax L H (on_jog_cancel_handler m) t p pl1 false).2.2 = none ∧
    (rtcp_segment_line ax L H (on_jog_cancel_handler m) t p pl1 false).1.jog_cancel = true ∧
    (rtcp_segment_line ax L H m target position pl0 true).1.jog_cancel = false ∧
    (rtcp_segment_line ax L H (on_jog_cancel_handler m) target position pl0 true).1.jog_cancel
      = false ∧
    (rtcp_segment_line ax L H (on_jog_cancel_handler m) target position pl0 true).2.2
      = some (rtcp_segment_line ax L H (on_jog_cancel_handler m) target position pl0
          true).1.mpos ∧
    (rtcp_segment_line ax L H
      (rtcp_segment_line ax L H (on_jog_cancel_handler m) target position pl0 true).1
      t p pl2 false).2.2
      = some (rtcp_segment_line ax L H
          (rtcp_segment_line ax L H (on_jog_cancel_handler m) target position pl0 true).1
          t p pl2 false).1.mpos := by
  have hc : (on_jog_cancel_handler m).jog_cancel = true := rfl
  refine ⟨?_, ?_, ?_, ?_, ?_, ?_⟩
  · simp only [rtcp_segment_line, Bool.false_eq_true, if_false]
    rw [segment_produce_result, hc]
    simp
  · simp only [rtcp_segment_line, Bool.false_eq_true, if_false]
    rw [segment_produce_jog_cancel, hc]
  · simp only [rtcp_segment_line, if_true]
    exact segment_init_jog_cancel ax L H m target position pl0
  · simp only [rtcp_segment_line, if_true]
    exact segment_init_jog_cancel ax L H _ target position pl0
  · simp only [rtcp_segment_line, if_true]
    exact segment_init_result ax L H _ target position pl0
  · have hb := segment_init_iterations ax L H (on_jog_cancel_handler m) target position pl0
    have hj := segment_init_jog_cancel ax L H (on_jog_cancel_handler m) target position pl0
    simp only [rtcp_segment_line, if_true, Bool.false_eq_true, if_false]
    obtain ⟨n, hn⟩ : ∃ n, (segment_init ax L H (on_jog_cancel_handler m) target position
        pl0).1.iterations = n + 1 + 1 :=
      ⟨(segment_init ax L H (on_jog_cancel_handler m) target position pl0).1.iterations - 2,
        by omega⟩
    rw [segment_produce_result, hn, dec_u16_succ _ (by unfold UINT_FAST16_RANGE; omega), hj]
    simp

end MoreClaims

section ModeClaims
variable {α : Type} [LinearOrderedField α]

/-- C25 (clip no-op).  `rtcp_apply_travel_limits` returns the destination array as it
received it, on every axis, when no axis is homed, when no reference position is supplied
(`NULL`), and when the destination passes `rtcp_check_travel_limits` with the soft-limit
mask and `is_cartesian = true` in the statics of the call. -/
theorem C25_clip_no_op (ax : Axes) (L : Libm α) (tlo_z : α) (sys : system_t)
    (orig : Option (check_travel_limits_ptr α)) (m : Module α) (target : Vec α)
    (position : Option (Vec α)) (envelope : work_envelope_t α)
    (h : sys.homed_mask = 0 ∨ position = none ∨
      (rtcp_check_travel_limits ax L tlo_z sys orig m target sys.soft_limits true envelope).2
        = true) :
    (rtcp_apply_travel_limits ax L tlo_z sys orig m target position envelope).2 = target := by
  cases position with
  | none => rfl
  | some position =>
    simp only [rtcp_apply_travel_limits]
    by_cases h0 : sys.homed_mask = 0
    · rw [if_pos h0]
    · rw [if_neg h0]
      rcases h with h | h | h
      · exact absurd h h0
      · cases h
      · rw [if_pos h]

/-- C25, witness: default geometry, RTCP on, only X homed and limited to `[-5, 5]`; the
destination `(3, 0, 0, 0, 0)` passes the check and comes back unchanged. -/
theorem C25_clip_no_op_witness :
    (rtcp_check_travel_limits axes5 (⟨Real.sin, Real.cos, Real.sqrt, Real.pi⟩ : Libm ℝ) 0
      sys_x none (module_on ⟨Real.sin, Real.cos, Real.sqrt, Real.pi⟩) (vec5 3 0 0 0 0)
      sys_x.soft_limits true envelope_x).2 = true ∧
    (rtcp_apply_travel_limits axes5 (⟨Real.sin, Real.cos, Real.sqrt, Real.pi⟩ : Libm ℝ) 0
      sys_x none (module_on ⟨Real.sin, Real.cos, Real.sqrt, Real.pi⟩) (vec5 3 0 0 0 0)
      (some (vec5 0 0 0 0 0)) envelope_x).2 = vec5 3 0 0 0 0 := by
  have hpos := (check_jog_x (module_on ⟨Real.sin, Real.cos, Real.sqrt, Real.pi⟩) rfl
    (vec5 3 0 0 0 0) 3 (fun _ _ => rfl)).mpr ⟨by norm_num, by norm_num⟩
  exact ⟨hpos, C25_clip_no_op axes5 (⟨Real.sin, Real.cos, Real.sqrt, Real.pi⟩ : Libm ℝ) 0
    sys_x none (module_on ⟨Real.sin, Real.cos, Real.sqrt, Real.pi⟩) (vec5 3 0 0 0 0)
    (some (vec5 0 0 0 0 0)) envelope_x (Or.inr (Or.inr hpos))⟩

/-- C26 (validity check, RTCP off).  With RTCP disabled and a native check `f` installed,
`rtcp_check_travel_limits` returns what `f` returns on the same target, mask,
`is_cartesian` and envelope, and leaves the statics (the trig cache among them) as they
were: no inverse transform runs.  The result does not depend on the homed mask, so the
joint-frame envelope test is not applied. -/
theorem C26_check_travel_limits_off (ax : Axes) (L : Libm α) (tlo_z : α) (sys sys' : system_t)
    (f : check_travel_limits_ptr α) (m : Module α) (target : Vec α) (axes : Nat)
    (is_cartesian : Bool) (envelope : work_envelope_t α) (hoff : m.rtcp_enabled = false) :
    rtcp_check_travel_limits ax L tlo_z sys (some f) m target axes is_cartesian envelope
      = (m, f target axes is_cartesian envelope) ∧
    rtcp_check_travel_limits ax L tlo_z sys' (some f) m target axes is_cartesian envelope
      = rtcp_check_travel_limits ax L tlo_z sys (some f) m target axes is_cartesian envelope := by
  simp only [rtcp_check_travel_limits, if_pos hoff]
  exact ⟨trivial, trivial⟩

/-- C26, witness: start-up statics (RTCP off), X homed and limited to `[-5, 5]`, and a
native check that accepts everything: the joint-frame point `(10, 0, 0, 0, 0)`, outside
the envelope, is accepted because the native check accepts it. -/
theorem C26_check_travel_limits_off_witness :
    (module_boot : Module ℝ).rtcp_enabled = false ∧
    rtcp_check_travel_limits axes5 (⟨Real.sin, Real.cos, Real.sqrt, Real.pi⟩ : Libm ℝ) 0
      sys_x (some (fun _ _ _ _ => true)) module_boot (vec5 10 0 0 0 0) sys_x.soft_limits false
      envelope_x = (module_boot, true) :=
  ⟨rfl, (C26_check_travel_limits_off axes5 (⟨Real.sin, Real.cos, Real.sqrt, Real.pi⟩ : Libm ℝ) 0
    sys_x sys_x (fun _ _ _ _ => true) module_boot (vec5 10 0 0 0 0) sys_x.soft_limits false
    envelope_x rfl).1⟩

/-- C29 (RTCP-off warning).  M450 writes the warning exactly when RTCP was on before the
command and `|A| > 0.1` or `|C| > 0.1`, `A` and `C` being the joint counters
`sys.position[A_AXIS]`, `sys.position[C_AXIS]` divided by the `steps_per_mm` of their
axes; and after M450 the mode is off, warning or not. -/
theorem C29_rtcp_off_warning (m : Module α) (pos_a pos_c : Int) (spm_a spm_c : α) :
    ((rtcp_mcode_execute m 450 pos_a pos_c spm_a spm_c).2 = true ↔
      (m.rtcp_enabled = true ∧
        (|(pos_a : α) / spm_a| > 0.1 ∨ |(pos_c : α) / spm_c| > 0.1))) ∧
    (rtcp_mcode_execute m 450 pos_a pos_c spm_a spm_c).1.rtcp_enabled = false := by
  cases hen : m.rtcp_enabled
  · have h1 : ¬ ((450 : Nat) = 450 ∧ m.rtcp_enabled = true) := by simp [hen]
    simp [rtcp_mcode_execute, hen]
  · simp [rtcp_mcode_execute, hen]

variable [FloorRing α]

/-- C27 (forward transform is cache-free).  The result of `transform_to_cartesian` is the
same whatever the trig-cache fields `last_a`, `last_c`, `sin_a`, `cos_a`, `sin_c`, `cos_c`,
`cache_valid`, `trig_cache_tol` hold: it is a function of the input, the geometry and the
tool offset.  The function returns no statics, and the entry points that run it without an
inverse transform (`transform_steps_to_cartesian`, `rtcp_info`) leave the statics, cache
included, as they were. -/
theorem C27_forward_cache_free (ax : Axes) (L : Libm α) (tlo_z : α) (rtcp : rtcp_state_t α)
    (target motor_pos : Vec α) (last_a last_c sin_a cos_a sin_c cos_c tol : α) (valid : Bool)
    (m : Module α) (steps_per_mm position : Vec α) (steps : Nat → Int) :
    transform_to_cartesian ax L tlo_z
        ⟨rtcp.cfg, last_a, last_c, sin_a, cos_a, sin_c, cos_c, valid, tol⟩ target motor_pos
      = transform_to_cartesian ax L tlo_z rtcp target motor_pos ∧
    run_call ax L m (.transform_steps_to_cartesian tlo_z steps_per_mm position steps) = m ∧
    run_call ax L m (.rtcp_info tlo_z steps_per_mm steps) = m ∧
    transform_steps_to_cartesian ax L tlo_z
        { m with rtcp := ⟨m.rtcp.cfg, last_a, last_c, sin_a, cos_a, sin_c, cos_c, valid, tol⟩ }
        steps_per_mm position steps
      = transform_steps_to_cartesian ax L tlo_z m steps_per_mm position steps :=
  ⟨rfl, rfl, rfl, rfl⟩

/-- C22 (cache invalidation).  The trig cache is invalid right after
`rtcp_kinematics_settings_changed` (whatever geometry was stored), after
`rtcp_limits_set_machine_positions` (any cycle mask, any host settings, `force_set_origin`
set or not), after M451, and after M450 executed with RTCP on. -/
theorem C22_cache_invalidation (ax : Axes) (L : Libm α) (m : Module α)
    (s : rtcp_settings_t α) (fp : float_ops α) (settings : settings_t α) (pulloff : Vec α)
    (sys : sys_position_t α) (cycle : Nat) (pos_a pos_c : Int) (spm_a spm_c : α) :
    (rtcp_kinematics_settings_changed L { m with rtcp_settings_storage := s }).rtcp.cache_valid
      = false ∧
    (rtcp_limits_set_machine_positions ax fp settings pulloff m sys cycle).1.rtcp.cache_valid
      = false ∧
    (rtcp_mcode_execute m 451 pos_a pos_c spm_a spm_c).1.rtcp.cache_valid = false ∧
    (rtcp_mcode_execute { m with rtcp_enabled := true } 450 pos_a pos_c spm_a
      spm_c).1.rtcp.cache_valid = false :=
  ⟨rfl, rfl, rfl, rfl⟩

/-- C21 (mode state machine).  The statics at program start, and after `rtcp_5axis_init`,
have RTCP off.  M451 leaves `rtcp_enabled = true` and the cache invalid; M450 executed with
RTCP on leaves `rtcp_enabled = false` and the cache invalid, and changes no other static;
M450 executed with RTCP off changes nothing and writes no warning.  For every call `c` of
an entry point of the module, `rtcp_enabled` after the call is `true` for M451, `false`
for M450, and what it was before the call for every other call: the transforms, the
segmenter, the limit hooks, the homing hooks, the settings functions, the reports, the
jog-cancel handler and an M-code other than 450 and 451. -/
theorem C21_mode_state_machine (ax : Axes) (L : Libm α) (m : Module α)
    (nvs_alloc_ok : Bool) (nvs : Option (rtcp_settings_t α)) (pos_a pos_c : Int)
    (spm_a spm_c : α) (c : module_call α) :
    (module_boot : Module α).rtcp_enabled = false ∧
    (rtcp_5axis_init L nvs_alloc_ok nvs module_boot).rtcp_enabled = false ∧
    (rtcp_mcode_execute m 451 pos_a pos_c spm_a spm_c).1
      = { m with rtcp_enabled := true, rtcp := { m.rtcp with cache_valid := false } } ∧
    (rtcp_mcode_execute { m with rtcp_enabled := true } 450 pos_a pos_c spm_a spm_c).1
      = { m with rtcp_enabled := false, rtcp := { m.rtcp with cache_valid := false } } ∧
    rtcp_mcode_execute { m with rtcp_enabled := false } 450 pos_a pos_c spm_a spm_c
      = ({ m with rtcp_enabled := false }, false) ∧
    (run_call ax L m c).rtcp_enabled =
      (match c with
      | .rtcp_mcode_execute user_mcode _ _ _ _ =>
        if user_mcode = 451 then true
        else if user_mcode = 450 then false
        else m.rtcp_enabled
      | _ => m.rtcp_enabled) := by
  refine ⟨rfl, ?_, rfl, rfl, rfl, run_call_enabled ax L m c⟩
  cases nvs_alloc_ok
  · rfl
  · cases nvs <;> rfl

/-- C23 (homing positions).  After `rtcp_limits_set_machine_positions(cycle)`, for every
axis `idx` below `N_AXIS` whose bit is set in `cycle`: with `force_set_origin` the joint
counter and the home position are zero; without it the home position is
`max_travel + pulloff` (the `float` sum) when the bit of the axis is set in the
homing-direction mask and `-pulloff` when it is clear, and the joint counter is
`lroundf(home_position * steps_per_mm)` (the `float` product) stored in the 32-bit counter:
it lies in the 32-bit range, and when the rounded product lies in that range the counter is
that integer, within one half of the product (halfway cases go away from zero).  For every
other index the joint counter and the home position are unchanged. -/
theorem C23_homing_positions (ax : Axes) (fp : float_ops α) (settings : settings_t α)
    (pulloff : Vec α) (m : Module α) (sys : sys_position_t α) (cycle : Nat) (idx : Nat) :
    ((idx < ax.N_AXIS ∧ cycle &&& bit idx ≠ 0) →
      (settings.force_set_origin = true →
        (rtcp_limits_set_machine_positions ax fp settings pulloff m sys cycle).2.position idx
          = 0 ∧
        (rtcp_limits_set_machine_positions ax fp settings pulloff m sys cycle).2.home_position
          idx = 0) ∧
      (settings.force_set_origin = false →
        (rtcp_limits_set_machine_positions ax fp settings pulloff m sys cycle).2.home_position
            idx
          = (if bit_istrue settings.dir_mask (bit idx) = true then
              fp.add (settings.max_travel idx) (pulloff idx)
            else -pulloff idx) ∧
        (rtcp_limits_set_machine_positions ax fp settings pulloff m sys cycle).2.position idx
          = to_int32 (lroundf (fp.mul
              ((rtcp_limits_set_machine_positions ax fp settings pulloff m sys
                cycle).2.home_position idx) (settings.steps_per_mm idx))) ∧
        (-2 ^ 31 ≤ (rtcp_limits_set_machine_positions ax fp settings pulloff m sys
            cycle).2.position idx ∧
          (rtcp_limits_set_machine_positions ax fp settings pulloff m sys cycle).2.position idx
            < 2 ^ 31) ∧
        ((-2 ^ 31 ≤ lroundf (fp.mul
              ((rtcp_limits_set_machine_positions ax fp settings pulloff m sys
                cycle).2.home_position idx) (settings.steps_per_mm idx)) ∧
            lroundf (fp.mul
              ((rtcp_limits_set_machine_positions ax fp settings pulloff m sys
                cycle).2.home_position idx) (settings.steps_per_mm idx)) < 2 ^ 31) →
          (rtcp_limits_set_machine_positions ax fp settings pulloff m sys cycle).2.position idx
            = lroundf (fp.mul
              ((rtcp_limits_set_machine_positions ax fp settings pulloff m sys
                cycle).2.home_position idx) (settings.steps_per_mm idx)) ∧
          |(((rtcp_limits_set_machine_positions ax fp settings pulloff m sys
                cycle).2.position idx : Int) : α)
            - fp.mul ((rtcp_limits_set_machine_positions ax fp settings pulloff m sys
                cycle).2.home_position idx) (settings.steps_per_mm idx)| ≤ 1 / 2))) ∧
    (¬ (idx < ax.N_AXIS ∧ cycle &&& bit idx ≠ 0) →
      (rtcp_limits_set_machine_positions ax fp settings pulloff m sys cycle).2.position idx
        = sys.position idx ∧
      (rtcp_limits_set_machine_positions ax fp settings pulloff m sys cycle).2.home_position idx
        = sys.home_position idx) := by
  obtain ⟨o1, o2⟩ := set_origin_loop_spec cycle ax.N_AXIS sys idx
  obtain ⟨h1, h2⟩ := set_home_loop_spec fp settings pulloff cycle ax.N_AXIS sys idx
  constructor
  · intro hin
    rw [if_pos hin] at o1 o2 h1 h2
    constructor
    · intro hf
      simp only [rtcp_limits_set_machine_positions, if_pos hf]
      exact ⟨o1, o2⟩
    · intro hf
      have hf' : ¬ (settings.force_set_origin = true) := by simp [hf]
      simp only [rtcp_limits_set_machine_positions, if_neg hf']
      rw [h1, h2]
      refine ⟨rfl, rfl, to_int32_range _, fun hr => ?_⟩
      rw [to_int32_of_range _ hr.1 hr.2]
      exact ⟨rfl, (lroundf_spec _).1⟩
  · intro hin
    rw [if_neg hin] at o1 o2 h1 h2
    simp only [rtcp_limits_set_machine_positions]
    split_ifs
    · exact ⟨o1, o2⟩
    · exact ⟨h2, h1⟩

/-- C23, witness: five axes, homing of X and Z (`cycle = 5`), no forced origin, homing
direction bit set for X only, `max_travel = -200`, pull-off 1 mm and 80 steps per mm on
every axis, sums and products exact: X is set to `-199` mm and `-15920` steps, Z to `-1` mm
and `-80` steps, and Y keeps its counter. -/
theorem C23_homing_positions_witness :
    (rtcp_limits_set_machine_positions axes5
      (⟨fun a b => a + b, fun a b => a * b⟩ : float_ops ℝ)
      (⟨false, 1, fun _ => -200, fun _ => 80⟩ : settings_t ℝ)
      (fun _ => 1) module_boot ⟨fun _ => 7, fun _ => 3⟩ 5).2.home_position 0 = -199 ∧
    (rtcp_limits_set_machine_positions axes5
      (⟨fun a b => a + b, fun a b => a * b⟩ : float_ops ℝ)
      (⟨false, 1, fun _ => -200, fun _ => 80⟩ : settings_t ℝ)
      (fun _ => 1) module_boot ⟨fun _ => 7, fun _ => 3⟩ 5).2.position 0 = -15920 ∧
    (rtcp_limits_set_machine_positions axes5
      (⟨fun a b => a + b, fun a b => a * b⟩ : float_ops ℝ)
      (⟨false, 1, fun _ => -200, fun _ => 80⟩ : settings_t ℝ)
      (fun _ => 1) module_boot ⟨fun _ => 7, fun _ => 3⟩ 5).2.home_position 2 = -1 ∧
    (rtcp_limits_set_machine_positions axes5
      (⟨fun a b => a + b, fun a b => a * b⟩ : float_ops ℝ)
      (⟨false, 1, fun _ => -200, fun _ => 80⟩ : settings_t ℝ)
      (fun _ => 1) module_boot ⟨fun _ => 7, fun _ => 3⟩ 5).2.position 2 = -80 ∧
    (rtcp_limits_set_machine_positions axes5
      (⟨fun a b => a + b, fun a b => a * b⟩ : float_ops ℝ)
      (⟨false, 1, fun _ => -200, fun _ => 80⟩ : settings_t ℝ)
      (fun _ => 1) module_boot ⟨fun _ => 7, fun _ => 3⟩ 5).2.position 1 = 7 := by
  have hx := ((C23_homing_positions axes5 (⟨fun a b => a + b, fun a b => a * b⟩ : float_ops ℝ)
    (⟨false, 1, fun _ => -200, fun _ => 80⟩ : settings_t ℝ)
    (fun _ => 1) module_boot ⟨fun _ => 7, fun _ => 3⟩ 5 0).1 ⟨by decide, by decide⟩).2 rfl
  have hz := ((C23_homing_positions axes5 (⟨fun a b => a + b, fun a b => a * b⟩ : float_ops ℝ)
    (⟨false, 1, fun _ => -200, fun _ => 80⟩ : settings_t ℝ)
    (fun _ => 1) module_boot ⟨fun _ => 7, fun _ => 3⟩ 5 2).1 ⟨by decide, by decide⟩).2 rfl
  have hy := ((C23_homing_positions axes5 (⟨fun a b => a + b, fun a b => a * b⟩ : float_ops ℝ)
    (⟨false, 1, fun _ => -200, fun _ => 80⟩ : settings_t ℝ)
    (fun _ => 1) module_boot ⟨fun _ => 7, fun _ => 3⟩ 5 1).2
    (fun h => h.2 (by decide))).1
  have ex : (if bit_istrue (1 : Nat) (bit 0) = true then (-200 : ℝ) + 1 else -1) = -199 := by
    rw [if_pos (by decide)]
    norm_num
  have ez : (if bit_istrue (1 : Nat) (bit 2) = true then (-200 : ℝ) + 1 else -1) = -1 := by
    rw [if_neg (by decide)]
  have r1 : lroundf ((-199 : ℝ) * 80) = -15920 := by
    have e : ((-199 : ℝ) * 80) = ((-15920 : Int) : ℝ) := by norm_num
    unfold lroundf
    rw [if_neg (by norm_num), e]
    have e2 : (((-15920 : Int) : ℝ) - 1 / 2) = ((-15921 : Int) : ℝ) + 1 / 2 := by norm_num
    rw [e2, Int.ceil_eq_iff]
    constructor <;> norm_num
  have r2 : lroundf ((-1 : ℝ) * 80) = -80 := by
    unfold lroundf
    rw [if_neg (by norm_num), Int.ceil_eq_iff]
    constructor <;> norm_num
  simp only [ex] at hx
  simp only [ez] at hz
  refine ⟨hx.1, ?_, hz.1, ?_, hy⟩
  · rw [hx.2.1, hx.1]
    show to_int32 (lroundf ((-199 : ℝ) * 80)) = -15920
    rw [r1]
    decide
  · rw [hz.2.1, hz.1]
    show to_int32 (lroundf ((-1 : ℝ) * 80)) = -80
    rw [r2]
    decide

/-- C23, counterexample (a count that does not fit the counter).  Five axes, homing of X
(`cycle = 1`), no forced origin, homing direction bit set for X, `max_travel = 3000000`,
pull-off 0 and 1000 steps per mm, sums and products exact (as they are in `float` at these
values): the home position of X is `3000000` and the rounded product is `3000000000`, which
the 32-bit counter does not hold; the counter is `3000000000 - 2^32 = -1294967296`. -/
theorem C23_counterexample :
    (rtcp_limits_set_machine_positions axes5
      (⟨fun a b => a + b, fun a b => a * b⟩ : float_ops ℝ)
      (⟨false, 1, fun _ => 3000000, fun _ => 1000⟩ : settings_t ℝ)
      (fun _ => 0) module_boot ⟨fun _ => 7, fun _ => 3⟩ 1).2.home_position 0 = 3000000 ∧
    lroundf ((3000000 : ℝ) * 1000) = 3000000000 ∧
    (rtcp_limits_set_machine_positions axes5
      (⟨fun a b => a + b, fun a b => a * b⟩ : float_ops ℝ)
      (⟨false, 1, fun _ => 3000000, fun _ => 1000⟩ : settings_t ℝ)
      (fun _ => 0) module_boot ⟨fun _ => 7, fun _ => 3⟩ 1).2.position 0 = -1294967296 ∧
    (rtcp_limits_set_machine_positions axes5
      (⟨fun a b => a + b, fun a b => a * b⟩ : float_ops ℝ)
      (⟨false, 1, fun _ => 3000000, fun _ => 1000⟩ : settings_t ℝ)
      (fun _ => 0) module_boot ⟨fun _ => 7, fun _ => 3⟩ 1).2.position 0
      ≠ lroundf ((rtcp_limits_set_machine_positions axes5
          (⟨fun a b => a + b, fun a b => a * b⟩ : float_ops ℝ)
          (⟨false, 1, fun _ => 3000000, fun _ => 1000⟩ : settings_t ℝ)
          (fun _ => 0) module_boot ⟨fun _ => 7, fun _ => 3⟩ 1).2.home_position 0 * 1000) := by
  obtain ⟨h1, h2⟩ := set_home_loop_spec (⟨fun a b => a + b, fun a b => a * b⟩ : float_ops ℝ)
    (⟨false, 1, fun _ => 3000000, fun _ => 1000⟩ : settings_t ℝ) (fun _ => 0) 1 5
    ⟨fun _ => 7, fun _ => 3⟩ 0
  rw [if_pos ⟨by decide, by decide⟩] at h1 h2
  have ex : (if bit_istrue (1 : Nat) (bit 0) = true then (3000000 : ℝ) + 0 else -0)
      = 3000000 := by
    rw [if_pos (by decide)]
    norm_num
  simp only [ex] at h1 h2
  have r1 : lroundf ((3000000 : ℝ) * 1000) = 3000000000 := by
    have e : ((3000000 : ℝ) * 1000) = ((3000000000 : Int) : ℝ) := by norm_num
    unfold lroundf
    rw [if_pos (by norm_num), e, Int.floor_eq_iff]
    constructor <;> norm_num
  rw [r1] at h2
  have hw : to_int32 3000000000 = -1294967296 := by decide
  rw [hw] at h2
  have hh : (rtcp_limits_set_machine_positions axes5
      (⟨fun a b => a + b, fun a b => a * b⟩ : float_ops ℝ)
      (⟨false, 1, fun _ => 3000000, fun _ => 1000⟩ : settings_t ℝ)
      (fun _ => 0) module_boot ⟨fun _ => 7, fun _ => 3⟩ 1).2.home_position 0 = 3000000 := h1
  have hp : (rtcp_limits_set_machine_positions axes5
      (⟨fun a b => a + b, fun a b => a * b⟩ : float_ops ℝ)
      (⟨false, 1, fun _ => 3000000, fun _ => 1000⟩ : settings_t ℝ)
      (fun _ => 0) module_boot ⟨fun _ => 7, fun _ => 3⟩ 1).2.position 0 = -1294967296 := h2
  refine ⟨hh, r1, hp, ?_⟩
  rw [hp, hh, r1]
  decide

end ModeClaims

section CartesianClaims

/-- C30 (segmenter of the Cartesian modules).  For `cartesian2_segment_line` of
carteciano2.c and for `kinematics_segment_line` of carteciana.c, whatever the statics
before the move and whatever arguments the later calls receive: the init call returns the
array `trsf`, which holds the target on every axis; the next call (`init = false`) returns
the same array with the same content; the call after that returns `NULL`.  (`range` is the
number of values of `uint_fast8_t`.) -/
theorem C30_cartesian_segmenter {α : Type} (ax : Axes) (range : Nat)
    (s : cartesian_statics α)
    (target t2 t3 : Vec α) (hrange : 256 ≤ range) :
    ((∃ v, (cartesian2_segment_line ax range s target true).2 = some v ∧
        ∀ i, i < ax.N_AXIS → v i = target i) ∧
      (cartesian2_segment_line ax range
        (cartesian2_segment_line ax range s target true).1 t2 false).2
        = (cartesian2_segment_line ax range s target true).2 ∧
      (cartesian2_segment_line ax range
        (cartesian2_segment_line ax range
          (cartesian2_segment_line ax range s target true).1 t2 false).1 t3 false).2 = none) ∧
    ((∃ v, (Carteciana.kinematics_segment_line ax range s target true).2 = some v ∧
        ∀ i, i < ax.N_AXIS → v i = target i) ∧
      (Carteciana.kinematics_segment_line ax range
        (Carteciana.kinematics_segment_line ax range s target true).1 t2 false).2
        = (Carteciana.kinematics_segment_line ax range s target true).2 ∧
      (Carteciana.kinematics_segment_line ax range
        (Carteciana.kinematics_segment_line ax range
          (Carteciana.kinematics_segment_line ax range s target true).1 t2 false).1 t3
          false).2 = none) := by
  have d2 : dec_u8 range 2 = 1 := dec_u8_pos range 1 (by omega)
  have d1 : dec_u8 range 1 = 0 := dec_u8_pos range 0 (by omega)
  refine ⟨⟨⟨_, rfl, ?_⟩, ?_, ?_⟩, ⟨⟨_, rfl, ?_⟩, ?_, ?_⟩⟩
  · intro i hi
    simp only [if_true, cartesian2_transform_from_cartesian]
    rw [fill_down_apply, if_pos hi]
  · simp [cartesian2_segment_line, d2]
  · simp [cartesian2_segment_line, d2, d1]
  · intro i hi
    simp only [if_true, Carteciana.transform_from_cartesian]
    rw [copy_up_apply ax.N_AXIS target (ax.N_AXIS - X_AXIS) X_AXIS _ rfl i,
      if_pos ⟨Nat.zero_le i, hi⟩]
  · simp [Carteciana.kinematics_segment_line, d2]
  · simp [Carteciana.kinematics_segment_line, d2, d1]

/-- C30, witness: eight-bit `uint_fast8_t`, five axes, statics left by an earlier move, and
the target `(1, 2, 3, 4, 5)`: the third call of `cartesian2_segment_line` returns `NULL`. -/
theorem C30_cartesian_segmenter_witness :
    (256 ≤ 256) ∧
    (cartesian2_segment_line axes5 256
      (cartesian2_segment_line axes5 256
        (cartesian2_segment_line axes5 256 (⟨255, fun _ => 9⟩ : cartesian_statics ℝ)
          (vec5 1 2 3 4 5) true).1 (fun _ => 0) false).1 (fun _ => 0) false).2 = none :=
  ⟨le_refl _, (C30_cartesian_segmenter axes5 256 (⟨255, fun _ => 9⟩ : cartesian_statics ℝ)
    (vec5 1 2 3 4 5) (fun _ => 0) (fun _ => 0) (le_refl _)).1.2.2⟩

end CartesianClaims

section JogClaims
variable {α : Type} [LinearOrderedField α]

/-- C24 (jog clip scenario, as amended).  RTCP on; X is homed and in the soft-limit mask and
no other axis is both; the native check, when installed, accepts the points of the jog
whose joint X is inside the envelope.  For every current position that passes the check
and every destination that differs from it in X only and whose joint X lies 10 mm past
the `+X` face `max[X]` of the envelope, the clipped point differs from the position in X
only, its joint X is not past the face and is short of it by less than
`(10 + (max[X] - joint X of the position)) / 2^16`, i.e. one `2^16`-th of the distance
jogged (less than `10 / 2^16` when the position is on the face), and the clipped point
passes the check, both as a Cartesian point and, through its joint image, as a
joint-frame point (`is_cartesian = false`), in the statics the clip leaves.  On the fast
path (`|A|` and `|C|` below `0.001`) the joint X of a point is its X. -/
theorem C24_jog_clip (ax : Axes) (L : Libm α) (tlo_z : α) (sys : system_t)
    (orig : Option (check_travel_limits_ptr α)) (envelope : work_envelope_t α) (m : Module α)
    (target position : Vec α) (hon : m.rtcp_enabled = true)
    (hX : bit_istrue sys.homed_mask (bit X_AXIS) = true ∧
      bit_istrue sys.soft_limits (bit X_AXIS) = true)
    (hO : ∀ i, i < ax.N_AXIS → i ≠ X_AXIS →
      ¬ (bit_istrue sys.homed_mask (bit i) = true ∧ bit_istrue sys.soft_limits (bit i) = true))
    (hnat : ∀ f, orig = some f → ∀ P, OnSeg ax position target P →
      envelope.min X_AXIS ≤ joint_x ax L tlo_z m.rtcp P →
      joint_x ax L tlo_z m.rtcp P ≤ envelope.max X_AXIS →
      f P sys.soft_limits true envelope = true)
    (hline : ∀ i, i < ax.N_AXIS → i ≠ X_AXIS → target i = position i)
    (hpos : (rtcp_check_travel_limits ax L tlo_z sys orig m position sys.soft_limits true
      envelope).2 = true)
    (hpast : joint_x ax L tlo_z m.rtcp target = envelope.max X_AXIS + 10) :
    (∀ i, i < ax.N_AXIS → i ≠ X_AXIS →
      (rtcp_apply_travel_limits ax L tlo_z sys orig m target (some position) envelope).2 i
        = position i) ∧
    joint_x ax L tlo_z
        (rtcp_apply_travel_limits ax L tlo_z sys orig m target (some position) envelope).1.rtcp
        (rtcp_apply_travel_limits ax L tlo_z sys orig m target (some position) envelope).2
      ≤ envelope.max X_AXIS ∧
    envelope.max X_AXIS
        - (10 + (envelope.max X_AXIS - joint_x ax L tlo_z m.rtcp position)) / 2 ^ 16
      < joint_x ax L tlo_z
        (rtcp_apply_travel_limits ax L tlo_z sys orig m target (some position) envelope).1.rtcp
        (rtcp_apply_travel_limits ax L tlo_z sys orig m target (some position) envelope).2 ∧
    (joint_x ax L tlo_z m.rtcp position = envelope.max X_AXIS →
      envelope.max X_AXIS - 10 / 2 ^ 16 < joint_x ax L tlo_z
        (rtcp_apply_travel_limits ax L tlo_z sys orig m target (some position) envelope).1.rtcp
        (rtcp_apply_travel_limits ax L tlo_z sys orig m target (some position) envelope).2) ∧
    (rtcp_check_travel_limits ax L tlo_z sys orig
      (rtcp_apply_travel_limits ax L tlo_z sys orig m target (some position) envelope).1
      (rtcp_apply_travel_limits ax L tlo_z sys orig m target (some position) envelope).2
      sys.soft_limits true envelope).2 = true ∧
    (rtcp_check_travel_limits ax L tlo_z sys orig
      (rtcp_apply_travel_limits ax L tlo_z sys orig m target (some position) envelope).1
      (transform_from_cartesian ax L tlo_z
        (rtcp_apply_travel_limits ax L tlo_z sys orig m target (some position) envelope).1.rtcp
        (fun _ => 0)
        (rtcp_apply_travel_limits ax L tlo_z sys orig m target (some position) envelope).2).2
      sys.soft_limits false envelope).2 = true ∧
    ((|position ax.A_AXIS| < 0.001 ∧ |position ax.C_AXIS| < 0.001) →
      joint_x ax L tlo_z m.rtcp position = position X_AXIS ∧
      joint_x ax L tlo_z m.rtcp target = target X_AXIS ∧
      joint_x ax L tlo_z
        (rtcp_apply_travel_limits ax L tlo_z sys orig m target (some position) envelope).1.rtcp
        (rtcp_apply_travel_limits ax L tlo_z sys orig m target (some position) envelope).2
        = (rtcp_apply_travel_limits ax L tlo_z sys orig m target (some position) envelope).2
            X_AXIS) := by
  have hAx : ax.A_AXIS ≠ X_AXIS := by
    have := ax.hA
    unfold X_AXIS
    omega
  have hCx : ax.C_AXIS ≠ X_AXIS := by
    have := ax.hC
    unfold X_AXIS
    omega
  have htA : target ax.A_AXIS = position ax.A_AXIS := hline _ ax.hA.2 hAx
  have htC : target ax.C_AXIS = position ax.C_AXIS := hline _ ax.hC.2 hCx
  have hJ0 := ((check_only_x ax L tlo_z sys orig envelope m position hon hX hO).mp hpos).1
  obtain ⟨k, hk, hres, hR1, hle, hlt⟩ := jog_x_clip ax L tlo_z sys orig envelope m target
    position hon hX hO hnat hline hpos (by rw [hpast]; linarith)
  obtain ⟨R, hR⟩ : ∃ R, R =
      rtcp_apply_travel_limits ax L tlo_z sys orig m target (some position) envelope := ⟨_, rfl⟩
  rw [← hR] at hres hR1 ⊢
  have hkα : (0 : α) ≤ (k : α) := Nat.cast_nonneg k
  have hτ1 : (k : α) / 2 ^ 16 ≤ 1 := by
    rw [div_le_one (by positivity)]
    have : k ≤ 2 ^ 16 := le_of_lt hk
    exact_mod_cast this
  have hseg : OnSeg ax position target R.2 := ⟨(k : α) / 2 ^ 16, by positivity, hτ1, hres⟩
  have hRA : target ax.A_AXIS = R.2 ax.A_AXIS := by
    rw [hres _ ax.hA.2, htA]
    ring
  have hRC : target ax.C_AXIS = R.2 ax.C_AXIS := by
    rw [hres _ ax.hC.2, htC]
    ring
  have hJR : joint_x ax L tlo_z R.1.rtcp R.2 =
      joint_x ax L tlo_z m.rtcp position + (k : α) / 2 ^ 16 *
        (joint_x ax L tlo_z m.rtcp target - joint_x ax L tlo_z m.rtcp position) := by
    rw [hR1]
    show joint_x ax L tlo_z (transform_from_cartesian ax L tlo_z m.rtcp (fun _ => 0) target).1
      R.2 = _
    rw [joint_x_same_angles ax L tlo_z m.rtcp (fun _ => 0) R.2 target hRA hRC,
      joint_x_affine ax L tlo_z m.rtcp position target R.2 _ hline hres]
  have hJR' : joint_x ax L tlo_z m.rtcp R.2 = joint_x ax L tlo_z R.1.rtcp R.2 := by
    rw [hJR, joint_x_affine ax L tlo_z m.rtcp position target R.2 _ hline hres]
  have hgap : 0 ≤ (k : α) / 2 ^ 16 *
      (joint_x ax L tlo_z m.rtcp target - joint_x ax L tlo_z m.rtcp position) := by
    apply mul_nonneg (by positivity)
    rw [hpast]
    linarith [hJ0.2]
  have hmin : envelope.min X_AXIS ≤ joint_x ax L tlo_z R.1.rtcp R.2 := by
    rw [hJR]
    linarith [hJ0.1]
  have hmax : joint_x ax L tlo_z R.1.rtcp R.2 ≤ envelope.max X_AXIS := by
    rw [hJR]
    exact hle
  have hshort : envelope.max X_AXIS
      - (10 + (envelope.max X_AXIS - joint_x ax L tlo_z m.rtcp position)) / 2 ^ 16
      < joint_x ax L tlo_z R.1.rtcp R.2 := by
    rw [hJR]
    rw [hpast] at hlt ⊢
    have e : ((k : α) + 1) / 2 ^ 16 * (envelope.max X_AXIS + 10 - joint_x ax L tlo_z m.rtcp position)
        = (k : α) / 2 ^ 16 * (envelope.max X_AXIS + 10 - joint_x ax L tlo_z m.rtcp position)
          + (10 + (envelope.max X_AXIS - joint_x ax L tlo_z m.rtcp position)) / 2 ^ 16 := by
      ring
    rw [e] at hlt
    linarith
  have honR : R.1.rtcp_enabled = true := by
    rw [hR1]
    exact hon
  refine ⟨?_, hmax, hshort, ?_, ?_, ?_, ?_⟩
  · intro i hi hi0
    rw [hres i hi, hline i hi hi0]
    ring
  · intro hface
    rw [hface] at hshort
    simpa using hshort
  · rw [check_only_x ax L tlo_z sys orig envelope R.1 R.2 honR hX hO]
    refine ⟨⟨hmin, hmax⟩, fun f hf => hnat f hf R.2 hseg ?_ ?_⟩
    · rw [hJR']
      exact hmin
    · rw [hJR']
      exact hmax
  · rw [check_only_x_joint ax L tlo_z sys orig envelope R.1 _ honR hX hO]
    exact ⟨hmin, hmax⟩
  · intro hf
    have hft : |target ax.A_AXIS| < 0.001 ∧ |target ax.C_AXIS| < 0.001 := by
      rw [htA, htC]
      exact hf
    have hfR : |R.2 ax.A_AXIS| < 0.001 ∧ |R.2 ax.C_AXIS| < 0.001 := by
      rw [← hRA, ← hRC]
      exact hft
    exact ⟨joint_x_fast ax L tlo_z _ _ hf, joint_x_fast ax L tlo_z _ _ hft,
      joint_x_fast ax L tlo_z _ _ hfR⟩

/-- C24, counterexample.  Default geometry, RTCP on, no tool offset, no native check, only
X homed and limited to `[-5, 5]`.  The position `(-4.5, 0, 0, 0, 0)` passes the check and
the destination `(15, 0, 0, 0, 0)`, on the same line, lies 10 mm past the face `X = 5`;
the clipped X is more than `10 / 2^16` mm short of the face (it is `15.5 / 2^16` short:
the bisection resolves one `2^16`-th of the 19.5 mm jogged). -/
theorem C24_counterexample :
    (rtcp_check_travel_limits axes5 (⟨Real.sin, Real.cos, Real.sqrt, Real.pi⟩ : Libm ℝ) 0
      sys_x none (module_on ⟨Real.sin, Real.cos, Real.sqrt, Real.pi⟩) (vec5 (-4.5) 0 0 0 0)
      sys_x.soft_limits true envelope_x).2 = true ∧
    (vec5 (15 : ℝ) 0 0 0 0) X_AXIS = (envelope_x : work_envelope_t ℝ).max X_AXIS + 10 ∧
    ¬ ((envelope_x : work_envelope_t ℝ).max X_AXIS - 10 / 2 ^ 16 ≤
      (rtcp_apply_travel_limits axes5 (⟨Real.sin, Real.cos, Real.sqrt, Real.pi⟩ : Libm ℝ) 0
        sys_x none (module_on ⟨Real.sin, Real.cos, Real.sqrt, Real.pi⟩)
        (vec5 15 0 0 0 0) (some (vec5 (-4.5) 0 0 0 0)) envelope_x).2 X_AXIS) := by
  have hpos := (check_jog_x (module_on ⟨Real.sin, Real.cos, Real.sqrt, Real.pi⟩) rfl
    (vec5 (-4.5) 0 0 0 0) (-4.5) (fun _ _ => rfl)).mpr ⟨by norm_num, by norm_num⟩
  have hfast : ∀ x : ℝ, |vec5 x 0 0 0 0 axes5.A_AXIS| < 0.001 ∧
      |vec5 x 0 0 0 0 axes5.C_AXIS| < 0.001 := by
    intro x
    constructor <;> norm_num [vec5, axes5]
  have hJ : ∀ x : ℝ, joint_x axes5 (⟨Real.sin, Real.cos, Real.sqrt, Real.pi⟩ : Libm ℝ) 0
      (module_on ⟨Real.sin, Real.cos, Real.sqrt, Real.pi⟩).rtcp (vec5 x 0 0 0 0) = x := by
    intro x
    rw [joint_x_fast _ _ _ _ _ (hfast x)]
    rfl
  have hmax : (envelope_x : work_envelope_t ℝ).max X_AXIS = 5 := rfl
  refine ⟨hpos, ?_, ?_⟩
  · rw [hmax]
    norm_num [vec5, X_AXIS]
  obtain ⟨k, hk, hres, _, hle, hlt⟩ := jog_x_clip axes5
    (⟨Real.sin, Real.cos, Real.sqrt, Real.pi⟩ : Libm ℝ) 0 sys_x none envelope_x
    (module_on ⟨Real.sin, Real.cos, Real.sqrt, Real.pi⟩) (vec5 15 0 0 0 0) (vec5 (-4.5) 0 0 0 0)
    rfl ⟨by decide, by decide⟩
    (fun i hi hi0 => by
      have hi5 : i < 5 := hi
      interval_cases i
      · exact absurd rfl hi0
      all_goals decide)
    (fun f hf => by cases hf)
    (fun i hi hi0 => by
      have hi5 : i < 5 := hi
      interval_cases i
      · exact absurd rfl hi0
      all_goals rfl)
    hpos (by rw [hJ, hmax]; norm_num)
  rw [hJ, hJ, hmax] at hle hlt
  have h1 : (39 : ℝ) * (k : ℝ) ≤ 1245184 := by
    have : (k : ℝ) / 2 ^ 16 * (15 - -4.5) ≤ 9.5 := by linarith
    rw [div_mul_eq_mul_div, div_le_iff₀ (by positivity)] at this
    norm_num at this
    linarith
  have h2 : (1245184 : ℝ) < 39 * ((k : ℝ) + 1) := by
    have : 9.5 < ((k : ℝ) + 1) / 2 ^ 16 * (15 - -4.5) := by linarith
    rw [div_mul_eq_mul_div, lt_div_iff₀ (by positivity)] at this
    norm_num at this
    linarith
  have h1' : 39 * k ≤ 1245184 := by exact_mod_cast h1
  have h2' : 1245184 < 39 * (k + 1) := by exact_mod_cast h2
  have hk' : k = 31927 := by omega
  have hx := hres 0 (by decide)
  rw [hk'] at hx
  show ¬ ((envelope_x : work_envelope_t ℝ).max X_AXIS - 10 / 2 ^ 16 ≤ _)
  rw [hmax]
  show ¬ ((5 : ℝ) - 10 / 2 ^ 16 ≤ (rtcp_apply_travel_limits axes5 _ 0 sys_x none _
    (vec5 15 0 0 0 0) (some (vec5 (-4.5) 0 0 0 0)) envelope_x).2 0)
  rw [hx]
  norm_num [vec5]

/-- C24, witness: default geometry, RTCP on, no native check, only X homed and limited to
`[-5, 5]`, a jog from the origin to `(15, 0, 0, 0, 0)`, 10 mm past the face: the clipped X
is less than `15 / 2^16` short of 5 and not beyond it, and the clipped point passes the
check as a joint-frame point. -/
theorem C24_jog_clip_witness :
    (rtcp_check_travel_limits axes5 (⟨Real.sin, Real.cos, Real.sqrt, Real.pi⟩ : Libm ℝ) 0
      sys_x none (module_on ⟨Real.sin, Real.cos, Real.sqrt, Real.pi⟩) (vec5 0 0 0 0 0)
      sys_x.soft_limits true envelope_x).2 = true ∧
    (5 : ℝ) - 15 / 2 ^ 16 <
      (rtcp_apply_travel_limits axes5 (⟨Real.sin, Real.cos, Real.sqrt, Real.pi⟩ : Libm ℝ) 0
        sys_x none (module_on ⟨Real.sin, Real.cos, Real.sqrt, Real.pi⟩)
        (vec5 15 0 0 0 0) (some (vec5 0 0 0 0 0)) envelope_x).2 X_AXIS ∧
    (rtcp_apply_travel_limits axes5 (⟨Real.sin, Real.cos, Real.sqrt, Real.pi⟩ : Libm ℝ) 0
        sys_x none (module_on ⟨Real.sin, Real.cos, Real.sqrt, Real.pi⟩)
        (vec5 15 0 0 0 0) (some (vec5 0 0 0 0 0)) envelope_x).2 X_AXIS ≤ 5 ∧
    (rtcp_check_travel_limits axes5 (⟨Real.sin, Real.cos, Real.sqrt, Real.pi⟩ : Libm ℝ) 0
      sys_x none
      (rtcp_apply_travel_limits axes5 (⟨Real.sin, Real.cos, Real.sqrt, Real.pi⟩ : Libm ℝ) 0
        sys_x none (module_on ⟨Real.sin, Real.cos, Real.sqrt, Real.pi⟩)
        (vec5 15 0 0 0 0) (some (vec5 0 0 0 0 0)) envelope_x).1
      (transform_from_cartesian axes5 (⟨Real.sin, Real.cos, Real.sqrt, Real.pi⟩ : Libm ℝ) 0
        (rtcp_apply_travel_limits axes5 (⟨Real.sin, Real.cos, Real.sqrt, Real.pi⟩ : Libm ℝ) 0
          sys_x none (module_on ⟨Real.sin, Real.cos, Real.sqrt, Real.pi⟩)
          (vec5 15 0 0 0 0) (some (vec5 0 0 0 0 0)) envelope_x).1.rtcp
        (fun _ => 0)
        (rtcp_apply_travel_limits axes5 (⟨Real.sin, Real.cos, Real.sqrt, Real.pi⟩ : Libm ℝ) 0
          sys_x none (module_on ⟨Real.sin, Real.cos, Real.sqrt, Real.pi⟩)
          (vec5 15 0 0 0 0) (some (vec5 0 0 0 0 0)) envelope_x).2).2
      sys_x.soft_limits false envelope_x).2 = true := by
  have hpos := (check_jog_x (module_on ⟨Real.sin, Real.cos, Real.sqrt, Real.pi⟩) rfl
    (vec5 0 0 0 0 0) 0 (fun _ _ => rfl)).mpr ⟨by norm_num, by norm_num⟩
  have hfast : ∀ x : ℝ, |vec5 x 0 0 0 0 axes5.A_AXIS| < 0.001 ∧
      |vec5 x 0 0 0 0 axes5.C_AXIS| < 0.001 := by
    intro x
    constructor <;> norm_num [vec5, axes5]
  have hJ : ∀ x : ℝ, joint_x axes5 (⟨Real.sin, Real.cos, Real.sqrt, Real.pi⟩ : Libm ℝ) 0
      (module_on ⟨Real.sin, Real.cos, Real.sqrt, Real.pi⟩).rtcp (vec5 x 0 0 0 0) = x := by
    intro x
    rw [joint_x_fast _ _ _ _ _ (hfast x)]
    rfl
  have hmax : (envelope_x : work_envelope_t ℝ).max X_AXIS = 5 := rfl
  obtain ⟨_, h2, h3, _, _, h6, h7⟩ := C24_jog_clip axes5
    (⟨Real.sin, Real.cos, Real.sqrt, Real.pi⟩ : Libm ℝ) 0 sys_x none envelope_x
    (module_on ⟨Real.sin, Real.cos, Real.sqrt, Real.pi⟩) (vec5 15 0 0 0 0) (vec5 0 0 0 0 0)
    rfl ⟨by decide, by decide⟩
    (fun i hi hi0 => by
      have hi5 : i < 5 := hi
      interval_cases i
      · exact absurd rfl hi0
      all_goals decide)
    (fun f hf => by cases hf)
    (fun i hi hi0 => by
      have hi5 : i < 5 := hi
      interval_cases i
      · exact absurd rfl hi0
      all_goals rfl)
    hpos (by rw [hJ, hmax]; norm_num)
  obtain ⟨_, _, h8⟩ := h7 (hfast 0)
  rw [h8, hmax] at h2 h3
  rw [hJ] at h3
  refine ⟨hpos, ?_, h2, h6⟩
  have e : (5 : ℝ) - (10 + (5 - 0)) / 2 ^ 16 = 5 - 15 / 2 ^ 16 := by norm_num
  rw [e] at h3
  exact h3

end JogClaims

section CacheErrorClaims

/-- C28 (cache error bound, as amended).  Geometry and tolerance as
`rtcp_kinematics_settings_changed` sets them from any stored pivot and offsets, so that
the tolerance is `0.01 / arm` radians with `arm = max(|pivot|, 500)`.  For every point `P`
and every valid, consistent cache sample within the tolerance of `P`'s `A` and `C`, the
joint point of the cached `transform_from_cartesian` is at a distance (Euclidean, over
X, Y, Z) of at most `(0.01 / arm) * (rC + rA)` from the one computed with the cache
invalid, where `rC` bounds the distance in XY of `P` from the pivot and `rA` the distance
in YZ of the exactly computed joint point from the A axis
`(pivot_y + axis_offset_y, pivot_z + axis_offset_z + TLO)`.  Hence the distance is at most
the chord-error budget 0.01 mm whenever `rC + rA ≤ arm`. -/
theorem C28_cache_error_bound (ax : Axes) (tlo_z : ℝ) (m0 : Module ℝ) (rtcp : rtcp_state_t ℝ)
    (t t' P : Vec ℝ) (rC rA : ℝ)
    (hcfg : rtcp.cfg = (rtcp_kinematics_settings_changed
      (⟨Real.sin, Real.cos, Real.sqrt, Real.pi⟩ : Libm ℝ) m0).rtcp.cfg)
    (htol : rtcp.trig_cache_tol = (rtcp_kinematics_settings_changed
      (⟨Real.sin, Real.cos, Real.sqrt, Real.pi⟩ : Libm ℝ) m0).rtcp.trig_cache_tol)
    (hvalid : rtcp.cache_valid = true)
    (hinv : CacheInv (⟨Real.sin, Real.cos, Real.sqrt, Real.pi⟩ : Libm ℝ) rtcp)
    (hA : |P ax.A_AXIS - rtcp.last_a| ≤ rtcp.trig_cache_tol)
    (hC : |P ax.C_AXIS - rtcp.last_c| ≤ rtcp.trig_cache_tol)
    (hrC : 0 ≤ rC) (hrA : 0 ≤ rA)
    (hdC : (P X_AXIS - rtcp.cfg.pivot_x) ^ 2 + (P Y_AXIS - rtcp.cfg.pivot_y) ^ 2 ≤ rC ^ 2)
    (hdA : ((transform_from_cartesian ax (⟨Real.sin, Real.cos, Real.sqrt, Real.pi⟩ : Libm ℝ)
          tlo_z (invalidate_cache rtcp) t' P).2 Y_AXIS
          - rtcp.cfg.pivot_y - rtcp.cfg.axis_offset_y) ^ 2 +
        ((transform_from_cartesian ax (⟨Real.sin, Real.cos, Real.sqrt, Real.pi⟩ : Libm ℝ)
          tlo_z (invalidate_cache rtcp) t' P).2 Z_AXIS
          - rtcp.cfg.pivot_z - (rtcp.cfg.axis_offset_z + tlo_z)) ^ 2 ≤ rA ^ 2) :
    Real.sqrt (xyz_dist_sq
        (transform_from_cartesian ax (⟨Real.sin, Real.cos, Real.sqrt, Real.pi⟩ : Libm ℝ)
          tlo_z rtcp t P).2
        (transform_from_cartesian ax (⟨Real.sin, Real.cos, Real.sqrt, Real.pi⟩ : Libm ℝ)
          tlo_z (invalidate_cache rtcp) t' P).2)
      ≤ 0.01 / max (Real.sqrt (rtcp.cfg.pivot_x * rtcp.cfg.pivot_x
          + rtcp.cfg.pivot_y * rtcp.cfg.pivot_y + rtcp.cfg.pivot_z * rtcp.cfg.pivot_z)) 500
        * (rC + rA) ∧
    (rC + rA ≤ max (Real.sqrt (rtcp.cfg.pivot_x * rtcp.cfg.pivot_x
          + rtcp.cfg.pivot_y * rtcp.cfg.pivot_y + rtcp.cfg.pivot_z * rtcp.cfg.pivot_z)) 500 →
      Real.sqrt (xyz_dist_sq
        (transform_from_cartesian ax (⟨Real.sin, Real.cos, Real.sqrt, Real.pi⟩ : Libm ℝ)
          tlo_z rtcp t P).2
        (transform_from_cartesian ax (⟨Real.sin, Real.cos, Real.sqrt, Real.pi⟩ : Libm ℝ)
          tlo_z (invalidate_cache rtcp) t' P).2) ≤ 0.01) := by
  have hN : 3 < ax.N_AXIS := by
    have := ax.hA
    omega
  have hpi : 0 < Real.pi := Real.pi_pos
  obtain ⟨arm, harm⟩ : ∃ v, v = max (Real.sqrt (rtcp.cfg.pivot_x * rtcp.cfg.pivot_x
      + rtcp.cfg.pivot_y * rtcp.cfg.pivot_y + rtcp.cfg.pivot_z * rtcp.cfg.pivot_z)) 500 :=
    ⟨_, rfl⟩
  have harm500 : (500 : ℝ) ≤ arm := by
    rw [harm]
    exact le_max_right _ _
  have harm0 : 0 < arm := by linarith
  have hδ : DEG_TO_RAD (⟨Real.sin, Real.cos, Real.sqrt, Real.pi⟩ : Libm ℝ) rtcp.trig_cache_tol
      = 0.01 / arm := by
    rw [htol, settings_changed_tol_rad, harm, hcfg]
    rfl
  have hδ' : rtcp.trig_cache_tol * (Real.pi / 180) = 0.01 / arm := hδ
  rw [← harm]
  have hbound : xyz_dist_sq
      (transform_from_cartesian ax (⟨Real.sin, Real.cos, Real.sqrt, Real.pi⟩ : Libm ℝ)
        tlo_z rtcp t P).2
      (transform_from_cartesian ax (⟨Real.sin, Real.cos, Real.sqrt, Real.pi⟩ : Libm ℝ)
        tlo_z (invalidate_cache rtcp) t' P).2 ≤ (0.01 / arm * (rC + rA)) ^ 2 := by
    by_cases hf : |P ax.A_AXIS| < 0.001 ∧ |P ax.C_AXIS| < 0.001
    · rw [transform_from_cartesian_fast ax _ tlo_z rtcp t P hf,
        transform_from_cartesian_fast ax _ tlo_z (invalidate_cache rtcp) t' P hf]
      have h0 : (0 : Nat) < ax.N_AXIS := by omega
      have h1 : (1 : Nat) < ax.N_AXIS := by omega
      have h2 : (2 : Nat) < ax.N_AXIS := by omega
      simp only [xyz_dist_sq, memcpy, X_AXIS, Y_AXIS, Z_AXIS, if_pos h0, if_pos h1, if_pos h2]
      norm_num
      positivity
    · have e1 := cached_inverse_eq_spec ax (⟨Real.sin, Real.cos, Real.sqrt, Real.pi⟩ : Libm ℝ)
        tlo_z rtcp t P hvalid hinv hA hC hf
      have e2 := exact_inverse_eq_spec ax (⟨Real.sin, Real.cos, Real.sqrt, Real.pi⟩ : Libm ℝ)
        tlo_z rtcp t' P hf
      rw [xyz_dist_sq_congr ax _ _ _ _ e1 e2]
      rw [e2 Y_AXIS (by unfold Y_AXIS; omega), e2 Z_AXIS (by unfold Z_AXIS; omega)] at hdA
      have hA' : |rtcp.last_a - P ax.A_AXIS| * (Real.pi / 180) ≤ 0.01 / arm := by
        rw [← hδ', abs_sub_comm]
        exact mul_le_mul_of_nonneg_right hA (by positivity)
      have hC' : |rtcp.last_c - P ax.C_AXIS| * (Real.pi / 180) ≤ 0.01 / arm := by
        rw [← hδ', abs_sub_comm]
        exact mul_le_mul_of_nonneg_right hC (by positivity)
      exact spec_inverse_error rtcp.cfg tlo_z (P ax.A_AXIS) (P ax.C_AXIS) rtcp.last_a
        rtcp.last_c P (0.01 / arm) rC rA (by positivity) hrC hrA hA' hC' hdC hdA
  have hnn : 0 ≤ 0.01 / arm * (rC + rA) := by positivity
  have hsqrt : Real.sqrt (xyz_dist_sq
      (transform_from_cartesian ax (⟨Real.sin, Real.cos, Real.sqrt, Real.pi⟩ : Libm ℝ)
        tlo_z rtcp t P).2
      (transform_from_cartesian ax (⟨Real.sin, Real.cos, Real.sqrt, Real.pi⟩ : Libm ℝ)
        tlo_z (invalidate_cache rtcp) t' P).2) ≤ 0.01 / arm * (rC + rA) := by
    rw [Real.sqrt_le_left hnn]
    exact hbound
  refine ⟨hsqrt, fun hsum => le_trans hsqrt ?_⟩
  calc 0.01 / arm * (rC + rA) ≤ 0.01 / arm * arm :=
        mul_le_mul_of_nonneg_left hsum (by positivity)
    _ = 0.01 := by field_simp

end CacheErrorClaims

section CacheErrorClaims2

/-- C28, counterexample.  Default geometry (pivot and offsets zero, inside the declared
ranges), no tool offset, and the valid sample `(90, 0)` in the cache.  The angles of
`P = (0, 1000, 0, 90.001, 0)` are within the tolerance of the sample, and the joint point
of the cached transform is more than 0.01 mm away from the exactly computed one: its Y is
0 where the exact one is `1000 cos 90.001° < -0.01`. -/
theorem C28_counterexample :
    (c1_state (⟨Real.sin, Real.cos, Real.sqrt, Real.pi⟩ : Libm ℝ)).cfg = ⟨0, 0, 0, 0, 0⟩ ∧
    (c1_state (⟨Real.sin, Real.cos, Real.sqrt, Real.pi⟩ : Libm ℝ)).trig_cache_tol =
      (rtcp_kinematics_settings_changed (⟨Real.sin, Real.cos, Real.sqrt, Real.pi⟩ : Libm ℝ)
        module_boot).rtcp.trig_cache_tol ∧
    (c1_state (⟨Real.sin, Real.cos, Real.sqrt, Real.pi⟩ : Libm ℝ)).cache_valid = true ∧
    CacheInv (⟨Real.sin, Real.cos, Real.sqrt, Real.pi⟩ : Libm ℝ)
      (c1_state ⟨Real.sin, Real.cos, Real.sqrt, Real.pi⟩) ∧
    |vec5 0 1000 0 90.001 0 axes5.A_AXIS
        - (c1_state (⟨Real.sin, Real.cos, Real.sqrt, Real.pi⟩ : Libm ℝ)).last_a|
      ≤ (c1_state (⟨Real.sin, Real.cos, Real.sqrt, Real.pi⟩ : Libm ℝ)).trig_cache_tol ∧
    |vec5 0 1000 0 90.001 0 axes5.C_AXIS
        - (c1_state (⟨Real.sin, Real.cos, Real.sqrt, Real.pi⟩ : Libm ℝ)).last_c|
      ≤ (c1_state (⟨Real.sin, Real.cos, Real.sqrt, Real.pi⟩ : Libm ℝ)).trig_cache_tol ∧
    ¬ (Real.sqrt (xyz_dist_sq
        (transform_from_cartesian axes5 (⟨Real.sin, Real.cos, Real.sqrt, Real.pi⟩ : Libm ℝ) 0
          (c1_state ⟨Real.sin, Real.cos, Real.sqrt, Real.pi⟩) (fun _ => 0)
          (vec5 0 1000 0 90.001 0)).2
        (transform_from_cartesian axes5 (⟨Real.sin, Real.cos, Real.sqrt, Real.pi⟩ : Libm ℝ) 0
          (invalidate_cache (c1_state ⟨Real.sin, Real.cos, Real.sqrt, Real.pi⟩)) (fun _ => 0)
          (vec5 0 1000 0 90.001 0)).2) ≤ 0.01) := by
  obtain ⟨hvalid, hinv, hA, hC, hY, hY', _⟩ := c1_state_point 1000
  refine ⟨by rw [c1_state_eq], ?_, hvalid, hinv, hA, hC, ?_⟩
  · exact transform_from_cartesian_tol axes5 _ 0 _ (fun _ => 0) (vec5 0 0 0 90 0)
  · rw [Real.sqrt_le_left (by norm_num)]
    unfold xyz_dist_sq
    rw [hY, hY']
    have hcos := cos_deg_past_90 90.001 (le_refl _) (by norm_num)
    have h1 : (0.01 : ℝ) ^ 2 < (0 - 1000 * Real.cos (90.001 * (Real.pi / 180))) ^ 2 := by
      have : (0.01 : ℝ) < 0 - 1000 * Real.cos (90.001 * (Real.pi / 180)) := by linarith
      exact pow_lt_pow_left₀ this (by norm_num) (by norm_num)
    intro hle
    have h2 := sq_nonneg ((transform_from_cartesian axes5
      (⟨Real.sin, Real.cos, Real.sqrt, Real.pi⟩ : Libm ℝ) 0
      (c1_state ⟨Real.sin, Real.cos, Real.sqrt, Real.pi⟩) (fun _ => 0)
      (vec5 0 1000 0 90.001 0)).2 X_AXIS -
      (transform_from_cartesian axes5 (⟨Real.sin, Real.cos, Real.sqrt, Real.pi⟩ : Libm ℝ) 0
      (invalidate_cache (c1_state ⟨Real.sin, Real.cos, Real.sqrt, Real.pi⟩)) (fun _ => 0)
      (vec5 0 1000 0 90.001 0)).2 X_AXIS)
    have h3 := sq_nonneg ((transform_from_cartesian axes5
      (⟨Real.sin, Real.cos, Real.sqrt, Real.pi⟩ : Libm ℝ) 0
      (c1_state ⟨Real.sin, Real.cos, Real.sqrt, Real.pi⟩) (fun _ => 0)
      (vec5 0 1000 0 90.001 0)).2 Z_AXIS -
      (transform_from_cartesian axes5 (⟨Real.sin, Real.cos, Real.sqrt, Real.pi⟩ : Libm ℝ) 0
      (invalidate_cache (c1_state ⟨Real.sin, Real.cos, Real.sqrt, Real.pi⟩)) (fun _ => 0)
      (vec5 0 1000 0 90.001 0)).2 Z_AXIS)
    linarith

/-- C28, witness: default geometry, the valid sample `(90, 0)` in the cache, and
`P = (0, 100, 0, 90.001, 0)`, at 100 mm from both axes: the joint point of the cached
transform is within 0.01 mm of the exactly computed one. -/
theorem C28_cache_error_bound_witness :
    (c1_state (⟨Real.sin, Real.cos, Real.sqrt, Real.pi⟩ : Libm ℝ)).cache_valid = true ∧
    |vec5 0 100 0 90.001 0 axes5.A_AXIS
        - (c1_state (⟨Real.sin, Real.cos, Real.sqrt, Real.pi⟩ : Libm ℝ)).last_a|
      ≤ (c1_state (⟨Real.sin, Real.cos, Real.sqrt, Real.pi⟩ : Libm ℝ)).trig_cache_tol ∧
    |vec5 0 100 0 90.001 0 axes5.C_AXIS
        - (c1_state (⟨Real.sin, Real.cos, Real.sqrt, Real.pi⟩ : Libm ℝ)).last_c|
      ≤ (c1_state (⟨Real.sin, Real.cos, Real.sqrt, Real.pi⟩ : Libm ℝ)).trig_cache_tol ∧
    Real.sqrt (xyz_dist_sq
        (transform_from_cartesian axes5 (⟨Real.sin, Real.cos, Real.sqrt, Real.pi⟩ : Libm ℝ) 0
          (c1_state ⟨Real.sin, Real.cos, Real.sqrt, Real.pi⟩) (fun _ => 0)
          (vec5 0 100 0 90.001 0)).2
        (transform_from_cartesian axes5 (⟨Real.sin, Real.cos, Real.sqrt, Real.pi⟩ : Libm ℝ) 0
          (invalidate_cache (c1_state ⟨Real.sin, Real.cos, Real.sqrt, Real.pi⟩)) (fun _ => 0)
          (vec5 0 100 0 90.001 0)).2) ≤ 0.01 := by
  obtain ⟨hvalid, hinv, hA, hC, _, hY', hZ'⟩ := c1_state_point 100
  have hcfg : (c1_state (⟨Real.sin, Real.cos, Real.sqrt, Real.pi⟩ : Libm ℝ)).cfg
      = ⟨0, 0, 0, 0, 0⟩ := by
    rw [c1_state_eq]
  have hdC : (vec5 (0:ℝ) 100 0 90.001 0 X_AXIS
        - (c1_state (⟨Real.sin, Real.cos, Real.sqrt, Real.pi⟩ : Libm ℝ)).cfg.pivot_x) ^ 2
      + (vec5 (0:ℝ) 100 0 90.001 0 Y_AXIS
        - (c1_state (⟨Real.sin, Real.cos, Real.sqrt, Real.pi⟩ : Libm ℝ)).cfg.pivot_y) ^ 2
      ≤ (100 : ℝ) ^ 2 := by
    rw [hcfg]
    norm_num [vec5, X_AXIS, Y_AXIS]
  have hdA : ((transform_from_cartesian axes5 (⟨Real.sin, Real.cos, Real.sqrt, Real.pi⟩ : Libm ℝ)
          0 (invalidate_cache (c1_state ⟨Real.sin, Real.cos, Real.sqrt, Real.pi⟩)) (fun _ => 0)
          (vec5 0 100 0 90.001 0)).2 Y_AXIS
          - (c1_state (⟨Real.sin, Real.cos, Real.sqrt, Real.pi⟩ : Libm ℝ)).cfg.pivot_y
          - (c1_state (⟨Real.sin, Real.cos, Real.sqrt, Real.pi⟩ : Libm ℝ)).cfg.axis_offset_y) ^ 2 +
        ((transform_from_cartesian axes5 (⟨Real.sin, Real.cos, Real.sqrt, Real.pi⟩ : Libm ℝ)
          0 (invalidate_cache (c1_state ⟨Real.sin, Real.cos, Real.sqrt, Real.pi⟩)) (fun _ => 0)
          (vec5 0 100 0 90.001 0)).2 Z_AXIS
          - (c1_state (⟨Real.sin, Real.cos, Real.sqrt, Real.pi⟩ : Libm ℝ)).cfg.pivot_z
          - ((c1_state (⟨Real.sin, Real.cos, Real.sqrt, Real.pi⟩ : Libm ℝ)).cfg.axis_offset_z
              + 0)) ^ 2
      ≤ (100 : ℝ) ^ 2 := by
    rw [hY', hZ', hcfg]
    have := Real.sin_sq_add_cos_sq (90.001 * (Real.pi / 180))
    nlinarith
  have hsum : (100 : ℝ) + 100 ≤ max (Real.sqrt
      ((c1_state (⟨Real.sin, Real.cos, Real.sqrt, Real.pi⟩ : Libm ℝ)).cfg.pivot_x
          * (c1_state (⟨Real.sin, Real.cos, Real.sqrt, Real.pi⟩ : Libm ℝ)).cfg.pivot_x
        + (c1_state (⟨Real.sin, Real.cos, Real.sqrt, Real.pi⟩ : Libm ℝ)).cfg.pivot_y
          * (c1_state (⟨Real.sin, Real.cos, Real.sqrt, Real.pi⟩ : Libm ℝ)).cfg.pivot_y
        + (c1_state (⟨Real.sin, Real.cos, Real.sqrt, Real.pi⟩ : Libm ℝ)).cfg.pivot_z
          * (c1_state (⟨Real.sin, Real.cos, Real.sqrt, Real.pi⟩ : Libm ℝ)).cfg.pivot_z)) 500 :=
    le_trans (by norm_num) (le_max_right _ _)
  exact ⟨hvalid, hA, hC,
    (C28_cache_error_bound axes5 0 module_boot
      (c1_state ⟨Real.sin, Real.cos, Real.sqrt, Real.pi⟩) (fun _ => 0) (fun _ => 0)
      (vec5 0 100 0 90.001 0) 100 100
      (transform_from_cartesian_cfg axes5 _ 0 _ (fun _ => 0) (vec5 0 0 0 90 0))
      (transform_from_cartesian_tol axes5 _ 0 _ (fun _ => 0) (vec5 0 0 0 90 0))
      hvalid hinv hA hC (by norm_num) (by norm_num) hdC hdA).2 hsum⟩

end CacheErrorClaims2

section ReachClaims
variable {α : Type} [LinearOrderedField α] [FloorRing α]

/-- C35 (cache invariant).  In the statics reached from the initial statics of the program
by any sequence `cs` of calls of the entry points of the module (inverse and forward
transforms, segmenter init and produce calls, limit hooks, homing hooks, jog cancel,
M-codes, settings writes, changes, restore and load, reports), with any arguments and host
data at each call, and likewise when `rtcp_5axis_init` ran first: if `cache_valid` is true
then `sin_a`, `cos_a`, `sin_c`, `cos_c` are the sine and cosine of `last_a` and `last_c`
converted from degrees to radians (`CacheInv`). -/
theorem C35_cache_invariant (ax : Axes) (L : Libm α) (cs : List (module_call α))
    (nvs_alloc_ok : Bool) (nvs : Option (rtcp_settings_t α)) :
    CacheInv L (run_calls ax L module_boot cs).rtcp ∧
    CacheInv L (run_calls ax L (rtcp_5axis_init L nvs_alloc_ok nvs module_boot) cs).rtcp := by
  have hT : ∀ (tlo : α) (r : rtcp_state_t α) (t P : Vec α), CacheInv L r →
      CacheInv L (transform_from_cartesian ax L tlo r t P).1 :=
    fun tlo r t P h => transform_from_cartesian_inv ax L tlo r t P h
  have hboot : CacheInv L (module_boot : Module α).rtcp := by
    intro h
    exact absurd h (by simp [module_boot])
  refine ⟨run_calls_pres ax L (CacheInv L) hT (fun r _ => invalidate_cache_inv L r) (settings_changed_inv L)
    cs _ hboot, run_calls_pres ax L (CacheInv L) hT (fun r _ => invalidate_cache_inv L r)
    (settings_changed_inv L) cs _ ?_⟩
  unfold rtcp_5axis_init
  split_ifs
  · exact settings_changed_inv L _
  · exact hboot

end ReachClaims

section SeamClaims

/-- C34 (tolerance derivation).  With the library functions read as the real ones:
`rtcp_kinematics_settings_changed` (run on every change of a geometry setting and on
load) copies the stored geometry to the working copy and leaves
`trig_cache_tol = 0.01 / max(sqrt(pivot_x² + pivot_y² + pivot_z²), 500) · 180 / π`; this
value is positive and at most `0.01 / 500 · 180 / π` for every stored pivot, and it is the
same for any other stored axis offsets `oy`, `oz`.  Every other call of an entry point
keeps the relation between the tolerance and the pivot of the working geometry. -/
theorem C34_tolerance_derivation (ax : Axes) (m : Module ℝ) (oy oz : ℝ) (c : module_call ℝ) :
    (rtcp_kinematics_settings_changed (⟨Real.sin, Real.cos, Real.sqrt, Real.pi⟩ : Libm ℝ)
      m).rtcp.cfg = m.rtcp_settings_storage ∧
    (rtcp_kinematics_settings_changed (⟨Real.sin, Real.cos, Real.sqrt, Real.pi⟩ : Libm ℝ)
      m).rtcp.trig_cache_tol =
      0.01 / max (Real.sqrt (m.rtcp_settings_storage.pivot_x ^ 2
        + m.rtcp_settings_storage.pivot_y ^ 2 + m.rtcp_settings_storage.pivot_z ^ 2)) 500
        * 180 / Real.pi ∧
    0 < (rtcp_kinematics_settings_changed (⟨Real.sin, Real.cos, Real.sqrt, Real.pi⟩ : Libm ℝ)
      m).rtcp.trig_cache_tol ∧
    (rtcp_kinematics_settings_changed (⟨Real.sin, Real.cos, Real.sqrt, Real.pi⟩ : Libm ℝ)
      m).rtcp.trig_cache_tol ≤ 0.01 / 500 * 180 / Real.pi ∧
    (rtcp_kinematics_settings_changed (⟨Real.sin, Real.cos, Real.sqrt, Real.pi⟩ : Libm ℝ)
      { m with rtcp_settings_storage :=
          { m.rtcp_settings_storage with axis_offset_y := oy, axis_offset_z := oz } }
      ).rtcp.trig_cache_tol =
      (rtcp_kinematics_settings_changed (⟨Real.sin, Real.cos, Real.sqrt, Real.pi⟩ : Libm ℝ)
        m).rtcp.trig_cache_tol ∧
    (m.rtcp.trig_cache_tol =
        0.01 / max (Real.sqrt (m.rtcp.cfg.pivot_x ^ 2 + m.rtcp.cfg.pivot_y ^ 2
          + m.rtcp.cfg.pivot_z ^ 2)) 500 * 180 / Real.pi →
      (run_call ax (⟨Real.sin, Real.cos, Real.sqrt, Real.pi⟩ : Libm ℝ) m c).rtcp.trig_cache_tol =
        0.01 / max (Real.sqrt
          ((run_call ax (⟨Real.sin, Real.cos, Real.sqrt, Real.pi⟩ : Libm ℝ) m c).rtcp.cfg.pivot_x ^ 2
          + (run_call ax (⟨Real.sin, Real.cos, Real.sqrt, Real.pi⟩ : Libm ℝ) m c).rtcp.cfg.pivot_y ^ 2
          + (run_call ax (⟨Real.sin, Real.cos, Real.sqrt, Real.pi⟩ : Libm ℝ) m c).rtcp.cfg.pivot_z ^ 2))
          500 * 180 / Real.pi) := by
  have hpi : 0 < Real.pi := Real.pi_pos
  have key : ∀ m0 : Module ℝ,
      (rtcp_kinematics_settings_changed (⟨Real.sin, Real.cos, Real.sqrt, Real.pi⟩ : Libm ℝ)
        m0).rtcp.trig_cache_tol =
      0.01 / max (Real.sqrt (m0.rtcp_settings_storage.pivot_x ^ 2
        + m0.rtcp_settings_storage.pivot_y ^ 2 + m0.rtcp_settings_storage.pivot_z ^ 2)) 500
        * 180 / Real.pi := by
    intro m0
    simp only [rtcp_kinematics_settings_changed, invalidate_cache, RAD_TO_DEG,
      MAX_CHORD_ERROR_MM, MAX_ARM_LENGTH_MM]
    rw [← sq, ← sq, ← sq]
    split_ifs with h
    · rw [max_eq_right h.le]
      ring
    · rw [max_eq_left (not_lt.mp h)]
      ring
  have hmax : ∀ x : ℝ, (500 : ℝ) ≤ max x 500 := fun x => le_max_right _ _
  refine ⟨rfl, key m, ?_, ?_, ?_, ?_⟩
  · rw [key m]
    have := hmax (Real.sqrt (m.rtcp_settings_storage.pivot_x ^ 2
        + m.rtcp_settings_storage.pivot_y ^ 2 + m.rtcp_settings_storage.pivot_z ^ 2))
    positivity
  · rw [key m]
    have h5 := hmax (Real.sqrt (m.rtcp_settings_storage.pivot_x ^ 2
        + m.rtcp_settings_storage.pivot_y ^ 2 + m.rtcp_settings_storage.pivot_z ^ 2))
    apply div_le_div_of_nonneg_right _ hpi.le
    apply mul_le_mul_of_nonneg_right _ (by norm_num)
    apply div_le_div_of_nonneg_left (by norm_num) (by norm_num) h5
  · rw [key, key]
  · intro h
    exact run_call_pres ax (⟨Real.sin, Real.cos, Real.sqrt, Real.pi⟩ : Libm ℝ)
      (fun r => r.trig_cache_tol = 0.01 / max (Real.sqrt (r.cfg.pivot_x ^ 2 + r.cfg.pivot_y ^ 2
          + r.cfg.pivot_z ^ 2)) 500 * 180 / Real.pi)
      (fun tlo r t P hr => by
        show (transform_from_cartesian ax _ tlo r t P).1.trig_cache_tol = _
        rw [transform_from_cartesian_tol, transform_from_cartesian_cfg]
        exact hr)
      (fun r hr => hr)
      (fun m0 => key m0) m c h

/-- C36 (fast-path seam).  With the library functions read as the real ones: for every
geometry, tool offset and point `P` with `A = 0` exactly and `|C| ≥ 0.001` (general path),
in a cache state fresh at the angles of `P` (invalid, or with no sample within the
tolerance other than one at the angles themselves), the inverse transform returns
`Z = P.z - tlo_z`; for `C = 360` it returns `X = P.x` and `Y = P.y` as well.  A point with
`A = 0` and `|C| < 0.001` takes the fast path and gets `Z = P.z`.  So the general path
returns the Z of its input exactly when the tool-length offset is zero. -/
theorem C36_fast_path_seam (ax : Axes) (tlo_z : ℝ) (rtcp : rtcp_state_t ℝ) (t P : Vec ℝ)
    (hA : P ax.A_AXIS = 0) (hC : 0.001 ≤ |P ax.C_AXIS|)
    (hfresh : FreshAt (⟨Real.sin, Real.cos, Real.sqrt, Real.pi⟩ : Libm ℝ) rtcp
      (P ax.A_AXIS) (P ax.C_AXIS)) :
    (transform_from_cartesian ax (⟨Real.sin, Real.cos, Real.sqrt, Real.pi⟩ : Libm ℝ) tlo_z
      rtcp t P).2 Z_AXIS = P Z_AXIS - tlo_z ∧
    (P ax.C_AXIS = 360 →
      (transform_from_cartesian ax (⟨Real.sin, Real.cos, Real.sqrt, Real.pi⟩ : Libm ℝ) tlo_z
        rtcp t P).2 X_AXIS = P X_AXIS ∧
      (transform_from_cartesian ax (⟨Real.sin, Real.cos, Real.sqrt, Real.pi⟩ : Libm ℝ) tlo_z
        rtcp t P).2 Y_AXIS = P Y_AXIS) ∧
    (∀ P0 : Vec ℝ, P0 ax.A_AXIS = 0 → |P0 ax.C_AXIS| < 0.001 →
      (transform_from_cartesian ax (⟨Real.sin, Real.cos, Real.sqrt, Real.pi⟩ : Libm ℝ) tlo_z
        rtcp t P0).2 Z_AXIS = P0 Z_AXIS) ∧
    ((transform_from_cartesian ax (⟨Real.sin, Real.cos, Real.sqrt, Real.pi⟩ : Libm ℝ) tlo_z
      rtcp t P).2 Z_AXIS = P Z_AXIS ↔ tlo_z = 0) := by
  have hN : 3 < ax.N_AXIS := by
    have := ax.hA
    omega
  have hout : ¬ (|P ax.A_AXIS| < 0.001 ∧ |P ax.C_AXIS| < 0.001) :=
    fun h => absurd h.2 (not_lt.mpr hC)
  have hspec := transform_from_cartesian_spec ax
    (⟨Real.sin, Real.cos, Real.sqrt, Real.pi⟩ : Libm ℝ) tlo_z rtcp t P _ _ hout
    (update_trig_cache_fresh_exact _ rtcp _ _ hfresh)
  have hZ : (transform_from_cartesian ax (⟨Real.sin, Real.cos, Real.sqrt, Real.pi⟩ : Libm ℝ)
      tlo_z rtcp t P).2 Z_AXIS = P Z_AXIS - tlo_z := by
    rw [hspec Z_AXIS (by unfold Z_AXIS; omega), hA]
    simp only [spec_uncached_inverse, DEG_TO_RAD, X_AXIS, Y_AXIS, Z_AXIS]
    norm_num
  refine ⟨hZ, ?_, ?_, ?_⟩
  · intro h360
    have e : (360 : ℝ) * (Real.pi / 180) = 2 * Real.pi := by ring
    constructor
    · rw [hspec X_AXIS (by unfold X_AXIS; omega), hA, h360]
      simp only [spec_uncached_inverse, DEG_TO_RAD, X_AXIS, Y_AXIS, Z_AXIS, e]
      norm_num
    · rw [hspec Y_AXIS (by unfold Y_AXIS; omega), hA, h360]
      simp only [spec_uncached_inverse, DEG_TO_RAD, X_AXIS, Y_AXIS, Z_AXIS, e]
      norm_num
  · intro P0 h0 hc0
    rw [transform_from_cartesian_fast ax _ tlo_z rtcp t P0 ⟨by rw [h0]; norm_num, hc0⟩]
    simp only [memcpy, Z_AXIS, if_pos (show 2 < ax.N_AXIS by omega)]
  · rw [hZ]
    constructor
    · intro h
      linarith
    · intro h
      rw [h]
      ring

/-- C36, witness: scenario geometry (pivot (100, 100, 100)), tool offset 50, cache invalid,
`P = (10, 20, 30, 0, 360)`: the joint point has `Z = 30 - 50` and `X = 10`, `Y = 20`. -/
theorem C36_fast_path_seam_witness :
    (transform_from_cartesian axes5 (⟨Real.sin, Real.cos, Real.sqrt, Real.pi⟩ : Libm ℝ) 50
      (scenario_module_on ⟨Real.sin, Real.cos, Real.sqrt, Real.pi⟩).rtcp (fun _ => 0)
      (vec5 10 20 30 0 360)).2 Z_AXIS = 30 - 50 ∧
    (transform_from_cartesian axes5 (⟨Real.sin, Real.cos, Real.sqrt, Real.pi⟩ : Libm ℝ) 50
      (scenario_module_on ⟨Real.sin, Real.cos, Real.sqrt, Real.pi⟩).rtcp (fun _ => 0)
      (vec5 10 20 30 0 360)).2 X_AXIS = 10 ∧
    (transform_from_cartesian axes5 (⟨Real.sin, Real.cos, Real.sqrt, Real.pi⟩ : Libm ℝ) 50
      (scenario_module_on ⟨Real.sin, Real.cos, Real.sqrt, Real.pi⟩).rtcp (fun _ => 0)
      (vec5 10 20 30 0 360)).2 Y_AXIS = 20 := by
  have h := C36_fast_path_seam axes5 50
    (scenario_module_on ⟨Real.sin, Real.cos, Real.sqrt, Real.pi⟩).rtcp (fun _ => 0)
    (vec5 10 20 30 0 360) rfl (by norm_num [vec5, axes5, abs_of_pos])
    (fresh_of_invalid _ _ _ _ (scenario_module_on_cache _))
  exact ⟨h.1, (h.2.1 rfl).1, (h.2.1 rfl).2⟩

end SeamClaims

section RoundTripClaims
variable {α : Type} [LinearOrderedField α]

/-- C37 (reverse round trip).  For every geometry, tool offset and cache state `rtcp`
that is invalid on entry, with a library whose sine and cosine satisfy
`sin² + cos² = 1`: the inverse transform of the forward transform of a joint point `Q` is
`Q` on every axis, and the forward transform of the inverse transform of a TCP point `P`
is `P` on every axis.  Hence the inverse transform is one-to-one (two points with the same
joint point are the same point) and onto (every joint point `Q` is the joint point of a
TCP point with the `A` and `C` of `Q`). -/
theorem C37_reverse_round_trip (ax : Axes) (L : Libm α) (tlo_z : α) (rtcp : rtcp_state_t α)
    (t1 t2 : Vec α) (hpyth : ∀ x, L.sinf x ^ 2 + L.cosf x ^ 2 = 1)
    (hinvalid : rtcp.cache_valid = false) :
    (∀ (Q : Vec α) (i : Nat), i < ax.N_AXIS →
      (transform_from_cartesian ax L tlo_z rtcp t1
        (transform_to_cartesian ax L tlo_z rtcp t2 Q)).2 i = Q i) ∧
    (∀ (P : Vec α) (i : Nat), i < ax.N_AXIS →
      transform_to_cartesian ax L tlo_z rtcp t2
        (transform_from_cartesian ax L tlo_z rtcp t1 P).2 i = P i) ∧
    (∀ P1 P2 : Vec α, (∀ i, i < ax.N_AXIS →
        (transform_from_cartesian ax L tlo_z rtcp t1 P1).2 i
          = (transform_from_cartesian ax L tlo_z rtcp t1 P2).2 i) →
      ∀ i, i < ax.N_AXIS → P1 i = P2 i) ∧
    (∀ Q : Vec α, ∃ P : Vec α, P ax.A_AXIS = Q ax.A_AXIS ∧ P ax.C_AXIS = Q ax.C_AXIS ∧
      ∀ i, i < ax.N_AXIS → (transform_from_cartesian ax L tlo_z rtcp t1 P).2 i = Q i) := by
  have h1 : ∀ (Q : Vec α) (i : Nat), i < ax.N_AXIS →
      (transform_from_cartesian ax L tlo_z rtcp t1
        (transform_to_cartesian ax L tlo_z rtcp t2 Q)).2 i = Q i :=
    fun Q => reverse_round_trip ax L tlo_z rtcp rtcp t1 t2 Q hpyth rfl
      (Or.inr (fresh_of_invalid L rtcp _ _ hinvalid))
  have h2 : ∀ (P : Vec α) (i : Nat), i < ax.N_AXIS →
      transform_to_cartesian ax L tlo_z rtcp t2
        (transform_from_cartesian ax L tlo_z rtcp t1 P).2 i = P i :=
    fun P => round_trip_of_exact ax L tlo_z rtcp rtcp t1 t2 P hpyth rfl
      (Or.inr (update_trig_cache_exact L rtcp _ _ (Or.inl hinvalid)))
  refine ⟨h1, h2, ?_, ?_⟩
  · intro P1 P2 heq i hi
    rw [← h2 P1 i hi, ← h2 P2 i hi,
      transform_to_cartesian_congr ax L tlo_z rtcp t2 _ _ heq]
  · intro Q
    exact ⟨transform_to_cartesian ax L tlo_z rtcp t2 Q,
      transform_to_cartesian_above_Z ax L tlo_z rtcp t2 Q _ ax.hA.1 ax.hA.2,
      transform_to_cartesian_above_Z ax L tlo_z rtcp t2 Q _ ax.hC.1 ax.hC.2, h1 Q⟩

/-- C37, witness: scenario geometry, tool offset 50, cache invalid, the joint point
`(10, 20, 30, 45, 60)`: forward then inverse transform gives back its `Y`. -/
theorem C37_reverse_round_trip_witness :
    (transform_from_cartesian axes5 (⟨Real.sin, Real.cos, Real.sqrt, Real.pi⟩ : Libm ℝ) 50
      (scenario_module_on ⟨Real.sin, Real.cos, Real.sqrt, Real.pi⟩).rtcp (fun _ => 0)
      (transform_to_cartesian axes5 (⟨Real.sin, Real.cos, Real.sqrt, Real.pi⟩ : Libm ℝ) 50
        (scenario_module_on ⟨Real.sin, Real.cos, Real.sqrt, Real.pi⟩).rtcp (fun _ => 0)
        (vec5 10 20 30 45 60))).2 Y_AXIS = 20 :=
  (C37_reverse_round_trip axes5 (⟨Real.sin, Real.cos, Real.sqrt, Real.pi⟩ : Libm ℝ) 50
    (scenario_module_on ⟨Real.sin, Real.cos, Real.sqrt, Real.pi⟩).rtcp (fun _ => 0)
    (fun _ => 0) Real.sin_sq_add_cos_sq (scenario_module_on_cache _)).1
    (vec5 10 20 30 45 60) 1 (by decide)

end RoundTripClaims

section CountClaims

/-- C38 (segment count values).  For every move and every library of sines, cosines and
square roots (sums and products taken as exact): the init call leaves
`iterations = n + 1`, where the number `n` of segments planned is 1 or an even number from
2 to 2000, so never 3 nor any other odd number above 1; `n` is not 2 when the square root
of the library is the exact one (then `n` is 1 or at least 4); and `n` points are returned
by the produce calls when no jog cancel comes. -/
theorem C38_segment_count_values (ax : Axes) (L : Libm ℝ) (H : Host ℝ) (m : Module ℝ)
    (target position : Vec ℝ) (pl0 : plan_line_data_t ℝ) (pls : Nat → plan_line_data_t ℝ) :
    ∃ n, (rtcp_segment_line ax L H m target position pl0 true).1.iterations = n + 1 ∧
      (n = 1 ∨ (2 ≤ n ∧ n ≤ 2000 ∧ 2 ∣ n)) ∧
      (L.sqrtf = Real.sqrt → n ≠ 2) ∧
      ∃ pts m', segment_move ax L H pl0 pls (fun _ => false) 2001 m target position
        = some (pts, m') ∧ pts.length = n := by
  have e : rtcp_segment_line ax L H m target position pl0 true
      = segment_init ax L H m target position pl0 := rfl
  obtain ⟨n, hn, hv, hx⟩ := segment_init_values ax L H m target position pl0
  rw [← e] at hn
  have hle : n ≤ 2000 := by
    rcases hv with h | h
    · omega
    · exact h.2.1
  obtain ⟨pts, m', hrun, _, hlen⟩ := produce_until_null_count ax L H pls (fun _ => false) n
    2001 0 (rtcp_segment_line ax L H m target position pl0 true).1 hn
    (by unfold UINT_FAST16_RANGE; omega) (by omega)
  exact ⟨n, hn, hv, hx, pts, m', hrun,
    hlen (fun _ => rfl) (segment_init_jog_cancel ax L H m target position pl0)⟩

/-- C38, counterexample (a move in two segments).  Default geometry, no tool offset, RTCP
just switched on, and a library whose square root is the real one rounded to the nearest
`float` (binary32): the non-rapid move from the joint position `(x0, 0, 0, 0, 0)` to the
TCP target `(x0, 0, 0, 0, 180)`, with `x0 = 10737419 / 2^30` the `float` next above `0.01`,
has the midpoint error `x0 > 0.01`; `sqrtf(x0 * x0)` is `x0`, `sqrtf(x0 / 0.01)` rounds to 1
and `ceilf(1) * 2` is 2: the init call leaves `iterations = 3` and the produce calls return
two points. -/
theorem C38_counterexample :
    (rtcp_segment_line axes5
      (⟨Real.sin, Real.cos, fun x => round_binary32 (Real.sqrt x), Real.pi⟩ : Libm ℝ)
      ⟨0, fun _ _ => true⟩
      (module_on ⟨Real.sin, Real.cos, fun x => round_binary32 (Real.sqrt x), Real.pi⟩)
      (vec5 (10737419 / 2 ^ 30) 0 0 0 180) (vec5 (10737419 / 2 ^ 30) 0 0 0 0)
      ⟨1000, 1, ⟨false, false, false⟩⟩ true).1.iterations = 3 ∧
    ∃ pts m', segment_move axes5
        (⟨Real.sin, Real.cos, fun x => round_binary32 (Real.sqrt x), Real.pi⟩ : Libm ℝ)
        ⟨0, fun _ _ => true⟩ ⟨1000, 1, ⟨false, false, false⟩⟩
        (fun _ => ⟨1000, 1, ⟨false, false, false⟩⟩) (fun _ => false) 2001
        (module_on ⟨Real.sin, Real.cos, fun x => round_binary32 (Real.sqrt x), Real.pi⟩)
        (vec5 (10737419 / 2 ^ 30) 0 0 0 180) (vec5 (10737419 / 2 ^ 30) 0 0 0 0)
        = some (pts, m') ∧ pts.length = 2 := by
  have h3 := two_segments_init
  obtain ⟨pts, m', hrun, _, hlen⟩ := produce_until_null_count axes5
    (⟨Real.sin, Real.cos, fun x => round_binary32 (Real.sqrt x), Real.pi⟩ : Libm ℝ)
    ⟨0, fun _ _ => true⟩ (fun _ => ⟨1000, 1, ⟨false, false, false⟩⟩) (fun _ => false) 2
    2001 0 _ h3 (by unfold UINT_FAST16_RANGE; omega) (by omega)
  exact ⟨h3, pts, m', hrun, hlen (fun _ => rfl) (segment_init_jog_cancel _ _ _ _ _ _ _)⟩

/-- C39 (rapid tolerance is monotone).  With the library functions read as the real ones:
from the same statics (geometry, cache state, buffers), with the same host data (tool
offset), start joint position and target, the init call of the move flagged rapid leaves
a count no larger than the init call of the move flagged non-rapid, whatever else the two
planner blocks hold. -/
theorem C39_rapid_monotone (ax : Axes) (H : Host ℝ) (m : Module ℝ) (target position : Vec ℝ)
    (pl1 pl2 : plan_line_data_t ℝ) :
    (rtcp_segment_line ax (⟨Real.sin, Real.cos, Real.sqrt, Real.pi⟩ : Libm ℝ) H m target
      position { pl1 with condition := { pl1.condition with rapid_motion := true } }
      true).1.iterations ≤
    (rtcp_segment_line ax (⟨Real.sin, Real.cos, Real.sqrt, Real.pi⟩ : Libm ℝ) H m target
      position { pl2 with condition := { pl2.condition with rapid_motion := false } }
      true).1.iterations := by
  have e : ∀ pl, rtcp_segment_line ax (⟨Real.sin, Real.cos, Real.sqrt, Real.pi⟩ : Libm ℝ) H m
      target position pl true = segment_init ax _ H m target position pl := fun _ => rfl
  rw [e, e]
  by_cases hon : m.rtcp_enabled = true
  · rw [segment_init_count ax _ H m target position _ hon,
      segment_init_count ax _ H m target position _ hon]
    split_ifs
    · exact Nat.succ_le_succ (plan_iterations_rapid_le _)
    · exact le_refl _
  · have hoff : m.rtcp_enabled = false := by
      cases h : m.rtcp_enabled
      · rfl
      · exact absurd h hon
    rw [(segment_init_iterations ax _ H m target position _).2.2 hoff,
      (segment_init_iterations ax _ H m target position _).2.2 hoff]

end CountClaims

section ProduceClaims
variable {α : Type} [LinearOrderedField α] [FloorRing α]

/-- C32 (produce sequence).  RTCP on, no jog cancel, and `N = n + 1` segments planned by
the init call (`iterations = N + 1`); `S` is the forward transform of the start joint
position and the step is `(target - S) / N`.  Then the produce call number `j + 1` returns,
for `j + 1 < N`, the inverse transform of the point `S + (j + 1)·(target - S) / N`; the call
number `N` returns the inverse transform of the target as saved by the init call; and the
call number `N + 1` returns `NULL`.  Each inverse transform runs in the cache state and
writes the buffer `mpos` that the calls before it left. -/
theorem C32_produce_sequence (ax : Axes) (L : Libm α) (H : Host α) (m : Module α)
    (target position : Vec α) (pl0 : plan_line_data_t α) (pls : Nat → plan_line_data_t α)
    (t p : Vec α) (m0 : Module α) (S : Vec α) (n : Nat)
    (hon : m.rtcp_enabled = true)
    (hm0 : m0 = (rtcp_segment_line ax L H m target position pl0 true).1)
    (hS : S = transform_to_cartesian ax L H.tlo_z m.rtcp m.segment_target position)
    (hN : m0.iterations = n + 2) :
    (∀ j, j < n →
      (rtcp_segment_line ax L H (after_produce_calls ax L H pls m0 j) t p (pls j) false).2.2 =
        some (transform_from_cartesian ax L H.tlo_z
          (after_produce_calls ax L H pls m0 j).rtcp (after_produce_calls ax L H pls m0 j).mpos
          (fun i => S i + ((j + 1 : Nat) : α) * ((target i - S i) / ((n + 1 : Nat) : α)))).2) ∧
    (rtcp_segment_line ax L H (after_produce_calls ax L H pls m0 n) t p (pls n) false).2.2 =
      some (transform_from_cartesian ax L H.tlo_z
        (after_produce_calls ax L H pls m0 n).rtcp (after_produce_calls ax L H pls m0 n).mpos
        target).2 ∧
    (rtcp_segment_line ax L H (after_produce_calls ax L H pls m0 (n + 1)) t p (pls (n + 1))
      false).2.2 = none := by
  have e : rtcp_segment_line ax L H m target position pl0 true
      = segment_init ax L H m target position pl0 := rfl
  rw [e] at hm0
  obtain ⟨hF, hun, hsg⟩ := segment_init_plan ax L H m target position pl0 hon
  rw [← hm0] at hF hun hsg
  rw [← hS] at hsg
  have hj : m0.jog_cancel = false := by
    rw [hm0]
    exact segment_init_jog_cancel ax L H m target position pl0
  have hle : m0.iterations ≤ 2001 := by
    rw [hm0]
    exact (segment_init_iterations ax L H m target position pl0).2.1
  have hsegN : 1 < n + 1 → m0.segmented = true := by
    intro h
    cases hs : m0.segmented
    · have := hun hs
      omega
    · rfl
  have hr : n + 1 + 1 < UINT_FAST16_RANGE := by
    unfold UINT_FAST16_RANGE
    omega
  have hprod : ∀ (M : Module α) (pl : plan_line_data_t α),
      rtcp_segment_line ax L H M t p pl false = segment_produce ax L H M pl := fun _ _ => rfl
  have hsub : m0.iterations - 1 = n + 1 := by omega
  refine ⟨?_, ?_, ?_⟩
  · intro j hjn
    rw [hprod, produce_call_result ax L H pls m0 (n + 1) hr hN hj hsegN j (by omega) (pls j),
      if_neg (by omega), if_pos (by omega)]
    refine congrArg (fun r : rtcp_state_t α × Vec α => some r.2) ?_
    apply transform_from_cartesian_congr
    intro i hi
    obtain ⟨h1, h2⟩ := hsg (hsegN (by omega)) i hi
    rw [h1, h2, hsub]
  · rw [hprod, produce_call_result ax L H pls m0 (n + 1) hr hN hj hsegN n (by omega) (pls n),
      if_neg (by omega), if_neg (by omega)]
    refine congrArg (fun r : rtcp_state_t α × Vec α => some r.2) ?_
    apply transform_from_cartesian_congr
    intro i hi
    exact hF i hi
  · rw [hprod, produce_call_result ax L H pls m0 (n + 1) hr hN hj hsegN (n + 1) (le_refl _)
      (pls (n + 1)), if_pos rfl]

/-- C33 (feed-rate compensation law).  On a produce call that finds the planner block `pl`
with `rapid_motion` clear, in statics with `distance > 1e-4` (the TCP distance per
segment), the block leaves with `feed_rate = F·k` and `rate_multiplier = 1 / k`, where `F`
is the feed rate of `pl` and `k` is `motor_distance / distance` clamped to `[0.5, 2]`,
`motor_distance` being the square root of the sum, over all `N_AXIS` axes (rotary ones
included), of the squared differences between the joint point just computed and
`last_motors`; the product of the two fields is `F`.  On a produce call for a rapid move,
or with `distance ≤ 1e-4`, the block is left as it was. -/
theorem C33_feed_rate_law (ax : Axes) (L : Libm α) (H : Host α) (m : Module α)
    (target position : Vec α) (pl : plan_line_data_t α) :
    (pl.condition.rapid_motion = false ∧ m.distance > 0.0001 →
      ∃ k : α,
        k = max 0.5 (min (L.sqrtf (Finset.sum (Finset.range ax.N_AXIS) (fun i =>
          ((rtcp_segment_line ax L H m target position pl false).1.mpos i
            - m.last_motors i) ^ 2)) / m.distance) 2) ∧
        (rtcp_segment_line ax L H m target position pl false).2.1 =
          { pl with feed_rate := pl.feed_rate * k, rate_multiplier := 1 / k } ∧
        (rtcp_segment_line ax L H m target position pl false).2.1.feed_rate
          * (rtcp_segment_line ax L H m target position pl false).2.1.rate_multiplier
          = pl.feed_rate) ∧
    (¬ (pl.condition.rapid_motion = false ∧ m.distance > 0.0001) →
      (rtcp_segment_line ax L H m target position pl false).2.1 = pl) := by
  have hprod : rtcp_segment_line ax L H m target position pl false
      = segment_produce ax L H m pl := rfl
  rw [hprod]
  constructor
  · intro h
    have hfeed := segment_produce_feed ax L H m pl
    rw [if_pos h] at hfeed
    have hk : clamp_rate_multiplier
        (get_distance ax L (segment_produce ax L H m pl).1.mpos m.last_motors / m.distance)
        = max 0.5 (min (L.sqrtf (Finset.sum (Finset.range ax.N_AXIS) (fun i =>
          ((segment_produce ax L H m pl).1.mpos i - m.last_motors i) ^ 2)) / m.distance) 2) := by
      rw [clamp_rate_multiplier_eq]
      unfold get_distance
      rw [get_distance_loop_sum, zero_add]
    rw [hk] at hfeed
    refine ⟨_, rfl, hfeed, ?_⟩
    rw [hfeed]
    have hpos : (0 : α) < max 0.5 (min (L.sqrtf (Finset.sum (Finset.range ax.N_AXIS) (fun i =>
          ((segment_produce ax L H m pl).1.mpos i - m.last_motors i) ^ 2)) / m.distance) 2) :=
      lt_of_lt_of_le (by norm_num) (le_max_left _ _)
    show pl.feed_rate * _ * (1 / _) = pl.feed_rate
    field_simp
  · intro h
    have hfeed := segment_produce_feed ax L H m pl
    rw [if_neg h] at hfeed
    exact hfeed

end ProduceClaims

section ProduceWitness

/-- C32, witness: default geometry, no tool offset, RTCP on, the non-rapid move from the
joint position `(100, 0, 0, 0, 0)` to the TCP target `(100, 0, 0, 0, 900)`, for which the
init call plans 200 segments: the produce call number 200 returns the inverse transform of
the target and the call number 201 returns `NULL`. -/
theorem C32_produce_sequence_witness :
    (module_on (⟨Real.sin, Real.cos, Real.sqrt, Real.pi⟩ : Libm ℝ)).rtcp_enabled = true ∧
    (rtcp_segment_line axes5 (⟨Real.sin, Real.cos, Real.sqrt, Real.pi⟩ : Libm ℝ)
      ⟨0, fun _ _ => true⟩
      (after_produce_calls axes5 (⟨Real.sin, Real.cos, Real.sqrt, Real.pi⟩ : Libm ℝ)
        ⟨0, fun _ _ => true⟩ (fun _ => ⟨1000, 1, ⟨false, false, false⟩⟩)
        (c8_init ⟨Real.sin, Real.cos, Real.sqrt, Real.pi⟩) 199)
      (fun _ => 0) (fun _ => 0) ⟨1000, 1, ⟨false, false, false⟩⟩ false).2.2 =
      some (transform_from_cartesian axes5 (⟨Real.sin, Real.cos, Real.sqrt, Real.pi⟩ : Libm ℝ) 0
        (after_produce_calls axes5 (⟨Real.sin, Real.cos, Real.sqrt, Real.pi⟩ : Libm ℝ)
          ⟨0, fun _ _ => true⟩ (fun _ => ⟨1000, 1, ⟨false, false, false⟩⟩)
          (c8_init ⟨Real.sin, Real.cos, Real.sqrt, Real.pi⟩) 199).rtcp
        (after_produce_calls axes5 (⟨Real.sin, Real.cos, Real.sqrt, Real.pi⟩ : Libm ℝ)
          ⟨0, fun _ _ => true⟩ (fun _ => ⟨1000, 1, ⟨false, false, false⟩⟩)
          (c8_init ⟨Real.sin, Real.cos, Real.sqrt, Real.pi⟩) 199).mpos
        (vec5 100 0 0 0 900)).2 ∧
    (rtcp_segment_line axes5 (⟨Real.sin, Real.cos, Real.sqrt, Real.pi⟩ : Libm ℝ)
      ⟨0, fun _ _ => true⟩
      (after_produce_calls axes5 (⟨Real.sin, Real.cos, Real.sqrt, Real.pi⟩ : Libm ℝ)
        ⟨0, fun _ _ => true⟩ (fun _ => ⟨1000, 1, ⟨false, false, false⟩⟩)
        (c8_init ⟨Real.sin, Real.cos, Real.sqrt, Real.pi⟩) 200)
      (fun _ => 0) (fun _ => 0) ⟨1000, 1, ⟨false, false, false⟩⟩ false).2.2 = none := by
  have h := C32_produce_sequence axes5 (⟨Real.sin, Real.cos, Real.sqrt, Real.pi⟩ : Libm ℝ)
    ⟨0, fun _ _ => true⟩ (module_on ⟨Real.sin, Real.cos, Real.sqrt, Real.pi⟩)
    (vec5 100 0 0 0 900) (vec5 100 0 0 0 0) ⟨1000, 1, ⟨false, false, false⟩⟩
    (fun _ => ⟨1000, 1, ⟨false, false, false⟩⟩) (fun _ => 0) (fun _ => 0)
    (c8_init ⟨Real.sin, Real.cos, Real.sqrt, Real.pi⟩) _ 199 rfl rfl rfl c8_init_eval.1
  exact ⟨rfl, h.2.1, h.2.2⟩

end ProduceWitness

section AffineClaims
variable {α : Type} [LinearOrderedField α] [FloorRing α]

/-- C40 (affine in XYZ at fixed orientation, as amended).  In one cache state (hence with
the same geometry and the same sines and cosines), with the same tool offset, the inverse
transform of the midpoint `M` of two TCP points `P1`, `P2` with the same `A` and the same
`C` is the midpoint of their inverse transforms, on every axis.  And for a move without
rotation with RTCP on and no jog cancel, whose joint end point is computed with the sines
and cosines of the move's own angles (the target is on the fast path, or the cache on
entry is invalid, or sampled at exactly those angles, or sampled farther than the
tolerance from them; the library satisfies `sin² + cos² = 1`), one point is returned and
the midpoint (chord) error is zero whatever the linear length: the inverse transform,
computed afresh, of the TCP midpoint is the midpoint of the start joint position and the
returned point. -/
theorem C40_affine_midpoint (ax : Axes) (L : Libm α) (H : Host α) (m : Module α)
    (rtcp : rtcp_state_t α) (t t1 t2 M P1 P2 target position : Vec α)
    (pl0 : plan_line_data_t α) (pls : Nat → plan_line_data_t α)
    (hpyth : ∀ x, L.sinf x ^ 2 + L.cosf x ^ 2 = 1)
    (hA : P2 ax.A_AXIS = P1 ax.A_AXIS) (hC : P2 ax.C_AXIS = P1 ax.C_AXIS)
    (hM : ∀ i, i < ax.N_AXIS → M i = (P1 i + P2 i) / 2)
    (hon : m.rtcp_enabled = true)
    (hrotA : target ax.A_AXIS = position ax.A_AXIS)
    (hrotC : target ax.C_AXIS = position ax.C_AXIS)
    (hex : (|target ax.A_AXIS| < 0.001 ∧ |target ax.C_AXIS| < 0.001) ∨
      FreshAt L m.rtcp (target ax.A_AXIS) (target ax.C_AXIS)) :
    (∀ i, i < ax.N_AXIS →
      (transform_from_cartesian ax L H.tlo_z rtcp t M).2 i =
        ((transform_from_cartesian ax L H.tlo_z rtcp t1 P1).2 i
          + (transform_from_cartesian ax L H.tlo_z rtcp t2 P2).2 i) / 2) ∧
    ∃ J m', segment_move ax L H pl0 pls (fun _ => false) 2001 m target position
        = some ([J], m') ∧
      chord_midpoint_err_sq ax L H.tlo_z m.rtcp
        (transform_to_cartesian ax L H.tlo_z m.rtcp m.segment_target position) target
        position J = 0 :=
  ⟨inverse_midpoint ax L H.tlo_z rtcp t t1 t2 M P1 P2 hA hC hM,
    unsegmented_chord_zero ax L H m target position pl0 pls hpyth hon hrotA hrotC hex⟩

end AffineClaims

section AffineScenario

/-- C40, counterexample.  Default geometry, no tool offset, RTCP on, the cache holding the
sample `(90, 0)` (within the tolerance of 90.001).  The move from the joint position
`(0, 0, 0, 90.001, 0)` to the TCP target `(0, 2000, 0, 90.001, 0)` has no rotation and is
returned as one point, computed with the cached sines and cosines of 90 degrees.  The
inverse transform, computed afresh, of the TCP midpoint `(0, 1000, 0, 90.001, 0)` has
`Y = 1000·cos 90.001°`, below `-0.01`, while the joint midpoint has `Y = 0`: the midpoint
error is not zero, and exceeds 0.01 mm. -/
theorem C40_counterexample :
    (c9_module (⟨Real.sin, Real.cos, Real.sqrt, Real.pi⟩ : Libm ℝ)).rtcp_enabled = true ∧
    vec5 (0:ℝ) 2000 0 90.001 0 axes5.A_AXIS = vec5 (0:ℝ) 0 0 90.001 0 axes5.A_AXIS ∧
    vec5 (0:ℝ) 2000 0 90.001 0 axes5.C_AXIS = vec5 (0:ℝ) 0 0 90.001 0 axes5.C_AXIS ∧
    ∃ J m',
      segment_move axes5 (⟨Real.sin, Real.cos, Real.sqrt, Real.pi⟩ : Libm ℝ)
        ⟨0, fun _ _ => true⟩ ⟨1000, 1, ⟨false, false, false⟩⟩
        (fun _ => ⟨1000, 1, ⟨false, false, false⟩⟩) (fun _ => false) 2001
        (c9_module ⟨Real.sin, Real.cos, Real.sqrt, Real.pi⟩)
        (vec5 0 2000 0 90.001 0) (vec5 0 0 0 90.001 0) = some ([J], m') ∧
      chord_midpoint_err_sq axes5 (⟨Real.sin, Real.cos, Real.sqrt, Real.pi⟩ : Libm ℝ) 0
        (c9_module ⟨Real.sin, Real.cos, Real.sqrt, Real.pi⟩).rtcp
        (transform_to_cartesian axes5 (⟨Real.sin, Real.cos, Real.sqrt, Real.pi⟩ : Libm ℝ) 0
          (c9_module ⟨Real.sin, Real.cos, Real.sqrt, Real.pi⟩).rtcp
          (c9_module ⟨Real.sin, Real.cos, Real.sqrt, Real.pi⟩).segment_target
          (vec5 0 0 0 90.001 0))
        (vec5 0 2000 0 90.001 0) (vec5 0 0 0 90.001 0) J ≠ 0 ∧
      chord_midpoint_err_sq axes5 (⟨Real.sin, Real.cos, Real.sqrt, Real.pi⟩ : Libm ℝ) 0
        (c9_module ⟨Real.sin, Real.cos, Real.sqrt, Real.pi⟩).rtcp
        (transform_to_cartesian axes5 (⟨Real.sin, Real.cos, Real.sqrt, Real.pi⟩ : Libm ℝ) 0
          (c9_module ⟨Real.sin, Real.cos, Real.sqrt, Real.pi⟩).rtcp
          (c9_module ⟨Real.sin, Real.cos, Real.sqrt, Real.pi⟩).segment_target
          (vec5 0 0 0 90.001 0))
        (vec5 0 2000 0 90.001 0) (vec5 0 0 0 90.001 0) J > 0.01 ^ 2 := by
  obtain ⟨m2, hrun2, _⟩ := segment_move_unsegmented axes5
    (⟨Real.sin, Real.cos, Real.sqrt, Real.pi⟩ : Libm ℝ) ⟨0, fun _ _ => true⟩
    ⟨1000, 1, ⟨false, false, false⟩⟩ (fun _ => ⟨1000, 1, ⟨false, false, false⟩⟩) 2001
    (c9_module ⟨Real.sin, Real.cos, Real.sqrt, Real.pi⟩)
    (vec5 0 2000 0 90.001 0) (vec5 0 0 0 90.001 0) rfl (by norm_num)
    (by constructor <;> norm_num [vec5, axes5])
  have hst : (c9_module (⟨Real.sin, Real.cos, Real.sqrt, Real.pi⟩ : Libm ℝ)).rtcp =
      c1_state ⟨Real.sin, Real.cos, Real.sqrt, Real.pi⟩ := rfl
  have hmp : (c9_module (⟨Real.sin, Real.cos, Real.sqrt, Real.pi⟩ : Libm ℝ)).mpos =
      fun _ => 0 := rfl
  have hsg : (c9_module (⟨Real.sin, Real.cos, Real.sqrt, Real.pi⟩ : Libm ℝ)).segment_target =
      fun _ => 0 := rfl
  obtain ⟨_, _, _, _, hY, _, _⟩ := c1_state_point 2000
  obtain ⟨_, _, _, _, _, hMY, _⟩ := c1_state_point 1000
  have hS := forward_at_origin (c1_state ⟨Real.sin, Real.cos, Real.sqrt, Real.pi⟩)
    (by rw [c1_state_eq])
  have hmid : transform_from_cartesian axes5 (⟨Real.sin, Real.cos, Real.sqrt, Real.pi⟩ : Libm ℝ)
      0 (invalidate_cache (c1_state ⟨Real.sin, Real.cos, Real.sqrt, Real.pi⟩)) (fun _ => 0)
      (fun i => (transform_to_cartesian axes5 (⟨Real.sin, Real.cos, Real.sqrt, Real.pi⟩ : Libm ℝ)
        0 (c1_state ⟨Real.sin, Real.cos, Real.sqrt, Real.pi⟩) (fun _ => 0)
        (vec5 0 0 0 90.001 0) i + vec5 0 2000 0 90.001 0 i) / 2)
      = transform_from_cartesian axes5 (⟨Real.sin, Real.cos, Real.sqrt, Real.pi⟩ : Libm ℝ)
      0 (invalidate_cache (c1_state ⟨Real.sin, Real.cos, Real.sqrt, Real.pi⟩)) (fun _ => 0)
      (vec5 0 1000 0 90.001 0) := by
    apply transform_from_cartesian_congr
    intro i hi
    have hi5 : i < 5 := hi
    rw [hS i hi5]
    interval_cases i <;> norm_num [vec5]
  have hcos := cos_deg_past_90 90.001 (le_refl _) (by norm_num)
  have hbig : chord_midpoint_err_sq axes5 (⟨Real.sin, Real.cos, Real.sqrt, Real.pi⟩ : Libm ℝ) 0
      (c9_module ⟨Real.sin, Real.cos, Real.sqrt, Real.pi⟩).rtcp
      (transform_to_cartesian axes5 (⟨Real.sin, Real.cos, Real.sqrt, Real.pi⟩ : Libm ℝ) 0
        (c9_module ⟨Real.sin, Real.cos, Real.sqrt, Real.pi⟩).rtcp
        (c9_module ⟨Real.sin, Real.cos, Real.sqrt, Real.pi⟩).segment_target
        (vec5 0 0 0 90.001 0))
      (vec5 0 2000 0 90.001 0) (vec5 0 0 0 90.001 0)
      (transform_from_cartesian axes5 (⟨Real.sin, Real.cos, Real.sqrt, Real.pi⟩ : Libm ℝ) 0
        (c9_module ⟨Real.sin, Real.cos, Real.sqrt, Real.pi⟩).rtcp
        (c9_module ⟨Real.sin, Real.cos, Real.sqrt, Real.pi⟩).mpos (vec5 0 2000 0 90.001 0)).2
      > 0.01 ^ 2 := by
    simp only [hst, hmp, hsg]
    unfold chord_midpoint_err_sq
    simp only [hmid, hY, hMY]
    have h1 : (0.01 : ℝ) ^ 2 < (1000 * Real.cos (90.001 * (Real.pi / 180))
        - (vec5 (0:ℝ) 0 0 90.001 0 Y_AXIS + 0) / 2) ^ 2 := by
      have e : (vec5 (0:ℝ) 0 0 90.001 0 Y_AXIS + 0) / 2 = 0 := by
        simp [vec5, Y_AXIS]
      rw [e, sub_zero]
      have h2 : (0.01 : ℝ) < -(1000 * Real.cos (90.001 * (Real.pi / 180))) := by linarith
      have h3 := pow_lt_pow_left₀ h2 (by norm_num) (show (2:ℕ) ≠ 0 by norm_num)
      rw [neg_sq] at h3
      exact h3
    nlinarith [sq_nonneg ((transform_from_cartesian axes5
        (⟨Real.sin, Real.cos, Real.sqrt, Real.pi⟩ : Libm ℝ) 0
        (invalidate_cache (c1_state ⟨Real.sin, Real.cos, Real.sqrt, Real.pi⟩)) (fun _ => 0)
        (vec5 0 1000 0 90.001 0)).2 X_AXIS - (vec5 (0:ℝ) 0 0 90.001 0 X_AXIS +
        (transform_from_cartesian axes5 (⟨Real.sin, Real.cos, Real.sqrt, Real.pi⟩ : Libm ℝ) 0
        (c1_state ⟨Real.sin, Real.cos, Real.sqrt, Real.pi⟩) (fun _ => 0)
        (vec5 0 2000 0 90.001 0)).2 X_AXIS) / 2),
      sq_nonneg ((transform_from_cartesian axes5
        (⟨Real.sin, Real.cos, Real.sqrt, Real.pi⟩ : Libm ℝ) 0
        (invalidate_cache (c1_state ⟨Real.sin, Real.cos, Real.sqrt, Real.pi⟩)) (fun _ => 0)
        (vec5 0 1000 0 90.001 0)).2 Z_AXIS - (vec5 (0:ℝ) 0 0 90.001 0 Z_AXIS +
        (transform_from_cartesian axes5 (⟨Real.sin, Real.cos, Real.sqrt, Real.pi⟩ : Libm ℝ) 0
        (c1_state ⟨Real.sin, Real.cos, Real.sqrt, Real.pi⟩) (fun _ => 0)
        (vec5 0 2000 0 90.001 0)).2 Z_AXIS) / 2)]
  refine ⟨rfl, rfl, rfl, _, m2, hrun2, ?_, hbig⟩
  intro h0
  rw [h0] at hbig
  norm_num at hbig

/-- C40, witness: default geometry, no tool offset, RTCP on with the cache invalid; the
points `(0, 0, 0, 90, 0)` and `(0, 200, 0, 90, 0)` with their midpoint, and the move from
the joint position `(0, 0, 0, 90, 0)` to the TCP target `(0, 200, 0, 90, 0)`. -/
theorem C40_affine_midpoint_witness :
    (module_on (⟨Real.sin, Real.cos, Real.sqrt, Real.pi⟩ : Libm ℝ)).rtcp_enabled = true ∧
    (transform_from_cartesian axes5 (⟨Real.sin, Real.cos, Real.sqrt, Real.pi⟩ : Libm ℝ) 0
      (module_on ⟨Real.sin, Real.cos, Real.sqrt, Real.pi⟩).rtcp (fun _ => 0)
      (vec5 0 100 0 90 0)).2 Z_AXIS =
      ((transform_from_cartesian axes5 (⟨Real.sin, Real.cos, Real.sqrt, Real.pi⟩ : Libm ℝ) 0
        (module_on ⟨Real.sin, Real.cos, Real.sqrt, Real.pi⟩).rtcp (fun _ => 0)
        (vec5 0 0 0 90 0)).2 Z_AXIS
      + (transform_from_cartesian axes5 (⟨Real.sin, Real.cos, Real.sqrt, Real.pi⟩ : Libm ℝ) 0
        (module_on ⟨Real.sin, Real.cos, Real.sqrt, Real.pi⟩).rtcp (fun _ => 0)
        (vec5 0 200 0 90 0)).2 Z_AXIS) / 2 ∧
    ∃ J m',
      segment_move axes5 (⟨Real.sin, Real.cos, Real.sqrt, Real.pi⟩ : Libm ℝ)
        ⟨0, fun _ _ => true⟩ ⟨1000, 1, ⟨false, false, false⟩⟩
        (fun _ => ⟨1000, 1, ⟨false, false, false⟩⟩) (fun _ => false) 2001
        (module_on ⟨Real.sin, Real.cos, Real.sqrt, Real.pi⟩)
        (vec5 0 200 0 90 0) (vec5 0 0 0 90 0) = some ([J], m') ∧
      chord_midpoint_err_sq axes5 (⟨Real.sin, Real.cos, Real.sqrt, Real.pi⟩ : Libm ℝ) 0
        (module_on ⟨Real.sin, Real.cos, Real.sqrt, Real.pi⟩).rtcp
        (transform_to_cartesian axes5 (⟨Real.sin, Real.cos, Real.sqrt, Real.pi⟩ : Libm ℝ) 0
          (module_on ⟨Real.sin, Real.cos, Real.sqrt, Real.pi⟩).rtcp
          (module_on ⟨Real.sin, Real.cos, Real.sqrt, Real.pi⟩).segment_target
          (vec5 0 0 0 90 0))
        (vec5 0 200 0 90 0) (vec5 0 0 0 90 0) J = 0 := by
  have h := C40_affine_midpoint axes5 (⟨Real.sin, Real.cos, Real.sqrt, Real.pi⟩ : Libm ℝ)
    ⟨0, fun _ _ => true⟩ (module_on ⟨Real.sin, Real.cos, Real.sqrt, Real.pi⟩)
    (module_on ⟨Real.sin, Real.cos, Real.sqrt, Real.pi⟩).rtcp (fun _ => 0) (fun _ => 0)
    (fun _ => 0) (vec5 0 100 0 90 0) (vec5 0 0 0 90 0) (vec5 0 200 0 90 0)
    (vec5 0 200 0 90 0) (vec5 0 0 0 90 0) ⟨1000, 1, ⟨false, false, false⟩⟩
    (fun _ => ⟨1000, 1, ⟨false, false, false⟩⟩) Real.sin_sq_add_cos_sq rfl rfl
    (by
      intro i hi
      have hi5 : i < 5 := hi
      interval_cases i <;> norm_num [vec5])
    rfl rfl rfl (Or.inr (fresh_of_invalid _ _ _ _ rfl))
  exact ⟨rfl, h.1 2 (by decide), h.2⟩

end AffineScenario

end Rtcp
